import Mathlib

/-!
RetroWaveMIDIProxy: the translation stack, embedded in Lean.

A shallow embedding of the core of RetroWaveMIDIProxy
(`src/core/src/*.cpp`): the serial packer, the hardware buffer, the shadow
register file, Direct Mode and the Voice Allocator.

Conventions of the embedding.
* A `uint8_t` / `uint16_t` value is a `Nat`; every assignment that can
  overflow the C++ type carries an explicit `% 256` / `% 65536`.
* An `int8_t` is an `Int`; the cast `static_cast<int8_t>(b)` is `toInt8 b`.
* A byte buffer (`const uint8_t *, size_t`) is a `List Nat`; `p[i]` is
  `p.getD i 0`, and the source's length guards are kept as they are.
* An output buffer that the code fills front to back is the list of the bytes
  written so far; its cursor is the length of that list.
* A `while` loop or a recursion without a structural argument takes a fuel
  argument and returns `none` when the fuel runs out; the callers pass a fuel
  that is proved sufficient.
-/

namespace retrowave

/-! ## Serial packer (`protocol.cpp`) -/

/-- The local variables of `protocol_serial_pack` that the loop changes:
`in_cursor`, `shift_count`, and the bytes written to `buf_out` so far
(`out_cursor` is the length of `buf_out`). -/
structure PackState where
  in_cursor : Nat
  shift_count : Nat
  buf_out : List Nat
deriving DecidableEq

/-- One iteration of the `while (in_cursor < len_in)` loop body
(`protocol.cpp` lines 35-48). -/
def pack_step (buf_in : List Nat) (st : PackState) : PackState :=
  let cur0 := (buf_in.getD st.in_cursor 0 >>> st.shift_count) % 256
  let cur1 :=
    if st.in_cursor > 0 then
      (cur0 ||| (buf_in.getD (st.in_cursor - 1) 0 <<< (8 - st.shift_count))) % 256
    else cur0
  let cur2 := cur1 ||| 0x01
  let out := st.buf_out ++ [cur2]
  let shift_count := (st.shift_count + 1) % 256
  let in_cursor := st.in_cursor + 1
  if shift_count > 7 then
    { in_cursor := in_cursor - 1, shift_count := 0, buf_out := out }
  else
    { in_cursor := in_cursor, shift_count := shift_count, buf_out := out }

/-- The `while (in_cursor < len_in)` loop of `protocol_serial_pack`; `none`
when the fuel runs out before the loop condition fails. -/
def pack_loop (buf_in : List Nat) : Nat → PackState → Option PackState
  | 0, _ => none
  | fuel + 1, st =>
    if st.in_cursor < buf_in.length then pack_loop buf_in fuel (pack_step buf_in st)
    else some st

/-- What follows the loop (`protocol.cpp` lines 51-60): the trailing byte when
`shift_count` is not zero, then the end-of-frame byte `0x02`. -/
def pack_finish (buf_in : List Nat) (st : PackState) : List Nat :=
  let out :=
    if st.shift_count ≠ 0 then
      st.buf_out ++ [((buf_in.getD (st.in_cursor - 1) 0 <<< (8 - st.shift_count)) % 256) ||| 0x01]
    else st.buf_out
  out ++ [0x02]

/-- The function `protocol_serial_pack(buf_in, len_in, buf_out)`: the bytes written to
`buf_out` (the returned `out_cursor` is the length of the result). The loop
runs on `2 * len_in + 8` fuel, the documented size of the output buffer. -/
def protocol_serial_pack (buf_in : List Nat) : Option (List Nat) :=
  (pack_loop buf_in (2 * buf_in.length + 8)
    { in_cursor := 0, shift_count := 0, buf_out := [0x00] }).map (pack_finish buf_in)

/-- Bits 7..0 of a byte, most significant first. -/
def bits8 (b : Nat) : List Bool :=
  [b.testBit 7, b.testBit 6, b.testBit 5, b.testBit 4,
   b.testBit 3, b.testBit 2, b.testBit 1, b.testBit 0]

/-- Bits 7..1 of a byte, most significant first (the low marker bit is left out). -/
def bits7 (b : Nat) : List Bool :=
  [b.testBit 7, b.testBit 6, b.testBit 5, b.testBit 4,
   b.testBit 3, b.testBit 2, b.testBit 1]

/-- The byte whose bits, most significant first, are the given list. -/
def byte_of_bits (bs : List Bool) : Nat :=
  bs.foldl (fun acc b => 2 * acc + (if b then 1 else 0)) 0

/-- Cuts a bit stream into bytes of eight bits; an incomplete tail is dropped. -/
def bytes_of_bits : Nat → List Bool → List Nat
  | 0, _ => []
  | fuel + 1, bs =>
    if bs.length < 8 then [] else byte_of_bits (bs.take 8) :: bytes_of_bits fuel (bs.drop 8)

/-- The payload bit stream of a packed frame: the first and the last byte are
dropped, and bits 7..1 of every remaining byte are concatenated. -/
def frame_bits (out : List Nat) : List Bool :=
  ((out.drop 1).dropLast).flatMap bits7

/-- The receiving side of the wire format (the chip's unpacker, which the
repository does not ship): the payload bit stream cut back into bytes. -/
def serial_unpack (out : List Nat) : List Nat :=
  bytes_of_bits (frame_bits out).length (frame_bits out)

/-- The loop invariant of `protocol_serial_pack`: the cursors stay in range,
seven payload bits have been written for every byte after the start byte, the
bytes after the start byte all carry the low marker bit, and the payload bits
written so far are the first `8 * in_cursor - shift_count` bits of the input. -/
def PackInv (buf_in : List Nat) (st : PackState) : Prop :=
  st.in_cursor ≤ buf_in.length ∧ st.shift_count ≤ 7 ∧
  7 * st.buf_out.length + st.shift_count = 8 * st.in_cursor + 7 ∧
  (∃ mid, st.buf_out = 0 :: mid ∧ ∀ b ∈ mid, b % 2 = 1) ∧
  ((∀ b ∈ buf_in, b < 256) →
    (st.buf_out.drop 1).flatMap bits7
      = (buf_in.flatMap bits8).take (8 * st.in_cursor - st.shift_count))

/-! ## Hardware buffer (`opl3_hw.cpp`) -/

/-- The class `OPL3HardwareBuffer`: the byte vector `buf_`, and the byte sink `serial_`
as the list of the frames written to it so far. -/
structure OPL3HardwareBuffer where
  buf_ : List Nat
  serial_ : List (List Nat)
deriving DecidableEq

namespace OPL3HardwareBuffer

/-- The method `OPL3HardwareBuffer::reset`: clear, then push the header `0x21 << 1`, `0x12`. -/
def reset (hw : OPL3HardwareBuffer) : OPL3HardwareBuffer :=
  { hw with buf_ := [(0x21 <<< 1) % 256, 0x12] }

/-- The constructor: an empty buffer, then `reset()`. -/
def init : OPL3HardwareBuffer :=
  reset { buf_ := [], serial_ := [] }

/-- The method `OPL3HardwareBuffer::queue(addr, data)`: six bytes for one register write. -/
def queue (hw : OPL3HardwareBuffer) (addr data : Nat) : OPL3HardwareBuffer :=
  let port1 := (addr &&& 0x100) != 0
  { hw with buf_ := hw.buf_ ++
      [if port1 then 0xe5 else 0xe1, addr &&& 0xff, if port1 then 0xe7 else 0xe3,
       data, 0xfb, data] }

/-- The method `OPL3HardwareBuffer::flush`: pack `buf_` into a vector of `buf_.size() * 2 + 8`
bytes, write the packed bytes to the sink, reset. The result is `none` when
the packer would write past the end of that vector (or does not return). -/
def flush (hw : OPL3HardwareBuffer) : Option OPL3HardwareBuffer :=
  let capacity := hw.buf_.length * 2 + 8
  match protocol_serial_pack hw.buf_ with
  | none => none
  | some packed =>
    if packed.length ≤ capacity then
      some (reset { hw with serial_ := hw.serial_ ++ [packed] })
    else none

end OPL3HardwareBuffer

/-- Modelled from the spec: the chip side of the command frame, which the
repository does not contain. After the two header bytes the frame is a
sequence of six-byte records (latch-address, address, latch-data, data,
strobe, data); the latch-address byte is `0xE5` for port 1 and `0xE1` for
port 0, and a record stores `data` at `port * 256 + address`. -/
def chip_run : List Nat → (Nat → Nat) → (Nat → Nat)
  | la :: a :: _ :: d :: _ :: _ :: rest, chip =>
    chip_run rest (fun i => if i = (if la = 0xe5 then 256 else 0) + a then d else chip i)
  | _, chip => chip

/-- The register file of a chip that started with all registers zero and has
received the given hardware buffer. -/
def chip_of_buffer (buf : List Nat) : Nat → Nat :=
  chip_run (buf.drop 2) (fun _ => 0)

/-! ## Shadow state (`opl3_state.cpp`) -/

/-- The class `OPL3State`: the hardware buffer it forwards to (a reference in the
source, carried along in the embedding) and the mirror `regs_[512]`. -/
structure OPL3State where
  hw_ : OPL3HardwareBuffer
  regs_ : Nat → Nat

/-- The mirror index of an address: `(port1 ? 256 : 0) + (addr & 0xFF)` with
`port1 = (addr & 0x100) != 0`. -/
def reg_index (addr : Nat) : Nat :=
  (if (addr &&& 0x100) != 0 then 256 else 0) + (addr &&& 0xFF)

namespace OPL3State

/-- The constructor: the mirror is all zero. -/
def init (hw : OPL3HardwareBuffer) : OPL3State :=
  { hw_ := hw, regs_ := fun _ => 0 }

/-- The method `OPL3State::read`. -/
def read (s : OPL3State) (addr : Nat) : Nat :=
  s.regs_ (reg_index addr)

/-- The method `OPL3State::write`: store in the mirror, forward to the buffer. -/
def write (s : OPL3State) (addr data : Nat) : OPL3State :=
  { hw_ := s.hw_.queue addr data,
    regs_ := fun i => if i = reg_index addr then data else s.regs_ i }

/-- The byte `updated = (cur & ~mask) | (value & mask)` of `modify_bits`, as a `uint8_t`;
`~mask` on the eight bits of a byte is `0xFF ^ mask`. -/
def modify_value (cur mask value : Nat) : Nat :=
  ((cur &&& (0xFF ^^^ mask)) ||| (value &&& mask)) % 256

/-- The method `OPL3State::modify_bits`: read, compute `updated`, write. -/
def modify_bits (s : OPL3State) (addr mask value : Nat) : OPL3State :=
  let cur := s.read addr
  let updated := modify_value cur mask value
  s.write addr updated

/-- One register block of the clearing loops of `reset`:
`for (reg = lo; reg <= hi; ++reg) hw_.queue(base | reg, data)`. -/
def reset_block (base lo hi data : Nat) : List (Nat × Nat) :=
  (List.range (hi + 1 - lo)).map (fun k => (base ||| (lo + k), data))

/-- The clearing writes of `reset` for one port. -/
def reset_port (port : Nat) : List (Nat × Nat) :=
  let base := if port ≠ 0 then 0x100 else 0x000
  reset_block base 0x20 0x35 0 ++
  reset_block base 0x40 0x55 0x3F ++
  reset_block base 0x60 0x75 0 ++
  reset_block base 0x80 0x95 0x0F ++
  reset_block base 0xA0 0xA8 0 ++
  reset_block base 0xB0 0xB8 0 ++
  reset_block base 0xC0 0xC8 0x30 ++
  reset_block base 0xE0 0xF5 0

/-- The hardware writes that `reset` queues, in order: the init sequence,
then the clearing loops for port 0 and port 1. -/
def reset_writes : List (Nat × Nat) :=
  [(0x004, 96), (0x004, 128), (0x105, 0x00), (0x105, 0x01), (0x105, 0x00),
   (0x001, 32), (0x105, 0x01)] ++ reset_port 0 ++ reset_port 1

/-- The method `OPL3State::reset`: zero the mirror, queue the init sequence and the
clearing writes directly on the hardware buffer, and set mirror entry
`256 + 0x05` to `0x01`. -/
def reset (s : OPL3State) : OPL3State :=
  { hw_ := reset_writes.foldl (fun hw w => hw.queue w.1 w.2) s.hw_,
    regs_ := fun i => if i = 256 + 0x05 then 0x01 else 0 }

end OPL3State

/-- A call on the shadow state, for traces of calls. -/
inductive StateOp where
  | write (addr data : Nat)
  | modify_bits (addr mask value : Nat)
  | reset
deriving DecidableEq

/-- Applies one call to the shadow state. -/
def StateOp.apply (s : OPL3State) : StateOp → OPL3State
  | .write addr data => s.write addr data
  | .modify_bits addr mask value => s.modify_bits addr mask value
  | .reset => s.reset

/-- Applies a sequence of calls, in order. -/
def run_ops (s : OPL3State) (ops : List StateOp) : OPL3State :=
  ops.foldl StateOp.apply s

/-- The hardware writes `(addr, data)` that a call queues on the given state. -/
def StateOp.queued (s : OPL3State) : StateOp → List (Nat × Nat)
  | .write addr data => [(addr, data)]
  | .modify_bits addr mask value =>
    [(addr, OPL3State.modify_value (s.read addr) mask value)]
  | .reset => OPL3State.reset_writes

/-- The value that the most recent write to the mirror slot of `addr` stored,
among a list of writes in call order; `none` when no write went there. -/
def last_written (addr : Nat) : List (Nat × Nat) → Option Nat
  | [] => none
  | w :: ws =>
    match last_written addr ws with
    | some v => some v
    | none => if reg_index w.1 = reg_index addr then some w.2 else none

/-- The hardware writes `(addr, data)` that a sequence of calls queues, in order. -/
def write_trace (s : OPL3State) : List StateOp → List (Nat × Nat)
  | [] => []
  | op :: ops => op.queued s ++ write_trace (op.apply s) ops

/-- A freshly constructed shadow state over a freshly constructed hardware
buffer: the mirror all zero, the buffer holding its header. -/
def OPL3State.fresh : OPL3State :=
  OPL3State.init OPL3HardwareBuffer.init

/-! ## OPL3 register map (`opl3_registers.h`, `opl3_registers.cpp`) -/

namespace opl3

def kNumChannels : Nat := 18

def kRegAMVibEGKSMult : Nat := 0x20
def kRegKSLTL : Nat := 0x40
def kRegAR_DR : Nat := 0x60
def kRegSL_RR : Nat := 0x80
def kRegWaveform : Nat := 0xE0
def kRegFNumLow : Nat := 0xA0
def kRegKeyOnBlkFNum : Nat := 0xB0
def kRegFeedbackConn : Nat := 0xC0
def kRegBD : Nat := 0xBD
def kReg4OpEnable : Nat := 0x104

/-- The table `kOperatorOffset[9][2]`, one row per port-local channel. -/
def kOperatorOffsetTable : List (List Nat) :=
  [[0x00, 0x03], [0x01, 0x04], [0x02, 0x05],
   [0x08, 0x0B], [0x09, 0x0C], [0x0A, 0x0D],
   [0x10, 0x13], [0x11, 0x14], [0x12, 0x15]]

/-- The entry `kOperatorOffset[ch][op]`. -/
def kOperatorOffset (ch op : Nat) : Nat :=
  (kOperatorOffsetTable.getD ch []).getD op 0

/-- The table `kFourOpPairs[3][2]`. -/
def kFourOpPairs : List (Nat × Nat) := [(0, 3), (1, 4), (2, 5)]

/-- The table `kFourOpEnableBit[6]`. -/
def kFourOpEnableBit (i : Nat) : Nat :=
  [0x01, 0x02, 0x04, 0x08, 0x10, 0x20].getD i 0

/-- The function `four_op_partner(ch)`: the 4-op partner of a global channel, `-1` when it has
none. -/
def four_op_partner (ch : Int) : Int :=
  if ch < 0 ∨ ch ≥ 18 then -1
  else ([3, 4, 5, 0, 1, 2, -1, -1, -1, 12, 13, 14, 9, 10, 11, -1, -1, -1] : List Int).getD
    ch.toNat (-1)

/-- The struct `NoteFreq`. -/
structure NoteFreq where
  f_num : Nat
  block : Nat
deriving DecidableEq

/-- The struct `ChannelMap`. -/
structure ChannelMap where
  opl_ch : Nat
  port_base : Nat
deriving DecidableEq

/-- The table `kChannelToOPL3[18]`. -/
def kChannelToOPL3Table : List ChannelMap :=
  [⟨0, 0x000⟩, ⟨1, 0x000⟩, ⟨2, 0x000⟩, ⟨3, 0x000⟩, ⟨4, 0x000⟩, ⟨5, 0x000⟩,
   ⟨6, 0x000⟩, ⟨7, 0x000⟩, ⟨8, 0x000⟩,
   ⟨0, 0x100⟩, ⟨1, 0x100⟩, ⟨2, 0x100⟩, ⟨3, 0x100⟩, ⟨4, 0x100⟩, ⟨5, 0x100⟩,
   ⟨6, 0x100⟩, ⟨7, 0x100⟩, ⟨8, 0x100⟩]

/-- The entry `kChannelToOPL3[i]`. -/
def kChannelToOPL3 (i : Nat) : ChannelMap :=
  kChannelToOPL3Table.getD i ⟨0, 0⟩

end opl3

/-! ## Floating-point expressions

The source computes frequencies and attenuations in `double` arithmetic
(`std::pow`, `std::log10`). The embedding keeps the integer control structure
around these expressions (the block search, the clamps, the tests against
zero) and takes the value of each `double` expression, converted to `int`, as
a parameter. -/

/-- The `double` expressions of the source, each as a function of the integers it is
computed from.
* `note_fn note b`: `static_cast<int>(f_num_d + 0.5)` of `compute_note_freq` at block `b`.
* `atten volume expression`: `static_cast<int>(atten_db / 0.75 + 0.5)` of
  `compute_attenuation`.
* `mod_small mod_wheel brightness`: the test `combined < 0.001` of
  `update_modulator_level`; `mod_atten` its `int a`.
* `bend_fn current_note bend b`: the `int fn` of `DirectMode::handle_pitch_bend` at
  block `b`.
* `detune_fn note voice_idx unison_count detune_cents b`: the `int fn` of
  `VoiceAllocator::compute_detuned_freq` at block `b`.
* `voice_bend_fn note pitch_bend semitones cents unison idx detune_cents b`: the
  `int fn` of the bend computation in `VoiceAllocator::handle_note_on` and
  `recompute_bend` at block `b` (the detune factor is applied when
  `unison > 1`). -/
structure FloatOps where
  note_fn : Nat → Nat → Int
  atten : Nat → Nat → Int
  mod_small : Nat → Nat → Bool
  mod_atten : Nat → Nat → Int
  bend_fn : Int → Nat → Nat → Int
  detune_fn : Nat → Int → Int → Nat → Nat → Int
  voice_bend_fn : Int → Nat → Nat → Nat → Int → Int → Nat → Nat → Int

namespace opl3

/-- The block search shared by `compute_note_freq`, `handle_pitch_bend`,
`compute_detuned_freq` and the bend computations of the Voice Allocator:
`for (b = 0; b < 8; ++b) { fn = ...; if (fn <= 1023) { if (fn < 0) fn = 0; take (fn, b) } }`,
with `(1023, 7)` when no block fits. The argument lists the blocks still to try. -/
def freq_search (fn : Nat → Int) : List Nat → NoteFreq
  | [] => ⟨1023, 7⟩
  | b :: bs =>
    if fn b ≤ 1023 then
      ⟨(if fn b < 0 then 0 else fn b).toNat % 65536, b % 256⟩
    else freq_search fn bs

/-- The function `compute_note_freq(note)`. -/
def compute_note_freq (fp : FloatOps) (note : Nat) : NoteFreq :=
  freq_search (fp.note_fn note) (List.range 8)

/-- The function `note_freq(midi_note)`: the table entry, after clamping the note to `0..127`. -/
def note_freq (fp : FloatOps) (midi_note : Int) : NoteFreq :=
  let n := if midi_note < 0 then 0 else midi_note
  let n := if n > 127 then 127 else n
  compute_note_freq fp n.toNat

end opl3

/-- The cast `static_cast<int8_t>(b)` of a byte. -/
def toInt8 (b : Nat) : Int :=
  if b % 256 < 128 then ((b % 256 : Nat) : Int) else ((b % 256 : Nat) : Int) - 256

/-! ### The floating-point expressions in exact arithmetic

An instance of `FloatOps` for concrete inputs: every expression takes the
value it has over the real numbers (the `double` evaluation of the source
agrees with it unless the real value lies within rounding error of a
half-integer). All quantities are computed with integers only. -/

namespace FloatOps

/-- The loop of `iroot`: sets the bits of the root from bit `k - 1` down. -/
def iroot_loop (d x : Nat) : Nat → Nat → Nat
  | 0, acc => acc
  | k + 1, acc => if (acc + 2 ^ k) ^ d ≤ x then iroot_loop d x k (acc + 2 ^ k)
                  else iroot_loop d x k acc

/-- The integer `d`-th root: the greatest `r < 2 ^ 64` with `r ^ d ≤ x` (for `d > 0`). -/
def iroot (d x : Nat) : Nat :=
  iroot_loop d x 64 0

/-- The integer `⌊(num / den) * 2 ^ (p / d) + 1/2⌋` for `den, d > 0`. With
`y = (num / den) * 2 ^ (p / d)`: `⌊y + 1/2⌋ = ⌊(⌊2 y⌋ + 1) / 2⌋`, and `⌊2 y⌋` is the
integer `d`-th root of `⌊(2 num) ^ d * 2 ^ p / den ^ d⌋`. -/
def round_scaled_pow2 (num den : Nat) (p : Int) (d : Nat) : Int :=
  let top := (2 * num) ^ d * 2 ^ p.toNat
  let bot := den ^ d * 2 ^ (-p).toNat
  ((iroot d (top / bot) + 1) / 2 : Nat)

/-- The rounded F-number at block `b` of a frequency `440 * 2 ^ (p / d)` Hz:
`freq / (49716 / 2 ^ (20 - b))`, rounded to the nearest integer. -/
def fnum_at (p : Int) (d : Nat) (b : Nat) : Int :=
  round_scaled_pow2 (440 * 2 ^ (20 - b)) 49716 p d

/-- The integer `⌊-20 * log10(c) / 0.75 + 1/2⌋` for `c = a / 16129` with `0 < c`, cut off at 64:
the number of `j` in `1..64` with `c ^ 160 * 10 ^ (3 * (2 j - 1)) ≤ 1`. -/
def round_atten (a : Nat) : Int :=
  (((List.range 64).filter
    (fun i => a ^ 160 * 10 ^ (3 * (2 * (i + 1) - 1)) ≤ 16129 ^ 160)).length : Nat)

/-- The exponent of the bend computation of the Voice Allocator as a fraction
`p / d` of an octave: `(note - 69 + semitones) / 12`, plus `cents_offset / 1200`
when `unison > 1`, with `semitones = (pitch_bend - 8192) * (range_semitones +
range_cents / 100) / 8192` and `cents_offset = (idx - (unison - 1) / 2) * detune /
(unison - 1)`. -/
def voice_bend_exponent (note : Int) (pitch_bend semis cents : Nat) (unison idx : Int)
    (detune : Nat) : Int × Nat :=
  let a : Int := (note - 69) * 819200 + ((pitch_bend : Int) - 8192) * (100 * semis + cents)
  if unison > 1 then
    let u := (unison - 1).toNat
    (a * (2400 * u) + (2 * idx - (unison - 1)) * detune * 9830400, 9830400 * (2400 * u))
  else (a, 9830400)

/-- The exponent of `compute_detuned_freq` as a fraction of an octave:
`(note - 69 + cents_offset / 100) / 12`. -/
def detune_exponent (note : Int) (idx unison : Int) (detune : Nat) : Int × Nat :=
  if unison > 1 then
    let u := (unison - 1).toNat
    ((note - 69) * (200 * u) + (2 * idx - (unison - 1)) * detune, 2400 * u)
  else (note - 69, 12)

/-- The floating-point expressions of the source in exact arithmetic. -/
def exact : FloatOps where
  note_fn := fun note b => fnum_at ((note : Int) - 69) 12 b
  atten := fun volume expression => round_atten (volume * expression)
  mod_small := fun mod_wheel brightness => decide (1000 * (mod_wheel * brightness) < 16129)
  mod_atten := fun mod_wheel brightness => round_atten (mod_wheel * brightness)
  bend_fn := fun note bend b =>
    fnum_at ((note - 69) * 4096 + ((bend : Int) - 8192)) 49152 b
  detune_fn := fun note idx unison detune b =>
    fnum_at (detune_exponent note idx unison detune).1 (detune_exponent note idx unison detune).2 b
  voice_bend_fn := fun note pitch_bend semis cents unison idx detune b =>
    fnum_at (voice_bend_exponent note pitch_bend semis cents unison idx detune).1
      (voice_bend_exponent note pitch_bend semis cents unison idx detune).2 b

end FloatOps

/-! ## Direct Mode (`direct_mode.h`, `direct_mode.cpp`) -/

def kSysExManufID : Nat := 0x7D
def kSysExRegWrite7 : Nat := 0x01
def kSysExBatchWrite7 : Nat := 0x02
def kSysExRegWrite8 : Nat := 0x03
def kSysExBatchWrite8 : Nat := 0x04
def kSysExPatchDump : Nat := 0x10
def kSysExPatchLoad : Nat := 0x11
def kSysExResetAll : Nat := 0x20
def kSysExVoiceConfig : Nat := 0x30
def kSysExVoiceQuery : Nat := 0x31
def kSysExHWReset : Nat := 0x7F

/-- The struct `DirectMode::ChannelState`. -/
structure ChannelState where
  volume : Nat
  expression : Nat
  pan : Nat
  mod_wheel : Nat
  brightness : Nat
  sustain : Bool
  nrpn_msb : Nat
  nrpn_lsb : Nat
  rpn_msb : Nat
  rpn_lsb : Nat
  bend_range_semitones : Nat
  bend_range_cents : Nat
  current_note : Int
  sustained_note : Bool
  note_velocity : Nat
deriving DecidableEq

/-- The default member values of `ChannelState`. -/
def ChannelState.default : ChannelState :=
  { volume := 100, expression := 127, pan := 64, mod_wheel := 0, brightness := 64,
    sustain := false, nrpn_msb := 0x7F, nrpn_lsb := 0x7F, rpn_msb := 0x7F, rpn_lsb := 0x7F,
    bend_range_semitones := 2, bend_range_cents := 0, current_note := -1,
    sustained_note := false, note_velocity := 0 }

/-- The class `DirectMode`. `state_` is a reference in the source and is carried along
here. `midi_output_` records whether the output callback is set, and `sent_`
lists the messages passed to it so far. -/
structure DirectMode where
  state_ : OPL3State
  device_id_ : Nat
  midi_output_ : Bool
  sent_ : List (List Nat)
  channels_ : Nat → ChannelState

namespace DirectMode

open opl3

/-- The constructor `DirectMode(state, device_id)`. -/
def create (state : OPL3State) (device_id : Nat) : DirectMode :=
  { state_ := state, device_id_ := device_id, midi_output_ := false, sent_ := [],
    channels_ := fun _ => ChannelState.default }

/-- The method `set_midi_output`, with a callback that is not empty. -/
def set_midi_output (d : DirectMode) : DirectMode :=
  { d with midi_output_ := true }

/-- Assignment to `channels_[ch]`. -/
def set_channel (d : DirectMode) (ch : Nat) (cs : ChannelState) : DirectMode :=
  { d with channels_ := fun i => if i = ch then cs else d.channels_ i }

/-- The writes of `init` for one channel index. -/
def init_channel (s : OPL3State) (midi_ch : Nat) : OPL3State :=
  let map := kChannelToOPL3 midi_ch
  let base := map.port_base
  let ch := map.opl_ch
  let mod_off := kOperatorOffset ch 0
  let car_off := kOperatorOffset ch 1
  let s := s.write (base ||| (kRegAMVibEGKSMult + mod_off)) 0x21
  let s := s.write (base ||| (kRegAMVibEGKSMult + car_off)) 0x21
  let s := s.write (base ||| (kRegKSLTL + mod_off)) 0x20
  let s := s.write (base ||| (kRegKSLTL + car_off)) 0x00
  let s := s.write (base ||| (kRegAR_DR + mod_off)) 0xF4
  let s := s.write (base ||| (kRegAR_DR + car_off)) 0xF4
  let s := s.write (base ||| (kRegSL_RR + mod_off)) 0x24
  let s := s.write (base ||| (kRegSL_RR + car_off)) 0x26
  let s := s.write (base ||| (kRegWaveform + mod_off)) 0x00
  let s := s.write (base ||| (kRegWaveform + car_off)) 0x00
  s.write (base ||| (kRegFeedbackConn + ch)) 0x38

/-- The method `DirectMode::init`. -/
def init (d : DirectMode) : DirectMode :=
  let s := d.state_.reset
  let s := (List.range 18).foldl init_channel s
  { d with state_ := s, channels_ := fun _ => ChannelState.default }

/-- The method `DirectMode::write_freq`. -/
def write_freq (d : DirectMode) (ch f_num block : Nat) (key_on : Bool) : DirectMode :=
  let map := kChannelToOPL3 ch
  let base := map.port_base
  let opl_ch := map.opl_ch
  let s := d.state_.write (base ||| (kRegFNumLow + opl_ch)) ((f_num &&& 0xFF) % 256)
  let b0 := (((f_num >>> 8) &&& 0x03) ||| ((block &&& 0x07) <<< 2) |||
    (if key_on then 0x20 else 0x00)) % 256
  { d with state_ := s.write (base ||| (kRegKeyOnBlkFNum + opl_ch)) b0 }

/-- The function `DirectMode::compute_attenuation`. -/
def compute_attenuation (fp : FloatOps) (volume expression : Nat) : Nat :=
  if volume = 0 ∨ expression = 0 then 63
  else
    let atten := fp.atten volume expression
    let atten := if atten < 0 then 0 else atten
    let atten := if atten > 63 then 63 else atten
    atten.toNat % 256

/-- The expression `static_cast<uint8_t>((127 - vel) >> 1)`. -/
def vel_atten (vel : Nat) : Nat :=
  ((((127 : Int) - (vel : Int)) >>> 1) % 256).toNat

/-- The method `DirectMode::handle_note_on`. -/
def handle_note_on (fp : FloatOps) (d : DirectMode) (ch note vel : Nat) : DirectMode :=
  if ch ≥ 16 then d
  else
    let cs := d.channels_ ch
    let d := if cs.current_note ≥ 0 then d.write_freq ch 0 0 false else d
    let cs := { cs with current_note := toInt8 note, note_velocity := vel,
                        sustained_note := false }
    let d := d.set_channel ch cs
    let nf := note_freq fp note
    let map := kChannelToOPL3 ch
    let car_off := kOperatorOffset map.opl_ch 1
    let base_atten := compute_attenuation fp cs.volume cs.expression
    let total_atten := (min (base_atten + vel_atten vel) 63) % 256
    let d := { d with state_ :=
      d.state_.modify_bits (map.port_base ||| (kRegKSLTL + car_off)) 0x3F total_atten }
    d.write_freq ch nf.f_num nf.block true

/-- The method `DirectMode::handle_note_off`. -/
def handle_note_off (d : DirectMode) (ch note : Nat) : DirectMode :=
  if ch ≥ 16 then d
  else
    let cs := d.channels_ ch
    if cs.current_note ≠ toInt8 note then d
    else if cs.sustain then d.set_channel ch { cs with sustained_note := true }
    else
      let map := kChannelToOPL3 ch
      let d := { d with state_ :=
        d.state_.modify_bits (map.port_base ||| (kRegKeyOnBlkFNum + map.opl_ch)) 0x20 0x00 }
      d.set_channel ch { cs with current_note := -1, sustained_note := false }

/-- The method `DirectMode::update_modulator_level`. -/
def update_modulator_level (fp : FloatOps) (d : DirectMode) (ch : Nat) : DirectMode :=
  if ch ≥ 18 then d
  else
    let cs := d.channels_ ch
    let map := kChannelToOPL3 ch
    let mod_off := kOperatorOffset map.opl_ch 0
    let atten :=
      if fp.mod_small cs.mod_wheel cs.brightness then 63
      else
        let a := fp.mod_atten cs.mod_wheel cs.brightness
        let a := if a < 0 then 0 else a
        let a := if a > 63 then 63 else a
        a.toNat % 256
    { d with state_ := d.state_.modify_bits (map.port_base ||| (kRegKSLTL + mod_off)) 0x3F atten }

/-- The method `DirectMode::update_carrier_level`. -/
def update_carrier_level (fp : FloatOps) (d : DirectMode) (ch : Nat) : DirectMode :=
  if ch ≥ 18 then d
  else
    let cs := d.channels_ ch
    let map := kChannelToOPL3 ch
    let car_off := kOperatorOffset map.opl_ch 1
    let base_atten := compute_attenuation fp cs.volume cs.expression
    let vel_att := if cs.current_note ≥ 0 then vel_atten cs.note_velocity else 0
    let total := (min (base_atten + vel_att) 63) % 256
    { d with state_ := d.state_.modify_bits (map.port_base ||| (kRegKSLTL + car_off)) 0x3F total }

/-- The method `DirectMode::cc_mod_wheel`. -/
def cc_mod_wheel (fp : FloatOps) (d : DirectMode) (ch val : Nat) : DirectMode :=
  update_modulator_level fp (d.set_channel ch { d.channels_ ch with mod_wheel := val }) ch

/-- The method `DirectMode::cc_volume`. -/
def cc_volume (fp : FloatOps) (d : DirectMode) (ch val : Nat) : DirectMode :=
  update_carrier_level fp (d.set_channel ch { d.channels_ ch with volume := val }) ch

/-- The method `DirectMode::cc_pan`. -/
def cc_pan (d : DirectMode) (ch val : Nat) : DirectMode :=
  let d := d.set_channel ch { d.channels_ ch with pan := val }
  let map := kChannelToOPL3 ch
  let pan_bits := if val ≤ 42 then 0x10 else if val ≥ 85 then 0x20 else 0x30
  { d with state_ :=
    d.state_.modify_bits (map.port_base ||| (kRegFeedbackConn + map.opl_ch)) 0x30 pan_bits }

/-- The method `DirectMode::cc_expression`. -/
def cc_expression (fp : FloatOps) (d : DirectMode) (ch val : Nat) : DirectMode :=
  update_carrier_level fp (d.set_channel ch { d.channels_ ch with expression := val }) ch

/-- The method `DirectMode::cc_sustain`. -/
def cc_sustain (d : DirectMode) (ch val : Nat) : DirectMode :=
  let cs := d.channels_ ch
  let was_on := cs.sustain
  let cs := { cs with sustain := decide (val ≥ 64) }
  let d := d.set_channel ch cs
  if was_on ∧ ¬ cs.sustain ∧ cs.sustained_note ∧ cs.current_note ≥ 0 then
    let map := kChannelToOPL3 ch
    let d := { d with state_ :=
      d.state_.modify_bits (map.port_base ||| (kRegKeyOnBlkFNum + map.opl_ch)) 0x20 0x00 }
    d.set_channel ch { cs with current_note := -1, sustained_note := false }
  else d

/-- The method `DirectMode::cc_brightness`. -/
def cc_brightness (fp : FloatOps) (d : DirectMode) (ch val : Nat) : DirectMode :=
  update_modulator_level fp (d.set_channel ch { d.channels_ ch with brightness := val }) ch

/-- The method `DirectMode::cc_all_sound_off`. -/
def cc_all_sound_off (d : DirectMode) (ch : Nat) : DirectMode :=
  let map := kChannelToOPL3 ch
  let s := d.state_.modify_bits (map.port_base ||| (kRegKeyOnBlkFNum + map.opl_ch)) 0x20 0x00
  let car_off := kOperatorOffset map.opl_ch 1
  let mod_off := kOperatorOffset map.opl_ch 0
  let s := s.modify_bits (map.port_base ||| (kRegSL_RR + car_off)) 0x0F 0x0F
  let s := s.modify_bits (map.port_base ||| (kRegSL_RR + mod_off)) 0x0F 0x0F
  let d := { d with state_ := s }
  d.set_channel ch { d.channels_ ch with current_note := -1, sustained_note := false }

/-- The method `DirectMode::cc_all_notes_off`. -/
def cc_all_notes_off (d : DirectMode) (ch : Nat) : DirectMode :=
  let cs := d.channels_ ch
  if cs.current_note ≥ 0 then
    let map := kChannelToOPL3 ch
    let d := { d with state_ :=
      d.state_.modify_bits (map.port_base ||| (kRegKeyOnBlkFNum + map.opl_ch)) 0x20 0x00 }
    d.set_channel ch { cs with current_note := -1, sustained_note := false }
  else d

/-- The method `DirectMode::handle_pitch_bend`. -/
def handle_pitch_bend (fp : FloatOps) (d : DirectMode) (ch bend : Nat) : DirectMode :=
  if ch ≥ 16 then d
  else
    let cs := d.channels_ ch
    if cs.current_note < 0 then d
    else
      let nf := freq_search (fp.bend_fn cs.current_note bend) (List.range 8)
      let map := kChannelToOPL3 ch
      let cur_b0 := d.state_.read (map.port_base ||| (kRegKeyOnBlkFNum + map.opl_ch))
      let current_key_on := (cur_b0 &&& 0x20) != 0
      d.write_freq ch nf.f_num nf.block current_key_on

/-- The operator offset that `nrpn_operator` addresses: `kOperatorOffset[opl_ch][op_idx]`
for `op_idx <= 1`; for `op_idx` 2 or 3 the operator `op_idx - 2` of the
channel paired with `opl_ch` in `kFourOpPairs`, `none` when `opl_ch` is not
the first channel of a pair. -/
def nrpn_op_off (opl_ch op_idx : Nat) : Option Nat :=
  if op_idx ≤ 1 then some (kOperatorOffset opl_ch op_idx)
  else
    match kFourOpPairs.find? (fun p => p.1 == opl_ch) with
    | some p => some (kOperatorOffset p.2 (op_idx - 2))
    | none => none

/-- The method `DirectMode::nrpn_operator`. -/
def nrpn_operator (d : DirectMode) (ch op_idx param val : Nat) : DirectMode :=
  if ch ≥ 18 then d
  else
    let map := kChannelToOPL3 ch
    let base := map.port_base
    match nrpn_op_off map.opl_ch op_idx with
    | none => d
    | some op_off =>
      let val := val &&& 0x7F
      let bit := fun (m : Nat) => if val ≥ 64 then m else 0x00
      let s := d.state_
      let s :=
        match param with
        | 0 => s.modify_bits (base ||| (kRegAR_DR + op_off)) 0xF0 (((val >>> 3) <<< 4) % 256)
        | 1 => s.modify_bits (base ||| (kRegAR_DR + op_off)) 0x0F ((val >>> 3) % 256)
        | 2 => s.modify_bits (base ||| (kRegSL_RR + op_off)) 0xF0 (((val >>> 3) <<< 4) % 256)
        | 3 => s.modify_bits (base ||| (kRegSL_RR + op_off)) 0x0F ((val >>> 3) % 256)
        | 4 => s.modify_bits (base ||| (kRegWaveform + op_off)) 0x07 ((val >>> 4) % 256)
        | 5 => s.modify_bits (base ||| (kRegAMVibEGKSMult + op_off)) 0x0F ((val >>> 3) % 256)
        | 6 => s.modify_bits (base ||| (kRegKSLTL + op_off)) 0x3F ((val >>> 1) % 256)
        | 7 => s.modify_bits (base ||| (kRegKSLTL + op_off)) 0xC0 (((val >>> 5) <<< 6) % 256)
        | 8 => s.modify_bits (base ||| (kRegAMVibEGKSMult + op_off)) 0x80 (bit 0x80)
        | 9 => s.modify_bits (base ||| (kRegAMVibEGKSMult + op_off)) 0x40 (bit 0x40)
        | 10 => s.modify_bits (base ||| (kRegAMVibEGKSMult + op_off)) 0x20 (bit 0x20)
        | 11 => s.modify_bits (base ||| (kRegAMVibEGKSMult + op_off)) 0x10 (bit 0x10)
        | _ => s
      { d with state_ := s }

/-- The search `for (i = 0; i < 3; ++i) if (kFourOpPairs[i][0] == opl_ch)` of
`nrpn_channel` and `sysex_patch_dump`: the index of the pair whose first
channel is `opl_ch`. -/
def four_op_pair_index (opl_ch : Nat) : Option Nat :=
  (List.range 3).find? (fun i => (kFourOpPairs.getD i (0, 0)).1 == opl_ch)

/-- The method `DirectMode::nrpn_channel`. -/
def nrpn_channel (d : DirectMode) (ch param val : Nat) : DirectMode :=
  if ch ≥ 18 then d
  else
    let map := kChannelToOPL3 ch
    let base := map.port_base
    let opl_ch := map.opl_ch
    let bit := fun (m : Nat) => if val ≥ 64 then m else 0x00
    let s := d.state_
    let s :=
      match param with
      | 0 => s.modify_bits (base ||| (kRegFeedbackConn + opl_ch)) 0x0E (((val >>> 4) <<< 1) % 256)
      | 1 => s.modify_bits (base ||| (kRegFeedbackConn + opl_ch)) 0x01 (bit 0x01)
      | 2 => s.modify_bits (base ||| (kRegFeedbackConn + opl_ch)) 0x10 (bit 0x10)
      | 3 => s.modify_bits (base ||| (kRegFeedbackConn + opl_ch)) 0x20 (bit 0x20)
      | 4 =>
        let port_offset := if base = 0x100 then 3 else 0
        match four_op_pair_index opl_ch with
        | some i =>
          let pair_idx := i + port_offset
          s.modify_bits kReg4OpEnable (kFourOpEnableBit pair_idx)
            (if val ≥ 64 then kFourOpEnableBit pair_idx else 0)
        | none => s
      | 5 =>
        match kFourOpPairs.find? (fun p => p.1 == opl_ch) with
        | some p => s.modify_bits (base ||| (kRegFeedbackConn + p.2)) 0x01 (bit 0x01)
        | none => s
      | _ => s
    { d with state_ := s }

/-- The method `DirectMode::nrpn_global`. -/
def nrpn_global (d : DirectMode) (param val : Nat) : DirectMode :=
  let bit := fun (m : Nat) => if val ≥ 64 then m else 0x00
  let s := d.state_
  let s :=
    match param with
    | 0 => s.modify_bits kRegBD 0x80 (bit 0x80)
    | 1 => s.modify_bits kRegBD 0x40 (bit 0x40)
    | 2 => s.modify_bits kRegBD 0x20 (bit 0x20)
    | _ => s
  { d with state_ := s }

/-- The method `DirectMode::nrpn_apply`. -/
def nrpn_apply (d : DirectMode) (ch msb lsb val : Nat) : DirectMode :=
  if msb ≤ 3 then nrpn_operator d ch msb lsb val
  else if msb = 4 then nrpn_channel d ch lsb val
  else if msb = 5 then nrpn_global d lsb val
  else d

/-- The method `DirectMode::nrpn_data_entry`. -/
def nrpn_data_entry (d : DirectMode) (ch val : Nat) : DirectMode :=
  let cs := d.channels_ ch
  if cs.nrpn_msb = 0x7F ∨ cs.nrpn_lsb = 0x7F then d
  else nrpn_apply d ch cs.nrpn_msb cs.nrpn_lsb val

/-- The method `DirectMode::direct_nrpn`. -/
def direct_nrpn (d : DirectMode) (ch msb lsb val : Nat) : DirectMode :=
  if ch ≥ 18 then d else nrpn_apply d ch msb lsb val

/-- The method `DirectMode::handle_cc`. -/
def handle_cc (fp : FloatOps) (d : DirectMode) (ch cc val : Nat) : DirectMode :=
  if ch ≥ 16 then d
  else
    match cc with
    | 1 => cc_mod_wheel fp d ch val
    | 7 => cc_volume fp d ch val
    | 10 => cc_pan d ch val
    | 11 => cc_expression fp d ch val
    | 64 => cc_sustain d ch val
    | 74 => cc_brightness fp d ch val
    | 120 => cc_all_sound_off d ch
    | 123 => cc_all_notes_off d ch
    | 99 => d.set_channel ch { d.channels_ ch with nrpn_msb := val }
    | 98 => d.set_channel ch { d.channels_ ch with nrpn_lsb := val }
    | 6 => nrpn_data_entry d ch val
    | _ => d

/-- The address `(data[0] << 7) | data[1]` of the SysEx register writes, as a `uint16_t`;
`p` is the list from the current read position on. -/
def sysex_addr (p : List Nat) : Nat :=
  (((p.getD 0 0) <<< 7) ||| p.getD 1 0) % 65536

/-- The method `DirectMode::sysex_reg_write_7(data, len)`. -/
def sysex_reg_write_7 (d : DirectMode) (data : List Nat) (len : Nat) : DirectMode :=
  if len < 3 then d
  else
    let addr := sysex_addr data
    if addr > 0x1FF then d
    else { d with state_ := d.state_.write addr (data.getD 2 0) }

/-- The value `(p[2] << 4) | (p[3] & 0x0F)` of the 8-bit SysEx register writes, as a `uint8_t`. -/
def sysex_val8 (p : List Nat) : Nat :=
  (((p.getD 2 0) <<< 4) ||| (p.getD 3 0 &&& 0x0F)) % 256

/-- The method `DirectMode::sysex_reg_write_8(data, len)`. -/
def sysex_reg_write_8 (d : DirectMode) (data : List Nat) (len : Nat) : DirectMode :=
  if len < 4 then d
  else
    let addr := sysex_addr data
    if addr > 0x1FF then d
    else { d with state_ := d.state_.write addr (sysex_val8 data) }

/-- The loop of `sysex_batch_write_7`: `for (i = 0; i < count && remaining >= 3; ++i)`;
the first argument counts the iterations still allowed by `i < count`. -/
def batch_write_7_loop : Nat → OPL3State → List Nat → Nat → OPL3State
  | 0, s, _, _ => s
  | n + 1, s, p, remaining =>
    if remaining ≥ 3 then
      let addr := sysex_addr p
      let s := if addr ≤ 0x1FF then s.write addr (p.getD 2 0) else s
      batch_write_7_loop n s (p.drop 3) (remaining - 3)
    else s

/-- The method `DirectMode::sysex_batch_write_7(data, len)`. -/
def sysex_batch_write_7 (d : DirectMode) (data : List Nat) (len : Nat) : DirectMode :=
  if len < 1 then d
  else
    let count := data.getD 0 0
    { d with state_ := batch_write_7_loop count d.state_ (data.drop 1) (len - 1) }

/-- The loop of `sysex_batch_write_8`: `for (i = 0; i < count && remaining >= 4; ++i)`. -/
def batch_write_8_loop : Nat → OPL3State → List Nat → Nat → OPL3State
  | 0, s, _, _ => s
  | n + 1, s, p, remaining =>
    if remaining ≥ 4 then
      let addr := sysex_addr p
      let val := sysex_val8 p
      let s := if addr ≤ 0x1FF then s.write addr val else s
      batch_write_8_loop n s (p.drop 4) (remaining - 4)
    else s

/-- The method `DirectMode::sysex_batch_write_8(data, len)`. -/
def sysex_batch_write_8 (d : DirectMode) (data : List Nat) (len : Nat) : DirectMode :=
  if len < 1 then d
  else
    let count := data.getD 0 0
    { d with state_ := batch_write_8_loop count d.state_ (data.drop 1) (len - 1) }

/-- The two nibbles `(r >> 4) & 0x0F`, `r & 0x0F` that `sysex_patch_dump` pushes for a byte. -/
def nibbles (r : Nat) : List Nat :=
  [((r >>> 4) &&& 0x0F) % 256, (r &&& 0x0F) % 256]

/-- The test of `sysex_patch_dump` whether the channel is in 4-op mode: it has a
partner, and the enable bit of the pair found from the lower channel of the
two is set in register `0x104`. -/
def dump_is_four_op (d : DirectMode) (midi_ch : Nat) : Bool :=
  let base := (kChannelToOPL3 midi_ch).port_base
  let partner := four_op_partner midi_ch
  if partner ≥ 0 then
    let primary := min midi_ch (partner.toNat % 256)
    let port_offset := if base = 0x100 then 3 else 0
    match four_op_pair_index (kChannelToOPL3 primary).opl_ch with
    | some i => (d.state_.read kReg4OpEnable &&& kFourOpEnableBit (i + port_offset)) != 0
    | none => false
  else false

/-- The bytes that `sysex_patch_dump` pushes for operator `op` (`0..3`): the
registers `0x20`, `0x40`, `0x60`, `0x80`, `0xE0` of the operator and six reserved
zero bytes, two nibbles each. -/
def dump_operator (d : DirectMode) (midi_ch : Nat) (op : Nat) : List Nat :=
  let map := kChannelToOPL3 midi_ch
  let pmap := kChannelToOPL3 (four_op_partner midi_ch).toNat
  let op_off := if op < 2 then kOperatorOffset map.opl_ch op
                else kOperatorOffset pmap.opl_ch (op - 2)
  let reg_base := if op < 2 then map.port_base else pmap.port_base
  let regs : List Nat :=
    [d.state_.read (reg_base ||| (kRegAMVibEGKSMult + op_off)),
     d.state_.read (reg_base ||| (kRegKSLTL + op_off)),
     d.state_.read (reg_base ||| (kRegAR_DR + op_off)),
     d.state_.read (reg_base ||| (kRegSL_RR + op_off)),
     d.state_.read (reg_base ||| (kRegWaveform + op_off)),
     0, 0, 0, 0, 0, 0]
  regs.flatMap nibbles

/-- The message that `sysex_patch_dump` builds for channel `midi_ch`. -/
def dump_message (d : DirectMode) (midi_ch : Nat) : List Nat :=
  let map := kChannelToOPL3 midi_ch
  let is_four_op := dump_is_four_op d midi_ch
  let num_ops := if is_four_op then 4 else 2
  let pmap := kChannelToOPL3 (four_op_partner midi_ch).toNat
  [0xF0, kSysExManufID, d.device_id_, kSysExPatchLoad, midi_ch] ++
  (List.range num_ops).flatMap (dump_operator d midi_ch) ++
  nibbles (d.state_.read (map.port_base ||| (kRegFeedbackConn + map.opl_ch))) ++
  (if is_four_op then
    nibbles (d.state_.read (pmap.port_base ||| (kRegFeedbackConn + pmap.opl_ch)))
   else []) ++
  [0xF7]

/-- The method `DirectMode::sysex_patch_dump(data, len)`. -/
def sysex_patch_dump (d : DirectMode) (data : List Nat) (len : Nat) : DirectMode :=
  if len < 1 ∨ ¬ d.midi_output_ then d
  else
    let midi_ch := data.getD 0 0
    if midi_ch ≥ 18 then d
    else { d with sent_ := d.sent_ ++ [dump_message d midi_ch] }

/-- The loop over the operators of `sysex_patch_load`:
`for (op = 0; op < max_ops && remaining >= 22; ++op)`; the first argument
counts the iterations still allowed by `op < max_ops`. The result is the state
together with the read position `p` and `remaining` after the loop. -/
def patch_load_loop (midi_ch : Nat) :
    Nat → Nat → OPL3State → List Nat → Nat → OPL3State × List Nat × Nat
  | 0, _, s, p, remaining => (s, p, remaining)
  | n + 1, op, s, p, remaining =>
    if remaining ≥ 22 then
      let map := kChannelToOPL3 midi_ch
      let pmap := kChannelToOPL3 (four_op_partner midi_ch).toNat
      let op_off := if op < 2 then kOperatorOffset map.opl_ch op
                    else kOperatorOffset pmap.opl_ch (op - 2)
      let reg_base := if op < 2 then map.port_base else pmap.port_base
      let regs := fun (r : Nat) =>
        (((p.getD (r * 2) 0) <<< 4) ||| (p.getD (r * 2 + 1) 0 &&& 0x0F)) % 256
      let s := s.write (reg_base ||| (kRegAMVibEGKSMult + op_off)) (regs 0)
      let s := s.write (reg_base ||| (kRegKSLTL + op_off)) (regs 1)
      let s := s.write (reg_base ||| (kRegAR_DR + op_off)) (regs 2)
      let s := s.write (reg_base ||| (kRegSL_RR + op_off)) (regs 3)
      let s := s.write (reg_base ||| (kRegWaveform + op_off)) (regs 4)
      patch_load_loop midi_ch n (op + 1) s (p.drop 22) (remaining - 22)
    else (s, p, remaining)

/-- The method `DirectMode::sysex_patch_load(data, len)`. -/
def sysex_patch_load (d : DirectMode) (data : List Nat) (len : Nat) : DirectMode :=
  if len < 1 then d
  else
    let midi_ch := data.getD 0 0
    if midi_ch ≥ 18 then d
    else
      let map := kChannelToOPL3 midi_ch
      let base := map.port_base
      let opl_ch := map.opl_ch
      let partner := four_op_partner midi_ch
      let max_ops := if len - 1 ≥ 22 * 4 + 4 ∧ partner ≥ 0 then 4 else 2
      let (s, p, remaining) := patch_load_loop midi_ch max_ops 0 d.state_ (data.drop 1) (len - 1)
      let fb := fun (q : List Nat) => (((q.getD 0 0) <<< 4) ||| (q.getD 1 0 &&& 0x0F)) % 256
      let s1 := if remaining ≥ 2 then
          s.modify_bits (base ||| (kRegFeedbackConn + opl_ch)) 0x0F (fb p &&& 0x0F)
        else s
      let p1 := if remaining ≥ 2 then p.drop 2 else p
      let remaining1 := if remaining ≥ 2 then remaining - 2 else remaining
      let s2 := if max_ops = 4 ∧ remaining1 ≥ 2 ∧ partner ≥ 0 then
          let pmap := kChannelToOPL3 partner.toNat
          s1.modify_bits (pmap.port_base ||| (kRegFeedbackConn + pmap.opl_ch)) 0x0F
            (fb p1 &&& 0x0F)
        else s1
      { d with state_ := s2 }

/-- The method `DirectMode::sysex_reset_all`. -/
def sysex_reset_all (d : DirectMode) : DirectMode :=
  d.init

/-- The method `DirectMode::sysex_hw_reset`. -/
def sysex_hw_reset (d : DirectMode) : DirectMode :=
  let s := d.state_.write 0x0FE 0x00
  let s := s.write 0x0FF 0x00
  init { d with state_ := s }

/-- The method `DirectMode::handle_sysex(data, len)`. -/
def handle_sysex (d : DirectMode) (data : List Nat) (len : Nat) : DirectMode :=
  if len < 5 then d
  else if data.getD 0 0 ≠ 0xF0 ∨ data.getD (len - 1) 0 ≠ 0xF7 then d
  else if data.getD 1 0 ≠ kSysExManufID then d
  else if data.getD 2 0 ≠ d.device_id_ ∧ data.getD 2 0 ≠ 0x7F ∧ d.device_id_ ≠ 0x7F then d
  else
    let cmd := data.getD 3 0
    let payload := data.drop 4
    let payload_len := len - 5
    if cmd = kSysExRegWrite7 then sysex_reg_write_7 d payload payload_len
    else if cmd = kSysExBatchWrite7 then sysex_batch_write_7 d payload payload_len
    else if cmd = kSysExRegWrite8 then sysex_reg_write_8 d payload payload_len
    else if cmd = kSysExBatchWrite8 then sysex_batch_write_8 d payload payload_len
    else if cmd = kSysExPatchDump then sysex_patch_dump d payload payload_len
    else if cmd = kSysExPatchLoad then sysex_patch_load d payload payload_len
    else if cmd = kSysExResetAll then sysex_reset_all d
    else if cmd = kSysExHWReset then sysex_hw_reset d
    else d

/-- The method `DirectMode::process_midi(data, len)`, with `len` the length of `data`. -/
def process_midi (fp : FloatOps) (d : DirectMode) (data : List Nat) : DirectMode :=
  let len := data.length
  if len = 0 then d
  else if data.getD 0 0 = 0xF0 then handle_sysex d data len
  else
    let status := data.getD 0 0 &&& 0xF0
    let ch := data.getD 0 0 &&& 0x0F
    if status = 0x90 then
      if len ≥ 3 then
        if data.getD 2 0 = 0 then handle_note_off d ch (data.getD 1 0)
        else handle_note_on fp d ch (data.getD 1 0) (data.getD 2 0)
      else d
    else if status = 0x80 then
      if len ≥ 3 then handle_note_off d ch (data.getD 1 0) else d
    else if status = 0xB0 then
      if len ≥ 3 then handle_cc fp d ch (data.getD 1 0) (data.getD 2 0) else d
    else if status = 0xE0 then
      if len ≥ 3 then
        handle_pitch_bend fp d ch ((data.getD 1 0 ||| (data.getD 2 0 <<< 7)) % 65536)
      else d
    else d

/-! ### Per-OPL3-channel methods (used by the Voice Allocator) -/

/-- The method `DirectMode::play_note_on_channel`. -/
def play_note_on_channel (fp : FloatOps) (d : DirectMode) (opl3_ch note vel : Nat) :
    DirectMode :=
  if opl3_ch ≥ 18 then d
  else
    let cs := d.channels_ opl3_ch
    let d := if cs.current_note ≥ 0 then d.write_freq opl3_ch 0 0 false else d
    let cs := { cs with current_note := toInt8 note, note_velocity := vel,
                        sustained_note := false }
    let d := d.set_channel opl3_ch cs
    let nf := note_freq fp note
    let map := kChannelToOPL3 opl3_ch
    let car_off := kOperatorOffset map.opl_ch 1
    let base_atten := compute_attenuation fp cs.volume cs.expression
    let total_atten := (min (base_atten + vel_atten vel) 63) % 256
    let d := { d with state_ :=
      d.state_.modify_bits (map.port_base ||| (kRegKSLTL + car_off)) 0x3F total_atten }
    d.write_freq opl3_ch nf.f_num nf.block true

/-- The method `DirectMode::release_note_on_channel`. -/
def release_note_on_channel (d : DirectMode) (opl3_ch : Nat) : DirectMode :=
  if opl3_ch ≥ 18 then d
  else
    let cs := d.channels_ opl3_ch
    if cs.current_note < 0 then d
    else
      let map := kChannelToOPL3 opl3_ch
      let d := { d with state_ :=
        d.state_.modify_bits (map.port_base ||| (kRegKeyOnBlkFNum + map.opl_ch)) 0x20 0x00 }
      d.set_channel opl3_ch { cs with current_note := -1, sustained_note := false }

/-- The method `DirectMode::bend_channel`. -/
def bend_channel (d : DirectMode) (opl3_ch f_num block : Nat) : DirectMode :=
  if opl3_ch ≥ 18 then d
  else
    let map := kChannelToOPL3 opl3_ch
    let cur_b0 := d.state_.read (map.port_base ||| (kRegKeyOnBlkFNum + map.opl_ch))
    let current_key_on := (cur_b0 &&& 0x20) != 0
    d.write_freq opl3_ch f_num block current_key_on

/-- The method `DirectMode::apply_cc_to_channel`. -/
def apply_cc_to_channel (fp : FloatOps) (d : DirectMode) (opl3_ch cc val : Nat) : DirectMode :=
  if opl3_ch ≥ 18 then d
  else
    match cc with
    | 1 => cc_mod_wheel fp d opl3_ch val
    | 7 => cc_volume fp d opl3_ch val
    | 10 => cc_pan d opl3_ch val
    | 11 => cc_expression fp d opl3_ch val
    | 64 => cc_sustain d opl3_ch val
    | 74 => cc_brightness fp d opl3_ch val
    | 120 => cc_all_sound_off d opl3_ch
    | 123 => cc_all_notes_off d opl3_ch
    | _ => d

/-! ### Percussion -/

/-- The table `kDrumFreqChannel[5]` (BD, SD, TT, CY, HH). -/
def kDrumFreqChannel (drum : Nat) : Nat := [6, 7, 8, 8, 7].getD drum 0

/-- The table `kDrumBDMask[5]`. -/
def kDrumBDMask (drum : Nat) : Nat := [0x10, 0x08, 0x04, 0x02, 0x01].getD drum 0

/-- The table `kDrumOperator[5]` of `perc_note_on`. -/
def kDrumOperator (drum : Nat) : Nat :=
  [kOperatorOffset 6 1, kOperatorOffset 7 1, kOperatorOffset 8 0,
   kOperatorOffset 8 1, kOperatorOffset 7 0].getD drum 0

def kNumDrums : Nat := 5

/-- The method `DirectMode::perc_note_on`. -/
def perc_note_on (fp : FloatOps) (d : DirectMode) (drum note vel : Nat) : DirectMode :=
  if drum ≥ kNumDrums then d
  else
    let freq_ch := kDrumFreqChannel drum
    let nf := note_freq fp note
    let s := d.state_.write (kRegFNumLow + freq_ch) ((nf.f_num &&& 0xFF) % 256)
    let b0 := (((nf.f_num >>> 8) &&& 0x03) ||| ((nf.block &&& 0x07) <<< 2)) % 256
    let s := s.write (kRegKeyOnBlkFNum + freq_ch) b0
    let drum_op := kDrumOperator drum
    let s := s.modify_bits (kRegKSLTL + drum_op) 0x3F (vel_atten vel)
    let s := s.modify_bits kRegBD (kDrumBDMask drum) (kDrumBDMask drum)
    { d with state_ := s }

/-- The method `DirectMode::perc_note_off`. -/
def perc_note_off (d : DirectMode) (drum : Nat) : DirectMode :=
  if drum ≥ kNumDrums then d
  else { d with state_ := d.state_.modify_bits kRegBD (kDrumBDMask drum) 0x00 }

end DirectMode

/-! ## Voice Allocator (`voice_allocator.h`, `voice_allocator.cpp`) -/

/-- The struct `VoiceConfig`. -/
structure VoiceConfig where
  opl3_channels : List Nat
  unison_count : Nat
  detune_cents : Nat
  four_op : Bool
  pan_split : Bool
deriving DecidableEq

/-- The default member values of `VoiceConfig`. -/
def VoiceConfig.default : VoiceConfig :=
  { opl3_channels := [], unison_count := 1, detune_cents := 10, four_op := false,
    pan_split := false }

/-- The struct `VoiceAllocator::Voice`. -/
structure Voice where
  note : Int
  velocity : Nat
  timestamp : Nat
  detuned_fnum : Nat
  detuned_block : Nat
  sustained : Bool
deriving DecidableEq

/-- The value `Voice{}`: a free slot. -/
def Voice.default : Voice :=
  { note := -1, velocity := 0, timestamp := 0, detuned_fnum := 0, detuned_block := 0,
    sustained := false }

/-- The struct `VoiceAllocator::MidiChannelState`. -/
structure MidiChannelState where
  config : VoiceConfig
  voices : List Voice
  volume : Nat
  expression : Nat
  pan : Nat
  mod_wheel : Nat
  brightness : Nat
  sustain : Bool
  pitch_bend : Nat
  bend_range_semitones : Nat
  bend_range_cents : Nat
  nrpn_msb : Nat
  nrpn_lsb : Nat
  rpn_msb : Nat
  rpn_lsb : Nat
deriving DecidableEq

/-- The default member values of `MidiChannelState`. -/
def MidiChannelState.default : MidiChannelState :=
  { config := VoiceConfig.default, voices := [], volume := 100, expression := 127, pan := 64,
    mod_wheel := 0, brightness := 64, sustain := false, pitch_bend := 8192,
    bend_range_semitones := 2, bend_range_cents := 0, nrpn_msb := 0x7F, nrpn_lsb := 0x7F,
    rpn_msb := 0x7F, rpn_lsb := 0x7F }

/-- The class `VoiceAllocator`. `dm_` is a reference in the source and is carried along
here (the member `state_` refers to the shadow state of `dm_` and is never used
by the methods). `midi_output_` records whether the output callback is set,
`sent_` lists the messages passed to it. The arrays `midi_channels_[16]`,
`drum_midi_ch_[5]` and `drum_sounding_note_[5]` are functions of the index. -/
structure VoiceAllocator where
  dm_ : DirectMode
  device_id_ : Nat
  midi_output_ : Bool
  sent_ : List (List Nat)
  timestamp_counter_ : Nat
  midi_channels_ : Nat → MidiChannelState
  perc_mode_ : Bool
  drum_midi_ch_ : Nat → Int
  drum_sounding_note_ : Nat → Int

namespace VoiceAllocator

open opl3

def kSysExPercConfig : Nat := 0x32
def kSysExPercQuery : Nat := 0x33

/-- Assignment to `midi_channels_[ch]`. -/
def set_mcs (va : VoiceAllocator) (ch : Nat) (mcs : MidiChannelState) : VoiceAllocator :=
  { va with midi_channels_ := fun i => if i = ch then mcs else va.midi_channels_ i }

/-- The body of the loop of `init_default_mapping` for MIDI channel `i`. -/
def default_mapping_channel (mcs : MidiChannelState) (i : Nat) : MidiChannelState :=
  let chans := if i < 18 then [i % 256] else []
  { mcs with
    config := { mcs.config with opl3_channels := chans, unison_count := 1, detune_cents := 10,
                                four_op := false },
    voices := List.replicate chans.length Voice.default,
    volume := 100, expression := 127, pan := 64, mod_wheel := 0, brightness := 64,
    sustain := false, pitch_bend := 8192 }

/-- The method `VoiceAllocator::init_default_mapping`. -/
def init_default_mapping (va : VoiceAllocator) : VoiceAllocator :=
  { va with midi_channels_ := fun i =>
      if i < 16 then default_mapping_channel (va.midi_channels_ i) i else va.midi_channels_ i }

/-- The constructor `VoiceAllocator(dm, state, device_id)`. -/
def create (dm : DirectMode) (device_id : Nat) : VoiceAllocator :=
  init_default_mapping
    { dm_ := dm, device_id_ := device_id, midi_output_ := false, sent_ := [],
      timestamp_counter_ := 0, midi_channels_ := fun _ => MidiChannelState.default,
      perc_mode_ := false, drum_midi_ch_ := fun _ => -1, drum_sounding_note_ := fun _ => -1 }

/-- The method `set_midi_output`, with a callback that is not empty. -/
def set_midi_output (va : VoiceAllocator) : VoiceAllocator :=
  { va with midi_output_ := true }

/-- The loop `for (i = 0; i < voices.size(); ++i) if (voices[i].note >= 0) release(channels[i])`
that opens `set_voice_config`, from index `i` on; `vs` are the voices from `i` on. -/
def release_sounding (chans : List Nat) : List Voice → Nat → DirectMode → DirectMode
  | [], _, dm => dm
  | v :: vs, i, dm =>
    let dm := if v.note ≥ 0 then dm.release_note_on_channel (chans.getD i 0) else dm
    release_sounding chans vs (i + 1) dm

/-- The loop of `reset` over the voices of one MIDI channel, from index `i` on:
a sounding voice is released and its slot set to `Voice{}`. -/
def reset_voices (chans : List Nat) : List Voice → Nat → DirectMode → DirectMode × List Voice
  | [], _, dm => (dm, [])
  | v :: vs, i, dm =>
    if v.note ≥ 0 then
      let r := reset_voices chans vs (i + 1) (dm.release_note_on_channel (chans.getD i 0))
      (r.1, Voice.default :: r.2)
    else
      let r := reset_voices chans vs (i + 1) dm
      (r.1, v :: r.2)

/-- The loop that releases every sounding drum (in `reset` and `set_percussion_mode`). -/
def release_drums (va : VoiceAllocator) : VoiceAllocator :=
  (List.range DirectMode.kNumDrums).foldl (fun va d =>
    if va.drum_sounding_note_ d ≥ 0 then
      { va with dm_ := va.dm_.perc_note_off d,
                drum_sounding_note_ := fun i => if i = d then -1 else va.drum_sounding_note_ i }
    else va) va

/-- The method `VoiceAllocator::reset`. -/
def reset (va : VoiceAllocator) : VoiceAllocator :=
  let va := (List.range 16).foldl (fun va midi_ch =>
    let mcs := va.midi_channels_ midi_ch
    let r := reset_voices mcs.config.opl3_channels mcs.voices 0 va.dm_
    set_mcs { va with dm_ := r.1 } midi_ch { mcs with voices := r.2 }) va
  let va := release_drums va
  { va with timestamp_counter_ := 0 }

/-- The method `VoiceAllocator::set_percussion_mode`. -/
def set_percussion_mode (va : VoiceAllocator) (enabled : Bool) : VoiceAllocator :=
  if va.perc_mode_ = enabled then va
  else
    let va := { va with perc_mode_ := enabled }
    let va := { va with dm_ := va.dm_.direct_nrpn 0 5 2 (if enabled then 127 else 0) }
    if ¬ enabled then release_drums va else va

/-- The method `VoiceAllocator::set_drum_midi_channel`. -/
def set_drum_midi_channel (va : VoiceAllocator) (drum : Nat) (midi_ch : Int) : VoiceAllocator :=
  if drum ≥ DirectMode.kNumDrums then va
  else
    let va :=
      if va.drum_sounding_note_ drum ≥ 0 then
        { va with dm_ := va.dm_.perc_note_off drum,
                  drum_sounding_note_ := fun i =>
                    if i = drum then -1 else va.drum_sounding_note_ i }
      else va
    { va with drum_midi_ch_ := fun i => if i = drum then midi_ch else va.drum_midi_ch_ i }

/-- The body of the inner loop of the deconflict step of `set_voice_config`: if
`opl3_ch` is in the pool of MIDI channel `other`, release the note of the
slot of its first occurrence and erase that occurrence and its voice slot. -/
def deconflict_one (midi_ch opl3_ch : Nat) (va : VoiceAllocator) (other : Nat) :
    VoiceAllocator :=
  if other = midi_ch then va
  else
    let other_mcs := va.midi_channels_ other
    let idx := other_mcs.config.opl3_channels.indexOf opl3_ch
    if idx < other_mcs.config.opl3_channels.length then
      let dm :=
        if idx < other_mcs.voices.length ∧ (other_mcs.voices.getD idx Voice.default).note ≥ 0 then
          va.dm_.release_note_on_channel opl3_ch
        else va.dm_
      let chans := other_mcs.config.opl3_channels.eraseIdx idx
      let voices := if idx < other_mcs.voices.length then other_mcs.voices.eraseIdx idx
                    else other_mcs.voices
      set_mcs { va with dm_ := dm } other
        { other_mcs with config := { other_mcs.config with opl3_channels := chans },
                         voices := voices }
    else va

/-- The five `apply_cc_to_channel` calls that close `set_voice_config`, for one channel. -/
def apply_shadow_ccs (fp : FloatOps) (mcs : MidiChannelState) (dm : DirectMode) (opl3_ch : Nat) :
    DirectMode :=
  let dm := dm.apply_cc_to_channel fp opl3_ch 7 mcs.volume
  let dm := dm.apply_cc_to_channel fp opl3_ch 11 mcs.expression
  let dm := dm.apply_cc_to_channel fp opl3_ch 10 mcs.pan
  let dm := dm.apply_cc_to_channel fp opl3_ch 1 mcs.mod_wheel
  dm.apply_cc_to_channel fp opl3_ch 74 mcs.brightness

/-- The method `VoiceAllocator::set_voice_config`. -/
def set_voice_config (fp : FloatOps) (va : VoiceAllocator) (midi_ch : Nat)
    (config : VoiceConfig) : VoiceAllocator :=
  if midi_ch ≥ 16 then va
  else
    let mcs := va.midi_channels_ midi_ch
    let va := { va with dm_ := release_sounding mcs.config.opl3_channels mcs.voices 0 va.dm_ }
    let va := config.opl3_channels.foldl (fun va opl3_ch =>
      (List.range 16).foldl (deconflict_one midi_ch opl3_ch) va) va
    let mcs := va.midi_channels_ midi_ch
    let mcs := { mcs with config := config,
                          voices := List.replicate config.opl3_channels.length Voice.default }
    let va := set_mcs va midi_ch mcs
    { va with dm_ := config.opl3_channels.foldl (apply_shadow_ccs fp mcs) va.dm_ }

/-- The method `VoiceAllocator::voice_config`. -/
def voice_config (va : VoiceAllocator) (midi_ch : Nat) : VoiceConfig :=
  (va.midi_channels_ midi_ch).config

/-- The expression `std::max<int>(mcs.config.unison_count, 1)`. -/
def unison_of (mcs : MidiChannelState) : Nat :=
  max mcs.config.unison_count 1

/-- The first loop of `allocate_slots`: the indices of the free slots, in order,
at most `count` of them. `vs` are the voices from index `i` on, `acc` the
indices found so far. -/
def free_slots (count : Nat) : List Voice → Nat → List Nat → List Nat
  | [], _, acc => acc
  | v :: vs, i, acc =>
    if acc.length < count then
      free_slots count vs (i + 1) (if v.note < 0 then acc ++ [i] else acc)
    else acc

/-- The search of `steal_oldest_group` for the sounding voice with the lowest
timestamp: `(oldest_ts, oldest_note, oldest_note_ts)` after the loop. -/
def find_oldest (vs : List Voice) : Nat × Int × Nat :=
  vs.foldl (fun (acc : Nat × Int × Nat) v =>
    if v.note ≥ 0 ∧ v.timestamp < acc.1 then (v.timestamp, v.note, v.timestamp) else acc)
    (2 ^ 64 - 1, -1, 0)

/-- The release loop of `steal_oldest_group`: every voice with the note and
timestamp of the oldest one is released and its slot set to `Voice{}`; the
result also counts the freed slots. -/
def steal_group (chans : List Nat) (note : Int) (ts : Nat) :
    List Voice → Nat → DirectMode → DirectMode × List Voice × Nat
  | [], _, dm => (dm, [], 0)
  | v :: vs, i, dm =>
    if v.note = note ∧ v.timestamp = ts then
      let r := steal_group chans note ts vs (i + 1)
        (dm.release_note_on_channel (chans.getD i 0))
      (r.1, Voice.default :: r.2.1, r.2.2 + 1)
    else
      let r := steal_group chans note ts vs (i + 1) dm
      (r.1, v :: r.2.1, r.2.2)

/-- The method `VoiceAllocator::steal_oldest_group(mcs, group_size)`; the recursion runs on
fuel, and the result is `none` when the fuel runs out. -/
def steal_oldest_group :
    Nat → DirectMode → MidiChannelState → Int → Option (DirectMode × MidiChannelState)
  | 0, _, _, _ => none
  | fuel + 1, dm, mcs, group_size =>
    let oldest := find_oldest mcs.voices
    if oldest.2.1 < 0 then some (dm, mcs)
    else
      let r := steal_group mcs.config.opl3_channels oldest.2.1 oldest.2.2 mcs.voices 0 dm
      let mcs := { mcs with voices := r.2.1 }
      if (r.2.2 : Int) < group_size then
        steal_oldest_group fuel r.1 mcs (group_size - r.2.2)
      else some (r.1, mcs)

/-- The struct `AllocResult` (the flag `stolen` is never read and is left out)
together with the state that `allocate_slots` has changed. -/
structure AllocResult where
  slot_indices : List Nat
  dm : DirectMode
  mcs : MidiChannelState

/-- The method `VoiceAllocator::allocate_slots(mcs, count)`. The stealing recursion gets one
unit of fuel per voice slot and one more. -/
def allocate_slots (dm : DirectMode) (mcs : MidiChannelState) (count : Nat) :
    Option AllocResult :=
  let found := free_slots count mcs.voices 0 []
  if found.length ≥ count then some ⟨found, dm, mcs⟩
  else
    match steal_oldest_group (mcs.voices.length + 1) dm mcs count with
    | none => none
    | some (dm, mcs) => some ⟨free_slots count mcs.voices 0 [], dm, mcs⟩

/-- The method `VoiceAllocator::compute_detuned_freq`. -/
def compute_detuned_freq (fp : FloatOps) (note : Nat) (voice_idx unison_count : Int)
    (detune_cents : Nat) : NoteFreq :=
  freq_search (fp.detune_fn note voice_idx unison_count detune_cents) (List.range 8)

/-- The pan value of the stereo split in `handle_note_on`, for `unison > 1`. -/
def pan_split_value (mcs : MidiChannelState) (unison idx : Nat) : Nat :=
  if unison = 1 then mcs.pan
  else if unison % 2 = 0 then (idx * 127 / (unison - 1)) % 256
  else
    let center_idx := unison / 2
    if idx = center_idx then 64
    else if idx < center_idx then (idx * 64 / center_idx) % 256
    else (64 + (idx - center_idx) * 63 / (unison - 1 - center_idx)) % 256

/-- The body of the loop over the allocated slots in `handle_note_on`, for the
`idx`-th allocated slot `slot`. -/
def note_on_slot (fp : FloatOps) (note vel ts unison : Nat)
    (st : DirectMode × MidiChannelState) (idx slot : Nat) : DirectMode × MidiChannelState :=
  let dm := st.1
  let mcs := st.2
  let opl3_ch := mcs.config.opl3_channels.getD slot 0
  let nf :=
    if unison > 1 then compute_detuned_freq fp note idx unison mcs.config.detune_cents
    else note_freq fp note
  let nf :=
    if mcs.pitch_bend ≠ 8192 then
      freq_search (fp.voice_bend_fn note mcs.pitch_bend mcs.bend_range_semitones
        mcs.bend_range_cents unison idx mcs.config.detune_cents) (List.range 8)
    else nf
  let voice : Voice :=
    { note := toInt8 note, velocity := vel, timestamp := ts, detuned_fnum := nf.f_num,
      detuned_block := nf.block, sustained := false }
  let mcs := { mcs with voices := mcs.voices.set slot voice }
  let dm := dm.play_note_on_channel fp opl3_ch note vel
  let dm := if unison > 1 ∨ mcs.pitch_bend ≠ 8192 then dm.bend_channel opl3_ch nf.f_num nf.block
            else dm
  let dm := if unison > 1 ∧ mcs.config.pan_split then
      dm.apply_cc_to_channel fp opl3_ch 10 (pan_split_value mcs unison idx)
    else dm
  (dm, mcs)

/-- The loop over the allocated slots in `handle_note_on`, from position `idx` on. -/
def note_on_slots (fp : FloatOps) (note vel ts unison : Nat) :
    List Nat → Nat → DirectMode × MidiChannelState → DirectMode × MidiChannelState
  | [], _, st => st
  | slot :: slots, idx, st =>
    note_on_slots fp note vel ts unison slots (idx + 1)
      (note_on_slot fp note vel ts unison st idx slot)

/-- The loop `for (i ...) if (voices[i].note == note) { release; voices[i] = Voice{} }`
of `handle_note_on` and `handle_note_off`, from index `i` on. -/
def release_note (chans : List Nat) (note : Int) :
    List Voice → Nat → DirectMode → DirectMode × List Voice
  | [], _, dm => (dm, [])
  | v :: vs, i, dm =>
    if v.note = note then
      let r := release_note chans note vs (i + 1) (dm.release_note_on_channel (chans.getD i 0))
      (r.1, Voice.default :: r.2)
    else
      let r := release_note chans note vs (i + 1) dm
      (r.1, v :: r.2)

/-- The method `VoiceAllocator::try_perc_note_on`: the state after the loop and the flag
`handled`. -/
def try_perc_note_on (fp : FloatOps) (va : VoiceAllocator) (midi_ch note vel : Nat) :
    VoiceAllocator × Bool :=
  if ¬ va.perc_mode_ then (va, false)
  else
    (List.range DirectMode.kNumDrums).foldl (fun (acc : VoiceAllocator × Bool) d =>
      let va := acc.1
      if va.drum_midi_ch_ d = (midi_ch : Int) then
        let dm := if va.drum_sounding_note_ d ≥ 0 then va.dm_.perc_note_off d else va.dm_
        let dm := dm.perc_note_on fp d note vel
        ({ va with dm_ := dm,
                   drum_sounding_note_ := fun i =>
                     if i = d then toInt8 note else va.drum_sounding_note_ i }, true)
      else acc) (va, false)

/-- The method `VoiceAllocator::try_perc_note_off`. -/
def try_perc_note_off (va : VoiceAllocator) (midi_ch note : Nat) : VoiceAllocator × Bool :=
  if ¬ va.perc_mode_ then (va, false)
  else
    (List.range DirectMode.kNumDrums).foldl (fun (acc : VoiceAllocator × Bool) d =>
      let va := acc.1
      if va.drum_midi_ch_ d = (midi_ch : Int) ∧ va.drum_sounding_note_ d = toInt8 note then
        ({ va with dm_ := va.dm_.perc_note_off d,
                   drum_sounding_note_ := fun i =>
                     if i = d then -1 else va.drum_sounding_note_ i }, true)
      else acc) (va, false)

/-- The method `VoiceAllocator::handle_note_on`; `none` only when the stealing recursion runs
out of fuel. -/
def handle_note_on (fp : FloatOps) (va : VoiceAllocator) (midi_ch note vel : Nat) :
    Option VoiceAllocator :=
  if midi_ch ≥ 16 then some va
  else
    let r := try_perc_note_on fp va midi_ch note vel
    if r.2 then some r.1
    else
      let va := r.1
      let mcs := va.midi_channels_ midi_ch
      if mcs.config.opl3_channels.isEmpty then some va
      else
        let unison := unison_of mcs
        let rel := release_note mcs.config.opl3_channels (toInt8 note) mcs.voices 0 va.dm_
        let mcs := { mcs with voices := rel.2 }
        match allocate_slots rel.1 mcs unison with
        | none => none
        | some result =>
          if result.slot_indices.isEmpty then
            some (set_mcs { va with dm_ := result.dm } midi_ch result.mcs)
          else
            let ts := (va.timestamp_counter_ + 1) % 2 ^ 64
            let st := note_on_slots fp note vel ts unison result.slot_indices 0
              (result.dm, result.mcs)
            some (set_mcs { va with dm_ := st.1, timestamp_counter_ := ts } midi_ch st.2)

/-- The loop of `handle_note_off` over the voices, from index `i` on: a voice with
the note is marked sustained when the pedal is down, released otherwise. -/
def note_off_voices (chans : List Nat) (note : Int) (sustain : Bool) :
    List Voice → Nat → DirectMode → DirectMode × List Voice
  | [], _, dm => (dm, [])
  | v :: vs, i, dm =>
    if v.note = note then
      if sustain then
        let r := note_off_voices chans note sustain vs (i + 1) dm
        (r.1, { v with sustained := true } :: r.2)
      else
        let r := note_off_voices chans note sustain vs (i + 1)
          (dm.release_note_on_channel (chans.getD i 0))
        (r.1, Voice.default :: r.2)
    else
      let r := note_off_voices chans note sustain vs (i + 1) dm
      (r.1, v :: r.2)

/-- The method `VoiceAllocator::handle_note_off`. -/
def handle_note_off (va : VoiceAllocator) (midi_ch note : Nat) : VoiceAllocator :=
  if midi_ch ≥ 16 then va
  else
    let r := try_perc_note_off va midi_ch note
    if r.2 then r.1
    else
      let va := r.1
      let mcs := va.midi_channels_ midi_ch
      let res := note_off_voices mcs.config.opl3_channels (toInt8 note) mcs.sustain
        mcs.voices 0 va.dm_
      set_mcs { va with dm_ := res.1 } midi_ch { mcs with voices := res.2 }

/-- The loop of `handle_cc` case 64 that releases the voices held by the pedal. -/
def release_sustained (chans : List Nat) :
    List Voice → Nat → DirectMode → DirectMode × List Voice
  | [], _, dm => (dm, [])
  | v :: vs, i, dm =>
    if v.sustained then
      let r := release_sustained chans vs (i + 1) (dm.release_note_on_channel (chans.getD i 0))
      (r.1, Voice.default :: r.2)
    else
      let r := release_sustained chans vs (i + 1) dm
      (r.1, v :: r.2)

/-- The broadcast that closes `handle_cc`: `apply_cc_to_channel` on every channel of the pool. -/
def broadcast_cc (fp : FloatOps) (va : VoiceAllocator) (midi_ch cc val : Nat) : VoiceAllocator :=
  let dm := ((va.midi_channels_ midi_ch).config.opl3_channels).foldl
    (fun dm opl3_ch => dm.apply_cc_to_channel fp opl3_ch cc val) va.dm_
  { va with dm_ := dm }

/-- The method `VoiceAllocator::handle_cc`. -/
def handle_cc (fp : FloatOps) (va : VoiceAllocator) (midi_ch cc val : Nat) : VoiceAllocator :=
  if midi_ch ≥ 16 then va
  else
    let mcs := va.midi_channels_ midi_ch
    match cc with
    | 1 => broadcast_cc fp (set_mcs va midi_ch { mcs with mod_wheel := val }) midi_ch cc val
    | 7 => broadcast_cc fp (set_mcs va midi_ch { mcs with volume := val }) midi_ch cc val
    | 10 => broadcast_cc fp (set_mcs va midi_ch { mcs with pan := val }) midi_ch cc val
    | 11 => broadcast_cc fp (set_mcs va midi_ch { mcs with expression := val }) midi_ch cc val
    | 74 => broadcast_cc fp (set_mcs va midi_ch { mcs with brightness := val }) midi_ch cc val
    | 64 =>
      let was_on := mcs.sustain
      let mcs := { mcs with sustain := decide (val ≥ 64) }
      let va :=
        if was_on ∧ ¬ mcs.sustain then
          let r := release_sustained mcs.config.opl3_channels mcs.voices 0 va.dm_
          set_mcs { va with dm_ := r.1 } midi_ch { mcs with voices := r.2 }
        else set_mcs va midi_ch mcs
      broadcast_cc fp va midi_ch cc val
    | 99 => set_mcs va midi_ch { mcs with nrpn_msb := val, rpn_msb := 0x7F, rpn_lsb := 0x7F }
    | 98 => set_mcs va midi_ch { mcs with nrpn_lsb := val, rpn_msb := 0x7F, rpn_lsb := 0x7F }
    | 101 => set_mcs va midi_ch { mcs with rpn_msb := val, nrpn_msb := 0x7F, nrpn_lsb := 0x7F }
    | 100 => set_mcs va midi_ch { mcs with rpn_lsb := val, nrpn_msb := 0x7F, nrpn_lsb := 0x7F }
    | 6 =>
      if mcs.nrpn_msb ≠ 0x7F ∧ mcs.nrpn_lsb ≠ 0x7F then
        let dm := mcs.config.opl3_channels.foldl
          (fun dm opl3_ch => dm.direct_nrpn opl3_ch mcs.nrpn_msb mcs.nrpn_lsb val) va.dm_
        { va with dm_ := dm }
      else if mcs.rpn_msb = 0 ∧ mcs.rpn_lsb = 0 then
        set_mcs va midi_ch { mcs with bend_range_semitones := val }
      else va
    | 38 =>
      if mcs.rpn_msb = 0 ∧ mcs.rpn_lsb = 0 then
        set_mcs va midi_ch { mcs with bend_range_cents := val }
      else va
    | _ => broadcast_cc fp va midi_ch cc val

/-- The search of `recompute_bend` for the position of voice `i` within its note
group: the number of voices before `i` with the same note and timestamp. -/
def unison_index (voices : List Voice) (i : Nat) : Nat :=
  let v := voices.getD i Voice.default
  ((voices.take i).filter (fun w => w.note = v.note ∧ w.timestamp = v.timestamp)).length

/-- The body of the loop of `recompute_bend` for voice index `i`. -/
def recompute_bend_voice (fp : FloatOps) (unison : Nat)
    (st : DirectMode × MidiChannelState) (i : Nat) : DirectMode × MidiChannelState :=
  let dm := st.1
  let mcs := st.2
  let v := mcs.voices.getD i Voice.default
  if v.note < 0 then st
  else
    let unison_idx := if unison > 1 then unison_index mcs.voices i else 0
    let nf := freq_search (fp.voice_bend_fn v.note mcs.pitch_bend mcs.bend_range_semitones
      mcs.bend_range_cents unison unison_idx mcs.config.detune_cents) (List.range 8)
    let v := { v with detuned_fnum := nf.f_num, detuned_block := nf.block }
    (dm.bend_channel (mcs.config.opl3_channels.getD i 0) nf.f_num nf.block,
     { mcs with voices := mcs.voices.set i v })

/-- The method `VoiceAllocator::recompute_bend`. -/
def recompute_bend (fp : FloatOps) (va : VoiceAllocator) (midi_ch : Nat) : VoiceAllocator :=
  let mcs := va.midi_channels_ midi_ch
  let unison := unison_of mcs
  let st := (List.range mcs.voices.length).foldl (recompute_bend_voice fp unison) (va.dm_, mcs)
  set_mcs { va with dm_ := st.1 } midi_ch st.2

/-- The method `VoiceAllocator::handle_pitch_bend`. -/
def handle_pitch_bend (fp : FloatOps) (va : VoiceAllocator) (midi_ch bend : Nat) :
    VoiceAllocator :=
  if midi_ch ≥ 16 then va
  else
    let mcs := va.midi_channels_ midi_ch
    recompute_bend fp (set_mcs va midi_ch { mcs with pitch_bend := bend }) midi_ch

/-- The method `VoiceAllocator::sysex_voice_config(data, len)`. -/
def sysex_voice_config (fp : FloatOps) (va : VoiceAllocator) (data : List Nat) (len : Nat) :
    VoiceAllocator :=
  if len < 4 then va
  else
    let midi_ch := data.getD 0 0
    if midi_ch ≥ 16 then va
    else
      let count := data.getD 1 0
      if len < 2 + count + 2 then va
      else
        let chans := ((List.range count).map (fun i => data.getD (2 + i) 0)).filter
          (fun ch => ch < 18)
        let config : VoiceConfig :=
          { opl3_channels := chans, unison_count := data.getD (2 + count) 0,
            detune_cents := data.getD (3 + count) 0,
            four_op := VoiceConfig.default.four_op, pan_split := VoiceConfig.default.pan_split }
        let config :=
          if len ≥ 4 + count then
            let flags := data.getD (4 + count) 0
            { config with four_op := (flags &&& 0x01) != 0, pan_split := (flags &&& 0x02) != 0 }
          else config
        set_voice_config fp va midi_ch config

/-- The method `VoiceAllocator::sysex_voice_query(data, len)`. -/
def sysex_voice_query (va : VoiceAllocator) (data : List Nat) (len : Nat) : VoiceAllocator :=
  if len < 1 ∨ ¬ va.midi_output_ then va
  else
    let midi_ch := data.getD 0 0
    if midi_ch ≥ 16 then va
    else
      let config := (va.midi_channels_ midi_ch).config
      let flags := (if config.four_op then 0x01 else 0x00) |||
        (if config.pan_split then 0x02 else 0x00)
      let msg := [0xF0, kSysExManufID, va.device_id_, kSysExVoiceConfig, midi_ch,
          config.opl3_channels.length % 256] ++ config.opl3_channels ++
        [config.unison_count, config.detune_cents, flags, 0xF7]
      { va with sent_ := va.sent_ ++ [msg] }

/-- The method `VoiceAllocator::sysex_perc_config(data, len)`. -/
def sysex_perc_config (va : VoiceAllocator) (data : List Nat) (len : Nat) : VoiceAllocator :=
  if len < 6 then va
  else
    let va := set_percussion_mode va (decide (data.getD 0 0 ≥ 64))
    (List.range DirectMode.kNumDrums).foldl (fun va d =>
      let ch : Int := if data.getD (1 + d) 0 < 16 then (data.getD (1 + d) 0 : Int) else -1
      set_drum_midi_channel va d ch) va

/-- The method `VoiceAllocator::sysex_perc_query`. -/
def sysex_perc_query (va : VoiceAllocator) : VoiceAllocator :=
  if ¬ va.midi_output_ then va
  else
    let msg := [0xF0, kSysExManufID, va.device_id_, kSysExPercConfig,
        if va.perc_mode_ then 0x7F else 0x00] ++
      (List.range DirectMode.kNumDrums).map (fun d =>
        if va.drum_midi_ch_ d ≥ 0 then (va.drum_midi_ch_ d).toNat % 256 else 0x7F) ++
      [0xF7]
    { va with sent_ := va.sent_ ++ [msg] }

/-- The method `VoiceAllocator::handle_sysex(data, len)`. -/
def handle_sysex (fp : FloatOps) (va : VoiceAllocator) (data : List Nat) (len : Nat) :
    VoiceAllocator :=
  if len < 5 then va
  else if data.getD 0 0 ≠ 0xF0 ∨ data.getD (len - 1) 0 ≠ 0xF7 then va
  else if data.getD 1 0 ≠ kSysExManufID then va
  else if data.getD 2 0 ≠ va.device_id_ ∧ data.getD 2 0 ≠ 0x7F ∧ va.device_id_ ≠ 0x7F then va
  else
    let cmd := data.getD 3 0
    let payload := data.drop 4
    let payload_len := len - 5
    if cmd = kSysExVoiceConfig then sysex_voice_config fp va payload payload_len
    else if cmd = kSysExVoiceQuery then sysex_voice_query va payload payload_len
    else if cmd = kSysExPercConfig then sysex_perc_config va payload payload_len
    else if cmd = kSysExPercQuery then sysex_perc_query va
    else va

/-- The method `VoiceAllocator::process_midi(data, len)`, with `len` the length of `data`;
`none` only when the stealing recursion of a Note On runs out of fuel. -/
def process_midi (fp : FloatOps) (va : VoiceAllocator) (data : List Nat) :
    Option VoiceAllocator :=
  let len := data.length
  if len = 0 then some va
  else if data.getD 0 0 = 0xF0 then
    let cmd := data.getD 3 0
    if len ≥ 5 ∧ data.getD 1 0 = kSysExManufID ∧
        (cmd = kSysExVoiceConfig ∨ cmd = kSysExVoiceQuery ∨
         cmd = kSysExPercConfig ∨ cmd = kSysExPercQuery) then
      some (handle_sysex fp va data len)
    else if len ≥ 5 ∧ data.getD 1 0 = kSysExManufID ∧ cmd = kSysExResetAll then
      let va := reset va
      some { va with dm_ := va.dm_.process_midi fp data }
    else some { va with dm_ := va.dm_.process_midi fp data }
  else
    let status := data.getD 0 0 &&& 0xF0
    let ch := data.getD 0 0 &&& 0x0F
    if status = 0x90 then
      if len ≥ 3 then
        if data.getD 2 0 = 0 then some (handle_note_off va ch (data.getD 1 0))
        else handle_note_on fp va ch (data.getD 1 0) (data.getD 2 0)
      else some va
    else if status = 0x80 then
      if len ≥ 3 then some (handle_note_off va ch (data.getD 1 0)) else some va
    else if status = 0xB0 then
      if len ≥ 3 then some (handle_cc fp va ch (data.getD 1 0) (data.getD 2 0)) else some va
    else if status = 0xE0 then
      if len ≥ 3 then
        some (handle_pitch_bend fp va ch ((data.getD 1 0 ||| (data.getD 2 0 <<< 7)) % 65536))
      else some va
    else some va

/-- Processes a sequence of MIDI messages, in order. -/
def run_midi (fp : FloatOps) : VoiceAllocator → List (List Nat) → Option VoiceAllocator
  | va, [] => some va
  | va, msg :: msgs =>
    match process_midi fp va msg with
    | none => none
    | some va => run_midi fp va msgs

end VoiceAllocator

/-! ## Statement-level definitions -/

/-- The registers after a note-on of note `n` with velocity `v` on channel index
`ch`, where `d` is the state before and `d2` the state after: `A0+ch` holds the
low eight bits of `f_num`, `B0+ch` holds `((f_num >> 8) & 3) | ((block & 7) << 2) | 0x20`,
and the `0x40` register of the carrier has bits 5:0 equal to
`min(compute_attenuation(volume, expression) + (127 - v) / 2, 63)` and bits 7:6 as
before. -/
def NoteOnPost (fp : FloatOps) (d d2 : DirectMode) (ch n v : Nat) : Prop :=
  let map := opl3.kChannelToOPL3 ch
  let nf := opl3.note_freq fp n
  let carrier := map.port_base ||| (opl3.kRegKSLTL + opl3.kOperatorOffset map.opl_ch 1)
  d2.state_.read (map.port_base ||| (opl3.kRegFNumLow + map.opl_ch)) = nf.f_num &&& 0xFF ∧
  d2.state_.read (map.port_base ||| (opl3.kRegKeyOnBlkFNum + map.opl_ch))
    = (((nf.f_num >>> 8) &&& 3) ||| ((nf.block &&& 7) <<< 2) ||| 0x20) ∧
  d2.state_.read carrier &&& 0x3F
    = min (DirectMode.compute_attenuation fp (d.channels_ ch).volume (d.channels_ ch).expression
        + (127 - v) / 2) 63 ∧
  d2.state_.read carrier &&& 0xC0 = d.state_.read carrier &&& 0xC0

/-- A freshly constructed Voice Allocator: a Direct Mode with device id `dev`
over a freshly constructed shadow state, and the default 1:1 mapping. -/
def VoiceAllocator.fresh (dev : Nat) : VoiceAllocator :=
  VoiceAllocator.create (DirectMode.create OPL3State.fresh dev) dev

/-- The pool of a MIDI channel: the OPL3 channel indices of its voice config. -/
def VoiceAllocator.pool (va : VoiceAllocator) (midi_ch : Nat) : List Nat :=
  (va.midi_channels_ midi_ch).config.opl3_channels

/-- The key-on bit of an OPL3 channel in the shadow: bit 5 of register `B0+ch`. -/
def key_on (s : OPL3State) (opl3_ch : Nat) : Bool :=
  (s.read ((opl3.kChannelToOPL3 opl3_ch).port_base |||
    (opl3.kRegKeyOnBlkFNum + (opl3.kChannelToOPL3 opl3_ch).opl_ch)) &&& 0x20) != 0

/-- The address of register `B0+ch` of an OPL3 channel index. -/
def b0_addr (opl3_ch : Nat) : Nat :=
  (opl3.kChannelToOPL3 opl3_ch).port_base |||
    (opl3.kRegKeyOnBlkFNum + (opl3.kChannelToOPL3 opl3_ch).opl_ch)

/-- The same `B0` registers: two shadow states hold the same value in register
`B0+ch` of each of the 18 channels. -/
def KeyFrame (s s2 : OPL3State) : Prop :=
  ∀ c, c < 18 → s2.read (b0_addr c) = s.read (b0_addr c)

/-- A plain channel-voice message: not a SysEx message, the
first data byte at most 127, and not a Control Change 120 or 123. -/
def PlainVoiceMessage (msg : List Nat) : Prop :=
  msg.getD 0 0 ≠ 0xF0 ∧ msg.getD 1 0 ≤ 127 ∧
  ¬ (msg.getD 0 0 &&& 0xF0 = 0xB0 ∧ (msg.getD 1 0 = 120 ∨ msg.getD 1 0 = 123))

instance (msg : List Nat) : Decidable (PlainVoiceMessage msg) := by
  unfold PlainVoiceMessage; infer_instance

/-- The voice-slot invariant on one MIDI channel: for every slot
`i` of the pool, `voices[i].note >= 0` exactly when the key-on bit of the slot's
OPL3 channel is set in the shadow. -/
def KeyOnMatchesVoices (va : VoiceAllocator) (midi_ch : Nat) : Prop :=
  ∀ i, i < (va.pool midi_ch).length →
    (0 ≤ ((va.midi_channels_ midi_ch).voices.getD i Voice.default).note ↔
      key_on va.dm_.state_ ((va.pool midi_ch).getD i 0) = true)

/-- The state of one MIDI channel under the default mapping: the pool is the
one OPL3 channel of the same index, unison is 1, there is one voice slot, and
that slot is in use exactly when the key-on bit of the channel is set and
exactly when Direct Mode records a sounding note on the channel. -/
def ChanOK (dm : DirectMode) (mcs : MidiChannelState) (m : Nat) : Prop :=
  mcs.config.opl3_channels = [m] ∧ mcs.config.unison_count = 1 ∧
  ∃ v, mcs.voices = [v] ∧ (0 ≤ v.note ↔ key_on dm.state_ m = true) ∧
    (0 ≤ v.note ↔ 0 ≤ (dm.channels_ m).current_note)

/-- The invariant of the default mapping: percussion mode is off, every
MIDI channel is in the state `ChanOK`, and Direct Mode holds no note by its own
sustain flag. -/
def PlainInv (va : VoiceAllocator) : Prop :=
  va.perc_mode_ = false ∧ (∀ m, m < 16 → ChanOK va.dm_ (va.midi_channels_ m) m) ∧
  ∀ c, (va.dm_.channels_ c).sustained_note = false

/-- Two Direct Mode states that differ at most on channel `m`: the key-on bits and the
channel states of the other channels agree. -/
def Untouched (d d2 : DirectMode) (m : Nat) : Prop :=
  (∀ c, c < 18 → c ≠ m → key_on d2.state_ c = key_on d.state_ c) ∧
  (∀ c, c ≠ m → d2.channels_ c = d.channels_ c)

/-- The state of one MIDI channel `m` in the middle of a handler that started with
Direct Mode `d0`: only channel `m` has been touched, and it is `ChanOK`. -/
def LocalOK (d0 : DirectMode) (m : Nat) (d : DirectMode) (mcs : MidiChannelState) : Prop :=
  Untouched d0 d m ∧ (d.channels_ m).sustained_note = false ∧ ChanOK d mcs m

/-- The state in which the daemon starts to process MIDI: the objects as constructed,
and, when `direct_init` is set, after the call of `DirectMode::init` that the daemon
makes in Direct routing mode. -/
def VoiceAllocator.initial (dev : Nat) (direct_init : Bool) : VoiceAllocator :=
  let va := VoiceAllocator.fresh dev
  if direct_init then { va with dm_ := va.dm_.init } else va

/-! ## Statements about the hardware buffer and the shadow state -/

/-- A call on the hardware buffer, for traces of calls. -/
inductive HwOp where
  | queue (addr data : Nat)
  | reset
  | flush
deriving DecidableEq

/-- Applies one call to the hardware buffer; `flush` is fallible in the embedding. -/
def HwOp.apply (hw : OPL3HardwareBuffer) : HwOp → Option OPL3HardwareBuffer
  | .queue addr data => some (hw.queue addr data)
  | .reset => some hw.reset
  | .flush => hw.flush

/-- Applies a sequence of calls to the hardware buffer, in order. -/
def run_hw_ops : OPL3HardwareBuffer → List HwOp → Option OPL3HardwareBuffer
  | hw, [] => some hw
  | hw, op :: ops =>
    match op.apply hw with
    | none => none
    | some hw2 => run_hw_ops hw2 ops

/-- The six-byte record of the specification for one register write:
latch-address, address, latch-data, data, strobe, data, with the latch bytes
`E1`/`E3` when bit 8 of the address is clear and `E5`/`E7` when it is set. -/
def hw_record (addr data : Nat) : List Nat :=
  if addr.testBit 8 then [0xE5, addr % 256, 0xE7, data, 0xFB, data]
  else [0xE1, addr % 256, 0xE3, data, 0xFB, data]

/-- The bytes of the specification for a list of register writes. -/
def hw_records (ws : List (Nat × Nat)) : List Nat :=
  ws.flatMap (fun w => hw_record w.1 w.2)

/-- The `queue` calls of a trace made since the last `reset` or `flush`, in call order. -/
def queued_since_reset : List HwOp → List (Nat × Nat) → List (Nat × Nat)
  | [], acc => acc
  | .queue addr data :: ops, acc => queued_since_reset ops (acc ++ [(addr, data)])
  | .reset :: ops, _ => queued_since_reset ops []
  | .flush :: ops, _ => queued_since_reset ops []

/-- The register blocks of the clearing part of the reset sequence, as the
specification lists them: first register, last register, value. -/
def spec_reset_blocks : List (Nat × Nat × Nat) :=
  [(0x20, 0x35, 0), (0x40, 0x55, 0x3F), (0x60, 0x75, 0), (0x80, 0x95, 0x0F),
   (0xA0, 0xA8, 0), (0xB0, 0xB8, 0), (0xC0, 0xC8, 0x30), (0xE0, 0xF5, 0)]

/-- The write sequence of `reset()` as the specification lists it: the seven
init writes, then for port 0 and then port 1 every block in ascending register
order. -/
def spec_reset_sequence : List (Nat × Nat) :=
  [(0x004, 96), (0x004, 128), (0x105, 0), (0x105, 1), (0x105, 0), (0x001, 32), (0x105, 1)] ++
  [0, 1].flatMap (fun port =>
    spec_reset_blocks.flatMap (fun b =>
      (List.range' b.1 (b.2.1 + 1 - b.1)).map (fun reg => (256 * port + reg, b.2.2))))

/-! ## Statements about the NRPN parameter tree -/

/-- A parameter write from shadow state `s` to `s2`: the field of width `w` at bit `lo` of
register `r` holds `x`, every other bit of the byte of `r` and every register of
another mirror slot is as before, and exactly one hardware write is queued, of the
new byte to `r`. -/
def FieldWritten (s s2 : OPL3State) (r lo w x : Nat) : Prop :=
  (s2.read r >>> lo) % 2 ^ w = x ∧ s2.read r < 256 ∧
  (∀ i, i < 8 → ¬ (lo ≤ i ∧ i < lo + w) → (s2.read r).testBit i = (s.read r).testBit i) ∧
  (∀ b, reg_index b ≠ reg_index r → s2.read b = s.read b) ∧
  s2.hw_.buf_ = s.hw_.buf_ ++ hw_record r (s2.read r)

/-- The operator parameter table of the specification, by NRPN LSB: the register
of the operator, the lowest bit of the field and its width. -/
def spec_operator_field : Nat → Nat × Nat × Nat
  | 0 => (0x60, 4, 4)
  | 1 => (0x60, 0, 4)
  | 2 => (0x80, 4, 4)
  | 3 => (0x80, 0, 4)
  | 4 => (0xE0, 0, 3)
  | 5 => (0x20, 0, 4)
  | 6 => (0x40, 0, 6)
  | 7 => (0x40, 6, 2)
  | 8 => (0x20, 7, 1)
  | 9 => (0x20, 6, 1)
  | 10 => (0x20, 5, 1)
  | _ => (0x20, 4, 1)

/-- The scale column of the operator parameter table of the specification: the
value written into the field for data value `v`. -/
def spec_operator_value (p v : Nat) : Nat :=
  if p ≤ 3 ∨ p = 5 then v >>> 3
  else if p = 4 then v >>> 4
  else if p = 6 then v >>> 1
  else if p = 7 then v >>> 5
  else if v ≥ 64 then 1 else 0

/-- The address of register `reg` of operator `op` (0 or 1) of channel `ch`:
`base | (reg + kOperatorOffset[opl_ch][op])`. -/
def operator_reg (ch op reg : Nat) : Nat :=
  (opl3.kChannelToOPL3 ch).port_base |||
    (reg + opl3.kOperatorOffset (opl3.kChannelToOPL3 ch).opl_ch op)

/-- The address of register `0xC0 + opl_ch` of channel `ch`. -/
def c0_reg (ch : Nat) : Nat :=
  (opl3.kChannelToOPL3 ch).port_base |||
    (opl3.kRegFeedbackConn + (opl3.kChannelToOPL3 ch).opl_ch)

/-- The three Control Change messages that select NRPN `(msb, lsb)` on MIDI
channel `ch` and send Data Entry MSB `v`. -/
def nrpn_messages (ch msb lsb v : Nat) : List (List Nat) :=
  [[0xB0 ||| ch, 99, msb], [0xB0 ||| ch, 98, lsb], [0xB0 ||| ch, 6, v]]

/-- Processes a sequence of MIDI messages through Direct Mode, in order. -/
def DirectMode.run_midi (fp : FloatOps) (d : DirectMode) (msgs : List (List Nat)) :
    DirectMode :=
  msgs.foldl (DirectMode.process_midi fp) d

/-! ## Statements about SysEx messages -/

/-- The commands that `DirectMode::handle_sysex` dispatches. -/
def direct_sysex_commands : List Nat :=
  [kSysExRegWrite7, kSysExBatchWrite7, kSysExRegWrite8, kSysExBatchWrite8,
   kSysExPatchDump, kSysExPatchLoad, kSysExResetAll, kSysExHWReset]

/-- The commands known to the Voice Allocator: its own four and those of Direct Mode. -/
def allocator_sysex_commands : List Nat :=
  [kSysExVoiceConfig, kSysExVoiceQuery, VoiceAllocator.kSysExPercConfig,
   VoiceAllocator.kSysExPercQuery] ++ direct_sysex_commands

/-- A SysEx message that the specification drops, for the configured device id `dev`
and the list `known` of commands: the manufacturer byte is not `0x7D`, or the
device-id byte neither equals `dev` nor is `0x7F` while `dev` is not `0x7F`, or the last
byte is not `F7`, or the command byte is unknown. -/
def SysExRejected (dev : Nat) (known : List Nat) (data : List Nat) : Prop :=
  data.getD 0 0 = 0xF0 ∧
  (data.getD 1 0 ≠ 0x7D ∨
   (data.getD 2 0 ≠ dev ∧ data.getD 2 0 ≠ 0x7F ∧ dev ≠ 0x7F) ∨
   data.getD (data.length - 1) 0 ≠ 0xF7 ∨
   data.getD 3 0 ∉ known)

/-- What the claims observe of a Voice Allocator on MIDI channel 0: the note of voice
slot 0, the key-on bit of OPL3 channel 0, the timestamp counter and the length
of the hardware buffer. -/
def VoiceAllocator.observe (va : VoiceAllocator) : Int × Bool × Nat × Nat :=
  (((va.midi_channels_ 0).voices.getD 0 Voice.default).note, key_on va.dm_.state_ 0,
    va.timestamp_counter_, va.dm_.state_.hw_.buf_.length)

/-- Writes a list of `(address, value)` pairs to the shadow state, in order. -/
def write_all (s : OPL3State) (ws : List (Nat × Nat)) : OPL3State :=
  ws.foldl (fun s w => s.write w.1 w.2) s

/-- The address `(reg_hi << 7) | reg_lo` of a batch entry, as the specification gives it. -/
def spec_entry_addr (reg_hi reg_lo : Nat) : Nat :=
  (reg_hi <<< 7) ||| reg_lo

/-- The writes of a 7-bit batch `(reg_hi, reg_lo, value)*` by the specification: the
entries with an address of at most `0x1FF`, in payload order, each with its
value byte. -/
def spec_batch_writes_7 (entries : List (Nat × Nat × Nat)) : List (Nat × Nat) :=
  (entries.filter (fun e => spec_entry_addr e.1 e.2.1 ≤ 0x1FF)).map
    (fun e => (spec_entry_addr e.1 e.2.1, e.2.2))

/-- The writes of an 8-bit batch `(reg_hi, reg_lo, val_hi, val_lo)*` by the specification:
the entries with an address of at most `0x1FF`, in payload order, each with the
value `(val_hi << 4) | (val_lo & 0xF)` truncated to eight bits. -/
def spec_batch_writes_8 (entries : List (Nat × Nat × Nat × Nat)) : List (Nat × Nat) :=
  (entries.filter (fun e => spec_entry_addr e.1 e.2.1 ≤ 0x1FF)).map
    (fun e => (spec_entry_addr e.1 e.2.1, ((e.2.2.1 <<< 4) ||| (e.2.2.2 &&& 0xF)) % 256))

/-- The bytes of a 7-bit entry. -/
def entry_bytes_7 (e : Nat × Nat × Nat) : List Nat := [e.1, e.2.1, e.2.2]

/-- The bytes of an 8-bit entry. -/
def entry_bytes_8 (e : Nat × Nat × Nat × Nat) : List Nat := [e.1, e.2.1, e.2.2.1, e.2.2.2]

/-- The SysEx frame `F0 7D <device_id> <cmd> <payload...> F7`. -/
def sysex_frame (dev cmd : Nat) (payload : List Nat) : List Nat :=
  0xF0 :: 0x7D :: dev :: cmd :: (payload ++ [0xF7])

/-- The batch frame (command `0x02`) whose count is the number of its entries. -/
def batch_frame_7 (dev : Nat) (entries : List (Nat × Nat × Nat)) : List Nat :=
  sysex_frame dev 0x02 (entries.length :: entries.flatMap entry_bytes_7)

/-- The batch frame (command `0x04`) whose count is the number of its entries. -/
def batch_frame_8 (dev : Nat) (entries : List (Nat × Nat × Nat × Nat)) : List Nat :=
  sysex_frame dev 0x04 (entries.length :: entries.flatMap entry_bytes_8)

/-- The single-write frame (command `0x01`) of one entry. -/
def single_frame_7 (dev : Nat) (e : Nat × Nat × Nat) : List Nat :=
  sysex_frame dev 0x01 (entry_bytes_7 e)

/-- The single-write frame (command `0x03`) of one entry. -/
def single_frame_8 (dev : Nat) (e : Nat × Nat × Nat × Nat) : List Nat :=
  sysex_frame dev 0x03 (entry_bytes_8 e)

/-! ## Statements about notes, pitch bend and percussion -/

/-- The address of register `A0+ch` of an OPL3 channel index. -/
def a0_addr (opl3_ch : Nat) : Nat :=
  (opl3.kChannelToOPL3 opl3_ch).port_base |||
    (opl3.kRegFNumLow + (opl3.kChannelToOPL3 opl3_ch).opl_ch)

/-- A pitch-bend update of channel `ch` from Direct Mode state `d` to `d2`: no register other
than `A0+ch` and `B0+ch` changes, the key-on bit of `B0+ch` is as it was, the total
level register of the carrier is as it was, and the channel states are as
they were. -/
def BendFrame (d d2 : DirectMode) (ch : Nat) : Prop :=
  (∀ b, reg_index b ≠ reg_index (a0_addr ch) → reg_index b ≠ reg_index (b0_addr ch) →
    d2.state_.read b = d.state_.read b) ∧
  key_on d2.state_ ch = key_on d.state_ ch ∧
  d2.state_.read (operator_reg ch 1 opl3.kRegKSLTL) = d.state_.read (operator_reg ch 1 opl3.kRegKSLTL) ∧
  d2.channels_ = d.channels_

/-- The five registers of an operator that a patch holds. -/
def patch_operator_regs : List Nat :=
  [opl3.kRegAMVibEGKSMult, opl3.kRegKSLTL, opl3.kRegAR_DR, opl3.kRegSL_RR, opl3.kRegWaveform]

/-- The address that `sysex_patch_load` writes for register `reg` of operator `op` (`0..3`) of
channel `midi_ch`: operators 0 and 1 are on the channel, operators 2 and 3 on its
4-op partner. -/
def patch_op_addr (midi_ch op reg : Nat) : Nat :=
  let map := opl3.kChannelToOPL3 midi_ch
  let pmap := opl3.kChannelToOPL3 (opl3.four_op_partner midi_ch).toNat
  (if op < 2 then map.port_base else pmap.port_base) |||
    (reg + (if op < 2 then opl3.kOperatorOffset map.opl_ch op
            else opl3.kOperatorOffset pmap.opl_ch (op - 2)))

/-- The registers of a 2-op patch of channel `c`: the five registers of its two operators
and its own `0xC0` register. -/
def patch_regs_2op (c : Nat) : List Nat :=
  (patch_operator_regs.map (operator_reg c 0)) ++ (patch_operator_regs.map (operator_reg c 1)) ++
    [c0_reg c]

/-- The frequency that the mirror holds for an OPL3 channel: `f_num` from register `A0+ch`
and bits 1:0 of `B0+ch`, `block` from bits 4:2 of `B0+ch`. -/
def chan_freq (s : OPL3State) (opl3_ch : Nat) : opl3.NoteFreq :=
  ⟨s.read (a0_addr opl3_ch) ||| ((s.read (b0_addr opl3_ch) &&& 3) <<< 8),
   (s.read (b0_addr opl3_ch) >>> 2) &&& 7⟩

/-- The `(f_num, block)` of a note raised by a cents offset, by the specification: the
frequency `440 * 2 ^ ((note - 69 + cents / 100) / 12)` Hz, the F-number rounded to the
nearest integer at the lowest block where it is at most 1023. -/
def spec_cents_freq (note : Nat) (cents : Int) : opl3.NoteFreq :=
  opl3.freq_search (fun b => FloatOps.fnum_at (((note : Int) - 69) * 100 + cents) 1200 b)
    (List.range 8)

/-- The key-on bit and the frequency that the mirror holds for each of the OPL3 channels
`chans`. -/
def VoiceAllocator.sounding (va : VoiceAllocator) (chans : List Nat) :
    List (Bool × opl3.NoteFreq) :=
  chans.map (fun c => (key_on va.dm_.state_ c, chan_freq va.dm_.state_ c))

/-! ## Statement-level definitions: voice configs -/

/-- Two allocator states with the same voice configs: the config of every MIDI channel, the
device id and the output callback agree. -/
def SameConfigs (va va2 : VoiceAllocator) : Prop :=
  va2.midi_output_ = va.midi_output_ ∧ va2.device_id_ = va.device_id_ ∧
  ∀ i, (va2.midi_channels_ i).config = (va.midi_channels_ i).config

/-- The pools of the 16 MIDI channels hold OPL3 channel indices below 18 and fewer than 256
entries. -/
def PoolsValid (va : VoiceAllocator) : Prop :=
  ∀ m, m < 16 → (va.pool m).length < 256 ∧ ∀ c ∈ va.pool m, c < 18

/-- A MIDI message as a sequence of bytes. -/
def IsBytes (msg : List Nat) : Prop :=
  ∀ x ∈ msg, x < 256

instance (msg : List Nat) : Decidable (IsBytes msg) := by
  unfold IsBytes; infer_instance

/-- The flags byte of a voice config: bit 0 is `four_op`, bit 1 is `pan_split`. -/
def config_flags (cfg : VoiceConfig) : Nat :=
  (if cfg.four_op then 0x01 else 0x00) ||| (if cfg.pan_split then 0x02 else 0x00)

/-- The voice-config frame (command `0x30`) of a config for MIDI channel `m`, as the
specification gives it: `midi_ch, count, opl3_ch_0..count-1, unison, detune, flags`. -/
def voice_config_frame (dev m : Nat) (cfg : VoiceConfig) : List Nat :=
  sysex_frame dev 0x30
    ([m, cfg.opl3_channels.length] ++ cfg.opl3_channels ++
      [cfg.unison_count, cfg.detune_cents, config_flags cfg])

/-! ## Statement-level definitions: voice allocation -/

/-- The indices of the free slots among `vs`, where `vs` are the voices from index `i` on. -/
def free_indices : List Voice → Nat → List Nat
  | [], _ => []
  | v :: vs, i => if v.note < 0 then i :: free_indices vs (i + 1) else free_indices vs (i + 1)

/-- The voice slots of the 16 MIDI channels: each channel has one slot per pool entry, and no
sounding voice has a timestamp above the timestamp counter. -/
def VoicesInv (va : VoiceAllocator) : Prop :=
  ∀ i, i < 16 → (va.midi_channels_ i).voices.length = (va.pool i).length ∧
    ∀ v ∈ (va.midi_channels_ i).voices, 0 ≤ v.note → v.timestamp ≤ va.timestamp_counter_

/-- A MIDI channel that percussion routing does not take: percussion mode is off or no
drum is assigned to the channel. -/
def NotPercRouted (va : VoiceAllocator) (midi_ch : Nat) : Prop :=
  va.perc_mode_ = false ∨ ∀ d, d < DirectMode.kNumDrums → va.drum_midi_ch_ d ≠ (midi_ch : Int)

/-- The voice slots `vs2` are the slots `vs` with some of them freed: as many slots, and
every voice of `vs2` is a voice of `vs` or the free slot `Voice{}`. -/
def SlotsFreed (vs vs2 : List Voice) : Prop :=
  vs2.length = vs.length ∧ ∀ w ∈ vs2, w ∈ vs ∨ w = Voice.default

instance (va : VoiceAllocator) : Decidable (VoicesInv va) := by
  unfold VoicesInv; infer_instance

instance (va : VoiceAllocator) (midi_ch : Nat) : Decidable (NotPercRouted va midi_ch) := by
  unfold NotPercRouted; infer_instance

/-- The voice slots `vs2` keep the sounding voices of `vs`: as many slots, and every sounding
voice of `vs2` has the timestamp of a sounding voice of `vs`. -/
def SlotsKept (vs vs2 : List Voice) : Prop :=
  vs2.length = vs.length ∧
  ∀ w ∈ vs2, 0 ≤ w.note → ∃ v ∈ vs, 0 ≤ v.note ∧ v.timestamp = w.timestamp

/-- Two allocator states of which the second keeps the voices of the first: the same
timestamp counter and voice configs, and on every MIDI channel the slots are kept. -/
def VoicesKept (va va2 : VoiceAllocator) : Prop :=
  va2.timestamp_counter_ = va.timestamp_counter_ ∧
  ∀ i, (va2.midi_channels_ i).config = (va.midi_channels_ i).config ∧
    SlotsKept (va.midi_channels_ i).voices (va2.midi_channels_ i).voices

/-! ## Statement-level definitions: patch loads -/

/-- The pan bits of the specification for a CC10 value: left only (`0x10`) up to 42, right
only (`0x20`) from 85, both (`0x30`) in between. -/
def spec_pan_bits (v : Nat) : Nat :=
  if v ≤ 42 then 0x10 else if v ≥ 85 then 0x20 else 0x30

/-- A write of the pan bits: bits 5:4 of register `0xC0+ch` of channel `c` hold `bits`, the
other six bits of that register are as before, and every other register is as before. -/
def PanWritten (s s2 : OPL3State) (c bits : Nat) : Prop :=
  s2.read (c0_reg c) &&& 0x30 = bits ∧
  s2.read (c0_reg c) &&& (0xFF ^^^ 0x30) = s.read (c0_reg c) &&& (0xFF ^^^ 0x30) ∧
  ∀ b, reg_index b ≠ reg_index (c0_reg c) → s2.read b = s.read b

/-! ## Statement-level definitions: voice stealing -/

/-- The number of sounding voices in a list of voice slots. -/
def sounding_count (vs : List Voice) : Nat :=
  vs.countP (fun v => decide (0 ≤ v.note))

/-- The voice slots `vs` after the release of every voice whose `(note, timestamp)` is one of
the groups `G`. -/
def release_groups (G : List (Int × Nat)) (vs : List Voice) : List Voice :=
  vs.map (fun v => if (v.note, v.timestamp) ∈ G then Voice.default else v)

/-- The voice slots `vs2` are `vs` after stealing the note groups `G` in that order: the slots
are those of `vs` with every voice of a group of `G` released (whole groups); every group of
`G` is the `(note, timestamp)` of a sounding voice of `vs`; the timestamps of `G` do not
decrease along the list; and a sounding voice of `vs` outside the groups of `G` has no lower
timestamp than any group of `G`. -/
def StolenGroups (vs vs2 : List Voice) (G : List (Int × Nat)) : Prop :=
  vs2 = release_groups G vs ∧
  (∀ k ∈ G, 0 ≤ k.1 ∧ ∃ v ∈ vs, v.note = k.1 ∧ v.timestamp = k.2) ∧
  G.Pairwise (fun a b => a.2 ≤ b.2) ∧
  ∀ v ∈ vs, 0 ≤ v.note → (v.note, v.timestamp) ∉ G → ∀ k ∈ G, k.2 ≤ v.timestamp

/-- A MIDI channel state with the pool `[0, 1, 2]` and three voice slots: note 60 with
timestamp 1 in slots 0 and 1 (one unison group), note 64 with timestamp 2 in slot 2. -/
def three_voice_channel : MidiChannelState :=
  { MidiChannelState.default with
    config := ⟨[0, 1, 2], 2, 10, false, false⟩
    voices := [⟨60, 100, 1, 0, 0, false⟩, ⟨60, 100, 1, 0, 0, false⟩, ⟨64, 90, 2, 0, 0, false⟩] }

/-! ## Statement-level definitions: voice slots and pools -/

/-- Every MIDI channel has as many voice slots as pool entries:
`voices.size() = config.opl3_channels.size()`. -/
def SlotsMatch (va : VoiceAllocator) : Prop :=
  ∀ i, i < 16 → (va.midi_channels_ i).voices.length = (va.pool i).length

instance (va : VoiceAllocator) : Decidable (SlotsMatch va) := by
  unfold SlotsMatch; infer_instance

/-- A call on the allocator: a MIDI message handed to `process_midi`, or a call of
`set_voice_config(midi_ch, config)`. -/
inductive AllocatorCall where
  | midi (msg : List Nat)
  | config (midi_ch : Nat) (cfg : VoiceConfig)

/-- Runs one call on the allocator. -/
def VoiceAllocator.run_call (fp : FloatOps) (va : VoiceAllocator) :
    AllocatorCall → Option VoiceAllocator
  | AllocatorCall.midi msg => VoiceAllocator.process_midi fp va msg
  | AllocatorCall.config midi_ch cfg => some (VoiceAllocator.set_voice_config fp va midi_ch cfg)

/-- Runs a sequence of calls on the allocator, in order. -/
def VoiceAllocator.run_calls (fp : FloatOps) :
    VoiceAllocator → List AllocatorCall → Option VoiceAllocator
  | va, [] => some va
  | va, c :: cs =>
    match VoiceAllocator.run_call fp va c with
    | none => none
    | some va => VoiceAllocator.run_calls fp va cs

/-! ## Statement-level definitions: registers that notes leave alone -/

/-- An address whose register is neither a `0xC0` register of one of the 18 channels nor
register `0xBD`. -/
def NoteRegister (a : Nat) : Prop :=
  (∀ c, c < 18 → reg_index a ≠ reg_index (c0_reg c)) ∧ reg_index a ≠ reg_index opl3.kRegBD

/-- A view `V` of the shadow that the register writes of note handling keep: writes to
registers other than the `0xC0` registers and `0xBD`, and updates of `0xBD` under a mask
without bit 5. -/
def NoteView {α : Type} (V : OPL3State → α) : Prop :=
  (∀ (s : OPL3State) (a v : Nat), NoteRegister a → V (s.write a v) = V s) ∧
  (∀ (s : OPL3State) (m v : Nat), m &&& 0x20 = 0 → V (s.modify_bits opl3.kRegBD m v) = V s)

/-- The `0xC0` registers of the 18 channels in the shadow, by channel index. -/
def pan_view (s : OPL3State) : Nat → Nat :=
  fun c => if c < 18 then s.read (c0_reg c) else 0

/-- Bit 5 (rhythm mode) of register `0xBD` in the shadow. -/
def perc_bit (s : OPL3State) : Bool :=
  (s.read opl3.kRegBD &&& 0x20) != 0

/-- An allocator in which MIDI channel 0 has the pool `[0]`, unison 1 and the pan-split flag
set, after `DirectMode::init`. -/
def pan_split_allocator : VoiceAllocator :=
  VoiceAllocator.set_voice_config FloatOps.exact (VoiceAllocator.initial 0x7F true) 0
    ⟨[0], 1, 10, false, true⟩

/-! ## Statement-level definitions: percussion mode and register `0xBD` -/

/-- The flag `percussion_mode()` of the allocator agrees with bit 5 of shadow register
`0xBD`. -/
def PercSync (va : VoiceAllocator) : Prop :=
  va.perc_mode_ = perc_bit va.dm_.state_

instance (va : VoiceAllocator) : Decidable (PercSync va) := by
  unfold PercSync; infer_instance

/-- Two allocator states with the same percussion flag and the same bit 5 of `0xBD`. -/
def PercKept (va va2 : VoiceAllocator) : Prop :=
  perc_bit va2.dm_.state_ = perc_bit va.dm_.state_ ∧ va2.perc_mode_ = va.perc_mode_

/-- A MIDI message that the allocator handles itself: not a SysEx message that it forwards
to Direct Mode (a SysEx message is one of its own commands `0x30`..`0x33`), and not a Data
Entry (CC 6) Control Change. -/
def AllocatorHandled (msg : List Nat) : Prop :=
  (msg.getD 0 0 = 0xF0 →
    msg.length ≥ 5 ∧ msg.getD 1 0 = kSysExManufID ∧
      (msg.getD 3 0 = kSysExVoiceConfig ∨ msg.getD 3 0 = kSysExVoiceQuery ∨
       msg.getD 3 0 = VoiceAllocator.kSysExPercConfig ∨
       msg.getD 3 0 = VoiceAllocator.kSysExPercQuery)) ∧
  ¬ (msg.getD 0 0 &&& 0xF0 = 0xB0 ∧ msg.getD 1 0 = 6)

instance (msg : List Nat) : Decidable (AllocatorHandled msg) := by
  unfold AllocatorHandled; infer_instance

/-! ## Statement-level definitions: four-op pools -/

/-- A voice config whose pool keeps 4-op pairs together: when the four-op flag is set, every
pool channel that has a 4-op partner has its partner in the pool. -/
def PairedPool (cfg : VoiceConfig) : Prop :=
  cfg.four_op = true → ∀ c ∈ cfg.opl3_channels,
    0 ≤ opl3.four_op_partner (c : Int) →
      (opl3.four_op_partner (c : Int)).toNat ∈ cfg.opl3_channels

instance (cfg : VoiceConfig) : Decidable (PairedPool cfg) := by
  unfold PairedPool; infer_instance

/-- The voice configs of the 16 MIDI channels keep 4-op pairs together. -/
def FourOpPaired (va : VoiceAllocator) : Prop :=
  ∀ m, m < 16 → PairedPool (va.midi_channels_ m).config

instance (va : VoiceAllocator) : Decidable (FourOpPaired va) := by
  unfold FourOpPaired; infer_instance

/-! ## Serial packer: proofs -/

theorem testBit_byte_high {x k : Nat} (hx : x < 256) (hk : 8 ≤ k) : x.testBit k = false := by
  apply Nat.testBit_lt_two_pow
  calc x < 2 ^ 8 := by simpa using hx
    _ ≤ 2 ^ k := Nat.pow_le_pow_right (by norm_num) hk

theorem testBit_one_succ (k : Nat) : Nat.testBit 1 (k + 1) = false := by
  cases h : Nat.testBit 1 (k + 1)
  · rfl
  · have := Nat.testBit_one_eq_true_iff_self_eq_zero.mp h
    omega

theorem testBit_mod_256 (x i : Nat) :
    (x % 256).testBit i = (decide (i < 8) && x.testBit i) :=
  Nat.testBit_mod_two_pow x 8 i

/-- The seven payload bits of the byte emitted at shift `s` are the seven bits
that follow the first `8 - s` bits of the previous and the current input byte. -/
theorem bits7_pack_byte (x y s : Nat) (hx : x < 256) (hs : s ≤ 7) :
    bits7 ((((x >>> s) % 256 ||| (y <<< (8 - s))) % 256) ||| 1)
      = ((bits8 y ++ bits8 x).drop (8 - s)).take 7 := by
  have hx8 := testBit_byte_high hx (show 8 ≤ 8 by omega)
  have hx9 := testBit_byte_high hx (show 8 ≤ 9 by omega)
  have hx10 := testBit_byte_high hx (show 8 ≤ 10 by omega)
  have hx11 := testBit_byte_high hx (show 8 ≤ 11 by omega)
  have hx12 := testBit_byte_high hx (show 8 ≤ 12 by omega)
  have hx13 := testBit_byte_high hx (show 8 ≤ 13 by omega)
  have hx14 := testBit_byte_high hx (show 8 ≤ 14 by omega)
  have h1 := testBit_one_succ
  interval_cases s <;>
    simp [bits7, bits8, Nat.testBit_lor, testBit_mod_256, Nat.testBit_shiftRight,
      Nat.testBit_shiftLeft, hx8, hx9, hx10, hx11, hx12, hx13, hx14, h1]

/-- The first byte of the input is emitted without a previous byte. -/
theorem bits7_pack_first (x : Nat) :
    bits7 (((x >>> 0) % 256) ||| 1) = (bits8 x).take 7 := by
  have h1 := testBit_one_succ
  simp [bits7, bits8, Nat.testBit_lor, testBit_mod_256, h1]

/-- The trailing byte carries the low `s` bits of the last input byte, then zeros. -/
theorem bits7_pack_trailing (y s : Nat) (hs : s ≤ 7) (hs0 : 0 < s) :
    bits7 (((y <<< (8 - s)) % 256) ||| 1)
      = (bits8 y).drop (8 - s) ++ List.replicate (7 - s) false := by
  have h1 := testBit_one_succ
  interval_cases s <;>
    simp [bits7, bits8, Nat.testBit_lor, testBit_mod_256, Nat.testBit_shiftLeft, h1,
      List.replicate]

theorem bits8_length (b : Nat) : (bits8 b).length = 8 := rfl

theorem flatMap_bits8_length (B : List Nat) : (B.flatMap bits8).length = 8 * B.length := by
  induction B with
  | nil => rfl
  | cons b B ih => simp [List.flatMap_cons, ih, bits8_length]; omega

theorem flatMap_bits8_drop (B : List Nat) (j : Nat) :
    (B.flatMap bits8).drop (8 * j) = (B.drop j).flatMap bits8 := by
  induction j generalizing B with
  | zero => simp
  | succ j ih =>
    cases B with
    | nil => simp
    | cons b B =>
      have h : 8 * (j + 1) = (bits8 b).length + 8 * j := by rw [bits8_length]; omega
      rw [List.flatMap_cons, h, List.drop_append, List.drop_succ_cons, ih]

/-- The seven bits of the input stream that the byte emitted at `(i, s)` carries. -/
theorem stream_slice (B : List Nat) (i s : Nat) (hi : i < B.length) (hs : s ≤ 7)
    (his : 0 < s → 0 < i) :
    ((B.flatMap bits8).drop (8 * i - s)).take 7
      = ((bits8 (B.getD (i - 1) 0) ++ bits8 (B.getD i 0)).drop (8 - s)).take 7 := by
  rcases Nat.eq_zero_or_pos s with hs0 | hs0
  · subst hs0
    rw [Nat.sub_zero, flatMap_bits8_drop, List.drop_eq_getElem_cons hi, List.flatMap_cons,
      List.getD_eq_getElem _ _ hi]
    simp [bits8]
  · have hi0 := his hs0
    obtain ⟨j, rfl⟩ : ∃ j, i = j + 1 := ⟨i - 1, by omega⟩
    have hj : j < B.length := by omega
    have h : 8 * (j + 1) - s = 8 * j + (8 - s) := by omega
    rw [h, ← List.drop_drop, flatMap_bits8_drop, List.drop_eq_getElem_cons hj,
      List.drop_eq_getElem_cons hi, List.flatMap_cons, List.flatMap_cons,
      Nat.add_sub_cancel, List.getD_eq_getElem _ _ hi, List.getD_eq_getElem _ _ hj]
    interval_cases s <;> simp [bits8]

theorem or_one_mod_two (x : Nat) : (x ||| 1) % 2 = 1 := by
  simp

/-- One iteration of the loop keeps the invariant and uses up seven units of
the measure `8 * (len_in - in_cursor) + shift_count`. -/
theorem pack_step_inv (B : List Nat) (st : PackState) (hinv : PackInv B st)
    (hlt : st.in_cursor < B.length) :
    PackInv B (pack_step B st) ∧
      8 * (B.length - (pack_step B st).in_cursor) + (pack_step B st).shift_count + 7
        = 8 * (B.length - st.in_cursor) + st.shift_count := by
  obtain ⟨hi, hs, hlen, ⟨mid, hmid, hodd⟩, hbits⟩ := hinv
  have his : 0 < st.shift_count → 0 < st.in_cursor := by
    intro h
    have : 1 ≤ st.buf_out.length := by rw [hmid]; simp
    by_contra h0
    have : st.in_cursor = 0 := by omega
    omega
  -- the byte written by this iteration
  obtain ⟨c, hc, hcodd, hcbits⟩ : ∃ c, (∀ st2, pack_step B st = st2 →
        st2.buf_out = st.buf_out ++ [c]) ∧ c % 2 = 1 ∧
      ((∀ b ∈ B, b < 256) →
        bits7 c = ((B.flatMap bits8).drop (8 * st.in_cursor - st.shift_count)).take 7) := by
    by_cases h0 : st.in_cursor > 0
    · refine ⟨(((B.getD st.in_cursor 0 >>> st.shift_count) % 256 |||
          (B.getD (st.in_cursor - 1) 0 <<< (8 - st.shift_count))) % 256) ||| 1, ?_, ?_, ?_⟩
      · intro st2 h2
        subst h2
        unfold pack_step
        simp only [h0, if_true]
        split <;> rfl
      · exact or_one_mod_two _
      · intro hB
        rw [stream_slice B _ _ hlt hs his]
        apply bits7_pack_byte _ _ _ _ hs
        rw [List.getD_eq_getElem _ _ hlt]
        exact hB _ (List.getElem_mem _)
    · have hi0 : st.in_cursor = 0 := by omega
      have hs0 : st.shift_count = 0 := by
        by_contra h
        have := his (by omega)
        omega
      refine ⟨((B.getD st.in_cursor 0 >>> st.shift_count) % 256) ||| 1, ?_, ?_, ?_⟩
      · intro st2 h2
        subst h2
        unfold pack_step
        simp only [h0, if_false]
        split <;> rfl
      · exact or_one_mod_two _
      · intro _
        rw [stream_slice B _ _ hlt hs his, hs0, bits7_pack_first]
        simp [bits8]
  have hout := hc _ rfl
  have hcases : (st.shift_count = 7 ∧ (pack_step B st).in_cursor = st.in_cursor ∧
        (pack_step B st).shift_count = 0) ∨
      (st.shift_count < 7 ∧ (pack_step B st).in_cursor = st.in_cursor + 1 ∧
        (pack_step B st).shift_count = st.shift_count + 1) := by
    unfold pack_step
    by_cases h7 : st.shift_count = 7
    · left
      simp [h7]
    · right
      have hlt7 : st.shift_count < 7 := by omega
      have hmod : (st.shift_count + 1) % 256 = st.shift_count + 1 := Nat.mod_eq_of_lt (by omega)
      have hn : ¬ (st.shift_count + 1 > 7) := by omega
      simp [hmod, hn, hlt7]
  have hnew : 8 * (pack_step B st).in_cursor - (pack_step B st).shift_count
      = (8 * st.in_cursor - st.shift_count) + 7 := by
    have : st.shift_count ≤ 8 * st.in_cursor := by
      by_cases h : 0 < st.shift_count
      · have := his h
        omega
      · omega
    rcases hcases with ⟨h1, h2, h3⟩ | ⟨h1, h2, h3⟩ <;> rw [h2, h3] <;> omega
  refine ⟨⟨?_, ?_, ?_, ⟨mid ++ [c], ?_, ?_⟩, ?_⟩, ?_⟩
  · rcases hcases with ⟨_, h2, _⟩ | ⟨_, h2, _⟩ <;> rw [h2] <;> omega
  · rcases hcases with ⟨_, _, h3⟩ | ⟨_, _, h3⟩ <;> rw [h3] <;> omega
  · rw [hout, List.length_append, List.length_singleton]
    rcases hcases with ⟨h1, h2, h3⟩ | ⟨h1, h2, h3⟩ <;> rw [h2, h3] <;> omega
  · rw [hout, hmid]; rfl
  · intro b hb
    rcases List.mem_append.mp hb with hb | hb
    · exact hodd b hb
    · rw [List.mem_singleton.mp hb]; exact hcodd
  · intro hB
    have hd : (st.buf_out ++ [c]).drop 1 = st.buf_out.drop 1 ++ [c] := by
      rw [hmid]; rfl
    have hsing : [c].flatMap bits7 = bits7 c := by simp
    rw [hout, hd, List.flatMap_append, hbits hB, hnew, List.take_add, hsing, hcbits hB]
  · rcases hcases with ⟨h1, h2, h3⟩ | ⟨h1, h2, h3⟩ <;> rw [h2, h3] <;> omega

/-- The loop ends within its fuel, at `in_cursor = len_in`, with the
invariant. -/
theorem pack_loop_spec (B : List Nat) :
    ∀ (fuel : Nat) (st : PackState), PackInv B st →
      8 * (B.length - st.in_cursor) + st.shift_count < 7 * fuel →
      ∃ st2, pack_loop B fuel st = some st2 ∧ PackInv B st2 ∧ st2.in_cursor = B.length := by
  intro fuel
  induction fuel with
  | zero => intro st _ h; omega
  | succ fuel ih =>
    intro st hinv hfuel
    unfold pack_loop
    by_cases hlt : st.in_cursor < B.length
    · simp only [hlt, if_true]
      obtain ⟨hinv2, hdec⟩ := pack_step_inv B st hinv hlt
      exact ih _ hinv2 (by omega)
    · simp only [hlt, if_false]
      exact ⟨st, rfl, hinv, by have := hinv.1; omega⟩

theorem pack_init_inv (B : List Nat) :
    PackInv B { in_cursor := 0, shift_count := 0, buf_out := [0x00] } := by
  refine ⟨Nat.zero_le _, Nat.zero_le _, rfl, ⟨[], rfl, ?_⟩, ?_⟩
  · intro b hb; cases hb
  · intro _; simp

/-- The shape of every packed frame: the function returns, and its output is the start
byte, then the bytes of a final loop state that satisfies the invariant, then
the optional trailing byte and the end byte. -/
theorem protocol_serial_pack_shape (B : List Nat) :
    ∃ st, PackInv B st ∧ st.in_cursor = B.length ∧
      protocol_serial_pack B = some (pack_finish B st) := by
  obtain ⟨st, h1, h2, h3⟩ := pack_loop_spec B (2 * B.length + 8) _ (pack_init_inv B)
    (by simp only [Nat.sub_zero]; omega)
  exact ⟨st, h2, h3, by unfold protocol_serial_pack; rw [h1]; rfl⟩

set_option maxRecDepth 100000 in
theorem byte_of_bits8 : ∀ b : Nat, b < 256 → byte_of_bits (bits8 b) = b := by
  decide

theorem bytes_of_bits_stream (tail : List Bool) (htail : tail.length < 8) :
    ∀ (B : List Nat) (fuel : Nat), (∀ b ∈ B, b < 256) → B.length ≤ fuel →
      bytes_of_bits fuel (B.flatMap bits8 ++ tail) = B := by
  intro B
  induction B with
  | nil =>
    intro fuel _ _
    cases fuel with
    | zero => rfl
    | succ f => simp [bytes_of_bits, htail]
  | cons b B ih =>
    intro fuel hB hfuel
    cases fuel with
    | zero => simp at hfuel
    | succ f =>
      have hlen : ¬ ((b :: B).flatMap bits8 ++ tail).length < 8 := by
        simp [List.flatMap_cons, bits8_length]
      have htake : ((b :: B).flatMap bits8 ++ tail).take 8 = bits8 b := by
        rw [List.flatMap_cons, List.append_assoc]
        exact List.take_left' (bits8_length b)
      have hdrop : ((b :: B).flatMap bits8 ++ tail).drop 8 = B.flatMap bits8 ++ tail := by
        rw [List.flatMap_cons, List.append_assoc]
        exact List.drop_left' (bits8_length b)
      unfold bytes_of_bits
      rw [if_neg hlen, htake, hdrop, byte_of_bits8 b (hB b (List.mem_cons_self _ _)),
        ih f (fun x hx => hB x (List.mem_cons_of_mem _ hx)) (by simpa using hfuel)]

/-- Every packed frame is the start byte `0x00`, then `ceil(8 N / 7)` bytes
that carry the low marker bit and whose upper seven bits spell the input
followed by fewer than seven zero bits, then the end byte `0x02`. -/
theorem protocol_serial_pack_frame (B : List Nat) :
    ∃ mid z, protocol_serial_pack B = some (0x00 :: (mid ++ [0x02])) ∧
      (∀ b ∈ mid, b % 2 = 1) ∧ mid.length = (8 * B.length + 6) / 7 ∧ z < 7 ∧
      ((∀ b ∈ B, b < 256) → mid.flatMap bits7 = B.flatMap bits8 ++ List.replicate z false) := by
  obtain ⟨st, ⟨hi, hs, hlen, ⟨mid, hmid, hodd⟩, hbits⟩, hN, hret⟩ := protocol_serial_pack_shape B
  have hmidlen : st.buf_out.length = mid.length + 1 := by rw [hmid]; rfl
  have hdrop : st.buf_out.drop 1 = mid := by rw [hmid]; rfl
  rw [hdrop] at hbits
  by_cases hs0 : st.shift_count = 0
  · refine ⟨mid, 0, ?_, hodd, by omega, by omega, ?_⟩
    · rw [hret]; unfold pack_finish; simp [hs0, hmid]
    · intro hB
      rw [hbits hB, hs0, hN, Nat.sub_zero, ← flatMap_bits8_length]
      simp
  · have hpos : 0 < st.shift_count := Nat.pos_of_ne_zero hs0
    have hN0 : 0 < B.length := by
      by_contra h
      have : st.in_cursor = 0 := by omega
      omega
    refine ⟨mid ++ [((B.getD (st.in_cursor - 1) 0 <<< (8 - st.shift_count)) % 256) ||| 1],
      7 - st.shift_count, ?_, ?_, ?_, by omega, ?_⟩
    · rw [hret]; unfold pack_finish; simp [hs0, hmid]
    · intro b hb
      rcases List.mem_append.mp hb with hb | hb
      · exact hodd b hb
      · rw [List.mem_singleton.mp hb]; exact or_one_mod_two _
    · rw [List.length_append, List.length_singleton]; omega
    · intro hB
      have hlast : B.length - 1 < B.length := by omega
      have hslice : (B.flatMap bits8).drop (8 * B.length - st.shift_count)
          = (bits8 (B.getD (B.length - 1) 0)).drop (8 - st.shift_count) := by
        have h : 8 * B.length - st.shift_count = 8 * (B.length - 1) + (8 - st.shift_count) := by
          omega
        rw [h, ← List.drop_drop, flatMap_bits8_drop, List.drop_eq_getElem_cons hlast,
          List.getD_eq_getElem _ _ hlast]
        have hnil : List.drop (B.length - 1 + 1) B = [] := by
          apply List.drop_eq_nil_of_le; omega
        rw [hnil]
        simp
      rw [List.flatMap_append, hbits hB, hN]
      have hsing : ∀ c, [c].flatMap bits7 = bits7 c := by intro c; simp
      rw [hsing, bits7_pack_trailing _ _ hs hpos, ← List.append_assoc, ← hslice,
        List.take_append_drop]

/-- Claim C8. For every input byte sequence the packer returns, its output has
first byte `0x00` and last byte `0x02`, every byte strictly between them has
bit 0 set, and hence a byte of the output has bit 0 clear exactly when it is
the first or the last one. -/
theorem protocol_serial_pack_framing (B : List Nat) :
    ∃ out, protocol_serial_pack B = some out ∧ 2 ≤ out.length ∧
      out.head? = some 0x00 ∧ out.getLast? = some 0x02 ∧
      (∀ k, 0 < k → k + 1 < out.length → (out.getD k 0).testBit 0 = true) ∧
      (∀ k, k < out.length →
        ((out.getD k 0).testBit 0 = false ↔ (k = 0 ∨ k + 1 = out.length))) := by
  obtain ⟨mid, z, hret, hodd, -, -, -⟩ := protocol_serial_pack_frame B
  have hmidbit : ∀ k, 0 < k → k + 1 < (0 :: (mid ++ [2])).length →
      ((0 :: (mid ++ [2])).getD k 0).testBit 0 = true := by
    intro k hk hk2
    obtain ⟨j, rfl⟩ : ∃ j, k = j + 1 := ⟨k - 1, by omega⟩
    have hj : j < mid.length := by simp at hk2; omega
    rw [List.getD_cons_succ, List.getD_append _ _ _ _ hj, List.getD_eq_getElem _ _ hj,
      Nat.testBit_zero]
    simp [hodd _ (List.getElem_mem hj)]
  refine ⟨_, hret, by simp, rfl, ?_, hmidbit, ?_⟩
  · rw [← List.cons_append]; exact List.getLast?_concat _
  · intro k hk
    constructor
    · intro hbit
      by_contra hne
      have := hmidbit k (by omega) (by omega)
      rw [this] at hbit
      exact Bool.noConfusion hbit
    · rintro (rfl | hlast)
      · simp
      · have hk2 : k = mid.length + 1 := by simp at hlast; omega
        subst hk2
        rw [List.getD_cons_succ, List.getD_append_right _ _ _ _ (Nat.le_refl _)]
        simp

/-- Claim C9, counterexample. An input of eight zero bytes is packed into twelve
bytes, which is neither `N + 2 = 10` nor `N + 3 = 11`. -/
theorem protocol_serial_pack_length_counterexample :
    (protocol_serial_pack [0, 0, 0, 0, 0, 0, 0, 0]).map List.length = some 12 ∧
      (12 : Nat) ≠ 8 + 2 ∧ (12 : Nat) ≠ 8 + 3 := by
  decide

/-- Claim C9, amended. For every input byte sequence of length `N` the packer
returns `N + 2 + ceil(N / 7)` bytes; that is `N + 2` or `N + 3` exactly when
`N ≤ 7`, and more than `N + 3` for every longer input. -/
theorem protocol_serial_pack_length (B : List Nat) :
    ∃ out, protocol_serial_pack B = some out ∧
      out.length = B.length + 2 + (B.length + 6) / 7 ∧
      ((out.length = B.length + 2 ∨ out.length = B.length + 3) ↔ B.length ≤ 7) := by
  obtain ⟨mid, z, hret, -, hlen, -, -⟩ := protocol_serial_pack_frame B
  refine ⟨_, hret, ?_, ?_⟩
  · simp only [List.length_cons, List.length_append, List.length_singleton, List.length_nil, hlen]; omega
  · simp only [List.length_cons, List.length_append, List.length_singleton, List.length_nil, hlen]; omega

/-- Claim C10. For every input of length `N` the packer writes exactly
`2 + ceil(8 N / 7)` bytes, which is at most the documented buffer size
`2 N + 8`; so `flush`, which packs into a vector of `2 * buf_.size() + 8`
bytes, never writes past its end: it always succeeds, sends the packed buffer
and leaves the buffer reset. -/
theorem protocol_serial_pack_fits (B : List Nat) (hw : OPL3HardwareBuffer) :
    (∃ out, protocol_serial_pack B = some out ∧
      out.length = 2 + (8 * B.length + 6) / 7 ∧ out.length ≤ 2 * B.length + 8) ∧
    (∃ packed, protocol_serial_pack hw.buf_ = some packed ∧
      packed.length ≤ hw.buf_.length * 2 + 8 ∧
      hw.flush = some (OPL3HardwareBuffer.reset { hw with serial_ := hw.serial_ ++ [packed] })) := by
  have hlen : ∀ C : List Nat, ∃ out, protocol_serial_pack C = some out ∧
      out.length = 2 + (8 * C.length + 6) / 7 ∧ out.length ≤ 2 * C.length + 8 := by
    intro C
    obtain ⟨mid, z, hret, -, hlen, -, -⟩ := protocol_serial_pack_frame C
    refine ⟨_, hret, ?_, ?_⟩ <;>
      simp only [List.length_cons, List.length_append, List.length_singleton, List.length_nil, hlen] <;> omega
  refine ⟨hlen B, ?_⟩
  obtain ⟨packed, hret, -, hle⟩ := hlen hw.buf_
  refine ⟨packed, hret, by omega, ?_⟩
  unfold OPL3HardwareBuffer.flush
  simp only [hret]
  rw [if_pos (by omega)]

/-- Claim C1. For every byte sequence `B` the packer returns a frame that
determines `B`: after dropping the first and the last output byte, bits 7..1
of the remaining bytes, concatenated most significant first, are the bits of
`B` followed by fewer than seven zero bits, and the unpacker that cuts this
bit stream into bytes gives back `B`. -/
theorem protocol_serial_pack_roundtrip (B : List Nat) (hB : ∀ b ∈ B, b < 256) :
    ∃ out z, protocol_serial_pack B = some out ∧ z < 7 ∧
      frame_bits out = B.flatMap bits8 ++ List.replicate z false ∧
      serial_unpack out = B := by
  obtain ⟨mid, z, hret, -, -, hz, hbits⟩ := protocol_serial_pack_frame B
  have hfb : frame_bits (0x00 :: (mid ++ [0x02])) = B.flatMap bits8 ++ List.replicate z false := by
    unfold frame_bits
    rw [List.drop_succ_cons, List.drop_zero, List.dropLast_concat, hbits hB]
  refine ⟨_, z, hret, hz, hfb, ?_⟩
  unfold serial_unpack
  rw [hfb]
  apply bytes_of_bits_stream _ (by simpa using (by omega : z < 8)) B _ hB
  rw [List.length_append, flatMap_bits8_length]; omega

/-- Claim C1, witness. The round trip at the three-byte input `42 12 E1`. -/
theorem protocol_serial_pack_roundtrip_witness :
    (∀ b ∈ [0x42, 0x12, 0xE1], b < 256) ∧
      ∃ out z, protocol_serial_pack [0x42, 0x12, 0xE1] = some out ∧ z < 7 ∧
        frame_bits out = [0x42, 0x12, 0xE1].flatMap bits8 ++ List.replicate z false ∧
        serial_unpack out = [0x42, 0x12, 0xE1] :=
  ⟨by decide, protocol_serial_pack_roundtrip [0x42, 0x12, 0xE1] (by decide)⟩

/-! ## Hardware buffer and shadow state: proofs -/

theorem and_ff (a : Nat) : a &&& 0xFF = a % 256 := Nat.and_pow_two_sub_one_eq_mod a 8

theorem and_1ff (a : Nat) : a &&& 0x1FF = a % 512 := Nat.and_pow_two_sub_one_eq_mod a 9

theorem and_100 (a : Nat) : a &&& 0x100 = if a / 256 % 2 = 1 then 256 else 0 := by
  have h3 : a &&& 0x100 = (a.testBit 8).toNat * 2 ^ 8 := Nat.and_two_pow a 8
  rw [h3, Nat.testBit_to_div_mod]
  by_cases h : a / 256 % 2 = 1
  · simp [h]
  · simp [h]

/-- The mirror index of an address is the address reduced to its low nine bits. -/
theorem reg_index_eq (a : Nat) : reg_index a = a &&& 0x1FF := by
  unfold reg_index
  rw [and_ff, and_1ff, and_100]
  by_cases h : a / 256 % 2 = 1
  · simp [h]; omega
  · simp [h]; omega

theorem reg_index_lt (a : Nat) : reg_index a < 512 := by
  rw [reg_index_eq, and_1ff]; omega

theorem reg_index_of_lt {a : Nat} (h : a < 512) : reg_index a = a := by
  rw [reg_index_eq, and_1ff]; omega

theorem read_write_same (s : OPL3State) (a v : Nat) : (s.write a v).read a = v := by
  simp [OPL3State.read, OPL3State.write]

theorem read_write_of_index_ne (s : OPL3State) (a b v : Nat) (h : reg_index b ≠ reg_index a) :
    (s.write a v).read b = s.read b := by
  simp [OPL3State.read, OPL3State.write, h]

theorem read_write (s : OPL3State) (a b v : Nat) :
    (s.write a v).read b = if reg_index b = reg_index a then v else s.read b := by
  simp [OPL3State.read, OPL3State.write]

/-- A call other than `reset` is one `write` of the byte it queues. -/
theorem StateOp.apply_eq_write (s : OPL3State) (op : StateOp) (h : op ≠ StateOp.reset) :
    ∃ a v, op.queued s = [(a, v)] ∧ op.apply s = s.write a v := by
  cases op with
  | write a v => exact ⟨a, v, rfl, rfl⟩
  | modify_bits a m v => exact ⟨a, _, rfl, rfl⟩
  | reset => exact absurd rfl h

/-- After a sequence of `write` and `modify_bits` calls, `read` gives the value
that the most recent write to that mirror slot stored. -/
theorem read_run_ops (a : Nat) :
    ∀ (ops : List StateOp) (s : OPL3State), (∀ op ∈ ops, op ≠ StateOp.reset) →
      (run_ops s ops).read a = (last_written a (write_trace s ops)).getD (s.read a) := by
  intro ops
  induction ops with
  | nil => intro s _; rfl
  | cons op ops ih =>
    intro s hops
    obtain ⟨w, v, hq, happ⟩ := StateOp.apply_eq_write s op (hops op (List.mem_cons_self _ _))
    have hrest := ih (op.apply s) (fun o ho => hops o (List.mem_cons_of_mem _ ho))
    have hrun : run_ops s (op :: ops) = run_ops (op.apply s) ops := rfl
    rw [hrun, hrest, write_trace, hq, happ, List.singleton_append, last_written]
    cases hl : last_written a (write_trace (s.write w v) ops) with
    | some x => rfl
    | none =>
      simp only [Option.getD_none, read_write]
      by_cases hidx : reg_index a = reg_index w
      · simp [hidx]
      · have hidx2 : ¬ reg_index w = reg_index a := fun h => hidx h.symm
        simp [hidx, hidx2]

/-- Claim C3. For every address `a` and byte `v`: after `write(a, v)`,
`read(a)` returns `v` and `read(b)` is unchanged for every address `b` with
`(b & 0x1FF) != (a & 0x1FF)`; after any sequence of `write` and `modify_bits`
calls `read(a)` returns the value most recently written to the slot of `a`
(the value it had before, when no call wrote there); and the mirror index
computed from any address is below 512. -/
theorem OPL3State_read_last_written (s : OPL3State) (a v : Nat) :
    (s.write a v).read a = v ∧
    (∀ b, (b &&& 0x1FF) ≠ (a &&& 0x1FF) → (s.write a v).read b = s.read b) ∧
    (∀ ops : List StateOp, (∀ op ∈ ops, op ≠ StateOp.reset) →
      (run_ops s ops).read a = (last_written a (write_trace s ops)).getD (s.read a)) ∧
    reg_index a < 512 := by
  refine ⟨read_write_same s a v, ?_, fun ops h => read_run_ops a ops s h, reg_index_lt a⟩
  intro b hb
  apply read_write_of_index_ne
  rw [reg_index_eq, reg_index_eq]
  exact hb

theorem queue_buf (hw : OPL3HardwareBuffer) (a v : Nat) :
    (hw.queue a v).buf_ = hw.buf_ ++
      [if (a &&& 0x100) != 0 then 0xe5 else 0xe1, a &&& 0xff,
       if (a &&& 0x100) != 0 then 0xe7 else 0xe3, v, 0xfb, v] := rfl

/-- Six-byte records are consumed one at a time by the chip. -/
theorem chip_run_append (rec6 : List Nat) :
    ∀ (n : Nat) (buf : List Nat) (chip : Nat → Nat), buf.length = 6 * n →
      chip_run (buf ++ rec6) chip = chip_run rec6 (chip_run buf chip) := by
  intro n
  induction n with
  | zero =>
    intro buf chip h
    have : buf = [] := List.length_eq_zero.mp (by omega)
    subst this
    rfl
  | succ n ih =>
    intro buf chip h
    match buf, h with
    | a :: b :: c :: d :: e :: f :: rest, h =>
      have hrest : rest.length = 6 * n := by simp at h; omega
      simp only [List.cons_append, chip_run]
      exact ih rest _ hrest

/-- One queued write, seen from the chip: the record stores `data` at the
mirror index of `addr`. -/
theorem chip_run_record (a v : Nat) (chip : Nat → Nat) :
    chip_run [if (a &&& 0x100) != 0 then 0xe5 else 0xe1, a &&& 0xff,
        if (a &&& 0x100) != 0 then 0xe7 else 0xe3, v, 0xfb, v] chip
      = fun i => if i = reg_index a then v else chip i := by
  funext i
  unfold reg_index
  by_cases h : (a &&& 0x100) != 0
  · simp [chip_run, h]
  · simp [chip_run, h]

/-- Without `reset`, the mirror is the register file of the chip: starting from
a freshly constructed shadow state, after any sequence of `write` and
`modify_bits` calls the mirror equals the register file obtained by applying
the queued hardware writes, in order, to an all-zero chip. -/
theorem mirror_eq_chip_without_reset (ops : List StateOp)
    (hops : ∀ op ∈ ops, op ≠ StateOp.reset) :
    (run_ops OPL3State.fresh ops).regs_
      = chip_of_buffer (run_ops OPL3State.fresh ops).hw_.buf_ := by
  have key : ∀ (ops : List StateOp) (s : OPL3State), (∀ op ∈ ops, op ≠ StateOp.reset) →
      (∃ n, (s.hw_.buf_.drop 2).length = 6 * n) → 2 ≤ s.hw_.buf_.length →
      s.regs_ = chip_of_buffer s.hw_.buf_ →
      (run_ops s ops).regs_ = chip_of_buffer (run_ops s ops).hw_.buf_ := by
    intro ops
    induction ops with
    | nil => intro s _ _ _ h; exact h
    | cons op ops ih =>
      intro s hops ⟨n, hn⟩ h2 heq
      obtain ⟨w, v, -, happ⟩ := StateOp.apply_eq_write s op (hops op (List.mem_cons_self _ _))
      have hrun : run_ops s (op :: ops) = run_ops (op.apply s) ops := rfl
      rw [hrun, happ]
      have hdrop : ((s.write w v).hw_.buf_).drop 2 = s.hw_.buf_.drop 2 ++
          [if (w &&& 0x100) != 0 then 0xe5 else 0xe1, w &&& 0xff,
           if (w &&& 0x100) != 0 then 0xe7 else 0xe3, v, 0xfb, v] := by
        show ((s.hw_.queue w v).buf_).drop 2 = _
        rw [queue_buf, List.drop_append_of_le_length h2]
      apply ih _ (fun o ho => hops o (List.mem_cons_of_mem _ ho))
      · exact ⟨n + 1, by rw [hdrop, List.length_append, hn]; simp; omega⟩
      · show 2 ≤ (s.hw_.queue w v).buf_.length
        rw [queue_buf, List.length_append]; omega
      · unfold chip_of_buffer
        rw [hdrop, chip_run_append _ n _ _ hn, chip_run_record]
        show (fun i => if i = reg_index w then v else s.regs_ i) = _
        rw [heq]
        rfl
  exact key ops _ hops ⟨0, rfl⟩ (by decide) rfl

set_option maxRecDepth 100000 in
/-- Claim C2, the code at the failing input. On a freshly constructed shadow
state, `reset()` leaves the mirror of register `0x040` at zero while the
writes it queued put `0x3F` there on the chip; likewise `0x004` (mirror 0,
chip 128). -/
theorem reset_mirror_differs_from_chip :
    (run_ops OPL3State.fresh [StateOp.reset]).read 0x040 = 0 ∧
    chip_of_buffer (run_ops OPL3State.fresh [StateOp.reset]).hw_.buf_ (reg_index 0x040) = 0x3F ∧
    (run_ops OPL3State.fresh [StateOp.reset]).read 0x004 = 0 ∧
    chip_of_buffer (run_ops OPL3State.fresh [StateOp.reset]).hw_.buf_ (reg_index 0x004) = 128 := by
  decide

/-! ## Bit fields: proofs -/

theorem testBit_255 (i : Nat) : (255 : Nat).testBit i = decide (i < 8) :=
  Nat.testBit_two_pow_sub_one 8 i

/-- The byte that `modify_bits` writes, bit by bit. -/
theorem modify_value_testBit (cur m v i : Nat) :
    (OPL3State.modify_value cur m v).testBit i
      = (decide (i < 8) && (if m.testBit i then v.testBit i else cur.testBit i)) := by
  unfold OPL3State.modify_value
  rw [testBit_mod_256, Nat.testBit_lor, Nat.testBit_land, Nat.testBit_land, Nat.testBit_xor,
    testBit_255]
  by_cases h8 : i < 8 <;> cases hm : m.testBit i <;> simp [h8]

theorem modify_value_and_mask (cur m v : Nat) (hm : m < 256) :
    OPL3State.modify_value cur m v &&& m = v &&& m := by
  apply Nat.eq_of_testBit_eq
  intro i
  rw [Nat.testBit_land, Nat.testBit_land, modify_value_testBit]
  by_cases h8 : i < 8
  · cases hmi : m.testBit i <;> simp [h8]
  · have : m.testBit i = false := testBit_byte_high hm (by omega)
    simp [this]

theorem modify_value_and_compl (cur m v : Nat) (hm : m < 256) :
    OPL3State.modify_value cur m v &&& (0xFF ^^^ m) = cur &&& (0xFF ^^^ m) := by
  apply Nat.eq_of_testBit_eq
  intro i
  rw [Nat.testBit_land, Nat.testBit_land, modify_value_testBit, Nat.testBit_xor, testBit_255]
  by_cases h8 : i < 8
  · cases hmi : m.testBit i <;> simp [h8]
  · have : m.testBit i = false := testBit_byte_high hm (by omega)
    simp [this, h8]

theorem and_3f (x : Nat) : x &&& 0x3F = x % 64 := Nat.and_pow_two_sub_one_eq_mod x 6
theorem and_0f (x : Nat) : x &&& 0x0F = x % 16 := Nat.and_pow_two_sub_one_eq_mod x 4
theorem and_07 (x : Nat) : x &&& 0x07 = x % 8 := Nat.and_pow_two_sub_one_eq_mod x 3
theorem and_03 (x : Nat) : x &&& 0x03 = x % 4 := Nat.and_pow_two_sub_one_eq_mod x 2

theorem b0_lt (f b : Nat) (k : Bool) :
    (((f >>> 8) &&& 0x03) ||| ((b &&& 0x07) <<< 2) ||| (if k then 0x20 else 0x00)) < 64 := by
  have h1 : (f >>> 8) &&& 0x03 < 2 ^ 6 := by rw [and_03]; omega
  have h2 : (b &&& 0x07) <<< 2 < 2 ^ 6 := by rw [and_07, Nat.shiftLeft_eq]; omega
  have h3 : (if k then 0x20 else 0x00) < 2 ^ 6 := by cases k <;> simp
  exact Nat.or_lt_two_pow (Nat.or_lt_two_pow h1 h2) h3

theorem modify_value_lt (cur m v : Nat) : OPL3State.modify_value cur m v < 256 := by
  unfold OPL3State.modify_value
  omega

theorem modify_bits_eq (s : OPL3State) (a m v : Nat) :
    s.modify_bits a m v = s.write a (OPL3State.modify_value (s.read a) m v) := rfl

/-! ## Direct Mode: proofs -/

open opl3

/-- The three registers of a note-on lie in three different mirror slots. -/
theorem note_on_regs_distinct : ∀ ch, ch < 18 →
    reg_index ((kChannelToOPL3 ch).port_base ||| (kRegFNumLow + (kChannelToOPL3 ch).opl_ch)) ≠
      reg_index ((kChannelToOPL3 ch).port_base ||| (kRegKeyOnBlkFNum + (kChannelToOPL3 ch).opl_ch)) ∧
    reg_index ((kChannelToOPL3 ch).port_base |||
        (kRegKSLTL + kOperatorOffset (kChannelToOPL3 ch).opl_ch 1)) ≠
      reg_index ((kChannelToOPL3 ch).port_base ||| (kRegFNumLow + (kChannelToOPL3 ch).opl_ch)) ∧
    reg_index ((kChannelToOPL3 ch).port_base |||
        (kRegKSLTL + kOperatorOffset (kChannelToOPL3 ch).opl_ch 1)) ≠
      reg_index ((kChannelToOPL3 ch).port_base ||| (kRegKeyOnBlkFNum + (kChannelToOPL3 ch).opl_ch)) := by
  decide

theorem vel_atten_eq (v : Nat) (hv : v ≤ 127) : DirectMode.vel_atten v = (127 - v) / 2 := by
  unfold DirectMode.vel_atten
  have h : ((127 : Int) - (v : Int)) = ((127 - v : Nat) : Int) := by omega
  rw [h]
  have h2 : (((127 - v : Nat) : Int) >>> 1) = (((127 - v) / 2 : Nat) : Int) := by
    show Int.ofNat ((127 - v) >>> 1) = _
    rw [Nat.shiftRight_eq_div_pow]
    rfl
  rw [h2]
  omega

theorem write_freq_state (d : DirectMode) (ch f b : Nat) (k : Bool) :
    (d.write_freq ch f b k).state_ =
      (d.state_.write ((kChannelToOPL3 ch).port_base ||| (kRegFNumLow + (kChannelToOPL3 ch).opl_ch))
        ((f &&& 0xFF) % 256)).write
        ((kChannelToOPL3 ch).port_base ||| (kRegKeyOnBlkFNum + (kChannelToOPL3 ch).opl_ch))
        ((((f >>> 8) &&& 0x03) ||| ((b &&& 0x07) <<< 2) ||| (if k then 0x20 else 0x00)) % 256) :=
  rfl

theorem write_freq_channels (d : DirectMode) (ch f b : Nat) (k : Bool) :
    (d.write_freq ch f b k).channels_ = d.channels_ := rfl

/-- The common body of `handle_note_on` and `play_note_on_channel`. -/
theorem note_on_body_post (fp : FloatOps) (d : DirectMode) (ch n v : Nat) (hch : ch < 18)
    (hv : v ≤ 127) :
    NoteOnPost fp d (d.play_note_on_channel fp ch n v) ch n v := by
  obtain ⟨hAB, hCA, hCB⟩ := note_on_regs_distinct ch hch
  have hnot : ¬ ch ≥ 18 := by omega
  unfold DirectMode.play_note_on_channel
  simp only [hnot, if_false]
  -- the state before the carrier update: `d`, possibly after the key-off write
  generalize hd0 : (if (d.channels_ ch).current_note ≥ 0 then d.write_freq ch 0 0 false else d) = d0
  have hch0 : d0.channels_ = d.channels_ := by
    rw [← hd0]; split <;> rfl
  have hcar0 : d0.state_.read ((kChannelToOPL3 ch).port_base |||
        (kRegKSLTL + kOperatorOffset (kChannelToOPL3 ch).opl_ch 1))
      = d.state_.read ((kChannelToOPL3 ch).port_base |||
        (kRegKSLTL + kOperatorOffset (kChannelToOPL3 ch).opl_ch 1)) := by
    rw [← hd0]
    split
    · rw [write_freq_state, read_write_of_index_ne _ _ _ _ hCB, read_write_of_index_ne _ _ _ _ hCA]
    · rfl
  unfold NoteOnPost
  simp only [write_freq_state, DirectMode.set_channel, modify_bits_eq]
  refine ⟨?_, ?_, ?_, ?_⟩
  · rw [read_write_of_index_ne _ _ _ _ hAB, read_write_same]
    exact Nat.mod_eq_of_lt (by rw [and_ff]; omega)
  · rw [read_write_same]
    have hlt := b0_lt (note_freq fp n).f_num (note_freq fp n).block true
    simp only [if_true] at hlt ⊢
    exact Nat.mod_eq_of_lt (by omega)
  · rw [read_write_of_index_ne _ _ _ _ hCB, read_write_of_index_ne _ _ _ _ hCA, read_write_same,
      modify_value_and_mask _ _ _ (by norm_num), vel_atten_eq v hv, and_3f]
    have hmin := Nat.min_le_right (DirectMode.compute_attenuation fp (d.channels_ ch).volume
      (d.channels_ ch).expression + (127 - v) / 2) 63
    generalize min (DirectMode.compute_attenuation fp (d.channels_ ch).volume
      (d.channels_ ch).expression + (127 - v) / 2) 63 = t at hmin ⊢
    omega
  · rw [read_write_of_index_ne _ _ _ _ hCB, read_write_of_index_ne _ _ _ _ hCA, read_write_same]
    have h := modify_value_and_compl (d0.state_.read ((kChannelToOPL3 ch).port_base |||
        (kRegKSLTL + kOperatorOffset (kChannelToOPL3 ch).opl_ch 1))) 0x3F
      ((min (DirectMode.compute_attenuation fp (d.channels_ ch).volume (d.channels_ ch).expression
        + DirectMode.vel_atten v) 63) % 256) (by norm_num)
    have hc0 : (0xFF ^^^ 0x3F : Nat) = 0xC0 := by decide
    rw [hc0] at h
    rw [← hcar0, ← h]
theorem handle_note_on_eq_play (fp : FloatOps) (d : DirectMode) (ch n v : Nat) (hch : ch < 16) :
    d.handle_note_on fp ch n v = d.play_note_on_channel fp ch n v := by
  have h16 : ¬ ch ≥ 16 := by omega
  have h18 : ¬ ch ≥ 18 := by omega
  unfold DirectMode.handle_note_on DirectMode.play_note_on_channel
  simp only [h16, h18, if_false]

/-- A channel-voice status byte splits back into its status and its channel. -/
theorem status_byte_split : ∀ st ∈ [0x80, 0x90, 0xB0, 0xE0], ∀ ch, ch < 16 →
    (st ||| ch) &&& 0xF0 = st ∧ (st ||| ch) &&& 0x0F = ch ∧ (st ||| ch) ≠ 0xF0 := by
  decide

theorem process_note_on (fp : FloatOps) (d : DirectMode) (ch n v : Nat) (hch : ch < 16)
    (hv : v ≠ 0) :
    d.process_midi fp [0x90 ||| ch, n, v] = d.handle_note_on fp ch n v := by
  obtain ⟨h1, h2, h3⟩ := status_byte_split 0x90 (by decide) ch hch
  unfold DirectMode.process_midi
  simp only [List.length_cons, List.length_nil, List.getD_cons_zero, List.getD_cons_succ]
  rw [if_neg (by norm_num), if_neg h3, h1, h2]
  simp [hv]

theorem process_reset_all (fp : FloatOps) (d : DirectMode) :
    d.process_midi fp [0xF0, 0x7D, 0x7F, 0x20, 0xF7] = d.init := by
  unfold DirectMode.process_midi DirectMode.handle_sysex
  simp [kSysExManufID, kSysExRegWrite7, kSysExBatchWrite7, kSysExRegWrite8, kSysExBatchWrite8,
    kSysExPatchDump, kSysExPatchLoad, kSysExResetAll, DirectMode.sysex_reset_all]

/-- Claim C6. For every channel, note `n` and velocity `v` in `1..127`: after a
note-on (a Direct Mode Note On message on MIDI channel `ch < 16`, or
`play_note_on_channel` on OPL3 channel `ch < 18`) register `A0+ch` holds the low
eight bits of `f_num`, register `B0+ch` holds
`((f_num >> 8) & 3) | ((block & 7) << 2) | 0x20` with `(f_num, block) = note_freq(n)`, and
the `0x40` register of the carrier has bits 5:0 equal to
`min(compute_attenuation(volume, expression) + (127 - v) / 2, 63)` and bits 7:6
unchanged; so after Reset All and Note On 60 with velocity 100 the carrier
level is `min(compute_attenuation(100, 127) + 13, 63)`, which is
`compute_attenuation(100, 127) + 13` when that sum does not exceed 63. -/
theorem note_on_registers (fp : FloatOps) (d : DirectMode) (ch n v : Nat)
    (hv1 : 1 ≤ v) (hv : v ≤ 127) :
    (ch < 16 → NoteOnPost fp d (d.process_midi fp [0x90 ||| ch, n, v]) ch n v) ∧
    (ch < 18 → NoteOnPost fp d (d.play_note_on_channel fp ch n v) ch n v) ∧
    (ch < 16 →
      ((d.process_midi fp [0xF0, 0x7D, 0x7F, 0x20, 0xF7]).process_midi fp
          [0x90 ||| ch, 60, 100]).state_.read
        ((kChannelToOPL3 ch).port_base |||
          (kRegKSLTL + kOperatorOffset (kChannelToOPL3 ch).opl_ch 1)) &&& 0x3F
        = min (DirectMode.compute_attenuation fp 100 127 + 13) 63 ∧
      (DirectMode.compute_attenuation fp 100 127 + 13 ≤ 63 →
        ((d.process_midi fp [0xF0, 0x7D, 0x7F, 0x20, 0xF7]).process_midi fp
            [0x90 ||| ch, 60, 100]).state_.read
          ((kChannelToOPL3 ch).port_base |||
            (kRegKSLTL + kOperatorOffset (kChannelToOPL3 ch).opl_ch 1)) &&& 0x3F
          = DirectMode.compute_attenuation fp 100 127 + 13)) := by
  refine ⟨?_, ?_, ?_⟩
  · intro hch
    rw [process_note_on fp d ch n v hch (by omega), handle_note_on_eq_play fp d ch n v hch]
    exact note_on_body_post fp d ch n v (by omega) hv
  · intro hch
    exact note_on_body_post fp d ch n v hch hv
  · intro hch
    have hpost := note_on_body_post fp d.init ch 60 100 (by omega) (by norm_num)
    rw [process_reset_all, process_note_on fp _ ch 60 100 hch (by norm_num),
      handle_note_on_eq_play fp _ ch 60 100 hch]
    have hlevel := hpost.2.2.1
    have hdef : (d.init.channels_ ch) = ChannelState.default := rfl
    rw [hdef] at hlevel
    have h13 : (127 - 100) / 2 = 13 := by norm_num
    simp only [ChannelState.default, h13] at hlevel
    refine ⟨hlevel, fun hle => ?_⟩
    rw [hlevel]
    exact Nat.min_eq_left hle

/-- Claim C6, witness. Note On 60 with velocity 100 on channel 0 of a freshly
constructed Direct Mode, with the floating-point expressions in exact
arithmetic. -/
theorem note_on_registers_witness :
    (1 ≤ 100 ∧ 100 ≤ 127) ∧
    NoteOnPost FloatOps.exact (DirectMode.create OPL3State.fresh 0x7F)
      ((DirectMode.create OPL3State.fresh 0x7F).process_midi FloatOps.exact [0x90 ||| 0, 60, 100])
      0 60 100 :=
  ⟨by decide,
   (note_on_registers FloatOps.exact (DirectMode.create OPL3State.fresh 0x7F) 0 60 100
      (by decide) (by decide)).1 (by decide)⟩

/-! ### Patch dump and patch load -/

set_option maxRecDepth 100000 in
/-- Two nibbles of a byte decode back to the byte. -/
theorem nibble_roundtrip : ∀ v, v < 256 →
    ((((v >>> 4) &&& 0x0F) % 256) <<< 4 ||| (((v &&& 0x0F) % 256) &&& 0x0F)) % 256 = v := by
  decide

set_option maxRecDepth 100000 in
/-- Writing the low nibble of a byte back under mask `0x0F` gives the byte. -/
theorem modify_value_low_nibble_self : ∀ v, v < 256 →
    OPL3State.modify_value v 0x0F (v &&& 0x0F) = v := by
  decide

/-- A write of the value a register already holds leaves the mirror as it is. -/
theorem write_same_regs (s : OPL3State) (a v : Nat) (h : s.read a = v) :
    (s.write a v).regs_ = s.regs_ := by
  funext i
  show (if i = reg_index a then v else s.regs_ i) = s.regs_ i
  by_cases hi : i = reg_index a
  · rw [if_pos hi, hi, ← h]; rfl
  · rw [if_neg hi]

theorem read_of_regs_eq {s t : OPL3State} (h : s.regs_ = t.regs_) (a : Nat) :
    s.read a = t.read a := by
  unfold OPL3State.read; rw [h]

/-- A write of the value that the reference mirror `R` holds at that slot keeps the mirror equal to `R`. -/
theorem write_back_regs (s : OPL3State) (R : Nat → Nat) (a v : Nat) (hs : s.regs_ = R)
    (hv : v = R (reg_index a)) : (s.write a v).regs_ = R := by
  rw [write_same_regs s a v (by unfold OPL3State.read; rw [hs, hv]), hs]

theorem dump_operator_length (d : DirectMode) (c op : Nat) :
    (DirectMode.dump_operator d c op).length = 22 := rfl

/-- The operator loop of a patch load that is fed the operators of a dump
of the same mirror writes back what the mirror holds. -/
theorem patch_load_loop_dump (d : DirectMode) (c : Nat) (hbytes : ∀ i, d.state_.regs_ i < 256)
    (tail : List Nat) (k : Nat) :
    ∀ (n op : Nat) (s : OPL3State), s.regs_ = d.state_.regs_ →
      ∃ s2, DirectMode.patch_load_loop c n op s
          ((List.range' op n).flatMap (DirectMode.dump_operator d c) ++ tail) (22 * n + k)
          = (s2, tail, k) ∧ s2.regs_ = d.state_.regs_ := by
  intro n
  induction n with
  | zero => intro op s hs; exact ⟨s, by simp [DirectMode.patch_load_loop], hs⟩
  | succ n ih =>
    intro op s hs
    have hrem : 22 * (n + 1) + k ≥ 22 := by omega
    have hb : ∀ a, d.state_.read a < 256 := fun a => hbytes _
    unfold DirectMode.patch_load_loop
    simp only [hrem, if_true, List.range'_succ, List.flatMap_cons, List.append_assoc]
    have hdrop : List.drop 22 (DirectMode.dump_operator d c op ++
        ((List.range' (op + 1) n).flatMap (DirectMode.dump_operator d c) ++ tail))
        = (List.range' (op + 1) n).flatMap (DirectMode.dump_operator d c) ++ tail :=
      List.drop_left' (dump_operator_length d c op)
    have hsub : 22 * (n + 1) + k - 22 = 22 * n + k := by omega
    rw [hdrop, hsub]
    apply ih
    -- the five writes store what the mirror already holds
    simp only [DirectMode.dump_operator, DirectMode.nibbles, List.flatMap_cons, List.flatMap_nil,
      List.cons_append, List.nil_append, List.getD_cons_zero, List.getD_cons_succ,
      Nat.zero_mul, Nat.one_mul, Nat.reduceMul, Nat.reduceAdd]
    simp only [nibble_roundtrip _ (hb _)]
    apply write_back_regs _ _ _ _ _ rfl
    apply write_back_regs _ _ _ _ _ rfl
    apply write_back_regs _ _ _ _ _ rfl
    apply write_back_regs _ _ _ _ _ rfl
    exact write_back_regs _ _ _ _ hs rfl

theorem dump_operators_length (d : DirectMode) (c n : Nat) :
    ((List.range n).flatMap (DirectMode.dump_operator d c)).length = 22 * n := by
  induction n with
  | zero => rfl
  | succ n ih =>
    rw [List.range_succ, List.flatMap_append, List.length_append, ih]
    simp [dump_operator_length]
    omega

theorem dump_is_four_op_partner (d : DirectMode) (c : Nat)
    (h : DirectMode.dump_is_four_op d c = true) : four_op_partner c ≥ 0 := by
  unfold DirectMode.dump_is_four_op at h
  by_contra hneg
  simp [hneg] at h

theorem modify_back_regs (s : OPL3State) (R : Nat → Nat) (a v : Nat) (hs : s.regs_ = R)
    (hR : R (reg_index a) < 256) (hv : v = R (reg_index a)) :
    (s.modify_bits a 0x0F (v &&& 0x0F)).regs_ = R := by
  rw [modify_bits_eq]
  apply write_back_regs _ _ _ _ hs
  have hrd : s.read a = R (reg_index a) := by unfold OPL3State.read; rw [hs]
  rw [hrd, hv]
  exact modify_value_low_nibble_self _ hR

/-- A patch load that is fed the payload of a dump of the same mirror leaves the mirror as it is. -/
theorem patch_load_of_dump (d d1 : DirectMode) (c : Nat) (hc : c < 18)
    (hbytes : ∀ i, d.state_.regs_ i < 256) (h1 : d1.state_.regs_ = d.state_.regs_) :
    (DirectMode.sysex_patch_load d1 ((DirectMode.dump_message d c).drop 4)
      ((DirectMode.dump_message d c).length - 5)).state_.regs_ = d.state_.regs_ := by
  have hb : ∀ a, d.state_.read a < 256 := fun a => hbytes _
  have hnc : ¬ c ≥ 18 := by omega
  cases hfour : DirectMode.dump_is_four_op d c
  · -- two operators
    have hmsg : (DirectMode.dump_message d c).drop 4 = c ::
        ((List.range' 0 2).flatMap (DirectMode.dump_operator d c) ++
          (DirectMode.nibbles (d.state_.read ((kChannelToOPL3 c).port_base |||
            (kRegFeedbackConn + (kChannelToOPL3 c).opl_ch))) ++ [0xF7])) := by
      simp [DirectMode.dump_message, hfour, List.range_eq_range']
    have hlen : (DirectMode.dump_message d c).length - 5 = 22 * 2 + 2 + 1 := by
      simp only [DirectMode.dump_message, hfour, List.length_append, dump_operators_length,
        DirectMode.nibbles, List.length_cons, List.length_nil]
      rfl
    obtain ⟨s2, hloop, hs2⟩ := patch_load_loop_dump d c hbytes
      (DirectMode.nibbles (d.state_.read ((kChannelToOPL3 c).port_base |||
        (kRegFeedbackConn + (kChannelToOPL3 c).opl_ch))) ++ [0xF7]) 2 2 0 d1.state_ h1
    rw [hmsg, hlen]
    unfold DirectMode.sysex_patch_load
    simp only [List.getD_cons_zero, List.drop_succ_cons, List.drop_zero, hnc, if_false,
      show ¬ (22 * 2 + 2 + 1 < 1) by norm_num,
      show ¬ (22 * 2 + 2 + 1 - 1 ≥ 22 * 4 + 4 ∧ four_op_partner (c : Int) ≥ 0) by norm_num,
      show 22 * 2 + 2 + 1 - 1 = 22 * 2 + 2 by norm_num, hloop]
    simp only [show (2 : Nat) ≥ 2 by norm_num, if_true, show ¬ ((2 : Nat) = 4) by norm_num,
      false_and, if_false, DirectMode.nibbles, List.cons_append, List.nil_append,
      List.getD_cons_zero, List.getD_cons_succ, nibble_roundtrip _ (hb _)]
    exact modify_back_regs _ _ _ _ hs2 (hbytes _) rfl
  · -- four operators
    have hpartner := dump_is_four_op_partner d c hfour
    have hmsg : (DirectMode.dump_message d c).drop 4 = c ::
        ((List.range' 0 4).flatMap (DirectMode.dump_operator d c) ++
          (DirectMode.nibbles (d.state_.read ((kChannelToOPL3 c).port_base |||
            (kRegFeedbackConn + (kChannelToOPL3 c).opl_ch))) ++
           (DirectMode.nibbles (d.state_.read
              ((kChannelToOPL3 (four_op_partner c).toNat).port_base |||
              (kRegFeedbackConn + (kChannelToOPL3 (four_op_partner c).toNat).opl_ch))) ++
            [0xF7]))) := by
      simp [DirectMode.dump_message, hfour, List.range_eq_range']
    have hlen : (DirectMode.dump_message d c).length - 5 = 22 * 4 + 4 + 1 := by
      simp only [DirectMode.dump_message, hfour, List.length_append, dump_operators_length,
        DirectMode.nibbles, List.length_cons, List.length_nil]
      rfl
    obtain ⟨s2, hloop, hs2⟩ := patch_load_loop_dump d c hbytes
      (DirectMode.nibbles (d.state_.read ((kChannelToOPL3 c).port_base |||
            (kRegFeedbackConn + (kChannelToOPL3 c).opl_ch))) ++
           (DirectMode.nibbles (d.state_.read
              ((kChannelToOPL3 (four_op_partner c).toNat).port_base |||
              (kRegFeedbackConn + (kChannelToOPL3 (four_op_partner c).toNat).opl_ch))) ++
            [0xF7])) 4 4 0 d1.state_ h1
    rw [hmsg, hlen]
    unfold DirectMode.sysex_patch_load
    simp only [List.getD_cons_zero, List.drop_succ_cons, List.drop_zero, hnc, if_false,
      show ¬ (22 * 4 + 4 + 1 < 1) by norm_num,
      show (22 * 4 + 4 + 1 - 1 ≥ 22 * 4 + 4) by norm_num, hpartner, and_self, if_true,
      show 22 * 4 + 4 + 1 - 1 = 22 * 4 + 4 by norm_num, hloop]
    simp only [show (4 : Nat) ≥ 2 by norm_num, show (4 : Nat) - 2 ≥ 2 by norm_num, if_true,
      and_self, DirectMode.nibbles, List.cons_append, List.nil_append,
      List.getD_cons_zero, List.getD_cons_succ, List.drop_succ_cons, List.drop_zero,
      nibble_roundtrip _ (hb _)]
    apply modify_back_regs _ _ _ _ _ (hbytes _) rfl
    exact modify_back_regs _ _ _ _ hs2 (hbytes _) rfl

/-- The frame of a dump: four header bytes with command `0x11`, the channel, a body, `0xF7`. -/
theorem dump_message_frame (d : DirectMode) (c : Nat) :
    ∃ body, DirectMode.dump_message d c
      = 0xF0 :: 0x7D :: d.device_id_ :: 0x11 :: c :: (body ++ [0xF7]) := by
  refine ⟨(List.range (if DirectMode.dump_is_four_op d c then 4 else 2)).flatMap
      (DirectMode.dump_operator d c) ++
    DirectMode.nibbles (d.state_.read ((kChannelToOPL3 c).port_base |||
      (kRegFeedbackConn + (kChannelToOPL3 c).opl_ch))) ++
    (if DirectMode.dump_is_four_op d c then
      DirectMode.nibbles (d.state_.read ((kChannelToOPL3 (four_op_partner c).toNat).port_base |||
        (kRegFeedbackConn + (kChannelToOPL3 (four_op_partner c).toNat).opl_ch)))
     else []), ?_⟩
  simp [DirectMode.dump_message, kSysExManufID, kSysExPatchLoad]

/-- A well-framed SysEx message with command `0x11` is dispatched to the patch loader. -/
theorem process_patch_load (fp : FloatOps) (d : DirectMode) (data : List Nat)
    (hlen : 5 ≤ data.length) (h0 : data.getD 0 0 = 0xF0)
    (hl : data.getD (data.length - 1) 0 = 0xF7) (h1 : data.getD 1 0 = 0x7D)
    (h2 : data.getD 2 0 = d.device_id_ ∨ data.getD 2 0 = 0x7F ∨ d.device_id_ = 0x7F)
    (h3 : data.getD 3 0 = 0x11) :
    d.process_midi fp data
      = DirectMode.sysex_patch_load d (data.drop 4) (data.length - 5) := by
  have hne : ¬ data.length = 0 := by omega
  have hlt : ¬ data.length < 5 := by omega
  have hdev : ¬ (data.getD 2 0 ≠ d.device_id_ ∧ data.getD 2 0 ≠ 0x7F ∧ d.device_id_ ≠ 0x7F) := by
    rintro ⟨a, b, c⟩
    rcases h2 with h | h | h
    · exact a h
    · exact b h
    · exact c h
  unfold DirectMode.process_midi DirectMode.handle_sysex
  simp only [hne, hlt, h0, hl, h1, h3, hdev, if_true, if_false, ne_eq, not_true_eq_false,
    or_self, kSysExManufID, kSysExRegWrite7, kSysExBatchWrite7, kSysExRegWrite8,
    kSysExBatchWrite8, kSysExPatchDump, kSysExPatchLoad]
  simp

/-- A dump response is dispatched to the patch loader. -/
theorem process_dump_message (fp : FloatOps) (d d1 : DirectMode) (c : Nat)
    (hdev : d1.device_id_ = d.device_id_) :
    d1.process_midi fp (DirectMode.dump_message d c)
      = DirectMode.sysex_patch_load d1 ((DirectMode.dump_message d c).drop 4)
          ((DirectMode.dump_message d c).length - 5) := by
  obtain ⟨body, hbody⟩ := dump_message_frame d c
  have hlast : (0xF0 :: 0x7D :: d.device_id_ :: 0x11 :: c :: (body ++ [0xF7])).getD
      ((0xF0 :: 0x7D :: d.device_id_ :: 0x11 :: c :: (body ++ [0xF7])).length - 1) 0 = 0xF7 := by
    simp only [List.length_cons, List.length_append, List.length_nil]
    have h : body.length + (0 + 1) + 1 + 1 + 1 + 1 + 1 - 1 = (body.length + 4) + 1 := by omega
    rw [h]
    simp only [List.getD_cons_succ]
    rw [List.getD_append_right _ _ _ _ (Nat.le_refl _)]
    simp
  rw [hbody]
  exact process_patch_load fp d1 (0xF0 :: 0x7D :: d.device_id_ :: 0x11 :: c :: (body ++ [0xF7]))
    (by simp) rfl hlast rfl (Or.inl hdev.symm) rfl

theorem process_dump_request (fp : FloatOps) (d : DirectMode) (c : Nat) (hc : c < 18) :
    d.process_midi fp [0xF0, 0x7D, 0x7F, 0x10, c, 0xF7]
      = if d.midi_output_ then { d with sent_ := d.sent_ ++ [DirectMode.dump_message d c] }
        else d := by
  have hnc : ¬ c ≥ 18 := by omega
  unfold DirectMode.process_midi DirectMode.handle_sysex
  simp [kSysExManufID, kSysExRegWrite7, kSysExBatchWrite7, kSysExRegWrite8, kSysExBatchWrite8,
    kSysExPatchDump, DirectMode.sysex_patch_dump, hnc]
  cases d.midi_output_ <;> simp

/-- Claim C7. For every shadow state (a mirror of bytes) and every channel
`c < 18`: processing a patch-dump request (SysEx `0x10`, `c`) leaves the shadow
state as it is and, when the output callback is set, emits exactly one
response frame; and if the response frame emitted is then processed as input,
every shadow register holds the same value as before the two steps, for 2-op
and 4-op responses alike. -/
theorem patch_dump_load_noop (fp : FloatOps) (d : DirectMode) (c : Nat) (hc : c < 18)
    (hbytes : ∀ i, d.state_.regs_ i < 256) :
    (d.process_midi fp [0xF0, 0x7D, 0x7F, 0x10, c, 0xF7]).state_ = d.state_ ∧
    (d.midi_output_ = true →
      (d.process_midi fp [0xF0, 0x7D, 0x7F, 0x10, c, 0xF7]).sent_
        = d.sent_ ++ [DirectMode.dump_message d c]) ∧
    (∀ msg, (d.process_midi fp [0xF0, 0x7D, 0x7F, 0x10, c, 0xF7]).sent_ = d.sent_ ++ [msg] →
      ((d.process_midi fp [0xF0, 0x7D, 0x7F, 0x10, c, 0xF7]).process_midi fp msg).state_.regs_
        = d.state_.regs_) := by
  have hreq := process_dump_request fp d c hc
  generalize d.process_midi fp [0xF0, 0x7D, 0x7F, 0x10, c, 0xF7] = d1 at hreq ⊢
  have hstate : d1.state_ = d.state_ := by rw [hreq]; split <;> rfl
  have hdev : d1.device_id_ = d.device_id_ := by rw [hreq]; split <;> rfl
  have hsent : d1.sent_ = if d.midi_output_ then d.sent_ ++ [DirectMode.dump_message d c]
      else d.sent_ := by rw [hreq]; split <;> rfl
  refine ⟨hstate, fun hout => by rw [hsent, if_pos hout], ?_⟩
  intro msg hmsg
  rw [hsent] at hmsg
  by_cases hout : d.midi_output_ = true
  · rw [if_pos hout] at hmsg
    have hm : msg = DirectMode.dump_message d c := by
      have := List.append_cancel_left hmsg
      simpa using this.symm
    rw [hm, process_dump_message fp d d1 c hdev]
    exact patch_load_of_dump d d1 c hc hbytes (by rw [hstate])
  · rw [if_neg hout] at hmsg
    have := congrArg List.length hmsg
    simp at this

/-- Claim C7, witness. Channel 0 of a Direct Mode after `init`, with the
output callback set: the mirror holds bytes. -/
theorem patch_dump_load_noop_witness :
    ((0 : Nat) < 18 ∧ ∀ i, (DirectMode.create OPL3State.fresh 0x7F).set_midi_output.state_.regs_ i < 256) ∧
    ∀ msg, ((DirectMode.create OPL3State.fresh 0x7F).set_midi_output.process_midi FloatOps.exact
          [0xF0, 0x7D, 0x7F, 0x10, 0, 0xF7]).sent_
        = (DirectMode.create OPL3State.fresh 0x7F).set_midi_output.sent_ ++ [msg] →
      (((DirectMode.create OPL3State.fresh 0x7F).set_midi_output.process_midi FloatOps.exact
          [0xF0, 0x7D, 0x7F, 0x10, 0, 0xF7]).process_midi FloatOps.exact msg).state_.regs_
        = (DirectMode.create OPL3State.fresh 0x7F).set_midi_output.state_.regs_ :=
  ⟨⟨by decide, fun _ => (by decide : (0 : Nat) < 256)⟩,
   (patch_dump_load_noop FloatOps.exact (DirectMode.create OPL3State.fresh 0x7F).set_midi_output 0
      (by decide) (fun _ => (by decide : (0 : Nat) < 256))).2.2⟩

/-! ## Voice Allocator: proofs -/

set_option maxRecDepth 100000 in
/-- Claim C5, the code at the failing input. After the voice-config messages
`F0 7D 7F 30 00 02 03 03 01 0A 00 F7` (MIDI channel 0, OPL3 channels 3, 3) and
`F0 7D 7F 30 01 01 03 01 0A 00 F7` (MIDI channel 1, OPL3 channel 3), OPL3
channel 3 is in the pool of MIDI channel 0 and in the pool of MIDI channel 1. -/
theorem voice_config_shared_channel :
    (VoiceAllocator.run_midi FloatOps.exact (VoiceAllocator.fresh 0x7F)
      [[0xF0, 0x7D, 0x7F, 0x30, 0x00, 0x02, 0x03, 0x03, 0x01, 0x0A, 0x00, 0xF7],
       [0xF0, 0x7D, 0x7F, 0x30, 0x01, 0x01, 0x03, 0x01, 0x0A, 0x00, 0xF7]]).map
      (fun va => (va.pool 0, va.pool 1)) = some ([3], [3]) := by
  decide


/-! ### Key-on bits and voice slots -/

theorem key_on_eq (s : OPL3State) (c : Nat) :
    key_on s c = ((s.read (b0_addr c) &&& 0x20) != 0) := rfl

theorem KeyFrame.refl (s : OPL3State) : KeyFrame s s := fun _ _ => rfl

theorem KeyFrame.trans {s t u : OPL3State} (h1 : KeyFrame s t) (h2 : KeyFrame t u) :
    KeyFrame s u := fun c hc => (h2 c hc).trans (h1 c hc)

theorem KeyFrame.key_on {s t : OPL3State} (h : KeyFrame s t) (c : Nat) (hc : c < 18) :
    key_on t c = key_on s c := by
  rw [key_on_eq, key_on_eq, h c hc]

set_option maxRecDepth 100000 in
theorem b0_index_inj : ∀ c, c < 18 → ∀ c2, c2 < 18 →
    reg_index (b0_addr c) = reg_index (b0_addr c2) → c = c2 := by
  decide

set_option maxRecDepth 100000 in
theorem a0_not_b0 : ∀ m, m < 18 → ∀ c, c < 18 →
    reg_index ((kChannelToOPL3 m).port_base ||| (kRegFNumLow + (kChannelToOPL3 m).opl_ch))
      ≠ reg_index (b0_addr c) := by
  decide

set_option maxRecDepth 100000 in
theorem c0_not_b0 : ∀ m, m < 18 → ∀ l, l < 9 → ∀ c, c < 18 →
    reg_index ((kChannelToOPL3 m).port_base ||| (kRegFeedbackConn + l)) ≠ reg_index (b0_addr c) := by
  decide

set_option maxRecDepth 100000 in
theorem op_not_b0 : ∀ m, m < 18 → ∀ K ∈ [kRegAMVibEGKSMult, kRegKSLTL, kRegAR_DR, kRegSL_RR,
      kRegWaveform], ∀ l, l < 9 → ∀ op, op < 2 → ∀ c, c < 18 →
    reg_index ((kChannelToOPL3 m).port_base ||| (K + kOperatorOffset l op))
      ≠ reg_index (b0_addr c) := by
  decide

set_option maxRecDepth 100000 in
theorem global_not_b0 : ∀ c, c < 18 →
    reg_index kReg4OpEnable ≠ reg_index (b0_addr c) ∧ reg_index kRegBD ≠ reg_index (b0_addr c) := by
  decide

theorem opl_ch_lt : ∀ m, m < 18 → (kChannelToOPL3 m).opl_ch < 9 := by
  decide

theorem KeyFrame.write {s : OPL3State} {a : Nat} (v : Nat)
    (ha : ∀ c, c < 18 → reg_index a ≠ reg_index (b0_addr c)) : KeyFrame s (s.write a v) :=
  fun c hc => read_write_of_index_ne s a (b0_addr c) v (fun h => ha c hc h.symm)

theorem KeyFrame.modify_bits {s : OPL3State} {a : Nat} (m v : Nat)
    (ha : ∀ c, c < 18 → reg_index a ≠ reg_index (b0_addr c)) : KeyFrame s (s.modify_bits a m v) :=
  KeyFrame.write _ ha


/-- The byte that `modify_bits(addr, 0x20, 0)` writes has bit 5 clear. -/
theorem modify_value_key_off (cur : Nat) : OPL3State.modify_value cur 0x20 0x00 &&& 0x20 = 0 := by
  have h := modify_value_and_mask cur 0x20 0x00 (by norm_num)
  rw [h]; rfl

theorem read_b0_write_b0 (s : OPL3State) (m c v : Nat) (hm : m < 18) (hc : c < 18) :
    (s.write (b0_addr m) v).read (b0_addr c) = if c = m then v else s.read (b0_addr c) := by
  rw [read_write]
  by_cases h : c = m
  · subst h; simp
  · have : reg_index (b0_addr c) ≠ reg_index (b0_addr m) := fun e => h (b0_index_inj c hc m hm e)
    simp [h, this]

/-- The key-off write `modify_bits(B0+m, 0x20, 0)`: key-on of channel `m` is
clear afterwards, the other `B0` registers are as before. -/
theorem key_off_write (s : OPL3State) (m : Nat) (hm : m < 18) :
    key_on (s.modify_bits (b0_addr m) 0x20 0x00) m = false ∧
    ∀ c, c < 18 → c ≠ m → key_on (s.modify_bits (b0_addr m) 0x20 0x00) c = key_on s c := by
  constructor
  · rw [key_on_eq, modify_bits_eq, read_b0_write_b0 s m m _ hm hm, if_pos rfl,
      modify_value_key_off]
    rfl
  · intro c hc hne
    rw [key_on_eq, key_on_eq, modify_bits_eq, read_b0_write_b0 s m c _ hm hc, if_neg hne]

/-- The effect of `write_freq` on the `B0` registers. -/
theorem write_freq_b0 (d : DirectMode) (m f b : Nat) (k : Bool) (hm : m < 18) (c : Nat)
    (hc : c < 18) :
    (d.write_freq m f b k).state_.read (b0_addr c)
      = if c = m then
          (((f >>> 8) &&& 0x03) ||| ((b &&& 0x07) <<< 2) ||| (if k then 0x20 else 0x00)) % 256
        else d.state_.read (b0_addr c) := by
  rw [write_freq_state]
  show (OPL3State.write _ (b0_addr m) _).read (b0_addr c) = _
  rw [read_b0_write_b0 _ m c _ hm hc]
  by_cases h : c = m
  · simp [h]
  · simp only [h, if_false]
    exact read_write_of_index_ne _ _ _ _ (fun e => a0_not_b0 m hm c hc e.symm)

set_option maxRecDepth 100000 in
theorem b0_bit5 : ∀ x, x < 64 → ∀ k : Bool,
    (((x ||| (if k then 0x20 else 0x00)) % 256 &&& 0x20) != 0) = (k || ((x &&& 0x20) != 0)) := by
  decide

theorem freq_bits_lt (f b : Nat) : ((f >>> 8) &&& 0x03) ||| ((b &&& 0x07) <<< 2) < 32 := by
  have h1 : (f >>> 8) &&& 0x03 < 2 ^ 5 := by rw [and_03]; omega
  have h2 : (b &&& 0x07) <<< 2 < 2 ^ 5 := by rw [and_07, Nat.shiftLeft_eq]; omega
  exact Nat.or_lt_two_pow h1 h2

set_option maxRecDepth 100000 in
theorem lt_32_bit5 : ∀ x, x < 32 → (x &&& 0x20 != 0) = false := by
  decide

/-- After `write_freq`, key-on of the channel is the flag passed, the other
key-on bits are as before. -/
theorem write_freq_key_on (d : DirectMode) (m f b : Nat) (k : Bool) (hm : m < 18) :
    key_on (d.write_freq m f b k).state_ m = k ∧
    ∀ c, c < 18 → c ≠ m → key_on (d.write_freq m f b k).state_ c = key_on d.state_ c := by
  constructor
  · rw [key_on_eq, write_freq_b0 d m f b k hm m hm, if_pos rfl]
    have hlt := freq_bits_lt f b
    rw [b0_bit5 _ (by omega) k, lt_32_bit5 _ hlt]
    simp
  · intro c hc hne
    rw [key_on_eq, key_on_eq, write_freq_b0 d m f b k hm c hc, if_neg hne]

theorem release_of_silent (d : DirectMode) (m : Nat)
    (hcur : (d.channels_ m).current_note < 0) : d.release_note_on_channel m = d := by
  unfold DirectMode.release_note_on_channel
  simp [hcur]

theorem release_of_sounding (d : DirectMode) (m : Nat) (hm : m < 18)
    (hcur : ¬ (d.channels_ m).current_note < 0) :
    d.release_note_on_channel m
      = DirectMode.set_channel
          { d with state_ := d.state_.modify_bits (b0_addr m) 0x20 0x00 } m
          { d.channels_ m with current_note := -1, sustained_note := false } := by
  have hn : ¬ m ≥ 18 := by omega
  unfold DirectMode.release_note_on_channel
  simp only [hn, hcur, if_false]
  rfl

/-- The effect of `release_note_on_channel` on channel `m`. -/
theorem release_effect (d : DirectMode) (m : Nat) (hm : m < 18) :
    Untouched d (d.release_note_on_channel m) m ∧
    ((d.release_note_on_channel m).channels_ m).current_note < 0 ∧
    ((d.release_note_on_channel m).channels_ m).sustained_note
      = (if (d.channels_ m).current_note < 0 then (d.channels_ m).sustained_note else false) ∧
    (key_on (d.release_note_on_channel m).state_ m
      = if (d.channels_ m).current_note < 0 then key_on d.state_ m else false) := by
  by_cases hcur : (d.channels_ m).current_note < 0
  · rw [release_of_silent d m hcur, if_pos hcur, if_pos hcur]
    exact ⟨⟨fun _ _ _ => rfl, fun _ _ => rfl⟩, hcur, rfl, rfl⟩
  · rw [release_of_sounding d m hm hcur, if_neg hcur, if_neg hcur]
    obtain ⟨hoff, hothers⟩ := key_off_write d.state_ m hm
    refine ⟨⟨fun c hc hne => hothers c hc hne, fun c hne => ?_⟩, ?_, ?_, hoff⟩
    · simp [DirectMode.set_channel, hne]
    · simp [DirectMode.set_channel]
    · simp [DirectMode.set_channel]

theorem toInt8_of_le (n : Nat) (hn : n ≤ 127) : toInt8 n = (n : Int) := by
  unfold toInt8
  have h : n % 256 = n := Nat.mod_eq_of_lt (by omega)
  rw [h, if_pos (by omega)]

theorem carrier_keyframe (s : OPL3State) (m op mask v : Nat) (hm : m < 18) (hop : op < 2) :
    KeyFrame s (s.modify_bits ((kChannelToOPL3 m).port_base |||
      (kRegKSLTL + kOperatorOffset (kChannelToOPL3 m).opl_ch op)) mask v) :=
  KeyFrame.modify_bits _ _ (fun c hc =>
    op_not_b0 m hm kRegKSLTL (by simp) _ (opl_ch_lt m hm) op hop c hc)

/-- The effect of `play_note_on_channel` on channel `m`, for a note byte of at most 127. -/
theorem play_effect (fp : FloatOps) (d : DirectMode) (m n vel : Nat) (hm : m < 18)
    (hn : n ≤ 127) :
    Untouched d (d.play_note_on_channel fp m n vel) m ∧
    ((d.play_note_on_channel fp m n vel).channels_ m).current_note = (n : Int) ∧
    ((d.play_note_on_channel fp m n vel).channels_ m).sustained_note = false ∧
    key_on (d.play_note_on_channel fp m n vel).state_ m = true := by
  have hnot : ¬ m ≥ 18 := by omega
  unfold DirectMode.play_note_on_channel
  simp only [hnot, if_false]
  generalize hd0 : (if (d.channels_ m).current_note ≥ 0 then d.write_freq m 0 0 false else d) = d0
  have hch0 : d0.channels_ = d.channels_ := by
    rw [← hd0]; split <;> rfl
  have hkey0 : ∀ c, c < 18 → c ≠ m → key_on d0.state_ c = key_on d.state_ c := by
    intro c hc hne
    rw [← hd0]
    split
    · exact (write_freq_key_on d m 0 0 false hm).2 c hc hne
    · rfl
  refine ⟨⟨?_, ?_⟩, ?_, ?_, ?_⟩
  · intro c hc hne
    rw [(write_freq_key_on _ m _ _ true hm).2 c hc hne]
    show key_on (OPL3State.modify_bits _ _ _ _) c = _
    rw [(carrier_keyframe _ m 1 _ _ hm (by norm_num)).key_on c hc]
    exact hkey0 c hc hne
  · intro c hne
    simp [write_freq_channels, DirectMode.set_channel, hne, hch0]
  · simp [write_freq_channels, DirectMode.set_channel, toInt8_of_le n hn]
  · simp [write_freq_channels, DirectMode.set_channel]
  · exact (write_freq_key_on _ m _ _ true hm).1

/-- The effect of `bend_channel`: every key-on bit and every channel state is as before. -/
theorem bend_effect (d : DirectMode) (m f b : Nat) (hm : m < 18) :
    (∀ c, c < 18 → key_on (d.bend_channel m f b).state_ c = key_on d.state_ c) ∧
    (d.bend_channel m f b).channels_ = d.channels_ := by
  have hnot : ¬ m ≥ 18 := by omega
  unfold DirectMode.bend_channel
  simp only [hnot, if_false]
  refine ⟨fun c hc => ?_, rfl⟩
  by_cases hcm : c = m
  · subst hcm
    rw [(write_freq_key_on d c f b _ hm).1]
    rfl
  · exact (write_freq_key_on d m f b _ hm).2 c hc hcm

/-- The notes that Direct Mode records: two states with the same `current_note` and
`sustained_note` on every channel. -/
theorem set_channel_notes (d : DirectMode) (m : Nat) (cs : ChannelState)
    (h1 : cs.current_note = (d.channels_ m).current_note)
    (h2 : cs.sustained_note = (d.channels_ m).sustained_note) (c : Nat) :
    ((d.set_channel m cs).channels_ c).current_note = (d.channels_ c).current_note ∧
    ((d.set_channel m cs).channels_ c).sustained_note = (d.channels_ c).sustained_note := by
  by_cases h : c = m
  · subst h; simp [DirectMode.set_channel, h1, h2]
  · simp [DirectMode.set_channel, h]

theorem update_modulator_level_effect (fp : FloatOps) (d : DirectMode) (m : Nat) :
    KeyFrame d.state_ (DirectMode.update_modulator_level fp d m).state_ ∧
    (DirectMode.update_modulator_level fp d m).channels_ = d.channels_ := by
  unfold DirectMode.update_modulator_level
  by_cases hm : m ≥ 18
  · rw [if_pos hm]; exact ⟨KeyFrame.refl _, rfl⟩
  · rw [if_neg hm]
    exact ⟨carrier_keyframe _ m 0 _ _ (by omega) (by norm_num), rfl⟩

theorem update_carrier_level_effect (fp : FloatOps) (d : DirectMode) (m : Nat) :
    KeyFrame d.state_ (DirectMode.update_carrier_level fp d m).state_ ∧
    (DirectMode.update_carrier_level fp d m).channels_ = d.channels_ := by
  unfold DirectMode.update_carrier_level
  by_cases hm : m ≥ 18
  · rw [if_pos hm]; exact ⟨KeyFrame.refl _, rfl⟩
  · rw [if_neg hm]
    exact ⟨carrier_keyframe _ m 1 _ _ (by omega) (by norm_num), rfl⟩

/-- The effect of `apply_cc_to_channel` for a controller other than 120 and 123, on a
channel that Direct Mode does not hold by its own sustain flag: the `B0`
registers and the notes recorded are as before. -/
theorem apply_cc_effect (fp : FloatOps) (d : DirectMode) (m cc val : Nat)
    (hcc : cc ≠ 120 ∧ cc ≠ 123) (hsus : (d.channels_ m).sustained_note = false) :
    KeyFrame d.state_ (d.apply_cc_to_channel fp m cc val).state_ ∧
    ∀ c, ((d.apply_cc_to_channel fp m cc val).channels_ c).current_note
          = (d.channels_ c).current_note ∧
         ((d.apply_cc_to_channel fp m cc val).channels_ c).sustained_note
          = (d.channels_ c).sustained_note := by
  unfold DirectMode.apply_cc_to_channel
  by_cases hm : m ≥ 18
  · rw [if_pos hm]; exact ⟨KeyFrame.refl _, fun _ => ⟨rfl, rfl⟩⟩
  · rw [if_neg hm]
    have hm18 : m < 18 := by omega
    split
    · -- CC1
      obtain ⟨h1, h2⟩ := update_modulator_level_effect fp
        (d.set_channel m { d.channels_ m with mod_wheel := val }) m
      refine ⟨h1, fun c => ?_⟩
      unfold DirectMode.cc_mod_wheel
      rw [h2]
      exact set_channel_notes d m _ (by rfl) (by rfl) c
    · -- CC7
      obtain ⟨h1, h2⟩ := update_carrier_level_effect fp
        (d.set_channel m { d.channels_ m with volume := val }) m
      refine ⟨h1, fun c => ?_⟩
      unfold DirectMode.cc_volume
      rw [h2]
      exact set_channel_notes d m _ (by rfl) (by rfl) c
    · -- CC10
      unfold DirectMode.cc_pan
      refine ⟨?_, fun c => set_channel_notes d m _ (by rfl) (by rfl) c⟩
      exact KeyFrame.modify_bits _ _ (fun c hc => c0_not_b0 m hm18 _ (opl_ch_lt m hm18) c hc)
    · -- CC11
      obtain ⟨h1, h2⟩ := update_carrier_level_effect fp
        (d.set_channel m { d.channels_ m with expression := val }) m
      refine ⟨h1, fun c => ?_⟩
      unfold DirectMode.cc_expression
      rw [h2]
      exact set_channel_notes d m _ (by rfl) (by rfl) c
    · -- CC64
      have hs : DirectMode.cc_sustain d m val
          = d.set_channel m { d.channels_ m with sustain := decide (val ≥ 64) } := by
        unfold DirectMode.cc_sustain
        simp [hsus]
      rw [hs]
      exact ⟨KeyFrame.refl _, fun c => set_channel_notes d m _ (by rfl) (by rfl) c⟩
    · -- CC74
      obtain ⟨h1, h2⟩ := update_modulator_level_effect fp
        (d.set_channel m { d.channels_ m with brightness := val }) m
      refine ⟨h1, fun c => ?_⟩
      unfold DirectMode.cc_brightness
      rw [h2]
      exact set_channel_notes d m _ (by rfl) (by rfl) c
    · exact absurd rfl hcc.1
    · exact absurd rfl hcc.2
    · exact ⟨KeyFrame.refl _, fun _ => ⟨rfl, rfl⟩⟩

set_option maxRecDepth 100000 in
theorem nrpn_op_not_b0 : ∀ m, m < 18 → ∀ op_idx, op_idx < 4 →
    ∀ K ∈ [kRegAMVibEGKSMult, kRegKSLTL, kRegAR_DR, kRegSL_RR, kRegWaveform], ∀ c, c < 18 →
    ∀ off ∈ DirectMode.nrpn_op_off (kChannelToOPL3 m).opl_ch op_idx,
      reg_index ((kChannelToOPL3 m).port_base ||| (K + off)) ≠ reg_index (b0_addr c) := by
  decide

theorem nrpn_operator_effect (d : DirectMode) (m op_idx param val : Nat) (hop : op_idx ≤ 3) :
    KeyFrame d.state_ (DirectMode.nrpn_operator d m op_idx param val).state_ ∧
    (DirectMode.nrpn_operator d m op_idx param val).channels_ = d.channels_ := by
  unfold DirectMode.nrpn_operator
  by_cases hm : m ≥ 18
  · rw [if_pos hm]; exact ⟨KeyFrame.refl _, rfl⟩
  · rw [if_neg hm]
    have hm18 : m < 18 := by omega
    dsimp only
    cases hoff : DirectMode.nrpn_op_off (kChannelToOPL3 m).opl_ch op_idx with
    | none => exact ⟨KeyFrame.refl _, rfl⟩
    | some off =>
      have hK : ∀ K ∈ [kRegAMVibEGKSMult, kRegKSLTL, kRegAR_DR, kRegSL_RR, kRegWaveform],
          ∀ mask v, KeyFrame d.state_
            (d.state_.modify_bits ((kChannelToOPL3 m).port_base ||| (K + off)) mask v) :=
        fun K hKm mask v => KeyFrame.modify_bits _ _ (fun c hc =>
          nrpn_op_not_b0 m hm18 op_idx (by omega) K hKm c hc off (by rw [hoff]; rfl))
      refine ⟨?_, rfl⟩
      show KeyFrame d.state_ (match param with
        | 0 => _ | 1 => _ | 2 => _ | 3 => _ | 4 => _ | 5 => _ | 6 => _ | 7 => _
        | 8 => _ | 9 => _ | 10 => _ | 11 => _ | _ => _)
      split
      · exact hK kRegAR_DR (by simp) _ _
      · exact hK kRegAR_DR (by simp) _ _
      · exact hK kRegSL_RR (by simp) _ _
      · exact hK kRegSL_RR (by simp) _ _
      · exact hK kRegWaveform (by simp) _ _
      · exact hK kRegAMVibEGKSMult (by simp) _ _
      · exact hK kRegKSLTL (by simp) _ _
      · exact hK kRegKSLTL (by simp) _ _
      · exact hK kRegAMVibEGKSMult (by simp) _ _
      · exact hK kRegAMVibEGKSMult (by simp) _ _
      · exact hK kRegAMVibEGKSMult (by simp) _ _
      · exact hK kRegAMVibEGKSMult (by simp) _ _
      · exact KeyFrame.refl _

theorem find_pair_lt (l : Nat) : ∀ p ∈ kFourOpPairs.find? (fun p => p.1 == l), p.2 < 9 := by
  intro p hp
  have hmem := List.mem_of_find?_eq_some hp
  have hall : ∀ q ∈ kFourOpPairs, q.2 < 9 := by decide
  exact hall p hmem

theorem nrpn_channel_effect (d : DirectMode) (m param val : Nat) :
    KeyFrame d.state_ (DirectMode.nrpn_channel d m param val).state_ ∧
    (DirectMode.nrpn_channel d m param val).channels_ = d.channels_ := by
  unfold DirectMode.nrpn_channel
  by_cases hm : m ≥ 18
  · rw [if_pos hm]; exact ⟨KeyFrame.refl _, rfl⟩
  · rw [if_neg hm]
    have hm18 : m < 18 := by omega
    dsimp only
    have hC : ∀ l, l < 9 → ∀ mask v, KeyFrame d.state_
        (d.state_.modify_bits ((kChannelToOPL3 m).port_base ||| (kRegFeedbackConn + l)) mask v) :=
      fun l hl mask v => KeyFrame.modify_bits _ _ (fun c hc => c0_not_b0 m hm18 l hl c hc)
    refine ⟨?_, rfl⟩
    show KeyFrame d.state_ (match param with
      | 0 => _ | 1 => _ | 2 => _ | 3 => _ | 4 => _ | 5 => _ | _ => _)
    split
    · exact hC _ (opl_ch_lt m hm18) _ _
    · exact hC _ (opl_ch_lt m hm18) _ _
    · exact hC _ (opl_ch_lt m hm18) _ _
    · exact hC _ (opl_ch_lt m hm18) _ _
    · split
      · exact KeyFrame.modify_bits _ _ (fun c hc => (global_not_b0 c hc).1)
      · exact KeyFrame.refl _
    · split
      · rename_i p hp
        exact hC _ (find_pair_lt _ p (by rw [hp]; rfl)) _ _
      · exact KeyFrame.refl _
    · exact KeyFrame.refl _

theorem nrpn_global_effect (d : DirectMode) (param val : Nat) :
    KeyFrame d.state_ (DirectMode.nrpn_global d param val).state_ ∧
    (DirectMode.nrpn_global d param val).channels_ = d.channels_ := by
  unfold DirectMode.nrpn_global
  dsimp only
  have hB : ∀ mask v, KeyFrame d.state_ (d.state_.modify_bits kRegBD mask v) :=
    fun mask v => KeyFrame.modify_bits _ _ (fun c hc => (global_not_b0 c hc).2)
  refine ⟨?_, rfl⟩
  show KeyFrame d.state_ (match param with | 0 => _ | 1 => _ | 2 => _ | _ => _)
  split
  · exact hB _ _
  · exact hB _ _
  · exact hB _ _
  · exact KeyFrame.refl _

/-- The effect of `direct_nrpn`: the `B0` registers and the channel states are as before. -/
theorem direct_nrpn_effect (d : DirectMode) (m msb lsb val : Nat) :
    KeyFrame d.state_ (d.direct_nrpn m msb lsb val).state_ ∧
    (d.direct_nrpn m msb lsb val).channels_ = d.channels_ := by
  unfold DirectMode.direct_nrpn DirectMode.nrpn_apply
  by_cases hm : m ≥ 18
  · rw [if_pos hm]; exact ⟨KeyFrame.refl _, rfl⟩
  · rw [if_neg hm]
    by_cases h3 : msb ≤ 3
    · rw [if_pos h3]; exact nrpn_operator_effect d m msb lsb val h3
    · rw [if_neg h3]
      by_cases h4 : msb = 4
      · rw [if_pos h4]; exact nrpn_channel_effect d m lsb val
      · rw [if_neg h4]
        by_cases h5 : msb = 5
        · rw [if_pos h5]; exact nrpn_global_effect d lsb val
        · rw [if_neg h5]; exact ⟨KeyFrame.refl _, rfl⟩


/-! ### The voice-slot invariant under the default mapping -/

/-- A step that changes Direct Mode at most on channel `m` and the allocator at most
on MIDI channel `m`, and leaves channel `m` in the state `ChanOK`, keeps the
invariant. -/
theorem PlainInv.update {va : VoiceAllocator} (hinv : PlainInv va) (m : Nat)
    (d2 : DirectMode) (mcs2 : MidiChannelState) (hU : Untouched va.dm_ d2 m)
    (hs : (d2.channels_ m).sustained_note = false) (hok : ChanOK d2 mcs2 m)
    {va2 : VoiceAllocator} (hp : va2.perc_mode_ = false) (hd : va2.dm_ = d2)
    (hmc : ∀ i, va2.midi_channels_ i = if i = m then mcs2 else va.midi_channels_ i) :
    PlainInv va2 := by
  obtain ⟨_, hch, hsus⟩ := hinv
  refine ⟨hp, fun i hi => ?_, fun c => ?_⟩
  · rw [hmc i, hd]
    by_cases him : i = m
    · rw [if_pos him, him]; exact hok
    · rw [if_neg him]
      obtain ⟨h1, h2, v, hv, hk, hn⟩ := hch i hi
      refine ⟨h1, h2, v, hv, ?_, ?_⟩
      · rw [hU.1 i (by omega) him]; exact hk
      · rw [hU.2 i him]; exact hn
  · rw [hd]
    by_cases hcm : c = m
    · rw [hcm]; exact hs
    · rw [hU.2 c hcm]; exact hsus c

/-- A step that leaves every `B0` register and every recorded note as it is, and changes the
allocator at most in fields of MIDI channel `m` other than its pool, its
unison count and its voices, keeps the invariant. -/
theorem PlainInv.frame {va : VoiceAllocator} (hinv : PlainInv va) (m : Nat)
    (d2 : DirectMode) (mcs2 : MidiChannelState) (hK : KeyFrame va.dm_.state_ d2.state_)
    (hN : ∀ c, (d2.channels_ c).current_note = (va.dm_.channels_ c).current_note ∧
      (d2.channels_ c).sustained_note = (va.dm_.channels_ c).sustained_note)
    (hcfg : mcs2.config.opl3_channels = (va.midi_channels_ m).config.opl3_channels ∧
      mcs2.config.unison_count = (va.midi_channels_ m).config.unison_count ∧
      mcs2.voices.map (fun v => v.note) = (va.midi_channels_ m).voices.map (fun v => v.note))
    {va2 : VoiceAllocator} (hp : va2.perc_mode_ = false) (hd : va2.dm_ = d2)
    (hmc : ∀ i, va2.midi_channels_ i = if i = m then mcs2 else va.midi_channels_ i) :
    PlainInv va2 := by
  obtain ⟨_, hch, hsus⟩ := hinv
  have hframe : ∀ i, i < 16 → ∀ mcs, ChanOK va.dm_ mcs i → ChanOK d2 mcs i := by
    intro i hi mcs ⟨h1, h2, v, hv, hk, hn⟩
    refine ⟨h1, h2, v, hv, ?_, ?_⟩
    · rw [hK.key_on i (by omega)]; exact hk
    · rw [(hN i).1]; exact hn
  refine ⟨hp, fun i hi => ?_, fun c => ?_⟩
  · rw [hmc i, hd]
    by_cases him : i = m
    · rw [if_pos him]
      subst him
      apply hframe i hi
      obtain ⟨h1, h2, v, hv, hk, hn⟩ := hch i hi
      obtain ⟨c1, c2, c3⟩ := hcfg
      rw [hv] at c3
      obtain ⟨w, hw, hwn⟩ : ∃ w, mcs2.voices = [w] ∧ w.note = v.note := by
        cases hm2 : mcs2.voices with
        | nil => rw [hm2] at c3; simp at c3
        | cons w ws =>
          rw [hm2] at c3
          simp only [List.map_cons, List.map_nil, List.cons.injEq, List.map_eq_nil_iff] at c3
          exact ⟨w, by rw [c3.2], c3.1⟩
      exact ⟨c1.trans h1, c2.trans h2, w, hw, by rw [hwn]; exact hk, by rw [hwn]; exact hn⟩
    · rw [if_neg him]; exact hframe i hi _ (hch i hi)
  · rw [hd, (hN c).2]; exact hsus c

/-- Releasing channel `m` and freeing its slot gives the state `ChanOK`. -/
theorem ChanOK.after_release {d : DirectMode} {mcs : MidiChannelState} {m : Nat} (h : ChanOK d mcs m)
    (hm : m < 18) (mcs2 : MidiChannelState) (hcfg : mcs2.config = mcs.config)
    (hv : mcs2.voices = [Voice.default]) :
    ChanOK (d.release_note_on_channel m) mcs2 m := by
  obtain ⟨h1, h2, v, hv1, hk, hn⟩ := h
  obtain ⟨_, hcur, _, hkey⟩ := release_effect d m hm
  refine ⟨by rw [hcfg]; exact h1, by rw [hcfg]; exact h2, Voice.default, hv, ?_, ?_⟩
  · have hoff : key_on (d.release_note_on_channel m).state_ m = false := by
      rw [hkey]
      split
      · rename_i hneg
        cases hko : key_on d.state_ m
        · rfl
        · have := hn.mp (hk.mpr hko)
          omega
      · rfl
    rw [hoff]
    simp [Voice.default]
  · simp only [Voice.default]
    constructor
    · intro h; omega
    · intro h; omega

theorem release_sustained_false (d : DirectMode) (m : Nat) (hm : m < 18)
    (hs : (d.channels_ m).sustained_note = false) :
    ((d.release_note_on_channel m).channels_ m).sustained_note = false := by
  rw [(release_effect d m hm).2.2.1]
  split
  · exact hs
  · rfl

theorem try_perc_note_off_plain (va : VoiceAllocator) (m n : Nat) (hp : va.perc_mode_ = false) :
    VoiceAllocator.try_perc_note_off va m n = (va, false) := by
  unfold VoiceAllocator.try_perc_note_off
  simp [hp]

theorem try_perc_note_on_plain (fp : FloatOps) (va : VoiceAllocator) (m n vel : Nat)
    (hp : va.perc_mode_ = false) :
    VoiceAllocator.try_perc_note_on fp va m n vel = (va, false) := by
  unfold VoiceAllocator.try_perc_note_on
  simp [hp]

/-- Note Off keeps the invariant. -/
theorem PlainInv.note_off {va : VoiceAllocator} (hinv : PlainInv va) (m n : Nat) (hm : m < 16) :
    PlainInv (VoiceAllocator.handle_note_off va m n) := by
  have hm16 : ¬ m ≥ 16 := by omega
  obtain ⟨h1, h2, v, hv, hk, hcur⟩ := hinv.2.1 m hm
  unfold VoiceAllocator.handle_note_off
  rw [if_neg hm16, try_perc_note_off_plain va m n hinv.1]
  simp only [Bool.false_eq_true, if_false, h1, hv, VoiceAllocator.note_off_voices]
  by_cases hnote : v.note = toInt8 n
  · by_cases hsus : (va.midi_channels_ m).sustain = true
    · simp only [hnote, hsus, if_true]
      refine hinv.frame m _ _ (KeyFrame.refl _) (fun _ => ⟨rfl, rfl⟩) ?_ hinv.1 rfl
        (fun i => rfl)
      simp [h1, h2, hv, hnote]
    · simp only [hnote, hsus, if_true, if_false, Bool.false_eq_true, List.getD_cons_zero]
      refine hinv.update m _ _ (release_effect va.dm_ m (by omega)).1
        (release_sustained_false _ m (by omega) (hinv.2.2 m))
        (ChanOK.after_release (hinv.2.1 m hm) (by omega) _ (by rfl) (by rfl)) hinv.1 rfl
        (fun i => rfl)
  · simp only [hnote, if_false]
    refine hinv.frame m _ _ (KeyFrame.refl _) (fun _ => ⟨rfl, rfl⟩) ?_ hinv.1 rfl
      (fun i => rfl)
    simp [h1, h2, hv]

theorem Untouched.chain {d1 d2 d3 : DirectMode} {m : Nat} (h12 : Untouched d1 d2 m)
    (h23 : Untouched d2 d3 m) : Untouched d1 d3 m :=
  ⟨fun c hc hne => (h23.1 c hc hne).trans (h12.1 c hc hne),
   fun c hne => (h23.2 c hne).trans (h12.2 c hne)⟩

theorem LocalOK.start {va : VoiceAllocator} (hinv : PlainInv va) (m : Nat) (hm : m < 16) :
    LocalOK va.dm_ m va.dm_ (va.midi_channels_ m) :=
  ⟨⟨fun _ _ _ => rfl, fun _ _ => rfl⟩, hinv.2.2 m, hinv.2.1 m hm⟩

theorem LocalOK.config {d0 d : DirectMode} {m : Nat} {mcs : MidiChannelState}
    (h : LocalOK d0 m d mcs) (mcs2 : MidiChannelState) (hc : mcs2.config = mcs.config)
    (hv : mcs2.voices = mcs.voices) : LocalOK d0 m d mcs2 := by
  obtain ⟨hU, hs, h1, h2, hv2⟩ := h
  exact ⟨hU, hs, by rw [hc]; exact h1, by rw [hc]; exact h2, by rw [hv]; exact hv2⟩

theorem LocalOK.released {d0 d : DirectMode} {m : Nat} {mcs : MidiChannelState}
    (h : LocalOK d0 m d mcs) (hm : m < 18) (mcs2 : MidiChannelState)
    (hc : mcs2.config = mcs.config) (hv : mcs2.voices = [Voice.default]) :
    LocalOK d0 m (d.release_note_on_channel m) mcs2 :=
  ⟨h.1.chain (release_effect d m hm).1, release_sustained_false d m hm h.2.1,
    ChanOK.after_release h.2.2 hm mcs2 hc hv⟩

theorem LocalOK.played (fp : FloatOps) {d0 d : DirectMode} {m : Nat} {mcs : MidiChannelState}
    (h : LocalOK d0 m d mcs) (hm : m < 18) (n vel : Nat) (hn : n ≤ 127)
    (mcs2 : MidiChannelState) (hc : mcs2.config = mcs.config) (w : Voice)
    (hv : mcs2.voices = [w]) (hw : w.note = toInt8 n) :
    LocalOK d0 m (d.play_note_on_channel fp m n vel) mcs2 := by
  obtain ⟨hU, hcur, hsus, hkey⟩ := play_effect fp d m n vel hm hn
  have hwn : (0 : Int) ≤ w.note := by
    rw [hw, toInt8_of_le n hn]; exact Int.ofNat_nonneg n
  refine ⟨h.1.chain hU, hsus, by rw [hc]; exact h.2.2.1, by rw [hc]; exact h.2.2.2.1,
    w, hv, ?_, ?_⟩
  · rw [hkey]; exact ⟨fun _ => rfl, fun _ => hwn⟩
  · rw [hcur]; exact ⟨fun _ => Int.ofNat_nonneg n, fun _ => hwn⟩

theorem LocalOK.bent {d0 d : DirectMode} {m : Nat} {mcs : MidiChannelState}
    (h : LocalOK d0 m d mcs) (hm : m < 18) (f b : Nat) :
    LocalOK d0 m (d.bend_channel m f b) mcs := by
  obtain ⟨hk, hch⟩ := bend_effect d m f b hm
  obtain ⟨hU, hs, h1, h2, v, hv, hkey, hn⟩ := h
  refine ⟨⟨fun c hc hne => (hk c hc).trans (hU.1 c hc hne), fun c hne => ?_⟩, ?_,
    h1, h2, v, hv, ?_, ?_⟩
  · rw [hch]; exact hU.2 c hne
  · rw [hch]; exact hs
  · rw [hk m hm]; exact hkey
  · rw [hch]; exact hn

theorem PlainInv.of_local {va : VoiceAllocator} (hinv : PlainInv va) (m : Nat)
    (d2 : DirectMode) (mcs2 : MidiChannelState) (h : LocalOK va.dm_ m d2 mcs2)
    {va2 : VoiceAllocator} (hp : va2.perc_mode_ = false) (hd : va2.dm_ = d2)
    (hmc : ∀ i, va2.midi_channels_ i = if i = m then mcs2 else va.midi_channels_ i) :
    PlainInv va2 :=
  hinv.update m d2 mcs2 h.1 h.2.1 h.2.2 hp hd hmc

/-- The loop that releases the voices with the note of a Note On. -/
theorem release_note_local {d0 d : DirectMode} {m : Nat} {mcs : MidiChannelState}
    (h : LocalOK d0 m d mcs) (hm : m < 18) (note : Int) (mcs2 : MidiChannelState)
    (hc : mcs2.config = mcs.config)
    (hv : mcs2.voices = (VoiceAllocator.release_note mcs.config.opl3_channels note
      mcs.voices 0 d).2) :
    LocalOK d0 m (VoiceAllocator.release_note mcs.config.opl3_channels note mcs.voices 0 d).1
      mcs2 := by
  obtain ⟨h1, h2, v, hv1, hk, hn⟩ := h.2.2
  rw [h1, hv1] at hv ⊢
  simp only [VoiceAllocator.release_note, List.getD_cons_zero] at hv ⊢
  by_cases hnote : v.note = note
  · rw [if_pos hnote] at hv ⊢
    exact h.released hm mcs2 hc hv
  · rw [if_neg hnote] at hv ⊢
    exact h.config mcs2 hc (hv.trans hv1.symm)

/-- Stealing from a pool of one: the voice is released when it sounds and its
timestamp is below the initial bound of the search. -/
theorem steal_one (fuel : Nat) (d : DirectMode) (mcs : MidiChannelState) (m : Nat) (v : Voice)
    (h1 : mcs.config.opl3_channels = [m]) (hv : mcs.voices = [v]) :
    VoiceAllocator.steal_oldest_group (fuel + 1) d mcs ((1 : Nat) : Int) =
      if 0 ≤ v.note ∧ v.timestamp < 2 ^ 64 - 1 then
        some (d.release_note_on_channel m, { mcs with voices := [Voice.default] })
      else some (d, mcs) := by
  rw [VoiceAllocator.steal_oldest_group]
  simp only [VoiceAllocator.find_oldest, hv, List.foldl_cons, List.foldl_nil, h1, ge_iff_le]
  by_cases hc : 0 ≤ v.note ∧ v.timestamp < 2 ^ 64 - 1
  · rw [if_pos hc, if_pos hc]
    have hnot : ¬ v.note < 0 := by omega
    simp only [hnot, if_false, VoiceAllocator.steal_group, and_self, if_true,
      List.getD_cons_zero, zero_add, Nat.cast_one, lt_self_iff_false]
  · rw [if_neg hc, if_neg hc]
    simp

/-- Allocating one slot from a pool of one. -/
theorem allocate_one {d0 d : DirectMode} {m : Nat} {mcs : MidiChannelState}
    (h : LocalOK d0 m d mcs) (hm : m < 18) :
    ∃ r, VoiceAllocator.allocate_slots d mcs 1 = some r ∧ LocalOK d0 m r.dm r.mcs ∧
      r.mcs.pitch_bend = mcs.pitch_bend ∧
      (r.slot_indices = [] ∨ r.slot_indices = [0]) := by
  obtain ⟨h1, h2, v, hv1, hk, hn⟩ := h.2.2
  unfold VoiceAllocator.allocate_slots
  rw [steal_one _ d mcs m v h1 hv1]
  simp only [hv1, VoiceAllocator.free_slots, List.length_nil, Nat.lt_one_iff, if_true,
    List.nil_append, List.length_singleton, zero_lt_one]
  by_cases hfree : v.note < 0
  · simp only [hfree, if_true, List.length_singleton, ge_iff_le, le_refl]
    exact ⟨_, rfl, h, rfl, Or.inr rfl⟩
  · simp only [hfree, if_false, List.length_nil, ge_iff_le, Nat.le_zero_eq, one_ne_zero]
    by_cases hc : 0 ≤ v.note ∧ v.timestamp < 2 ^ 64 - 1
    · rw [if_pos hc]
      refine ⟨_, rfl, h.released hm _ rfl rfl, rfl, Or.inr ?_⟩
      simp [VoiceAllocator.free_slots, Voice.default]
    · rw [if_neg hc]
      refine ⟨_, rfl, h, rfl, Or.inl ?_⟩
      simp [VoiceAllocator.free_slots, hv1, hfree]

/-- Starting the note on the one allocated slot. -/
theorem note_on_one (fp : FloatOps) {d0 d : DirectMode} {m : Nat} {mcs : MidiChannelState}
    (h : LocalOK d0 m d mcs) (hm : m < 18) (n vel ts : Nat) (hn : n ≤ 127) :
    LocalOK d0 m (VoiceAllocator.note_on_slots fp n vel ts 1 [0] 0 (d, mcs)).1
      (VoiceAllocator.note_on_slots fp n vel ts 1 [0] 0 (d, mcs)).2 := by
  obtain ⟨h1, h2, v, hv1, hk, hnn⟩ := h.2.2
  simp only [VoiceAllocator.note_on_slots, VoiceAllocator.note_on_slot, h1, hv1,
    List.getD_cons_zero, gt_iff_lt, lt_self_iff_false, if_false, false_or, false_and,
    List.set_cons_zero]
  by_cases hb : mcs.pitch_bend = 8192
  · simp only [hb, ne_eq, not_true_eq_false, if_false]
    exact h.played fp hm n vel hn _ (by rfl) _ (by rfl) (by rfl)
  · simp only [hb, ne_eq, not_false_eq_true, if_true]
    exact (h.played fp hm n vel hn _ (by rfl) _ (by rfl) (by rfl)).bent hm _ _

/-- Note On keeps the invariant, and the stealing recursion does not run out of fuel. -/
theorem PlainInv.note_on (fp : FloatOps) {va : VoiceAllocator} (hinv : PlainInv va)
    (m n vel : Nat) (hm : m < 16) (hn : n ≤ 127) :
    ∃ va2, VoiceAllocator.handle_note_on fp va m n vel = some va2 ∧ PlainInv va2 := by
  have hm16 : ¬ m ≥ 16 := by omega
  have hm18 : m < 18 := by omega
  obtain ⟨h1, h2, v, hv, hk, hcur⟩ := hinv.2.1 m hm
  have hu : VoiceAllocator.unison_of (va.midi_channels_ m) = 1 := by
    unfold VoiceAllocator.unison_of; rw [h2]; rfl
  have hne : (va.midi_channels_ m).config.opl3_channels.isEmpty = false := by rw [h1]; rfl
  unfold VoiceAllocator.handle_note_on
  rw [if_neg hm16, try_perc_note_on_plain fp va m n vel hinv.1]
  simp only [Bool.false_eq_true, if_false, hne, hu]
  have hrel := release_note_local (LocalOK.start hinv m hm) hm18 (toInt8 n)
    { va.midi_channels_ m with voices := (VoiceAllocator.release_note
        (va.midi_channels_ m).config.opl3_channels (toInt8 n) (va.midi_channels_ m).voices 0
        va.dm_).2 } rfl rfl
  obtain ⟨r, hr, hloc, _, hslots⟩ := allocate_one hrel hm18
  rw [hr]
  rcases hslots with hs | hs
  · simp only [hs, List.isEmpty_nil, if_true]
    exact ⟨_, rfl, hinv.of_local m _ _ hloc hinv.1 rfl (fun i => rfl)⟩
  · simp only [hs, List.isEmpty_cons, Bool.false_eq_true, if_false]
    exact ⟨_, rfl, hinv.of_local m _ _ (note_on_one fp hloc hm18 n vel _ hn) hinv.1 rfl
      (fun i => rfl)⟩

theorem PlainInv.set_fields {va : VoiceAllocator} (hinv : PlainInv va) (m : Nat)
    (mcs2 : MidiChannelState) (hc : mcs2.config = (va.midi_channels_ m).config)
    (hv : mcs2.voices = (va.midi_channels_ m).voices) :
    PlainInv (VoiceAllocator.set_mcs va m mcs2) :=
  hinv.frame m va.dm_ mcs2 (KeyFrame.refl _) (fun _ => ⟨rfl, rfl⟩)
    ⟨by rw [hc], by rw [hc], by rw [hv]⟩ hinv.1 rfl (fun _ => rfl)

theorem PlainInv.broadcast (fp : FloatOps) {va : VoiceAllocator} (hinv : PlainInv va)
    (m cc val : Nat) (hm : m < 16) (hcc : cc ≠ 120 ∧ cc ≠ 123) :
    PlainInv (VoiceAllocator.broadcast_cc fp va m cc val) := by
  obtain ⟨h1, _⟩ := hinv.2.1 m hm
  unfold VoiceAllocator.broadcast_cc
  simp only [h1, List.foldl_cons, List.foldl_nil]
  obtain ⟨hK, hN⟩ := apply_cc_effect fp va.dm_ m cc val hcc (hinv.2.2 m)
  refine hinv.frame m _ (va.midi_channels_ m) hK hN ⟨rfl, rfl, rfl⟩ hinv.1 rfl (fun i => ?_)
  by_cases him : i = m
  · rw [if_pos him, him]
  · rw [if_neg him]

theorem PlainInv.nrpn {va : VoiceAllocator} (hinv : PlainInv va) (m msb lsb val : Nat)
    (hm : m < 16) (d2 : DirectMode)
    (hd2 : d2 = (va.midi_channels_ m).config.opl3_channels.foldl
      (fun dm opl3_ch => dm.direct_nrpn opl3_ch msb lsb val) va.dm_) :
    PlainInv { va with dm_ := d2 } := by
  obtain ⟨h1, _⟩ := hinv.2.1 m hm
  simp only [h1, List.foldl_cons, List.foldl_nil] at hd2
  subst hd2
  obtain ⟨hK, hN⟩ := direct_nrpn_effect va.dm_ m msb lsb val
  refine hinv.frame m _ (va.midi_channels_ m) hK (fun c => by rw [hN]; exact ⟨rfl, rfl⟩)
    ⟨rfl, rfl, rfl⟩ hinv.1 rfl (fun i => ?_)
  by_cases him : i = m
  · rw [if_pos him, him]
  · rw [if_neg him]

/-- Lifting the sustain pedal releases the voice when it is held by the pedal. -/
theorem PlainInv.pedal_up {va : VoiceAllocator} (hinv : PlainInv va) (m : Nat) (hm : m < 16)
    (mcs2 : MidiChannelState) (hc : mcs2.config = (va.midi_channels_ m).config)
    (hv : mcs2.voices = (va.midi_channels_ m).voices) :
    PlainInv (VoiceAllocator.set_mcs
      { va with dm_ := (VoiceAllocator.release_sustained mcs2.config.opl3_channels mcs2.voices 0
          va.dm_).1 } m
      { mcs2 with voices := (VoiceAllocator.release_sustained mcs2.config.opl3_channels
          mcs2.voices 0 va.dm_).2 }) := by
  have hloc := LocalOK.start hinv m hm
  obtain ⟨h1, h2, v, hv1, hk, hn⟩ := hinv.2.1 m hm
  rw [hc, hv, h1, hv1]
  simp only [VoiceAllocator.release_sustained, List.getD_cons_zero]
  by_cases hs : v.sustained = true
  · simp only [hs, if_true]
    exact hinv.of_local m _ _ (hloc.released (by omega) _ (by rfl) (by rfl)) hinv.1 rfl
      (fun _ => rfl)
  · simp only [hs, Bool.false_eq_true, if_false]
    exact hinv.of_local m _ _ (hloc.config _ (by rfl) (by exact hv1.symm)) hinv.1 rfl
      (fun _ => rfl)

/-- Control Change other than 120 and 123 keeps the invariant. -/
theorem PlainInv.cc (fp : FloatOps) {va : VoiceAllocator} (hinv : PlainInv va)
    (m cc val : Nat) (hm : m < 16) (hcc : cc ≠ 120 ∧ cc ≠ 123) :
    PlainInv (VoiceAllocator.handle_cc fp va m cc val) := by
  have hm16 : ¬ m ≥ 16 := by omega
  unfold VoiceAllocator.handle_cc
  rw [if_neg hm16]
  dsimp only
  split
  · exact PlainInv.broadcast fp (hinv.set_fields m _ (by rfl) (by rfl)) m 1 val hm (by decide)
  · exact PlainInv.broadcast fp (hinv.set_fields m _ (by rfl) (by rfl)) m 7 val hm (by decide)
  · exact PlainInv.broadcast fp (hinv.set_fields m _ (by rfl) (by rfl)) m 10 val hm (by decide)
  · exact PlainInv.broadcast fp (hinv.set_fields m _ (by rfl) (by rfl)) m 11 val hm (by decide)
  · exact PlainInv.broadcast fp (hinv.set_fields m _ (by rfl) (by rfl)) m 74 val hm (by decide)
  · refine PlainInv.broadcast fp ?_ m 64 val hm (by decide)
    split
    · exact hinv.pedal_up m hm { va.midi_channels_ m with sustain := decide (val ≥ 64) } rfl rfl
    · exact hinv.set_fields m _ (by rfl) (by rfl)
  · exact hinv.set_fields m _ (by rfl) (by rfl)
  · exact hinv.set_fields m _ (by rfl) (by rfl)
  · exact hinv.set_fields m _ (by rfl) (by rfl)
  · exact hinv.set_fields m _ (by rfl) (by rfl)
  · split
    · exact hinv.nrpn m _ _ val hm _ rfl
    · split
      · exact hinv.set_fields m _ (by rfl) (by rfl)
      · exact hinv
  · split
    · exact hinv.set_fields m _ (by rfl) (by rfl)
    · exact hinv
  · exact hinv.broadcast fp m cc val hm hcc

theorem LocalOK.revoice {d0 d : DirectMode} {m : Nat} {mcs : MidiChannelState}
    (h : LocalOK d0 m d mcs) (mcs2 : MidiChannelState) (hc : mcs2.config = mcs.config)
    (v w : Voice) (hv : mcs.voices = [v]) (hw : mcs2.voices = [w]) (hn : w.note = v.note) :
    LocalOK d0 m d mcs2 := by
  obtain ⟨hU, hs, h1, h2, v2, hv2, hk, hcur⟩ := h
  rw [hv] at hv2
  obtain rfl : v = v2 := by simpa using hv2
  exact ⟨hU, hs, by rw [hc]; exact h1, by rw [hc]; exact h2, w, hw, by rw [hn]; exact hk,
    by rw [hn]; exact hcur⟩

/-- Recomputing the bend of the voices keeps the invariant. -/
theorem PlainInv.recompute {va : VoiceAllocator} (fp : FloatOps) (hinv : PlainInv va) (m : Nat)
    (hm : m < 16) : PlainInv (VoiceAllocator.recompute_bend fp va m) := by
  have hloc := LocalOK.start hinv m hm
  obtain ⟨h1, h2, v, hv1, hk, hn⟩ := hinv.2.1 m hm
  have hr : List.range 1 = [0] := rfl
  unfold VoiceAllocator.recompute_bend
  simp only [hv1, List.length_singleton, hr, List.foldl_cons, List.foldl_nil]
  refine hinv.of_local m _ _ ?_ hinv.1 rfl (fun _ => rfl)
  unfold VoiceAllocator.recompute_bend_voice
  simp only [hv1, List.getD_cons_zero, h1, List.set_cons_zero]
  by_cases hneg : v.note < 0
  · rw [if_pos hneg]
    exact hloc
  · rw [if_neg hneg]
    exact (hloc.bent (by omega) _ _).revoice _ (by rfl) v _ hv1 (by rfl) (by rfl)

/-- Pitch Bend keeps the invariant. -/
theorem PlainInv.pitch_bend (fp : FloatOps) {va : VoiceAllocator} (hinv : PlainInv va)
    (m bend : Nat) (hm : m < 16) :
    PlainInv (VoiceAllocator.handle_pitch_bend fp va m bend) := by
  have hm16 : ¬ m ≥ 16 := by omega
  unfold VoiceAllocator.handle_pitch_bend
  rw [if_neg hm16]
  exact PlainInv.recompute fp (hinv.set_fields m _ (by rfl) (by rfl)) m hm

/-- A plain channel-voice message is processed to the end and keeps the invariant. -/
theorem PlainInv.step (fp : FloatOps) {va : VoiceAllocator} (hinv : PlainInv va)
    (msg : List Nat) (hmsg : PlainVoiceMessage msg) :
    ∃ va2, VoiceAllocator.process_midi fp va msg = some va2 ∧ PlainInv va2 := by
  obtain ⟨hf0, hn, hcc⟩ := hmsg
  have hch : msg.getD 0 0 &&& 0x0F < 16 := by
    rw [and_0f]; exact Nat.mod_lt _ (by decide)
  unfold VoiceAllocator.process_midi
  dsimp only
  by_cases hlen : msg.length = 0
  · rw [if_pos hlen]; exact ⟨_, rfl, hinv⟩
  rw [if_neg hlen, if_neg hf0]
  by_cases h90 : msg.getD 0 0 &&& 0xF0 = 0x90
  · rw [if_pos h90]
    by_cases hl : msg.length ≥ 3
    · rw [if_pos hl]
      by_cases hv : msg.getD 2 0 = 0
      · rw [if_pos hv]; exact ⟨_, rfl, hinv.note_off _ _ hch⟩
      · rw [if_neg hv]; exact hinv.note_on fp _ _ _ hch hn
    · rw [if_neg hl]; exact ⟨_, rfl, hinv⟩
  rw [if_neg h90]
  by_cases h80 : msg.getD 0 0 &&& 0xF0 = 0x80
  · rw [if_pos h80]
    by_cases hl : msg.length ≥ 3
    · rw [if_pos hl]; exact ⟨_, rfl, hinv.note_off _ _ hch⟩
    · rw [if_neg hl]; exact ⟨_, rfl, hinv⟩
  rw [if_neg h80]
  by_cases hb0 : msg.getD 0 0 &&& 0xF0 = 0xB0
  · rw [if_pos hb0]
    by_cases hl : msg.length ≥ 3
    · rw [if_pos hl]
      refine ⟨_, rfl, hinv.cc fp _ _ _ hch ⟨fun h => hcc ⟨hb0, Or.inl h⟩,
        fun h => hcc ⟨hb0, Or.inr h⟩⟩⟩
    · rw [if_neg hl]; exact ⟨_, rfl, hinv⟩
  rw [if_neg hb0]
  by_cases he0 : msg.getD 0 0 &&& 0xF0 = 0xE0
  · rw [if_pos he0]
    by_cases hl : msg.length ≥ 3
    · rw [if_pos hl]; exact ⟨_, rfl, hinv.pitch_bend fp _ _ hch⟩
    · rw [if_neg hl]; exact ⟨_, rfl, hinv⟩
  rw [if_neg he0]
  exact ⟨_, rfl, hinv⟩

/-- A sequence of plain channel-voice messages is processed to the end and keeps the
invariant. -/
theorem PlainInv.run (fp : FloatOps) (msgs : List (List Nat)) :
    ∀ va : VoiceAllocator, PlainInv va → (∀ msg ∈ msgs, PlainVoiceMessage msg) →
      ∃ va2, VoiceAllocator.run_midi fp va msgs = some va2 ∧ PlainInv va2 := by
  induction msgs with
  | nil => intro va hinv _; exact ⟨va, rfl, hinv⟩
  | cons msg rest ih =>
    intro va hinv hall
    obtain ⟨va1, h1, hinv1⟩ := hinv.step fp msg (hall msg (List.mem_cons_self _ _))
    obtain ⟨va2, h2, hinv2⟩ := ih va1 hinv1 (fun x hx => hall x (List.mem_cons_of_mem _ hx))
    refine ⟨va2, ?_, hinv2⟩
    rw [VoiceAllocator.run_midi, h1]
    exact h2

/-- The invariant gives the voice-slot property on every MIDI channel. -/
theorem PlainInv.key_on_matches {va : VoiceAllocator} (hinv : PlainInv va) (m : Nat)
    (hm : m < 16) : KeyOnMatchesVoices va m := by
  obtain ⟨h1, h2, v, hv, hk, hn⟩ := hinv.2.1 m hm
  intro i hi
  unfold VoiceAllocator.pool at hi ⊢
  rw [h1] at hi ⊢
  have hi0 : i = 0 := by simpa using hi
  subst hi0
  rw [hv]
  exact hk

set_option maxRecDepth 100000 in
theorem init_key_off :
    ∀ c, c < 18 → key_on ((List.range 18).foldl DirectMode.init_channel OPL3State.fresh.reset) c
      = false := by
  decide

theorem fresh_key_off (c : Nat) : key_on OPL3State.fresh c = false := by
  simp [key_on, OPL3State.read, OPL3State.fresh, OPL3State.init]

/-- The initial state has the invariant. -/
theorem PlainInv.initial (dev : Nat) (direct_init : Bool) :
    PlainInv (VoiceAllocator.initial dev direct_init) := by
  have hch : ∀ m, m < 16 → ∀ d : DirectMode, key_on d.state_ m = false →
      (d.channels_ m).current_note = -1 →
      ChanOK d ((VoiceAllocator.fresh dev).midi_channels_ m) m := by
    intro m hm d hk hc
    have hm18 : m < 18 := by omega
    have hmod : m % 256 = m := by omega
    simp only [VoiceAllocator.fresh, VoiceAllocator.create, VoiceAllocator.init_default_mapping,
      VoiceAllocator.default_mapping_channel, hm, hm18, if_true, hmod]
    refine ⟨rfl, rfl, Voice.default, rfl, ?_, ?_⟩
    · rw [hk]; simp [Voice.default]
    · rw [hc]; simp [Voice.default]
  cases direct_init
  · exact ⟨rfl, fun m hm => hch m hm _ (fresh_key_off m) rfl, fun _ => rfl⟩
  · have hst : ((VoiceAllocator.fresh dev).dm_.init).state_
        = (List.range 18).foldl DirectMode.init_channel OPL3State.fresh.reset := by
      simp only [DirectMode.init, VoiceAllocator.fresh, VoiceAllocator.create,
        VoiceAllocator.init_default_mapping, DirectMode.create]
    have hk : ∀ m, m < 16 → key_on ((VoiceAllocator.fresh dev).dm_.init).state_ m = false := by
      intro m hm
      rw [hst]
      exact init_key_off m (by omega)
    exact ⟨rfl, fun m hm => hch m hm ((VoiceAllocator.fresh dev).dm_.init) (hk m hm) rfl,
      fun _ => rfl⟩

set_option maxRecDepth 100000 in
set_option exponentiation.threshold 100000 in
/-- After Note On 60 on MIDI channel 0 the slot holds note 60 and the key-on bit of its OPL3
channel is set. -/
theorem note_on_state :
    (VoiceAllocator.run_midi FloatOps.exact (VoiceAllocator.initial 0x7F true)
      [[0x90, 60, 100]]).map
      (fun va => ((va.pool 0).length, ((va.midi_channels_ 0).voices.getD 0 Voice.default).note,
        key_on va.dm_.state_ ((va.pool 0).getD 0 0))) = some (1, 60, true) := by
  decide

set_option maxRecDepth 100000 in
set_option exponentiation.threshold 100000 in
/-- After Note On 60 and Control Change 120 (All Sound Off) on MIDI channel 0 the slot
still holds note 60 while the key-on bit of its OPL3 channel is clear. -/
theorem all_sound_off_state :
    (VoiceAllocator.run_midi FloatOps.exact (VoiceAllocator.initial 0x7F true)
      [[0x90, 60, 100], [0xB0, 120, 0]]).map
      (fun va => ((va.pool 0).length, ((va.midi_channels_ 0).voices.getD 0 Voice.default).note,
        key_on va.dm_.state_ ((va.pool 0).getD 0 0))) = some (1, 60, false) := by
  decide

set_option maxRecDepth 100000 in
/-- After the raw register write `F0 7D 7F 01 01 30 20 F7` (value `0x20` to register `0xB0`)
the pool of MIDI channel 0 has one slot, the slot is free, and the key-on bit of its
OPL3 channel is set. -/
theorem raw_key_on_write_state :
    (VoiceAllocator.run_midi FloatOps.exact (VoiceAllocator.initial 0x7F true)
      [[0xF0, 0x7D, 0x7F, 0x01, 0x01, 0x30, 0x20, 0xF7]]).map
      (fun va => ((va.pool 0).length, ((va.midi_channels_ 0).voices.getD 0 Voice.default).note,
        key_on va.dm_.state_ ((va.pool 0).getD 0 0))) = some (1, -1, true) := by
  decide

set_option maxRecDepth 100000 in
/-- After Note On 60 and Control Change 123 (All Notes Off) on MIDI channel 0 the slot
still holds note 60 while the key-on bit of its OPL3 channel is clear. -/
theorem all_notes_off_state :
    (VoiceAllocator.run_midi FloatOps.exact (VoiceAllocator.initial 0x7F true)
      [[0x90, 60, 100], [0xB0, 123, 0]]).map
      (fun va => ((va.pool 0).length, ((va.midi_channels_ 0).voices.getD 0 Voice.default).note,
        key_on va.dm_.state_ ((va.pool 0).getD 0 0))) = some (1, 60, false) := by
  decide

/-- Claim C4. Note On 60 on MIDI channel 0 takes the one voice slot of the channel and sets the
key-on bit of its OPL3 channel; after the Control Change 123 (All Notes Off) that follows, and
likewise after Control Change 120 (All Sound Off), the slot still holds note 60 while bit 5 of
register `B0` of the OPL3 channel is clear in the shadow, so the state reached does not have
`voices[i].note >= 0` exactly when the key-on bit is set. -/
theorem all_notes_off_keeps_voice_slot :
    (VoiceAllocator.run_midi FloatOps.exact (VoiceAllocator.initial 0x7F true)
      [[0x90, 60, 100]]).map
      (fun va => ((va.pool 0).length, ((va.midi_channels_ 0).voices.getD 0 Voice.default).note,
        key_on va.dm_.state_ ((va.pool 0).getD 0 0))) = some (1, 60, true) ∧
    (VoiceAllocator.run_midi FloatOps.exact (VoiceAllocator.initial 0x7F true)
      [[0x90, 60, 100], [0xB0, 120, 0]]).map
      (fun va => ((va.pool 0).length, ((va.midi_channels_ 0).voices.getD 0 Voice.default).note,
        key_on va.dm_.state_ ((va.pool 0).getD 0 0))) = some (1, 60, false) ∧
    ∃ va, VoiceAllocator.run_midi FloatOps.exact (VoiceAllocator.initial 0x7F true)
        [[0x90, 60, 100], [0xB0, 123, 0]] = some va ∧
      ((va.midi_channels_ 0).voices.getD 0 Voice.default).note = 60 ∧
      key_on va.dm_.state_ ((va.pool 0).getD 0 0) = false ∧
      ¬ KeyOnMatchesVoices va 0 := by
  refine ⟨note_on_state, all_sound_off_state, ?_⟩
  have e := all_notes_off_state
  cases h : VoiceAllocator.run_midi FloatOps.exact (VoiceAllocator.initial 0x7F true)
      [[0x90, 60, 100], [0xB0, 123, 0]] with
  | none => rw [h] at e; simp at e
  | some va =>
    rw [h] at e
    simp only [Option.map_some', Option.some.injEq, Prod.mk.injEq] at e
    obtain ⟨e1, e2, e3⟩ := e
    refine ⟨va, rfl, e2, e3, fun hK => ?_⟩
    have h0 := hK 0 (by rw [e1]; decide)
    rw [e2, e3] at h0
    exact absurd (h0.mp (by decide)) (by decide)

/-- The SysEx register write `F0 7D 7F 01 01 30 20 F7` is passed on to Direct Mode, which
writes `0x20` to register `0xB0`: the key-on bit of OPL3 channel 0 is set in the shadow while
the voice slot of MIDI channel 0 is free. -/
theorem voice_slots_key_on_counterexample :
    ∃ va, VoiceAllocator.run_midi FloatOps.exact (VoiceAllocator.initial 0x7F true)
        [[0xF0, 0x7D, 0x7F, 0x01, 0x01, 0x30, 0x20, 0xF7]] = some va ∧
      ¬ KeyOnMatchesVoices va 0 := by
  have e := raw_key_on_write_state
  cases h : VoiceAllocator.run_midi FloatOps.exact (VoiceAllocator.initial 0x7F true)
      [[0xF0, 0x7D, 0x7F, 0x01, 0x01, 0x30, 0x20, 0xF7]] with
  | none => rw [h] at e; simp at e
  | some va =>
    rw [h] at e
    simp only [Option.map_some', Option.some.injEq, Prod.mk.injEq] at e
    obtain ⟨e1, e2, e3⟩ := e
    refine ⟨va, rfl, fun hK => ?_⟩
    have h0 := hK 0 (by rw [e1]; decide)
    rw [e2, e3] at h0
    exact absurd (h0.mpr rfl) (by decide)

/-- The other channel-voice messages keep the voice slots and the key-on bits together. From
the initial state (after construction, or after `DirectMode::init` as well), every sequence of plain channel-voice messages (no SysEx, first data
byte at most 127, no Control Change 120 or 123) is processed to the end, and in the
state reached, for every MIDI channel and every slot `i` of its pool,
`voices[i].note >= 0` holds exactly when bit 5 of register `B0+ch` of the slot's
OPL3 channel is set in the shadow. -/
theorem voice_slots_match_key_on (fp : FloatOps) (dev : Nat) (direct_init : Bool)
    (msgs : List (List Nat)) (hmsgs : ∀ msg ∈ msgs, PlainVoiceMessage msg) :
    ∃ va, VoiceAllocator.run_midi fp (VoiceAllocator.initial dev direct_init) msgs = some va ∧
      ∀ m, m < 16 → KeyOnMatchesVoices va m := by
  obtain ⟨va, hrun, hinv⟩ := PlainInv.run fp msgs _ (PlainInv.initial dev direct_init) hmsgs
  exact ⟨va, hrun, fun m hm => hinv.key_on_matches m hm⟩

/-- An instance of `voice_slots_match_key_on`: Note On 60, a pitch bend, the sustain pedal and
Note Off 60 on MIDI channel 0, from the state after `DirectMode::init`, with the
floating-point expressions in exact arithmetic. -/
theorem voice_slots_match_key_on_witness :
    (∀ msg ∈ [[0x90, 60, 100], [0xE0, 0, 0x50], [0xB0, 64, 127], [0x80, 60, 0]],
      PlainVoiceMessage msg) ∧
    ∃ va, VoiceAllocator.run_midi FloatOps.exact (VoiceAllocator.initial 0x7F true)
        [[0x90, 60, 100], [0xE0, 0, 0x50], [0xB0, 64, 127], [0x80, 60, 0]] = some va ∧
      ∀ m, m < 16 → KeyOnMatchesVoices va m :=
  ⟨by decide, voice_slots_match_key_on FloatOps.exact 0x7F true _ (by decide)⟩


/-! ### Hardware buffer contents -/

theorem testBit_8_eq (a : Nat) : ((a &&& 0x100) != 0) = a.testBit 8 := by
  rw [and_100, Nat.testBit_to_div_mod]
  by_cases h : a / 256 % 2 = 1
  · simp [h]
  · have h0 : a / 256 % 2 = 0 := by omega
    simp [h0]

/-- A `queue` call appends the record of the specification. -/
theorem queue_record (hw : OPL3HardwareBuffer) (a v : Nat) :
    (hw.queue a v).buf_ = hw.buf_ ++ hw_record a v := by
  rw [queue_buf, testBit_8_eq, and_ff]
  unfold hw_record
  by_cases h : a.testBit 8 = true
  · simp [h]
  · simp [h]

theorem queue_serial (hw : OPL3HardwareBuffer) (a v : Nat) :
    (hw.queue a v).serial_ = hw.serial_ := rfl

/-- The call `flush()` returns: the packer returns and its output fits. -/
theorem flush_total (hw : OPL3HardwareBuffer) :
    ∃ packed, protocol_serial_pack hw.buf_ = some packed ∧
      hw.flush = some (OPL3HardwareBuffer.reset { hw with serial_ := hw.serial_ ++ [packed] }) := by
  obtain ⟨mid, z, hret, -, hlen, -, -⟩ := protocol_serial_pack_frame hw.buf_
  refine ⟨_, hret, ?_⟩
  unfold OPL3HardwareBuffer.flush
  rw [hret]
  have hfit : (0x00 :: (mid ++ [0x02])).length ≤ hw.buf_.length * 2 + 8 := by
    simp only [List.length_cons, List.length_append, List.length_singleton, List.length_nil, hlen]
    omega
  simp only [hfit, if_true]

theorem hw_records_append (xs ys : List (Nat × Nat)) :
    hw_records (xs ++ ys) = hw_records xs ++ hw_records ys := by
  unfold hw_records
  exact List.flatMap_append xs ys _

theorem hw_records_length (ws : List (Nat × Nat)) : (hw_records ws).length = 6 * ws.length := by
  induction ws with
  | nil => rfl
  | cons w ws ih =>
    have hc : hw_records (w :: ws) = hw_record w.1 w.2 ++ hw_records ws := rfl
    rw [hc, List.length_append, ih, List.length_cons]
    have h6 : (hw_record w.1 w.2).length = 6 := by
      unfold hw_record; split <;> rfl
    omega

theorem run_hw_ops_buf :
    ∀ (ops : List HwOp) (hw : OPL3HardwareBuffer) (acc : List (Nat × Nat)),
      hw.buf_ = [0x42, 0x12] ++ hw_records acc →
      ∃ hw2, run_hw_ops hw ops = some hw2 ∧
        hw2.buf_ = [0x42, 0x12] ++ hw_records (queued_since_reset ops acc) := by
  intro ops
  induction ops with
  | nil => intro hw acc h; exact ⟨hw, rfl, h⟩
  | cons op ops ih =>
    intro hw acc h
    cases op with
    | queue a v =>
      have h2 : (hw.queue a v).buf_ = [0x42, 0x12] ++ hw_records (acc ++ [(a, v)]) := by
        rw [queue_record, h, hw_records_append, List.append_assoc]
        simp [hw_records]
      obtain ⟨hw2, hr, hb⟩ := ih (hw.queue a v) _ h2
      exact ⟨hw2, hr, hb⟩
    | reset =>
      obtain ⟨hw2, hr, hb⟩ := ih hw.reset [] rfl
      exact ⟨hw2, hr, hb⟩
    | flush =>
      obtain ⟨packed, -, hf⟩ := flush_total hw
      obtain ⟨hw2, hr, hb⟩ :=
        ih (OPL3HardwareBuffer.reset { hw with serial_ := hw.serial_ ++ [packed] }) [] rfl
      refine ⟨hw2, ?_, hb⟩
      rw [run_hw_ops]
      show (match hw.flush with | none => none | some hw2 => run_hw_ops hw2 ops) = some hw2
      rw [hf]
      exact hr

/-- Claim C11. For every sequence of `queue`, `reset` and `flush` calls on a freshly
constructed hardware buffer, every call returns, and the buffer then holds the
header bytes `0x42`, `0x12` followed by one six-byte record per `queue(addr, data)`
call made since the last `reset` or `flush`, in call order: `E1`, `addr & 0xFF`, `E3`,
`data`, `FB`, `data` when bit 8 of `addr` is clear, and `E5`, `addr & 0xFF`, `E7`, `data`,
`FB`, `data` when it is set. -/
theorem hw_buffer_header_and_records (ops : List HwOp) :
    ∃ hw, run_hw_ops OPL3HardwareBuffer.init ops = some hw ∧
      hw.buf_ = [0x42, 0x12] ++ hw_records (queued_since_reset ops []) ∧
      hw.buf_.length = 2 + 6 * (queued_since_reset ops []).length := by
  obtain ⟨hw, hr, hb⟩ := run_hw_ops_buf ops OPL3HardwareBuffer.init [] rfl
  refine ⟨hw, hr, hb, ?_⟩
  rw [hb, List.length_append, hw_records_length]
  rfl

/-- A run of `queue` calls appends the records of the writes, and writes nothing to
the byte sink. -/
theorem queue_all_buf (ws : List (Nat × Nat)) :
    ∀ hw : OPL3HardwareBuffer,
      (ws.foldl (fun hw w => hw.queue w.1 w.2) hw).buf_ = hw.buf_ ++ hw_records ws ∧
      (ws.foldl (fun hw w => hw.queue w.1 w.2) hw).serial_ = hw.serial_ := by
  induction ws with
  | nil => intro hw; simp [hw_records]
  | cons w ws ih =>
    intro hw
    rw [List.foldl_cons]
    obtain ⟨h1, h2⟩ := ih (hw.queue w.1 w.2)
    refine ⟨?_, h2⟩
    rw [h1, queue_record, List.append_assoc]
    rfl

/-- Claim C12. After any sequence of `queue` calls on any hardware buffer, `flush()`
returns, appends exactly one frame to the byte sink, namely
`protocol_serial_pack` of the buffer contents at the call, and leaves the
buffer holding exactly the two header bytes `0x42`, `0x12`. -/
theorem flush_sends_packed_buffer (hw0 : OPL3HardwareBuffer) (ws : List (Nat × Nat)) :
    ∃ packed hw2,
      protocol_serial_pack (ws.foldl (fun hw w => hw.queue w.1 w.2) hw0).buf_ = some packed ∧
      (ws.foldl (fun hw w => hw.queue w.1 w.2) hw0).flush = some hw2 ∧
      hw2.serial_ = hw0.serial_ ++ [packed] ∧ hw2.buf_ = [0x42, 0x12] := by
  obtain ⟨packed, hp, hf⟩ := flush_total (ws.foldl (fun hw w => hw.queue w.1 w.2) hw0)
  refine ⟨packed, _, hp, hf, ?_, rfl⟩
  show (ws.foldl (fun hw w => hw.queue w.1 w.2) hw0).serial_ ++ [packed] = _
  rw [(queue_all_buf ws hw0).2]

/-- Claim C13. For every address `a`, mask `m` and value `v`, after
`modify_bits(a, m, v)` the byte `read(a)` is `(old & ~m) | (v & m)`: bit `i` of it is
bit `i` of `v` where `m` has bit `i` set and bit `i` of the old byte elsewhere;
every register of another mirror slot reads as before; and exactly one
hardware write is queued, of the new byte to `a`. -/
theorem modify_bits_effect (s : OPL3State) (a m v : Nat) :
    (s.modify_bits a m v).read a = ((s.read a &&& (0xFF ^^^ m)) ||| (v &&& m)) % 256 ∧
    (∀ i, i < 8 → ((s.modify_bits a m v).read a).testBit i
        = if m.testBit i then v.testBit i else (s.read a).testBit i) ∧
    (∀ b, reg_index b ≠ reg_index a → (s.modify_bits a m v).read b = s.read b) ∧
    (s.modify_bits a m v).hw_.buf_ = s.hw_.buf_ ++ hw_record a ((s.modify_bits a m v).read a) ∧
    (s.modify_bits a m v).hw_.serial_ = s.hw_.serial_ := by
  have hr : (s.modify_bits a m v).read a = OPL3State.modify_value (s.read a) m v := by
    rw [modify_bits_eq, read_write_same]
  refine ⟨hr, fun i hi => ?_, fun b hb => ?_, ?_, rfl⟩
  · rw [hr, modify_value_testBit]
    simp [hi]
  · rw [modify_bits_eq]
    exact read_write_of_index_ne s a b _ hb
  · rw [hr, modify_bits_eq]
    exact queue_record s.hw_ a _

set_option maxRecDepth 100000 in
theorem reset_writes_eq_spec : OPL3State.reset_writes = spec_reset_sequence := by
  decide

set_option maxRecDepth 100000 in
theorem spec_reset_sequence_length : spec_reset_sequence.length = 281 := by
  decide

/-- Claim C14. On every shadow state `reset()` leaves mirror address `0x105` equal
to `0x01` and queues exactly the write sequence of the specification, in its
order: `0x004=96`, `0x004=128`, `0x105=0`, `0x105=1`, `0x105=0`, `0x001=32`, `0x105=1`, then
for port 0 and then port 1 the blocks `0x20-0x35 = 0`, `0x40-0x55 = 0x3F`,
`0x60-0x75 = 0`, `0x80-0x95 = 0x0F`, `0xA0-0xA8 = 0`, `0xB0-0xB8 = 0`, `0xC0-0xC8 = 0x30`,
`0xE0-0xF5 = 0`, each in ascending register order, 281 writes in all. -/
theorem reset_queues_spec_sequence (s : OPL3State) :
    s.reset.read 0x105 = 0x01 ∧
    s.reset.hw_.buf_ = s.hw_.buf_ ++ hw_records spec_reset_sequence ∧
    s.reset.hw_.serial_ = s.hw_.serial_ ∧
    spec_reset_sequence.length = 281 ∧
    s.reset.hw_.buf_.length = s.hw_.buf_.length + 6 * 281 := by
  have hb : s.reset.hw_.buf_ = s.hw_.buf_ ++ hw_records spec_reset_sequence := by
    rw [← reset_writes_eq_spec]
    exact (queue_all_buf OPL3State.reset_writes s.hw_).1
  refine ⟨rfl, hb, (queue_all_buf OPL3State.reset_writes s.hw_).2,
    spec_reset_sequence_length, ?_⟩
  rw [hb, List.length_append, hw_records_length, spec_reset_sequence_length]


/-! ### NRPN parameter writes -/

theorem testBit_field_mask (w lo i : Nat) :
    (((2 ^ w - 1) <<< lo).testBit i) = (decide (lo ≤ i) && decide (i - lo < w)) := by
  rw [Nat.testBit_shiftLeft, Nat.testBit_two_pow_sub_one]

/-- Writing `x << lo` under the mask of the field `[lo, lo + w)` writes the field. -/
theorem modify_field (s : OPL3State) (r lo w x : Nat) (hlw : lo + w ≤ 8) (hx : x < 2 ^ w) :
    FieldWritten s (s.modify_bits r ((2 ^ w - 1) <<< lo) (x <<< lo)) r lo w x := by
  have hr : (s.modify_bits r ((2 ^ w - 1) <<< lo) (x <<< lo)).read r
      = OPL3State.modify_value (s.read r) ((2 ^ w - 1) <<< lo) (x <<< lo) := by
    rw [modify_bits_eq, read_write_same]
  refine ⟨?_, ?_, fun i hi hout => ?_, fun b hb => ?_, ?_⟩
  · rw [hr]
    apply Nat.eq_of_testBit_eq
    intro i
    rw [Nat.testBit_mod_two_pow, Nat.testBit_shiftRight, modify_value_testBit,
      testBit_field_mask, Nat.testBit_shiftLeft]
    by_cases hiw : i < w
    · have h1 : lo + i < 8 := by omega
      have h2 : lo ≤ lo + i := by omega
      have h3 : lo + i - lo = i := by omega
      simp [hiw, h1, h3]
    · have hxi : x.testBit i = false :=
        Nat.testBit_eq_false_of_lt (lt_of_lt_of_le hx (Nat.pow_le_pow_right (by decide) (by omega)))
      simp [hiw, hxi]
  · rw [hr]; exact modify_value_lt _ _ _
  · rw [hr, modify_value_testBit, testBit_field_mask]
    have : ¬ (lo ≤ i ∧ i - lo < w) := by
      intro h; apply hout; omega
    by_cases h1 : lo ≤ i
    · have h2 : ¬ i - lo < w := fun h => this ⟨h1, h⟩
      simp [hi, h1, h2]
    · simp [hi, h1]
  · rw [modify_bits_eq]
    exact read_write_of_index_ne s r b _ hb
  · rw [hr, modify_bits_eq]
    exact queue_record s.hw_ r _

theorem and_7f (x : Nat) : x &&& 0x7F = x % 128 := Nat.and_pow_two_sub_one_eq_mod x 7

/-- The scaled values that `nrpn_operator` passes to `modify_bits`, for a data value of
at most 127. -/
theorem nrpn_scaled_values :
    ∀ v, v < 128 →
      ((v >>> 3) <<< 4) % 256 = (v >>> 3) <<< 4 ∧ (v >>> 3) % 256 = (v >>> 3) <<< 0 ∧
      (v >>> 4) % 256 = (v >>> 4) <<< 0 ∧ (v >>> 1) % 256 = (v >>> 1) <<< 0 ∧
      ((v >>> 5) <<< 6) % 256 = (v >>> 5) <<< 6 ∧
      ((v >>> 4) <<< 1) % 256 = (v >>> 4) <<< 1 ∧
      v >>> 3 < 16 ∧ v >>> 4 < 8 ∧ v >>> 1 < 64 ∧ v >>> 5 < 4 := by
  decide

theorem nrpn_bit_value (v m k : Nat) (hm : m = 1 <<< k) :
    (if v ≥ 64 then m else 0x00) = (if v ≥ 64 then 1 else 0) <<< k := by
  subst hm
  split <;> simp

/-- The state after `nrpn_operator`, for an operator offset that the search finds. -/
theorem nrpn_operator_state (d : DirectMode) (ch op_idx off p v : Nat) (hch : ch < 18)
    (hoff : DirectMode.nrpn_op_off (kChannelToOPL3 ch).opl_ch op_idx = some off)
    (hp : p ≤ 11) (hv : v ≤ 127) :
    (d.nrpn_operator ch op_idx p v).state_ =
      d.state_.modify_bits ((kChannelToOPL3 ch).port_base ||| ((spec_operator_field p).1 + off))
        ((2 ^ (spec_operator_field p).2.2 - 1) <<< (spec_operator_field p).2.1)
        (spec_operator_value p v <<< (spec_operator_field p).2.1) := by
  have hnot : ¬ ch ≥ 18 := by omega
  have hv7 : v &&& 0x7F = v := by rw [and_7f]; omega
  obtain ⟨e1, e2, e3, e4, e5, -, -⟩ := nrpn_scaled_values v (by omega)
  unfold DirectMode.nrpn_operator
  rw [if_neg hnot]
  simp only [hoff, hv7]
  have b7 := nrpn_bit_value v 0x80 7 rfl
  have b6 := nrpn_bit_value v 0x40 6 rfl
  have b5 := nrpn_bit_value v 0x20 5 rfl
  have b4 := nrpn_bit_value v 0x10 4 rfl
  interval_cases p
  · simp only [spec_operator_field, spec_operator_value, e1]; rfl
  · simp only [spec_operator_field, spec_operator_value, e2]; rfl
  · simp only [spec_operator_field, spec_operator_value, e1]; rfl
  · simp only [spec_operator_field, spec_operator_value, e2]; rfl
  · simp only [spec_operator_field, spec_operator_value, e3]; rfl
  · simp only [spec_operator_field, spec_operator_value, e2]; rfl
  · simp only [spec_operator_field, spec_operator_value, e4]; rfl
  · simp only [spec_operator_field, spec_operator_value, e5]; rfl
  · simp only [spec_operator_field, spec_operator_value, b7]; rfl
  · simp only [spec_operator_field, spec_operator_value, b6]; rfl
  · simp only [spec_operator_field, spec_operator_value, b5]; rfl
  · simp only [spec_operator_field, spec_operator_value, b4]; rfl

theorem spec_operator_field_fits (p : Nat) :
    (spec_operator_field p).2.1 + (spec_operator_field p).2.2 ≤ 8 := by
  unfold spec_operator_field
  split <;> decide

theorem spec_operator_value_lt (p v : Nat) (hp : p ≤ 11) (hv : v ≤ 127) :
    spec_operator_value p v < 2 ^ (spec_operator_field p).2.2 := by
  obtain ⟨-, -, -, -, -, -, h3, h4, h1, h5⟩ := nrpn_scaled_values v (by omega)
  have hb : (if v ≥ 64 then 1 else 0) < 2 := by split <;> decide
  interval_cases p <;> simp only [spec_operator_field, spec_operator_value] <;>
    first
    | exact h3
    | exact h4
    | exact h1
    | exact h5
    | exact hb

/-- The operator parameter write of `nrpn_operator`, for an operator offset that the search
finds. -/
theorem nrpn_operator_field (d : DirectMode) (ch op_idx off p v : Nat) (hch : ch < 18)
    (hoff : DirectMode.nrpn_op_off (kChannelToOPL3 ch).opl_ch op_idx = some off)
    (hp : p ≤ 11) (hv : v ≤ 127) :
    FieldWritten d.state_ (d.nrpn_operator ch op_idx p v).state_
      ((kChannelToOPL3 ch).port_base ||| ((spec_operator_field p).1 + off))
      (spec_operator_field p).2.1 (spec_operator_field p).2.2 (spec_operator_value p v) := by
  rw [nrpn_operator_state d ch op_idx off p v hch hoff hp hv]
  exact modify_field _ _ _ _ _ (spec_operator_field_fits p) (spec_operator_value_lt p v hp hv)

theorem process_cc (fp : FloatOps) (d : DirectMode) (ch cc val : Nat) (hch : ch < 16) :
    d.process_midi fp [0xB0 ||| ch, cc, val] = d.handle_cc fp ch cc val := by
  obtain ⟨h1, h2, h3⟩ := status_byte_split 0xB0 (by decide) ch hch
  unfold DirectMode.process_midi
  simp only [List.length_cons, List.length_nil, List.getD_cons_zero, List.getD_cons_succ]
  rw [if_neg (by norm_num), if_neg h3, h1, h2]
  simp

/-- Selecting an NRPN and sending Data Entry through Direct Mode applies the NRPN; the two
selecting messages change the channel state only. -/
theorem run_nrpn_messages (fp : FloatOps) (d : DirectMode) (ch msb lsb v : Nat)
    (hch : ch < 16) (hmsb : msb ≠ 0x7F) (hlsb : lsb ≠ 0x7F) :
    ∃ d2 : DirectMode, d2.state_ = d.state_ ∧
      d.run_midi fp (nrpn_messages ch msb lsb v) = d2.nrpn_apply ch msb lsb v := by
  have hnot : ¬ ch ≥ 16 := by omega
  unfold DirectMode.run_midi nrpn_messages
  simp only [List.foldl_cons, List.foldl_nil, process_cc fp _ ch _ _ hch]
  refine ⟨(d.handle_cc fp ch 99 msb).handle_cc fp ch 98 lsb, ?_, ?_⟩
  · simp only [DirectMode.handle_cc, hnot, if_false]
    rfl
  · generalize hd2 : (d.handle_cc fp ch 99 msb).handle_cc fp ch 98 lsb = d2
    have h1 : (d2.channels_ ch).nrpn_msb = msb ∧ (d2.channels_ ch).nrpn_lsb = lsb := by
      rw [← hd2]
      simp [DirectMode.handle_cc, hnot, DirectMode.set_channel]
    conv => lhs; unfold DirectMode.handle_cc
    simp only [hnot, if_false, DirectMode.nrpn_data_entry, h1.1, h1.2, hmsb, hlsb, or_self]

/-- The registers that an NRPN writes depend on the shadow state only. -/
theorem nrpn_apply_state_congr (d d2 : DirectMode) (h : d2.state_ = d.state_)
    (ch msb lsb v : Nat) :
    (d2.nrpn_apply ch msb lsb v).state_ = (d.nrpn_apply ch msb lsb v).state_ := by
  unfold DirectMode.nrpn_apply DirectMode.nrpn_operator DirectMode.nrpn_channel
    DirectMode.nrpn_global
  simp only [h]
  split_ifs <;> first | rfl | exact h | (split <;> first | rfl | exact h)

/-- Through Direct Mode, the three NRPN messages on MIDI channel `ch` write what `direct_nrpn`
writes on OPL3 channel `ch`. -/
theorem run_nrpn_state (fp : FloatOps) (d : DirectMode) (ch msb lsb v : Nat)
    (hch : ch < 16) (hmsb : msb ≠ 0x7F) (hlsb : lsb ≠ 0x7F) :
    (d.run_midi fp (nrpn_messages ch msb lsb v)).state_ = (d.direct_nrpn ch msb lsb v).state_ := by
  obtain ⟨d2, hs, hrun⟩ := run_nrpn_messages fp d ch msb lsb v hch hmsb hlsb
  have hnot : ¬ ch ≥ 18 := by omega
  rw [hrun, DirectMode.direct_nrpn, if_neg hnot]
  exact nrpn_apply_state_congr d d2 hs ch msb lsb v

theorem nrpn_op_off_own (opl_ch op : Nat) (hop : op ≤ 1) :
    DirectMode.nrpn_op_off opl_ch op = some (kOperatorOffset opl_ch op) := by
  unfold DirectMode.nrpn_op_off
  rw [if_pos hop]

theorem direct_nrpn_operator (d : DirectMode) (ch msb lsb v : Nat) (hch : ch < 18)
    (hmsb : msb ≤ 3) : d.direct_nrpn ch msb lsb v = d.nrpn_operator ch msb lsb v := by
  have hnot : ¬ ch ≥ 18 := by omega
  unfold DirectMode.direct_nrpn DirectMode.nrpn_apply
  rw [if_neg hnot, if_pos hmsb]

/-- Claim C15. For every OPL3 channel `ch < 18`, operator index `m` in `{0, 1}`, parameter
`p` in `0..11` and data value `v` in `0..127`: applying NRPN `(m, p)` with data `v` to the
channel (`direct_nrpn`, and for `ch < 16` the messages CC99 `m`, CC98 `p`, CC6 `v` on MIDI
channel `ch` through Direct Mode) writes into operator `m` of that channel exactly the
field of the table, scaled as the table says, leaves every other bit of that
register and every other register unchanged, and queues that one write. -/
theorem nrpn_operator_parameter (d : DirectMode) (ch m p v : Nat) (hch : ch < 18)
    (hm : m ≤ 1) (hp : p ≤ 11) (hv : v ≤ 127) :
    FieldWritten d.state_ (d.direct_nrpn ch m p v).state_
      (operator_reg ch m (spec_operator_field p).1)
      (spec_operator_field p).2.1 (spec_operator_field p).2.2 (spec_operator_value p v) ∧
    ∀ fp : FloatOps, ch < 16 →
      FieldWritten d.state_ (d.run_midi fp (nrpn_messages ch m p v)).state_
        (operator_reg ch m (spec_operator_field p).1)
        (spec_operator_field p).2.1 (spec_operator_field p).2.2 (spec_operator_value p v) := by
  have hF := nrpn_operator_field d ch m _ p v hch (nrpn_op_off_own _ m hm) hp hv
  rw [← direct_nrpn_operator d ch m p v hch (by omega)] at hF
  refine ⟨hF, fun fp h16 => ?_⟩
  rw [run_nrpn_state fp d ch m p v h16 (by omega) (by omega)]
  exact hF

/-- Claim C15, witness. The waveform example of the specification: NRPN `(0, 4)` with data
16 on channel 0 of a freshly constructed Direct Mode; register `0xE0` then reads 1. -/
theorem nrpn_operator_parameter_witness :
    ((0 : Nat) < 18 ∧ (0 : Nat) ≤ 1 ∧ (4 : Nat) ≤ 11 ∧ (16 : Nat) ≤ 127) ∧
    ((DirectMode.create OPL3State.fresh 0x7F).run_midi FloatOps.exact
      (nrpn_messages 0 0 4 16)).state_.read 0xE0 = 1 ∧
    FieldWritten (DirectMode.create OPL3State.fresh 0x7F).state_
      ((DirectMode.create OPL3State.fresh 0x7F).direct_nrpn 0 0 4 16).state_
      (operator_reg 0 0 (spec_operator_field 4).1)
      (spec_operator_field 4).2.1 (spec_operator_field 4).2.2 (spec_operator_value 4 16) ∧
    ∀ fp : FloatOps, 0 < 16 →
      FieldWritten (DirectMode.create OPL3State.fresh 0x7F).state_
        ((DirectMode.create OPL3State.fresh 0x7F).run_midi fp (nrpn_messages 0 0 4 16)).state_
        (operator_reg 0 0 (spec_operator_field 4).1)
        (spec_operator_field 4).2.1 (spec_operator_field 4).2.2 (spec_operator_value 4 16) :=
  ⟨by decide, by decide,
    nrpn_operator_parameter (DirectMode.create OPL3State.fresh 0x7F) 0 0 4 16
      (by decide) (by decide) (by decide) (by decide)⟩

/-! ### NRPN MSB 2 and 3: the operators of the paired channel -/

/-- The operator offset for operator index 2 or 3: found for the first channel of a pair
only. -/
theorem nrpn_op_off_partner :
    ∀ c, c < 18 → ∀ msb, msb < 4 → 2 ≤ msb →
      ((kChannelToOPL3 c).opl_ch ≤ 2 →
        DirectMode.nrpn_op_off (kChannelToOPL3 c).opl_ch msb
            = some (kOperatorOffset (kChannelToOPL3 (c + 3)).opl_ch (msb - 2)) ∧
        (kChannelToOPL3 (c + 3)).port_base = (kChannelToOPL3 c).port_base ∧
        (kChannelToOPL3 (c + 3)).opl_ch = (kChannelToOPL3 c).opl_ch + 3 ∧
        four_op_partner c = ((c + 3 : Nat) : Int)) ∧
      (3 ≤ (kChannelToOPL3 c).opl_ch →
        DirectMode.nrpn_op_off (kChannelToOPL3 c).opl_ch msb = none) := by
  have h1 : ∀ c, c < 18 → ∀ msb, msb < 4 → 2 ≤ msb → (kChannelToOPL3 c).opl_ch ≤ 2 →
      DirectMode.nrpn_op_off (kChannelToOPL3 c).opl_ch msb
        = some (kOperatorOffset (kChannelToOPL3 (c + 3)).opl_ch (msb - 2)) := by decide
  have h2 : ∀ c, c < 18 → (kChannelToOPL3 c).opl_ch ≤ 2 →
      (kChannelToOPL3 (c + 3)).port_base = (kChannelToOPL3 c).port_base ∧
      (kChannelToOPL3 (c + 3)).opl_ch = (kChannelToOPL3 c).opl_ch + 3 := by decide
  have h3 : ∀ c, c < 18 → (kChannelToOPL3 c).opl_ch ≤ 2 →
      four_op_partner c = ((c + 3 : Nat) : Int) := by decide
  have h4 : ∀ c, c < 18 → ∀ msb, msb < 4 → 2 ≤ msb → 3 ≤ (kChannelToOPL3 c).opl_ch →
      DirectMode.nrpn_op_off (kChannelToOPL3 c).opl_ch msb = none := by decide
  intro c hc msb hm4 hm2
  exact ⟨fun hl => ⟨h1 c hc msb hm4 hm2 hl, (h2 c hc hl).1, (h2 c hc hl).2, h3 c hc hl⟩,
    fun hl => h4 c hc msb hm4 hm2 hl⟩

/-- Claim C16, counterexample. OPL3 channel 3 has the 4-op partner 0, yet NRPN `(2, 6)` (total
level of operator 0 of the partner) with data 127 on channel 3 writes no
register: register `0x40` still reads 0, not `127 >> 1`, and nothing is queued. -/
theorem nrpn_partner_counterexample :
    four_op_partner 3 = 0 ∧
    ((DirectMode.create OPL3State.fresh 0x7F).run_midi FloatOps.exact
      (nrpn_messages 3 2 6 127)).state_.read (operator_reg 0 0 0x40) = 0 ∧
    ((DirectMode.create OPL3State.fresh 0x7F).run_midi FloatOps.exact
      (nrpn_messages 3 2 6 127)).state_.hw_.buf_ = [0x42, 0x12] ∧
    (127 >>> 1 : Nat) = 63 := by
  decide

/-- Claim C16, amended. For NRPN MSB 2 or 3 on an OPL3 channel `c < 18`, parameter `p` in
`0..11` and data `v` in `0..127`: if `c` is the first channel of a 4-op pair (local
channel 0, 1 or 2 of either port) Data Entry writes the selected parameter into
operator `MSB - 2` of the partner channel `c + 3` on the same port, and nothing
else; if `c` is any other channel (local channels 3 to 8, the second channels of
the pairs included) no register is written. -/
theorem nrpn_partner_operator (d : DirectMode) (c msb p v : Nat) (hc : c < 18)
    (hmsb : msb = 2 ∨ msb = 3) (hp : p ≤ 11) (hv : v ≤ 127) :
    ((kChannelToOPL3 c).opl_ch ≤ 2 →
      four_op_partner c = ((c + 3 : Nat) : Int) ∧
      FieldWritten d.state_ (d.direct_nrpn c msb p v).state_
        (operator_reg (c + 3) (msb - 2) (spec_operator_field p).1)
        (spec_operator_field p).2.1 (spec_operator_field p).2.2 (spec_operator_value p v)) ∧
    (3 ≤ (kChannelToOPL3 c).opl_ch → d.direct_nrpn c msb p v = d) ∧
    (∀ fp : FloatOps, c < 16 →
      (d.run_midi fp (nrpn_messages c msb p v)).state_ = (d.direct_nrpn c msb p v).state_) := by
  obtain ⟨hlow, hhigh⟩ := nrpn_op_off_partner c hc msb (by omega) (by omega)
  have hm3 : msb ≤ 3 := by omega
  refine ⟨fun hl => ?_, fun hl => ?_, fun fp h16 => ?_⟩
  · obtain ⟨hoff, hbase, -, hpart⟩ := hlow hl
    refine ⟨hpart, ?_⟩
    have hF := nrpn_operator_field d c msb _ p v hc hoff hp hv
    rw [direct_nrpn_operator d c msb p v hc hm3]
    unfold operator_reg
    rw [hbase]
    exact hF
  · rw [direct_nrpn_operator d c msb p v hc hm3]
    have hnot : ¬ c ≥ 18 := by omega
    unfold DirectMode.nrpn_operator
    rw [if_neg hnot]
    simp only [hhigh hl]
  · exact run_nrpn_state fp d c msb p v h16 (by omega) (by omega)

/-- Claim C16, witness. NRPN `(2, 6)` with data 127 on channel 0 of a freshly constructed
Direct Mode writes the total level of operator 0 of channel 3. -/
theorem nrpn_partner_operator_witness :
    ((0 : Nat) < 18 ∧ ((2 : Nat) = 2 ∨ (2 : Nat) = 3) ∧ (6 : Nat) ≤ 11 ∧ (127 : Nat) ≤ 127) ∧
    ((DirectMode.create OPL3State.fresh 0x7F).direct_nrpn 0 2 6 127).state_.read
      (operator_reg 3 0 0x40) = 63 ∧
    (((kChannelToOPL3 0).opl_ch ≤ 2 →
      four_op_partner (0 : Nat) = ((0 + 3 : Nat) : Int) ∧
      FieldWritten (DirectMode.create OPL3State.fresh 0x7F).state_
        ((DirectMode.create OPL3State.fresh 0x7F).direct_nrpn 0 2 6 127).state_
        (operator_reg (0 + 3) (2 - 2) (spec_operator_field 6).1)
        (spec_operator_field 6).2.1 (spec_operator_field 6).2.2 (spec_operator_value 6 127)) ∧
    (3 ≤ (kChannelToOPL3 0).opl_ch →
      (DirectMode.create OPL3State.fresh 0x7F).direct_nrpn 0 2 6 127
        = DirectMode.create OPL3State.fresh 0x7F) ∧
    (∀ fp : FloatOps, 0 < 16 →
      ((DirectMode.create OPL3State.fresh 0x7F).run_midi fp (nrpn_messages 0 2 6 127)).state_
        = ((DirectMode.create OPL3State.fresh 0x7F).direct_nrpn 0 2 6 127).state_)) :=
  ⟨by decide, by decide,
    nrpn_partner_operator (DirectMode.create OPL3State.fresh 0x7F) 0 2 6 127
      (by decide) (by decide) (by decide) (by decide)⟩

/-! ### NRPN MSB 4: channel parameters -/

theorem direct_nrpn_channel (d : DirectMode) (c lsb v : Nat) (hc : c < 18) :
    d.direct_nrpn c 4 lsb v = d.nrpn_channel c lsb v := by
  have hnot : ¬ c ≥ 18 := by omega
  unfold DirectMode.direct_nrpn DirectMode.nrpn_apply
  rw [if_neg hnot, if_neg (by decide), if_pos rfl]

/-- The pair searches of `nrpn_channel`: they find the pair for its first channel only. -/
theorem pair_search :
    ∀ c, c < 18 →
      ((kChannelToOPL3 c).opl_ch ≤ 2 →
        DirectMode.four_op_pair_index (kChannelToOPL3 c).opl_ch = some (kChannelToOPL3 c).opl_ch ∧
        kFourOpPairs.find? (fun p => p.1 == (kChannelToOPL3 c).opl_ch)
          = some ((kChannelToOPL3 c).opl_ch, (kChannelToOPL3 c).opl_ch + 3) ∧
        kFourOpEnableBit ((kChannelToOPL3 c).opl_ch +
            (if (kChannelToOPL3 c).port_base = 0x100 then 3 else 0))
          = 1 <<< ((kChannelToOPL3 c).opl_ch + (if c ≥ 9 then 3 else 0))) ∧
      (3 ≤ (kChannelToOPL3 c).opl_ch →
        DirectMode.four_op_pair_index (kChannelToOPL3 c).opl_ch = none ∧
        kFourOpPairs.find? (fun p => p.1 == (kChannelToOPL3 c).opl_ch) = none) := by
  decide

/-- Claim C17, counterexample. OPL3 channel 3 belongs to the 4-op pair `(0, 3)`, whose enable
bit is bit 0 of `0x104`; NRPN `(4, 4)` with data 127 on channel 3 leaves the bit
clear and queues no write. -/
theorem nrpn_channel_counterexample :
    (0, 3) ∈ kFourOpPairs ∧
    ((DirectMode.create OPL3State.fresh 0x7F).run_midi FloatOps.exact
      (nrpn_messages 3 4 4 127)).state_.read 0x104 = 0 ∧
    ((DirectMode.create OPL3State.fresh 0x7F).run_midi FloatOps.exact
      (nrpn_messages 3 4 4 127)).state_.hw_.buf_ = [0x42, 0x12] := by
  decide

/-- Claim C17, amended. For NRPN MSB 4 on an OPL3 channel `c < 18` with data `v` in `0..127`:
LSB 0 writes `v >> 4` into bits 3:1 of `0xC0+c`; LSB 1, 2, 3 set bit 0, 4, 5 of `0xC0+c`
iff `v >= 64`; LSB 4, when `c` is the first channel of a 4-op pair (local channel
`i` in 0..2), sets iff `v >= 64` the enable bit of that pair in `0x104` (bit `i` on port
0, bit `3 + i` on port 1), and LSB 5 then sets iff `v >= 64` bit 0 of the `0xC0` register
of the paired channel `c + 3`; on every other channel (local channels 3 to 8) LSB 4
and LSB 5 write no register. In every case no other bit of any register
changes, and the MIDI messages on channel `c < 16` write the same. -/
theorem nrpn_channel_parameter (d : DirectMode) (c v : Nat) (hc : c < 18) (hv : v ≤ 127) :
    FieldWritten d.state_ (d.direct_nrpn c 4 0 v).state_ (c0_reg c) 1 3 (v >>> 4) ∧
    FieldWritten d.state_ (d.direct_nrpn c 4 1 v).state_ (c0_reg c) 0 1
      (if v ≥ 64 then 1 else 0) ∧
    FieldWritten d.state_ (d.direct_nrpn c 4 2 v).state_ (c0_reg c) 4 1
      (if v ≥ 64 then 1 else 0) ∧
    FieldWritten d.state_ (d.direct_nrpn c 4 3 v).state_ (c0_reg c) 5 1
      (if v ≥ 64 then 1 else 0) ∧
    ((kChannelToOPL3 c).opl_ch ≤ 2 →
      FieldWritten d.state_ (d.direct_nrpn c 4 4 v).state_ 0x104
        ((kChannelToOPL3 c).opl_ch + (if c ≥ 9 then 3 else 0)) 1 (if v ≥ 64 then 1 else 0) ∧
      FieldWritten d.state_ (d.direct_nrpn c 4 5 v).state_ (c0_reg (c + 3)) 0 1
        (if v ≥ 64 then 1 else 0)) ∧
    (3 ≤ (kChannelToOPL3 c).opl_ch →
      d.direct_nrpn c 4 4 v = d ∧ d.direct_nrpn c 4 5 v = d) ∧
    (∀ (fp : FloatOps) (lsb : Nat), c < 16 → lsb ≠ 0x7F →
      (d.run_midi fp (nrpn_messages c 4 lsb v)).state_ = (d.direct_nrpn c 4 lsb v).state_) := by
  have hnot : ¬ c ≥ 18 := by omega
  obtain ⟨-, -, -, -, -, e6, -, h8, -, -⟩ := nrpn_scaled_values v (by omega)
  have hb : (if v ≥ 64 then 1 else 0) < 2 ^ 1 := by split <;> decide
  have b4 := nrpn_bit_value v 0x10 4 rfl
  have b5 := nrpn_bit_value v 0x20 5 rfl
  obtain ⟨hlow, hhigh⟩ := pair_search c hc
  refine ⟨?_, ?_, ?_, ?_, fun hl => ⟨?_, ?_⟩, fun hl => ⟨?_, ?_⟩, fun fp lsb h16 hlsb => ?_⟩
  · rw [direct_nrpn_channel d c 0 v hc]
    have h := modify_field d.state_ (c0_reg c) 1 3 (v >>> 4) (by decide) h8
    unfold DirectMode.nrpn_channel
    rw [if_neg hnot]
    simp only [e6]
    exact h
  · rw [direct_nrpn_channel d c 1 v hc]
    have h := modify_field d.state_ (c0_reg c) 0 1 _ (by decide) hb
    unfold DirectMode.nrpn_channel
    rw [if_neg hnot]
    dsimp only
    exact h
  · rw [direct_nrpn_channel d c 2 v hc]
    have h := modify_field d.state_ (c0_reg c) 4 1 _ (by decide) hb
    unfold DirectMode.nrpn_channel
    rw [if_neg hnot]
    simp only [b4]
    exact h
  · rw [direct_nrpn_channel d c 3 v hc]
    have h := modify_field d.state_ (c0_reg c) 5 1 _ (by decide) hb
    unfold DirectMode.nrpn_channel
    rw [if_neg hnot]
    simp only [b5]
    exact h
  · obtain ⟨hidx, -, hbit⟩ := hlow hl
    rw [direct_nrpn_channel d c 4 v hc]
    have hk : (kChannelToOPL3 c).opl_ch + (if c ≥ 9 then 3 else 0) + 1 ≤ 8 := by
      split <;> omega
    have h := modify_field d.state_ 0x104 _ 1 _ hk hb
    unfold DirectMode.nrpn_channel
    rw [if_neg hnot]
    dsimp only
    rw [hidx]
    dsimp only
    rw [hbit, nrpn_bit_value v _ ((kChannelToOPL3 c).opl_ch + (if c ≥ 9 then 3 else 0)) rfl]
    exact h
  · obtain ⟨-, hfind, -⟩ := hlow hl
    obtain ⟨-, hbase, hch, -⟩ := (nrpn_op_off_partner c hc 2 (by decide) (by decide)).1 hl
    rw [direct_nrpn_channel d c 5 v hc]
    have hreg : c0_reg (c + 3) = ((kChannelToOPL3 c).port_base |||
        (kRegFeedbackConn + ((kChannelToOPL3 c).opl_ch + 3))) := by
      unfold c0_reg; rw [hbase, hch]
    rw [hreg]
    have h := modify_field d.state_ ((kChannelToOPL3 c).port_base |||
        (kRegFeedbackConn + ((kChannelToOPL3 c).opl_ch + 3))) 0 1 _ (by decide) hb
    unfold DirectMode.nrpn_channel
    rw [if_neg hnot]
    dsimp only
    rw [hfind]
    exact h
  · rw [direct_nrpn_channel d c 4 v hc]
    unfold DirectMode.nrpn_channel
    rw [if_neg hnot]
    dsimp only
    rw [(hhigh hl).1]
  · rw [direct_nrpn_channel d c 5 v hc]
    unfold DirectMode.nrpn_channel
    rw [if_neg hnot]
    dsimp only
    rw [(hhigh hl).2]
  · exact run_nrpn_state fp d c 4 lsb v h16 (by decide) hlsb

/-- Claim C17, witness. Channel 0 of a freshly constructed Direct Mode with data 127: NRPN
`(4, 0)` writes feedback 7 into bits 3:1 of `0xC0`, and NRPN `(4, 4)` sets bit 0 of `0x104`. -/
theorem nrpn_channel_parameter_witness :
    ((0 : Nat) < 18 ∧ (127 : Nat) ≤ 127) ∧
    ((DirectMode.create OPL3State.fresh 0x7F).direct_nrpn 0 4 4 127).state_.read 0x104 = 1 ∧
    FieldWritten (DirectMode.create OPL3State.fresh 0x7F).state_
      ((DirectMode.create OPL3State.fresh 0x7F).direct_nrpn 0 4 0 127).state_
      (c0_reg 0) 1 3 (127 >>> 4) :=
  ⟨by decide, by decide,
    (nrpn_channel_parameter (DirectMode.create OPL3State.fresh 0x7F) 0 127
      (by decide) (by decide)).1⟩


/-! ### Parameter addressing in the Voice Allocator -/

theorem allocator_process_cc (fp : FloatOps) (va : VoiceAllocator) (ch cc val : Nat)
    (hch : ch < 16) :
    VoiceAllocator.process_midi fp va [0xB0 ||| ch, cc, val]
      = some (VoiceAllocator.handle_cc fp va ch cc val) := by
  obtain ⟨h1, h2, h3⟩ := status_byte_split 0xB0 (by decide) ch hch
  unfold VoiceAllocator.process_midi
  simp only [List.length_cons, List.length_nil, List.getD_cons_zero, List.getD_cons_succ]
  rw [if_neg (by norm_num), if_neg h3, h1, h2]
  simp

/-- Claim C18. In the Voice Allocator, on a MIDI channel `ch < 16`: CC99 and CC98 store the
NRPN byte and set both RPN bytes to `0x7F`; CC101 and CC100 store the RPN byte and set
both NRPN bytes to `0x7F`; whenever the NRPN MSB or LSB of the channel is `0x7F`, Data
Entry MSB (CC6) leaves Direct Mode, and with it every OPL3 register and the
hardware buffer, as it is; and CC6, CC38 and CC98 to CC101 are never broadcast: CC38
and CC98 to CC101 leave Direct Mode as it is, and CC6 with an NRPN selected does
nothing but `direct_nrpn` on each channel of the pool. -/
theorem allocator_parameter_ccs (fp : FloatOps) (va : VoiceAllocator) (ch v : Nat)
    (hch : ch < 16) :
    (((VoiceAllocator.handle_cc fp va ch 99 v).midi_channels_ ch).nrpn_msb = v ∧
      ((VoiceAllocator.handle_cc fp va ch 99 v).midi_channels_ ch).rpn_msb = 0x7F ∧
      ((VoiceAllocator.handle_cc fp va ch 99 v).midi_channels_ ch).rpn_lsb = 0x7F) ∧
    (((VoiceAllocator.handle_cc fp va ch 98 v).midi_channels_ ch).nrpn_lsb = v ∧
      ((VoiceAllocator.handle_cc fp va ch 98 v).midi_channels_ ch).rpn_msb = 0x7F ∧
      ((VoiceAllocator.handle_cc fp va ch 98 v).midi_channels_ ch).rpn_lsb = 0x7F) ∧
    (((VoiceAllocator.handle_cc fp va ch 101 v).midi_channels_ ch).rpn_msb = v ∧
      ((VoiceAllocator.handle_cc fp va ch 101 v).midi_channels_ ch).nrpn_msb = 0x7F ∧
      ((VoiceAllocator.handle_cc fp va ch 101 v).midi_channels_ ch).nrpn_lsb = 0x7F) ∧
    (((VoiceAllocator.handle_cc fp va ch 100 v).midi_channels_ ch).rpn_lsb = v ∧
      ((VoiceAllocator.handle_cc fp va ch 100 v).midi_channels_ ch).nrpn_msb = 0x7F ∧
      ((VoiceAllocator.handle_cc fp va ch 100 v).midi_channels_ ch).nrpn_lsb = 0x7F) ∧
    (((va.midi_channels_ ch).nrpn_msb = 0x7F ∨ (va.midi_channels_ ch).nrpn_lsb = 0x7F) →
      (VoiceAllocator.handle_cc fp va ch 6 v).dm_ = va.dm_) ∧
    (∀ cc ∈ [38, 98, 99, 100, 101], (VoiceAllocator.handle_cc fp va ch cc v).dm_ = va.dm_) ∧
    (((va.midi_channels_ ch).nrpn_msb ≠ 0x7F ∧ (va.midi_channels_ ch).nrpn_lsb ≠ 0x7F) →
      (VoiceAllocator.handle_cc fp va ch 6 v).dm_ = (va.pool ch).foldl
        (fun dm c => dm.direct_nrpn c (va.midi_channels_ ch).nrpn_msb
          (va.midi_channels_ ch).nrpn_lsb v) va.dm_) ∧
    (∀ cc, VoiceAllocator.process_midi fp va [0xB0 ||| ch, cc, v]
      = some (VoiceAllocator.handle_cc fp va ch cc v)) := by
  have hnot : ¬ ch ≥ 16 := by omega
  refine ⟨?_, ?_, ?_, ?_, fun hnull => ?_, fun cc hcc => ?_, fun hact => ?_,
    fun cc => allocator_process_cc fp va ch cc v hch⟩
  · simp [VoiceAllocator.handle_cc, hnot, VoiceAllocator.set_mcs]
  · simp [VoiceAllocator.handle_cc, hnot, VoiceAllocator.set_mcs]
  · simp [VoiceAllocator.handle_cc, hnot, VoiceAllocator.set_mcs]
  · simp [VoiceAllocator.handle_cc, hnot, VoiceAllocator.set_mcs]
  · have hn : ¬ ((va.midi_channels_ ch).nrpn_msb ≠ 0x7F ∧ (va.midi_channels_ ch).nrpn_lsb ≠ 0x7F) := by
      intro h; rcases hnull with h1 | h1
      · exact h.1 h1
      · exact h.2 h1
    unfold VoiceAllocator.handle_cc
    rw [if_neg hnot]
    dsimp only
    rw [if_neg hn]
    split <;> rfl
  · simp only [List.mem_cons, List.mem_singleton, List.not_mem_nil, or_false] at hcc
    unfold VoiceAllocator.handle_cc
    rw [if_neg hnot]
    rcases hcc with rfl | rfl | rfl | rfl | rfl
    · dsimp only; split <;> rfl
    · rfl
    · rfl
    · rfl
    · rfl
  · unfold VoiceAllocator.handle_cc
    rw [if_neg hnot]
    dsimp only
    rw [if_pos hact]
    rfl

/-- Claim C18, witness. CC99 with value 5 on MIDI channel 0 of a freshly constructed Voice
Allocator. -/
theorem allocator_parameter_ccs_witness :
    (0 : Nat) < 16 ∧
    (((VoiceAllocator.handle_cc FloatOps.exact (VoiceAllocator.fresh 0x7F) 0 99 5).midi_channels_
        0).nrpn_msb = 5 ∧
      ((VoiceAllocator.handle_cc FloatOps.exact (VoiceAllocator.fresh 0x7F) 0 99 5).midi_channels_
        0).rpn_msb = 0x7F ∧
      ((VoiceAllocator.handle_cc FloatOps.exact (VoiceAllocator.fresh 0x7F) 0 99 5).midi_channels_
        0).rpn_lsb = 0x7F) :=
  ⟨by decide,
    (allocator_parameter_ccs FloatOps.exact (VoiceAllocator.fresh 0x7F) 0 5 (by decide)).1⟩

/-! ### Dropped SysEx messages -/

/-- Direct Mode drops a rejected SysEx message: the whole state is as before. -/
theorem direct_sysex_dropped (fp : FloatOps) (d : DirectMode) (data : List Nat)
    (h : SysExRejected d.device_id_ direct_sysex_commands data) :
    d.process_midi fp data = d := by
  obtain ⟨h0, hrej⟩ := h
  unfold DirectMode.process_midi
  dsimp only
  by_cases hlen : data.length = 0
  · rw [if_pos hlen]
  rw [if_neg hlen, if_pos h0]
  unfold DirectMode.handle_sysex
  by_cases h5 : data.length < 5
  · rw [if_pos h5]
  rw [if_neg h5]
  by_cases hf : data.getD 0 0 ≠ 0xF0 ∨ data.getD (data.length - 1) 0 ≠ 0xF7
  · rw [if_pos hf]
  rw [if_neg hf]
  by_cases hm : data.getD 1 0 ≠ kSysExManufID
  · rw [if_pos hm]
  rw [if_neg hm]
  by_cases hd : data.getD 2 0 ≠ d.device_id_ ∧ data.getD 2 0 ≠ 0x7F ∧ d.device_id_ ≠ 0x7F
  · rw [if_pos hd]
  rw [if_neg hd]
  have hcmd : data.getD 3 0 ∉ direct_sysex_commands := by
    rcases hrej with h1 | h1 | h1 | h1
    · exact absurd h1 (by simpa [kSysExManufID] using hm)
    · exact absurd h1 hd
    · exact absurd (Or.inr h1) hf
    · exact h1
  simp only [direct_sysex_commands, List.mem_cons, List.mem_singleton, List.not_mem_nil,
    or_false, not_or] at hcmd
  obtain ⟨c1, c2, c3, c4, c5, c6, c7, c8⟩ := hcmd
  simp only [c1, c2, c3, c4, c5, c6, c7, c8, if_false]

/-- The Voice Allocator drops a rejected SysEx message, unless it is one that it intercepts as
Reset All (at least five bytes, manufacturer `0x7D`, command `0x20`). -/
theorem allocator_sysex_dropped (fp : FloatOps) (va : VoiceAllocator) (data : List Nat)
    (hdev : va.dm_.device_id_ = va.device_id_)
    (h : SysExRejected va.device_id_ allocator_sysex_commands data)
    (hreset : ¬ (data.length ≥ 5 ∧ data.getD 1 0 = 0x7D ∧ data.getD 3 0 = 0x20)) :
    VoiceAllocator.process_midi fp va data = some va := by
  have hdm : va.dm_.process_midi fp data = va.dm_ := by
    apply direct_sysex_dropped
    rw [hdev]
    refine ⟨h.1, ?_⟩
    rcases h.2 with h1 | h1 | h1 | h1
    · exact Or.inl h1
    · exact Or.inr (Or.inl h1)
    · exact Or.inr (Or.inr (Or.inl h1))
    · refine Or.inr (Or.inr (Or.inr ?_))
      intro hmem
      apply h1
      unfold allocator_sysex_commands
      exact List.mem_append_right _ hmem
  have hfwd : ({ va with dm_ := va.dm_.process_midi fp data } : VoiceAllocator) = va := by
    rw [hdm]
  obtain ⟨h0, hrej⟩ := h
  unfold VoiceAllocator.process_midi
  dsimp only
  by_cases hlen : data.length = 0
  · rw [if_pos hlen]
  rw [if_neg hlen, if_pos h0]
  by_cases hown : data.length ≥ 5 ∧ data.getD 1 0 = kSysExManufID ∧
      (data.getD 3 0 = kSysExVoiceConfig ∨ data.getD 3 0 = kSysExVoiceQuery ∨
       data.getD 3 0 = VoiceAllocator.kSysExPercConfig ∨
       data.getD 3 0 = VoiceAllocator.kSysExPercQuery)
  · rw [if_pos hown]
    congr 1
    unfold VoiceAllocator.handle_sysex
    have h5 : ¬ data.length < 5 := by omega
    rw [if_neg h5]
    by_cases hf : data.getD 0 0 ≠ 0xF0 ∨ data.getD (data.length - 1) 0 ≠ 0xF7
    · rw [if_pos hf]
    rw [if_neg hf, if_neg (not_not.mpr hown.2.1)]
    by_cases hd : data.getD 2 0 ≠ va.device_id_ ∧ data.getD 2 0 ≠ 0x7F ∧ va.device_id_ ≠ 0x7F
    · rw [if_pos hd]
    exfalso
    rcases hrej with h1 | h1 | h1 | h1
    · exact h1 hown.2.1
    · exact hd h1
    · exact hf (Or.inr h1)
    · apply h1
      unfold allocator_sysex_commands
      apply List.mem_append_left
      simp only [List.mem_cons, List.mem_singleton, List.not_mem_nil, or_false]
      exact hown.2.2
  rw [if_neg hown]
  have hnr : ¬ (data.length ≥ 5 ∧ data.getD 1 0 = kSysExManufID ∧
      data.getD 3 0 = kSysExResetAll) := hreset
  rw [if_neg hnr, hfwd]

set_option maxRecDepth 100000 in
/-- Claim C19, the code at the failing inputs. A Voice Allocator with device id `0x10` holds
note 60 on MIDI channel 0 (slot in use, key-on bit set, timestamp counter 1, 20
bytes queued). The Reset All frame `F0 7D 05 20 F7` for device 5, and the frame
`F0 7D 10 20 00` without the closing `F7`, are both to be dropped; the allocator frees
the slot, keys the channel off with one more hardware write and sets the
counter to 0. The register write `F0 7D 05 01 01 30 00 F7` for device 5 is dropped. -/
theorem reset_all_intercepted_before_checks :
    SysExRejected 0x10 allocator_sysex_commands [0xF0, 0x7D, 0x05, 0x20, 0xF7] ∧
    SysExRejected 0x10 allocator_sysex_commands [0xF0, 0x7D, 0x10, 0x20, 0x00] ∧
    (VoiceAllocator.run_midi FloatOps.exact (VoiceAllocator.initial 0x10 false)
      [[0x90, 60, 100]]).map VoiceAllocator.observe = some (60, true, 1, 20) ∧
    (VoiceAllocator.run_midi FloatOps.exact (VoiceAllocator.initial 0x10 false)
      [[0x90, 60, 100], [0xF0, 0x7D, 0x05, 0x20, 0xF7]]).map VoiceAllocator.observe
      = some (-1, false, 0, 26) ∧
    (VoiceAllocator.run_midi FloatOps.exact (VoiceAllocator.initial 0x10 false)
      [[0x90, 60, 100], [0xF0, 0x7D, 0x10, 0x20, 0x00]]).map VoiceAllocator.observe
      = some (-1, false, 0, 26) ∧
    (VoiceAllocator.run_midi FloatOps.exact (VoiceAllocator.initial 0x10 false)
      [[0x90, 60, 100], [0xF0, 0x7D, 0x05, 0x01, 0x01, 0x30, 0x00, 0xF7]]).map
      VoiceAllocator.observe = some (60, true, 1, 20) := by
  refine ⟨?_, ?_, ?_, ?_, ?_, ?_⟩
  · unfold SysExRejected; decide
  · unfold SysExRejected; decide
  · decide
  · decide
  · decide
  · decide


/-! ### Register writes by SysEx -/

theorem sysex_frame_last (dev cmd : Nat) (payload : List Nat) :
    (sysex_frame dev cmd payload).getD ((sysex_frame dev cmd payload).length - 1) 0 = 0xF7 := by
  unfold sysex_frame
  simp only [List.length_cons, List.length_append, List.length_nil]
  have h : payload.length + (0 + 1) + 1 + 1 + 1 + 1 - 1 = (payload.length + 3) + 1 := by omega
  rw [h]
  simp only [List.getD_cons_succ]
  rw [List.getD_append_right _ _ _ _ (Nat.le_refl _)]
  simp

/-- A well-framed SysEx message for an accepted device id reaches the dispatch on its
command byte. -/
theorem process_sysex_frame (fp : FloatOps) (d : DirectMode) (dev cmd : Nat)
    (payload : List Nat) (hdev : dev = d.device_id_ ∨ dev = 0x7F ∨ d.device_id_ = 0x7F) :
    d.process_midi fp (sysex_frame dev cmd payload) =
      (if cmd = kSysExRegWrite7 then d.sysex_reg_write_7 (payload ++ [0xF7]) payload.length
       else if cmd = kSysExBatchWrite7 then
         d.sysex_batch_write_7 (payload ++ [0xF7]) payload.length
       else if cmd = kSysExRegWrite8 then d.sysex_reg_write_8 (payload ++ [0xF7]) payload.length
       else if cmd = kSysExBatchWrite8 then
         d.sysex_batch_write_8 (payload ++ [0xF7]) payload.length
       else if cmd = kSysExPatchDump then d.sysex_patch_dump (payload ++ [0xF7]) payload.length
       else if cmd = kSysExPatchLoad then d.sysex_patch_load (payload ++ [0xF7]) payload.length
       else if cmd = kSysExResetAll then d.sysex_reset_all
       else if cmd = kSysExHWReset then d.sysex_hw_reset
       else d) := by
  have hlast := sysex_frame_last dev cmd payload
  have hlen : (sysex_frame dev cmd payload).length = payload.length + 5 := by
    simp [sysex_frame]
  have hne : ¬ (sysex_frame dev cmd payload).length = 0 := by omega
  have hlt : ¬ (sysex_frame dev cmd payload).length < 5 := by omega
  have hd : ¬ (dev ≠ d.device_id_ ∧ dev ≠ 0x7F ∧ d.device_id_ ≠ 0x7F) := by
    rintro ⟨a, b, c⟩
    rcases hdev with h | h | h
    · exact a h
    · exact b h
    · exact c h
  have h0 : (sysex_frame dev cmd payload).getD 0 0 = 0xF0 := rfl
  have h1 : (sysex_frame dev cmd payload).getD 1 0 = 0x7D := rfl
  have h2 : (sysex_frame dev cmd payload).getD 2 0 = dev := rfl
  have h3 : (sysex_frame dev cmd payload).getD 3 0 = cmd := rfl
  have h4 : (sysex_frame dev cmd payload).drop 4 = payload ++ [0xF7] := rfl
  have h5 : (sysex_frame dev cmd payload).length - 5 = payload.length := by omega
  unfold DirectMode.process_midi DirectMode.handle_sysex
  simp only [hne, hlt, h0, hlast, h1, h2, h3, h4, h5, hd, if_true, if_false, ne_eq,
    not_true_eq_false, or_self, kSysExManufID]

theorem sysex_addr_eq (hi lo : Nat) (rest : List Nat) (hhi : hi < 256) (hlo : lo < 256) :
    DirectMode.sysex_addr (hi :: lo :: rest) = spec_entry_addr hi lo := by
  unfold DirectMode.sysex_addr spec_entry_addr
  simp only [List.getD_cons_zero, List.getD_cons_succ]
  apply Nat.mod_eq_of_lt
  have h1 : hi <<< 7 < 2 ^ 16 := by rw [Nat.shiftLeft_eq]; omega
  have h2 : lo < 2 ^ 16 := by omega
  exact Nat.or_lt_two_pow h1 h2

theorem write_all_cons (s : OPL3State) (w : Nat × Nat) (ws : List (Nat × Nat)) :
    write_all s (w :: ws) = write_all (s.write w.1 w.2) ws := rfl

/-- The loop of the 7-bit batch over a payload of complete entries. -/
theorem batch_write_7_loop_entries (rest : List Nat) :
    ∀ (entries : List (Nat × Nat × Nat)) (s : OPL3State),
      (∀ e ∈ entries, e.1 < 256 ∧ e.2.1 < 256) →
      DirectMode.batch_write_7_loop entries.length s (entries.flatMap entry_bytes_7 ++ rest)
          (3 * entries.length)
        = write_all s (spec_batch_writes_7 entries) := by
  intro entries
  induction entries with
  | nil => intro s _; rfl
  | cons e es ih =>
    intro s hb
    obtain ⟨hhi, hlo⟩ := hb e (List.mem_cons_self _ _)
    have hrem : 3 * (e :: es).length ≥ 3 := by simp only [List.length_cons]; omega
    have hsub : 3 * (e :: es).length - 3 = 3 * es.length := by
      simp only [List.length_cons]; omega
    have hbytes : (e :: es).flatMap entry_bytes_7 ++ rest
        = e.1 :: e.2.1 :: e.2.2 :: (es.flatMap entry_bytes_7 ++ rest) := rfl
    rw [List.length_cons, DirectMode.batch_write_7_loop, if_pos (by simp),
      ← List.length_cons e es, hsub, hbytes]
    dsimp only
    rw [sysex_addr_eq e.1 e.2.1 _ hhi hlo]
    simp only [List.getD_cons_zero, List.getD_cons_succ, List.drop_succ_cons, List.drop_zero]
    rw [ih _ (fun x hx => hb x (List.mem_cons_of_mem _ hx))]
    unfold spec_batch_writes_7
    by_cases ha : spec_entry_addr e.1 e.2.1 ≤ 0x1FF
    · rw [if_pos ha, List.filter_cons_of_pos (by simpa using ha), List.map_cons, write_all_cons]
    · rw [if_neg ha, List.filter_cons_of_neg (by simpa using ha)]

/-- The loop of the 8-bit batch over a payload of complete entries. -/
theorem batch_write_8_loop_entries (rest : List Nat) :
    ∀ (entries : List (Nat × Nat × Nat × Nat)) (s : OPL3State),
      (∀ e ∈ entries, e.1 < 256 ∧ e.2.1 < 256) →
      DirectMode.batch_write_8_loop entries.length s (entries.flatMap entry_bytes_8 ++ rest)
          (4 * entries.length)
        = write_all s (spec_batch_writes_8 entries) := by
  intro entries
  induction entries with
  | nil => intro s _; rfl
  | cons e es ih =>
    intro s hb
    obtain ⟨hhi, hlo⟩ := hb e (List.mem_cons_self _ _)
    have hrem : 4 * (e :: es).length ≥ 4 := by simp only [List.length_cons]; omega
    have hsub : 4 * (e :: es).length - 4 = 4 * es.length := by
      simp only [List.length_cons]; omega
    have hbytes : (e :: es).flatMap entry_bytes_8 ++ rest
        = e.1 :: e.2.1 :: e.2.2.1 :: e.2.2.2 :: (es.flatMap entry_bytes_8 ++ rest) := rfl
    rw [List.length_cons, DirectMode.batch_write_8_loop, if_pos (by simp),
      ← List.length_cons e es, hsub, hbytes]
    dsimp only
    rw [sysex_addr_eq e.1 e.2.1 _ hhi hlo]
    simp only [DirectMode.sysex_val8, List.getD_cons_zero, List.getD_cons_succ,
      List.drop_succ_cons, List.drop_zero]
    rw [ih _ (fun x hx => hb x (List.mem_cons_of_mem _ hx))]
    unfold spec_batch_writes_8
    by_cases ha : spec_entry_addr e.1 e.2.1 ≤ 0x1FF
    · rw [if_pos ha, List.filter_cons_of_pos (by simpa using ha), List.map_cons, write_all_cons]
    · rw [if_neg ha, List.filter_cons_of_neg (by simpa using ha)]

theorem single_eq_batch_7 (fp : FloatOps) (d : DirectMode) (dev : Nat)
    (hdev : dev = d.device_id_ ∨ dev = 0x7F ∨ d.device_id_ = 0x7F) (e : Nat × Nat × Nat) :
    d.process_midi fp (single_frame_7 dev e) = d.process_midi fp (batch_frame_7 dev [e]) := by
  unfold single_frame_7 batch_frame_7
  rw [process_sysex_frame fp d dev _ _ hdev, process_sysex_frame fp d dev _ _ hdev]
  simp only [kSysExRegWrite7, kSysExBatchWrite7, if_true, Nat.reduceEqDiff, if_false]
  unfold DirectMode.sysex_reg_write_7 DirectMode.sysex_batch_write_7
  simp only [entry_bytes_7, List.flatMap_cons, List.flatMap_nil, List.append_nil,
    List.length_cons, List.length_nil, List.cons_append, List.nil_append,
    List.getD_cons_zero, List.getD_cons_succ, List.drop_succ_cons, List.drop_zero,
    DirectMode.batch_write_7_loop]
  by_cases ha : DirectMode.sysex_addr [e.1, e.2.1, e.2.2, 0xF7] > 0x1FF
  · have hn : ¬ DirectMode.sysex_addr [e.1, e.2.1, e.2.2, 0xF7] ≤ 0x1FF := by omega
    simp [ha, hn]
  · have hn : DirectMode.sysex_addr [e.1, e.2.1, e.2.2, 0xF7] ≤ 0x1FF := by omega
    simp [ha, hn]

theorem single_eq_batch_8 (fp : FloatOps) (d : DirectMode) (dev : Nat)
    (hdev : dev = d.device_id_ ∨ dev = 0x7F ∨ d.device_id_ = 0x7F)
    (e : Nat × Nat × Nat × Nat) :
    d.process_midi fp (single_frame_8 dev e) = d.process_midi fp (batch_frame_8 dev [e]) := by
  unfold single_frame_8 batch_frame_8
  rw [process_sysex_frame fp d dev _ _ hdev, process_sysex_frame fp d dev _ _ hdev]
  simp only [kSysExRegWrite7, kSysExBatchWrite7, kSysExRegWrite8, kSysExBatchWrite8, if_true,
    Nat.reduceEqDiff, if_false]
  unfold DirectMode.sysex_reg_write_8 DirectMode.sysex_batch_write_8
  simp only [entry_bytes_8, List.flatMap_cons, List.flatMap_nil, List.append_nil,
    List.length_cons, List.length_nil, List.cons_append, List.nil_append,
    List.getD_cons_zero, List.getD_cons_succ, List.drop_succ_cons, List.drop_zero,
    DirectMode.batch_write_8_loop]
  by_cases ha : DirectMode.sysex_addr [e.1, e.2.1, e.2.2.1, e.2.2.2, 0xF7] > 0x1FF
  · have hn : ¬ DirectMode.sysex_addr [e.1, e.2.1, e.2.2.1, e.2.2.2, 0xF7] ≤ 0x1FF := by omega
    simp [ha, hn]
  · have hn : DirectMode.sysex_addr [e.1, e.2.1, e.2.2.1, e.2.2.2, 0xF7] ≤ 0x1FF := by omega
    simp [ha, hn]

theorem entry_bytes_7_length (es : List (Nat × Nat × Nat)) :
    (es.flatMap entry_bytes_7).length = 3 * es.length := by
  induction es with
  | nil => rfl
  | cons e es ih =>
    simp only [List.flatMap_cons, List.length_append, ih, List.length_cons, entry_bytes_7,
      List.length_nil]
    omega

theorem entry_bytes_8_length (es : List (Nat × Nat × Nat × Nat)) :
    (es.flatMap entry_bytes_8).length = 4 * es.length := by
  induction es with
  | nil => rfl
  | cons e es ih =>
    simp only [List.flatMap_cons, List.length_append, ih, List.length_cons, entry_bytes_8,
      List.length_nil]
    omega

/-- Claim C20. For a batch register write (SysEx `0x02`, or `0x04`) for an accepted device
id whose count byte is the number of its complete entries, with address bytes
below 256: exactly the entries whose address `(reg_hi << 7) | reg_lo` is at most `0x1FF` are
written to the shadow, in payload order, with the value byte (for `0x04`:
`(val_hi << 4) | (val_lo & 0xF)` truncated to eight bits); an entry with a larger
address is skipped and later entries proceed; nothing else of Direct Mode
changes; and a single write (`0x01`, `0x03`) has the effect of the batch of that one
entry. -/
theorem sysex_batch_writes (fp : FloatOps) (d : DirectMode) (dev : Nat)
    (hdev : dev = d.device_id_ ∨ dev = 0x7F ∨ d.device_id_ = 0x7F)
    (e7 : List (Nat × Nat × Nat)) (e8 : List (Nat × Nat × Nat × Nat))
    (_hk7 : e7.length < 256) (_hk8 : e8.length < 256)
    (h7 : ∀ e ∈ e7, e.1 < 256 ∧ e.2.1 < 256) (h8 : ∀ e ∈ e8, e.1 < 256 ∧ e.2.1 < 256) :
    ((d.process_midi fp (batch_frame_7 dev e7)).state_
        = write_all d.state_ (spec_batch_writes_7 e7) ∧
      (d.process_midi fp (batch_frame_7 dev e7)).channels_ = d.channels_ ∧
      (d.process_midi fp (batch_frame_7 dev e7)).sent_ = d.sent_) ∧
    ((d.process_midi fp (batch_frame_8 dev e8)).state_
        = write_all d.state_ (spec_batch_writes_8 e8) ∧
      (d.process_midi fp (batch_frame_8 dev e8)).channels_ = d.channels_ ∧
      (d.process_midi fp (batch_frame_8 dev e8)).sent_ = d.sent_) ∧
    (∀ e, d.process_midi fp (single_frame_7 dev e) = d.process_midi fp (batch_frame_7 dev [e])) ∧
    (∀ e, d.process_midi fp (single_frame_8 dev e) = d.process_midi fp (batch_frame_8 dev [e])) := by
  refine ⟨?_, ?_, fun e => single_eq_batch_7 fp d dev hdev e,
    fun e => single_eq_batch_8 fp d dev hdev e⟩
  · unfold batch_frame_7
    rw [process_sysex_frame fp d dev _ _ hdev]
    simp only [kSysExRegWrite7, kSysExBatchWrite7, if_true, Nat.reduceEqDiff, if_false]
    unfold DirectMode.sysex_batch_write_7
    have hlen : ¬ (e7.length :: e7.flatMap entry_bytes_7).length < 1 := by simp
    rw [if_neg hlen]
    refine ⟨?_, rfl, rfl⟩
    have hl := entry_bytes_7_length e7
    simp only [List.cons_append, List.getD_cons_zero, List.drop_succ_cons, List.drop_zero,
      List.length_cons, Nat.add_sub_cancel, hl]
    exact batch_write_7_loop_entries [0xF7] e7 d.state_ h7
  · unfold batch_frame_8
    rw [process_sysex_frame fp d dev _ _ hdev]
    simp only [kSysExRegWrite7, kSysExBatchWrite7, kSysExRegWrite8, kSysExBatchWrite8, if_true,
      Nat.reduceEqDiff, if_false]
    unfold DirectMode.sysex_batch_write_8
    have hlen : ¬ (e8.length :: e8.flatMap entry_bytes_8).length < 1 := by simp
    rw [if_neg hlen]
    refine ⟨?_, rfl, rfl⟩
    have hl := entry_bytes_8_length e8
    simp only [List.cons_append, List.getD_cons_zero, List.drop_succ_cons, List.drop_zero,
      List.length_cons, Nat.add_sub_cancel, hl]
    exact batch_write_8_loop_entries [0xF7] e8 d.state_ h8

/-- Claim C20, witness. A 7-bit batch of three entries to a freshly constructed Direct Mode:
`0xB0 = 0x20`, an entry at address `0x200` that is skipped, and `0x40 = 0x3F`. -/
theorem sysex_batch_writes_witness :
    (([(1, 0x30, 0x20), (4, 0, 5), (0, 0x40, 0x3F)] : List (Nat × Nat × Nat)).length < 256 ∧
      ([(1, 0x30, 2, 0)] : List (Nat × Nat × Nat × Nat)).length < 256 ∧
      (∀ e ∈ [(1, 0x30, 0x20), (4, 0, 5), (0, 0x40, 0x3F)], e.1 < 256 ∧ e.2.1 < 256) ∧
      (∀ e ∈ [(1, 0x30, 2, 0)], e.1 < 256 ∧ e.2.1 < 256)) ∧
    spec_batch_writes_7 [(1, 0x30, 0x20), (4, 0, 5), (0, 0x40, 0x3F)]
      = [(0xB0, 0x20), (0x40, 0x3F)] ∧
    ((DirectMode.create OPL3State.fresh 0x7F).process_midi FloatOps.exact
        (batch_frame_7 0x7F [(1, 0x30, 0x20), (4, 0, 5), (0, 0x40, 0x3F)])).state_
      = write_all (DirectMode.create OPL3State.fresh 0x7F).state_
          (spec_batch_writes_7 [(1, 0x30, 0x20), (4, 0, 5), (0, 0x40, 0x3F)]) :=
  ⟨⟨by decide, by decide, by decide, by decide⟩, by decide,
    (sysex_batch_writes FloatOps.exact (DirectMode.create OPL3State.fresh 0x7F) 0x7F
      (Or.inr (Or.inl rfl)) [(1, 0x30, 0x20), (4, 0, 5), (0, 0x40, 0x3F)] [(1, 0x30, 2, 0)]
      (by decide) (by decide) (by decide) (by decide)).1.1⟩


/-! ### Pitch bend -/

/-- Writing a frequency with the current key-on bit is a pitch-bend update. -/
theorem write_freq_bend_frame (d : DirectMode) (m f b : Nat) (hm : m < 18) :
    BendFrame d (d.write_freq m f b (key_on d.state_ m)) m := by
  obtain ⟨-, hCA, hCB⟩ := note_on_regs_distinct m hm
  refine ⟨fun r hra hrb => ?_, (write_freq_key_on d m f b _ hm).1, ?_, rfl⟩
  · unfold a0_addr at hra
    unfold b0_addr at hrb
    rw [write_freq_state, read_write_of_index_ne _ _ _ _ hrb, read_write_of_index_ne _ _ _ _ hra]
  · rw [write_freq_state]
    unfold operator_reg
    rw [read_write_of_index_ne _ _ _ _ hCB, read_write_of_index_ne _ _ _ _ hCA]

theorem process_pitch_bend (fp : FloatOps) (d : DirectMode) (ch lo hi : Nat) (hch : ch < 16) :
    d.process_midi fp [0xE0 ||| ch, lo, hi]
      = d.handle_pitch_bend fp ch ((lo ||| (hi <<< 7)) % 65536) := by
  obtain ⟨h1, h2, h3⟩ := status_byte_split 0xE0 (by decide) ch hch
  unfold DirectMode.process_midi
  simp only [List.length_cons, List.length_nil, List.getD_cons_zero, List.getD_cons_succ]
  rw [if_neg (by norm_num), if_neg h3, h1, h2]
  simp

/-- Claim C22. A Direct Mode Pitch Bend message on a MIDI channel `ch < 16` with a sounding
note, and `bend_channel` on an OPL3 channel `c < 18`, change no register other than `A0+ch`
and `B0+ch`, leave bit 5 (key-on) of `B0+ch` as it was, leave the total level
register of the carrier as it was and leave the channel states alone; a
Direct Mode Pitch Bend on a channel with no sounding note changes nothing. -/
theorem pitch_bend_frame (fp : FloatOps) (d : DirectMode) (ch lo hi : Nat) (hch : ch < 16) :
    (0 ≤ (d.channels_ ch).current_note →
      BendFrame d (d.process_midi fp [0xE0 ||| ch, lo, hi]) ch) ∧
    ((d.channels_ ch).current_note < 0 → d.process_midi fp [0xE0 ||| ch, lo, hi] = d) ∧
    (∀ c f b, c < 18 → BendFrame d (d.bend_channel c f b) c) := by
  have hnot : ¬ ch ≥ 16 := by omega
  rw [process_pitch_bend fp d ch lo hi hch]
  refine ⟨fun hs => ?_, fun hs => ?_, fun c f b hc => ?_⟩
  · have hns : ¬ (d.channels_ ch).current_note < 0 := by omega
    unfold DirectMode.handle_pitch_bend
    rw [if_neg hnot]
    dsimp only
    rw [if_neg hns]
    exact write_freq_bend_frame d ch _ _ (by omega)
  · unfold DirectMode.handle_pitch_bend
    rw [if_neg hnot]
    dsimp only
    rw [if_pos hs]
  · have hn : ¬ c ≥ 18 := by omega
    unfold DirectMode.bend_channel
    rw [if_neg hn]
    exact write_freq_bend_frame d c f b hc

/-- Claim C22, witness. Pitch Bend `E0 00 50` on channel 0 of a Direct Mode that sounds note 60. -/
theorem pitch_bend_frame_witness :
    (0 : Nat) < 16 ∧
    0 ≤ (((DirectMode.create OPL3State.fresh 0x7F).process_midi FloatOps.exact
      [0x90, 60, 100]).channels_ 0).current_note ∧
    BendFrame ((DirectMode.create OPL3State.fresh 0x7F).process_midi FloatOps.exact [0x90, 60, 100])
      (((DirectMode.create OPL3State.fresh 0x7F).process_midi FloatOps.exact
        [0x90, 60, 100]).process_midi FloatOps.exact [0xE0 ||| 0, 0, 0x50]) 0 :=
  ⟨by decide, by decide,
    (pitch_bend_frame FloatOps.exact
      ((DirectMode.create OPL3State.fresh 0x7F).process_midi FloatOps.exact [0x90, 60, 100])
      0 0 0x50 (by decide)).1 (by decide)⟩

/-! ### Note Off -/

theorem process_note_off (fp : FloatOps) (d : DirectMode) (ch n x : Nat) (hch : ch < 16) :
    d.process_midi fp [0x80 ||| ch, n, x] = d.handle_note_off ch n := by
  obtain ⟨h1, h2, h3⟩ := status_byte_split 0x80 (by decide) ch hch
  unfold DirectMode.process_midi
  simp only [List.length_cons, List.length_nil, List.getD_cons_zero, List.getD_cons_succ]
  rw [if_neg (by norm_num), if_neg h3, h1, h2]
  simp

theorem process_note_on_zero (fp : FloatOps) (d : DirectMode) (ch n : Nat) (hch : ch < 16) :
    d.process_midi fp [0x90 ||| ch, n, 0] = d.handle_note_off ch n := by
  obtain ⟨h1, h2, h3⟩ := status_byte_split 0x90 (by decide) ch hch
  unfold DirectMode.process_midi
  simp only [List.length_cons, List.length_nil, List.getD_cons_zero, List.getD_cons_succ]
  rw [if_neg (by norm_num), if_neg h3, h1, h2]
  simp

/-- A Note Off whose note byte, cast to `int8_t`, is not the recorded note leaves Direct Mode
as it is; this covers every note byte up to 127 other than a sounding note. -/
theorem note_off_other_note (fp : FloatOps) (d : DirectMode) (ch n x : Nat) (hch : ch < 16)
    (h : (d.channels_ ch).current_note ≠ toInt8 n) :
    d.process_midi fp [0x80 ||| ch, n, x] = d := by
  have hnot : ¬ ch ≥ 16 := by omega
  rw [process_note_off fp d ch n x hch]
  unfold DirectMode.handle_note_off
  rw [if_neg hnot]
  dsimp only
  rw [if_pos h]

set_option maxRecDepth 100000 in
/-- Claim C24, the code at the failing input. On a freshly constructed Direct Mode no note
sounds on channel 0 (`current_note` is -1, the buffer holds its header). The Note
Off `80 FF 00` has note byte 255, which `static_cast<int8_t>` turns into -1: it is taken
for the recorded note, and a key-off write to `0xB0` is queued. With the sustain
pedal down the same Note Off sets the flag `sustained_note`. -/
theorem note_off_255_not_a_noop :
    ((DirectMode.create OPL3State.fresh 0x7F).channels_ 0).current_note = -1 ∧
    (DirectMode.create OPL3State.fresh 0x7F).state_.hw_.buf_ = [0x42, 0x12] ∧
    toInt8 255 = -1 ∧
    ((DirectMode.create OPL3State.fresh 0x7F).process_midi FloatOps.exact
      [0x80, 255, 0]).state_.hw_.buf_ = [0x42, 0x12, 0xE1, 0xB0, 0xE3, 0x00, 0xFB, 0x00] ∧
    (((DirectMode.create OPL3State.fresh 0x7F).process_midi FloatOps.exact
      [0xB0, 64, 127]).channels_ 0).sustained_note = false ∧
    ((((DirectMode.create OPL3State.fresh 0x7F).process_midi FloatOps.exact
      [0xB0, 64, 127]).process_midi FloatOps.exact [0x80, 255, 0]).channels_ 0).sustained_note
      = true := by
  decide

/-! ### Note On with velocity 0 -/

theorem allocator_process_note_off (fp : FloatOps) (va : VoiceAllocator) (ch n x : Nat)
    (hch : ch < 16) :
    VoiceAllocator.process_midi fp va [0x80 ||| ch, n, x]
      = some (VoiceAllocator.handle_note_off va ch n) := by
  obtain ⟨h1, h2, h3⟩ := status_byte_split 0x80 (by decide) ch hch
  unfold VoiceAllocator.process_midi
  simp only [List.length_cons, List.length_nil, List.getD_cons_zero, List.getD_cons_succ]
  rw [if_neg (by norm_num), if_neg h3, h1, h2]
  simp

theorem allocator_process_note_on_zero (fp : FloatOps) (va : VoiceAllocator) (ch n : Nat)
    (hch : ch < 16) :
    VoiceAllocator.process_midi fp va [0x90 ||| ch, n, 0]
      = some (VoiceAllocator.handle_note_off va ch n) := by
  obtain ⟨h1, h2, h3⟩ := status_byte_split 0x90 (by decide) ch hch
  unfold VoiceAllocator.process_midi
  simp only [List.length_cons, List.length_nil, List.getD_cons_zero, List.getD_cons_succ]
  rw [if_neg (by norm_num), if_neg h3, h1, h2]
  simp

/-- Claim C25. For every state, channel `ch < 16`, note byte `n` and byte `x`, processing Note On
with velocity 0 (`0x90|ch, n, 0`) gives the same state, the hardware buffer with the
queued writes included, as processing Note Off (`0x80|ch, n, x`), in Direct Mode and
in the Voice Allocator: both are `handle_note_off(ch, n)`. -/
theorem note_on_zero_is_note_off (fp : FloatOps) (d : DirectMode) (va : VoiceAllocator)
    (ch n x : Nat) (hch : ch < 16) :
    d.process_midi fp [0x90 ||| ch, n, 0] = d.process_midi fp [0x80 ||| ch, n, x] ∧
    VoiceAllocator.process_midi fp va [0x90 ||| ch, n, 0]
      = VoiceAllocator.process_midi fp va [0x80 ||| ch, n, x] ∧
    VoiceAllocator.process_midi fp va [0x90 ||| ch, n, 0]
      = some (VoiceAllocator.handle_note_off va ch n) := by
  rw [process_note_on_zero fp d ch n hch, process_note_off fp d ch n x hch,
    allocator_process_note_on_zero fp va ch n hch, allocator_process_note_off fp va ch n x hch]
  exact ⟨rfl, rfl, rfl⟩

/-- Claim C25, witness. Note 60 on channel 0 of a freshly constructed Direct Mode and Voice
Allocator, with release velocity 64. -/
theorem note_on_zero_is_note_off_witness :
    (0 : Nat) < 16 ∧
    (DirectMode.create OPL3State.fresh 0x7F).process_midi FloatOps.exact [0x90 ||| 0, 60, 0]
      = (DirectMode.create OPL3State.fresh 0x7F).process_midi FloatOps.exact [0x80 ||| 0, 60, 64] ∧
    VoiceAllocator.process_midi FloatOps.exact (VoiceAllocator.fresh 0x7F) [0x90 ||| 0, 60, 0]
      = VoiceAllocator.process_midi FloatOps.exact (VoiceAllocator.fresh 0x7F)
          [0x80 ||| 0, 60, 64] ∧
    VoiceAllocator.process_midi FloatOps.exact (VoiceAllocator.fresh 0x7F) [0x90 ||| 0, 60, 0]
      = some (VoiceAllocator.handle_note_off (VoiceAllocator.fresh 0x7F) 0 60) :=
  ⟨by decide, note_on_zero_is_note_off FloatOps.exact (DirectMode.create OPL3State.fresh 0x7F)
    (VoiceAllocator.fresh 0x7F) 0 60 64 (by decide)⟩


/-! ### Percussion Note On -/

theorem range_five : List.range DirectMode.kNumDrums = [0, 1, 2, 3, 4] := rfl

theorem allocator_process_note_on (fp : FloatOps) (va : VoiceAllocator) (ch n v : Nat)
    (hch : ch < 16) (hv : v ≠ 0) :
    VoiceAllocator.process_midi fp va [0x90 ||| ch, n, v]
      = VoiceAllocator.handle_note_on fp va ch n v := by
  obtain ⟨h1, h2, h3⟩ := status_byte_split 0x90 (by decide) ch hch
  unfold VoiceAllocator.process_midi
  simp only [List.length_cons, List.length_nil, List.getD_cons_zero, List.getD_cons_succ]
  rw [if_neg (by norm_num), if_neg h3, h1, h2]
  simp [hv]

set_option maxRecDepth 100000 in
/-- No operator register of a patch is a `0xC0` register. -/
theorem patch_op_not_c0 : ∀ m, m < 18 → ∀ op, op < 4 → ∀ R ∈ patch_operator_regs,
    ∀ c, c < 18 → reg_index (patch_op_addr m op R) ≠ reg_index (c0_reg c) := by
  decide

theorem patch_op_addr_own (m op R : Nat) (hop : op < 2) :
    patch_op_addr m op R = operator_reg m op R := by
  unfold patch_op_addr operator_reg
  simp only [hop, if_true]

theorem write_all_append (s : OPL3State) (a b : List (Nat × Nat)) :
    write_all s (a ++ b) = write_all (write_all s a) b := by
  unfold write_all
  rw [List.foldl_append]

/-- A register that none of the writes addresses keeps its mirror value. -/
theorem write_all_read_frame (b : Nat) : ∀ (ws : List (Nat × Nat)) (s : OPL3State),
    (∀ w ∈ ws, reg_index b ≠ reg_index w.1) → (write_all s ws).read b = s.read b := by
  intro ws
  induction ws with
  | nil => intro s _; rfl
  | cons w ws ih =>
    intro s h
    rw [write_all_cons, ih _ (fun x hx => h x (List.mem_cons_of_mem _ hx)),
      read_write_of_index_ne _ _ _ _ (h w (List.mem_cons_self _ _))]

/-- The operator loop of the patch loader is a sequence of writes to registers of the
operators it runs over. -/
theorem patch_load_loop_writes (midi_ch : Nat) :
    ∀ (n op : Nat) (s : OPL3State) (p : List Nat) (rem : Nat),
      ∃ ws, (DirectMode.patch_load_loop midi_ch n op s p rem).1 = write_all s ws ∧
        ∀ w ∈ ws, ∃ o R, op ≤ o ∧ o < op + n ∧ R ∈ patch_operator_regs ∧
          w.1 = patch_op_addr midi_ch o R := by
  intro n
  induction n with
  | zero => intro op s p rem; exact ⟨[], rfl, fun w hw => absurd hw (List.not_mem_nil _)⟩
  | succ n ih =>
    intro op s p rem
    rw [DirectMode.patch_load_loop]
    by_cases hrem : rem ≥ 22
    · rw [if_pos hrem]
      dsimp only
      obtain ⟨ws, hws, hmem⟩ := ih (op + 1)
        (((((s.write (patch_op_addr midi_ch op kRegAMVibEGKSMult)
            ((((p.getD (0 * 2) 0) <<< 4) ||| (p.getD (0 * 2 + 1) 0 &&& 0x0F)) % 256)).write
          (patch_op_addr midi_ch op kRegKSLTL)
            ((((p.getD (1 * 2) 0) <<< 4) ||| (p.getD (1 * 2 + 1) 0 &&& 0x0F)) % 256)).write
          (patch_op_addr midi_ch op kRegAR_DR)
            ((((p.getD (2 * 2) 0) <<< 4) ||| (p.getD (2 * 2 + 1) 0 &&& 0x0F)) % 256)).write
          (patch_op_addr midi_ch op kRegSL_RR)
            ((((p.getD (3 * 2) 0) <<< 4) ||| (p.getD (3 * 2 + 1) 0 &&& 0x0F)) % 256)).write
          (patch_op_addr midi_ch op kRegWaveform)
            ((((p.getD (4 * 2) 0) <<< 4) ||| (p.getD (4 * 2 + 1) 0 &&& 0x0F)) % 256))
        (p.drop 22) (rem - 22)
      refine ⟨[(patch_op_addr midi_ch op kRegAMVibEGKSMult,
            (((p.getD (0 * 2) 0) <<< 4) ||| (p.getD (0 * 2 + 1) 0 &&& 0x0F)) % 256),
          (patch_op_addr midi_ch op kRegKSLTL,
            (((p.getD (1 * 2) 0) <<< 4) ||| (p.getD (1 * 2 + 1) 0 &&& 0x0F)) % 256),
          (patch_op_addr midi_ch op kRegAR_DR,
            (((p.getD (2 * 2) 0) <<< 4) ||| (p.getD (2 * 2 + 1) 0 &&& 0x0F)) % 256),
          (patch_op_addr midi_ch op kRegSL_RR,
            (((p.getD (3 * 2) 0) <<< 4) ||| (p.getD (3 * 2 + 1) 0 &&& 0x0F)) % 256),
          (patch_op_addr midi_ch op kRegWaveform,
            (((p.getD (4 * 2) 0) <<< 4) ||| (p.getD (4 * 2 + 1) 0 &&& 0x0F)) % 256)] ++ ws,
        ?_, ?_⟩
      · rw [write_all_append]
        exact hws
      · intro w hw
        rcases List.mem_append.mp hw with h | h
        · simp only [List.mem_cons, List.mem_singleton, List.not_mem_nil, or_false] at h
          rcases h with h | h | h | h | h <;> subst h
          · exact ⟨op, _, Nat.le_refl _, by omega, by simp [patch_operator_regs], rfl⟩
          · exact ⟨op, _, Nat.le_refl _, by omega, by simp [patch_operator_regs], rfl⟩
          · exact ⟨op, _, Nat.le_refl _, by omega, by simp [patch_operator_regs], rfl⟩
          · exact ⟨op, _, Nat.le_refl _, by omega, by simp [patch_operator_regs], rfl⟩
          · exact ⟨op, _, Nat.le_refl _, by omega, by simp [patch_operator_regs], rfl⟩
        · obtain ⟨o, R, h1, h2, h3, h4⟩ := hmem w h
          exact ⟨o, R, by omega, by omega, h3, h4⟩
    · rw [if_neg hrem]
      exact ⟨[], rfl, fun w hw => absurd hw (List.not_mem_nil _)⟩

/-- A masked write with mask `0x0F` keeps bits 7:4 of every register. -/
theorem modify_bits_0f_high (s : OPL3State) (a v b i : Nat) (h4 : 4 ≤ i) (h8 : i < 8) :
    ((s.modify_bits a 0x0F v).read b).testBit i = (s.read b).testBit i := by
  rw [modify_bits_eq, read_write]
  by_cases h : reg_index b = reg_index a
  · rw [if_pos h, modify_value_testBit]
    have hm : (0x0F : Nat).testBit i = false := by
      have : i = 4 ∨ i = 5 ∨ i = 6 ∨ i = 7 := by omega
      rcases this with h | h | h | h <;> subst h <;> decide
    have hr : s.read a = s.read b := by simp [OPL3State.read, h]
    simp [hm, h8, hr]
  · rw [if_neg h]

/-- The mirror after a patch load: the operator loop, then at most the masked writes of the
channel's own `0xC0` register and of its partner's. -/
theorem sysex_patch_load_state (d : DirectMode) (data : List Nat) (len : Nat)
    (hlen : ¬ len < 1) (hc : ¬ data.getD 0 0 ≥ 18) :
    ∃ n v1 v2, n ≤ 4 ∧ (four_op_partner (data.getD 0 0) < 0 → n = 2) ∧
      ((d.sysex_patch_load data len).state_
          = (DirectMode.patch_load_loop (data.getD 0 0) n 0 d.state_ (data.drop 1) (len - 1)).1 ∨
       (d.sysex_patch_load data len).state_
          = (DirectMode.patch_load_loop (data.getD 0 0) n 0 d.state_ (data.drop 1)
              (len - 1)).1.modify_bits (c0_reg (data.getD 0 0)) 0x0F v1 ∨
       (0 ≤ four_op_partner (data.getD 0 0) ∧
        (d.sysex_patch_load data len).state_
          = ((DirectMode.patch_load_loop (data.getD 0 0) n 0 d.state_ (data.drop 1)
              (len - 1)).1.modify_bits (c0_reg (data.getD 0 0)) 0x0F v1).modify_bits
              (c0_reg (four_op_partner (data.getD 0 0)).toNat) 0x0F v2)) := by
  unfold DirectMode.sysex_patch_load
  rw [if_neg hlen]
  dsimp only
  rw [if_neg hc]
  generalize hn : (if len - 1 ≥ 22 * 4 + 4 ∧ four_op_partner (data.getD 0 0) ≥ 0 then 4 else 2) = n
  have hn4 : n ≤ 4 := by
    rw [← hn]; split <;> omega
  have hn2 : four_op_partner (data.getD 0 0) < 0 → n = 2 := by
    intro hp
    rw [← hn, if_neg]
    rintro ⟨_, h⟩
    omega
  generalize hloop : DirectMode.patch_load_loop (data.getD 0 0) n 0 d.state_ (data.drop 1)
    (len - 1) = r
  obtain ⟨s, p, rem⟩ := r
  have hs : (DirectMode.patch_load_loop (data.getD 0 0) n 0 d.state_ (data.drop 1)
    (len - 1)).1 = s := by rw [hloop]
  dsimp only
  refine ⟨n, (((p.getD 0 0) <<< 4) ||| (p.getD 1 0 &&& 0x0F)) % 256 &&& 0x0F,
    ((((p.drop 2).getD 0 0) <<< 4) ||| ((p.drop 2).getD 1 0 &&& 0x0F)) % 256 &&& 0x0F,
    hn4, hn2, ?_⟩
  rw [hs]
  by_cases hrem : rem ≥ 2
  · simp only [if_pos hrem]
    by_cases h2 : n = 4 ∧ rem - 2 ≥ 2 ∧ four_op_partner (data.getD 0 0) ≥ 0
    · rw [if_pos h2]
      exact Or.inr (Or.inr ⟨h2.2.2, rfl⟩)
    · rw [if_neg h2]
      exact Or.inr (Or.inl rfl)
  · simp only [if_neg hrem]
    have h2 : ¬ (n = 4 ∧ rem ≥ 2 ∧ four_op_partner (data.getD 0 0) ≥ 0) := fun h => hrem h.2.1
    rw [if_neg h2]
    exact Or.inl rfl

theorem four_op_partner_toNat_lt : ∀ c : Nat, c < 18 → (four_op_partner c).toNat < 18 := by
  decide

theorem no_partner_of_mem : ∀ c ∈ [6, 7, 8, 15, 16, 17], c < 18 ∧ four_op_partner (c : Nat) < 0 := by
  decide

/-- Every patch load keeps bits 7:4 of each `0xC0` register. -/
theorem sysex_patch_load_c0_high (d : DirectMode) (data : List Nat) (len c i : Nat)
    (hc : c < 18) (h4 : 4 ≤ i) (h8 : i < 8) :
    ((d.sysex_patch_load data len).state_.read (c0_reg c)).testBit i
      = (d.state_.read (c0_reg c)).testBit i := by
  by_cases hlen : len < 1
  · unfold DirectMode.sysex_patch_load
    rw [if_pos hlen]
  by_cases hm : data.getD 0 0 ≥ 18
  · unfold DirectMode.sysex_patch_load
    rw [if_neg hlen]
    dsimp only
    rw [if_pos hm]
  obtain ⟨n, v1, v2, hn, _, hst⟩ := sysex_patch_load_state d data len hlen hm
  obtain ⟨ws, hws, hmem⟩ := patch_load_loop_writes (data.getD 0 0) n 0 d.state_ (data.drop 1)
    (len - 1)
  have hloop : (DirectMode.patch_load_loop (data.getD 0 0) n 0 d.state_ (data.drop 1)
      (len - 1)).1.read (c0_reg c) = d.state_.read (c0_reg c) := by
    rw [hws]
    apply write_all_read_frame
    intro w hw
    obtain ⟨o, R, _, ho, hR, hw1⟩ := hmem w hw
    rw [hw1]
    exact fun h => patch_op_not_c0 (data.getD 0 0) (by omega) o (by omega) R hR c hc h.symm
  rcases hst with h | h | ⟨_, h⟩
  · rw [h, hloop]
  · rw [h, modify_bits_0f_high _ _ _ _ _ h4 h8, hloop]
  · rw [h, modify_bits_0f_high _ _ _ _ _ h4 h8, modify_bits_0f_high _ _ _ _ _ h4 h8, hloop]

/-- A patch load for a channel without a partner is a sequence of writes to the registers
of its two operators and to its own `0xC0` register. -/
theorem sysex_patch_load_2op (d : DirectMode) (data : List Nat) (len : Nat)
    (hc : data.getD 0 0 < 18) (hp : four_op_partner (data.getD 0 0) < 0) :
    ∃ ws, (d.sysex_patch_load data len).state_ = write_all d.state_ ws ∧
      ∀ w ∈ ws, w.1 ∈ patch_regs_2op (data.getD 0 0) := by
  by_cases hlen : len < 1
  · refine ⟨[], ?_, fun w hw => absurd hw (List.not_mem_nil _)⟩
    unfold DirectMode.sysex_patch_load
    rw [if_pos hlen]
    rfl
  obtain ⟨n, v1, v2, _, hn2, hst⟩ := sysex_patch_load_state d data len hlen (by omega)
  have hn := hn2 hp
  subst hn
  obtain ⟨ws, hws, hmem⟩ := patch_load_loop_writes (data.getD 0 0) 2 0 d.state_ (data.drop 1)
    (len - 1)
  have hin : ∀ w ∈ ws, w.1 ∈ patch_regs_2op (data.getD 0 0) := by
    intro w hw
    obtain ⟨o, R, _, ho, hR, hw1⟩ := hmem w hw
    rw [hw1, patch_op_addr_own _ _ _ (by omega)]
    unfold patch_regs_2op
    have ho2 : o = 0 ∨ o = 1 := by omega
    rcases ho2 with h | h <;> subst h
    · exact List.mem_append_left _ (List.mem_append_left _ (List.mem_map_of_mem _ hR))
    · exact List.mem_append_left _ (List.mem_append_right _ (List.mem_map_of_mem _ hR))
  rcases hst with h | h | ⟨h0, _⟩
  · exact ⟨ws, by rw [h, hws], hin⟩
  · refine ⟨ws ++ [(c0_reg (data.getD 0 0), OPL3State.modify_value
      ((write_all d.state_ ws).read (c0_reg (data.getD 0 0))) 0x0F v1)], ?_, ?_⟩
    · rw [h, hws, write_all_append, modify_bits_eq]
      rfl
    · intro w hw
      rcases List.mem_append.mp hw with hw | hw
      · exact hin w hw
      · rw [List.mem_singleton] at hw
        subst hw
        unfold patch_regs_2op
        exact List.mem_append_right _ (List.mem_singleton.mpr rfl)
  · omega

/-- Claim C21. A patch load (SysEx `0x11`) for a channel without a 4-op partner (6-8, 15-17) is,
whatever its payload, a sequence of writes to registers of that channel's two operators and to
its own `0xC0` register, so that every other register keeps its mirror value; and every patch
load leaves bits 7:4 of each `0xC0` register and the channel records as they were. -/
theorem patch_load_frame (fp : FloatOps) (d : DirectMode) (dev : Nat) (payload : List Nat)
    (hdev : dev = d.device_id_ ∨ dev = 0x7F ∨ d.device_id_ = 0x7F) :
    (∀ c ∈ [6, 7, 8, 15, 16, 17], ∀ rest, payload = c :: rest →
      (∃ ws, (d.process_midi fp (sysex_frame dev 0x11 payload)).state_ = write_all d.state_ ws ∧
        ∀ w ∈ ws, w.1 ∈ patch_regs_2op c) ∧
      (∀ b, (∀ a ∈ patch_regs_2op c, reg_index b ≠ reg_index a) →
        (d.process_midi fp (sysex_frame dev 0x11 payload)).state_.read b = d.state_.read b)) ∧
    (∀ c i, c < 18 → 4 ≤ i → i < 8 →
      ((d.process_midi fp (sysex_frame dev 0x11 payload)).state_.read (c0_reg c)).testBit i
        = (d.state_.read (c0_reg c)).testBit i) ∧
    (d.process_midi fp (sysex_frame dev 0x11 payload)).channels_ = d.channels_ := by
  have hproc : d.process_midi fp (sysex_frame dev 0x11 payload)
      = d.sysex_patch_load (payload ++ [0xF7]) payload.length := by
    rw [process_sysex_frame fp d dev 0x11 payload hdev]
    simp [kSysExRegWrite7, kSysExBatchWrite7, kSysExRegWrite8, kSysExBatchWrite8,
      kSysExPatchDump, kSysExPatchLoad]
  rw [hproc]
  refine ⟨?_, ?_, ?_⟩
  · intro c hc rest hpay
    have h0 : (payload ++ [0xF7]).getD 0 0 = c := by rw [hpay]; rfl
    obtain ⟨hc18, hpart⟩ := no_partner_of_mem c hc
    obtain ⟨ws, hws, hmem⟩ := sysex_patch_load_2op d (payload ++ [0xF7]) payload.length
      (by rw [h0]; exact hc18) (by rw [h0]; exact hpart)
    rw [h0] at hmem
    refine ⟨⟨ws, hws, hmem⟩, ?_⟩
    intro b hb
    rw [hws]
    exact write_all_read_frame b ws _ (fun w hw => hb w.1 (hmem w hw))
  · intro c i hc h4 h8
    exact sysex_patch_load_c0_high d _ _ c i hc h4 h8
  · unfold DirectMode.sysex_patch_load
    split
    · rfl
    · dsimp only
      split
      · rfl
      · rfl

theorem patch_load_frame_witness :
    ((0x7F : Nat) = (DirectMode.create OPL3State.fresh 0x7F).device_id_ ∨ (0x7F : Nat) = 0x7F ∨
      (DirectMode.create OPL3State.fresh 0x7F).device_id_ = 0x7F) ∧
    (∃ ws, ((DirectMode.create OPL3State.fresh 0x7F).process_midi FloatOps.exact
        (sysex_frame 0x7F 0x11 (6 :: List.replicate 92 0xF))).state_
          = write_all (DirectMode.create OPL3State.fresh 0x7F).state_ ws ∧
      ∀ w ∈ ws, w.1 ∈ patch_regs_2op 6) :=
  ⟨Or.inr (Or.inl rfl),
    ((patch_load_frame FloatOps.exact (DirectMode.create OPL3State.fresh 0x7F) 0x7F
      (6 :: List.replicate 92 0xF) (Or.inr (Or.inl rfl))).1 6 (by decide) _ rfl).1⟩


/-! ### The sustain pedal -/

theorem handle_cc_sustain (fp : FloatOps) (d : DirectMode) (ch v : Nat) (hch : ch < 16) :
    d.handle_cc fp ch 64 v = d.cc_sustain ch v := by
  have hn : ¬ ch ≥ 16 := by omega
  unfold DirectMode.handle_cc
  rw [if_neg hn]

/-- Pedal down in Direct Mode: only the pedal flag of the channel changes. -/
theorem cc_sustain_down (d : DirectMode) (ch v : Nat) (hv : 64 ≤ v) :
    d.cc_sustain ch v = d.set_channel ch { d.channels_ ch with sustain := true } := by
  unfold DirectMode.cc_sustain
  have hd : decide (v ≥ 64) = true := decide_eq_true hv
  simp only [hd]
  rw [if_neg]
  simp

/-- Note Off under the pedal in Direct Mode: the note is marked as held. -/
theorem handle_note_off_held (d : DirectMode) (ch n : Nat) (hch : ch < 16)
    (hcur : (d.channels_ ch).current_note = toInt8 n) (hsus : (d.channels_ ch).sustain = true) :
    d.handle_note_off ch n = d.set_channel ch { d.channels_ ch with sustained_note := true } := by
  have hn : ¬ ch ≥ 16 := by omega
  unfold DirectMode.handle_note_off
  rw [if_neg hn]
  dsimp only
  rw [if_neg (by rw [hcur]; exact fun h => h rfl), if_pos hsus]

/-- Pedal up in Direct Mode with a held note: the key-off write and a free channel. -/
theorem cc_sustain_up (d : DirectMode) (ch v : Nat) (hv : v < 64)
    (hsus : (d.channels_ ch).sustain = true) (hheld : (d.channels_ ch).sustained_note = true)
    (hcur : 0 ≤ (d.channels_ ch).current_note) :
    d.cc_sustain ch v = DirectMode.set_channel
      { d.set_channel ch { d.channels_ ch with sustain := false } with
        state_ := d.state_.modify_bits (b0_addr ch) 0x20 0x00 } ch
      { d.channels_ ch with sustain := false, current_note := -1, sustained_note := false } := by
  unfold DirectMode.cc_sustain
  have hd : decide (v ≥ 64) = false := decide_eq_false (by omega)
  simp only [hd]
  rw [if_pos]
  · rfl
  · simp [hsus, hheld, hcur]

/-- The pedal sequence in Direct Mode: with note `n` sounding on channel `ch`, pedal down and
Note Off `n` leave the key-on bit set and the note recorded; pedal up then clears the bit
and frees the channel. -/
theorem direct_sustain_sequence (fp : FloatOps) (d : DirectMode) (ch n v1 x v2 : Nat)
    (hch : ch < 16) (hn : n ≤ 127) (hcur : (d.channels_ ch).current_note = (n : Int))
    (hkey : key_on d.state_ ch = true) (hv1 : 64 ≤ v1) (hv2 : v2 < 64) :
    key_on ((d.process_midi fp [0xB0 ||| ch, 64, v1]).process_midi fp
      [0x80 ||| ch, n, x]).state_ ch = true ∧
    ((((d.process_midi fp [0xB0 ||| ch, 64, v1]).process_midi fp
      [0x80 ||| ch, n, x]).channels_ ch).current_note = (n : Int)) ∧
    key_on (((d.process_midi fp [0xB0 ||| ch, 64, v1]).process_midi fp
      [0x80 ||| ch, n, x]).process_midi fp [0xB0 ||| ch, 64, v2]).state_ ch = false ∧
    (((((d.process_midi fp [0xB0 ||| ch, 64, v1]).process_midi fp
      [0x80 ||| ch, n, x]).process_midi fp [0xB0 ||| ch, 64, v2]).channels_ ch).current_note
        = -1) := by
  have h18 : ch < 18 := by omega
  rw [process_cc fp d ch 64 v1 hch, handle_cc_sustain fp d ch v1 hch, cc_sustain_down d ch v1 hv1]
  rw [process_note_off fp _ ch n x hch,
    handle_note_off_held _ ch n hch
      (by simp [DirectMode.set_channel, hcur, toInt8_of_le n hn])
      (by simp [DirectMode.set_channel])]
  refine ⟨hkey, by simp [DirectMode.set_channel, hcur], ?_⟩
  rw [process_cc fp _ ch 64 v2 hch, handle_cc_sustain fp _ ch v2 hch,
    cc_sustain_up _ ch v2 hv2 (by simp [DirectMode.set_channel])
      (by simp [DirectMode.set_channel]) (by simp [DirectMode.set_channel, hcur])]
  exact ⟨(key_off_write _ ch h18).1, by simp [DirectMode.set_channel]⟩

/-! The same sequence through the Voice Allocator in the default mapping. -/

/-- Pedal down in the allocator: the pedal flag of the MIDI channel is set and its voice
slots stay. -/
theorem allocator_pedal_down (fp : FloatOps) (va : VoiceAllocator) (m v : Nat) (hm : m < 16)
    (hv : 64 ≤ v) :
    ((VoiceAllocator.handle_cc fp va m 64 v).midi_channels_ m).sustain = true ∧
    ((VoiceAllocator.handle_cc fp va m 64 v).midi_channels_ m).voices
      = (va.midi_channels_ m).voices := by
  have hn : ¬ m ≥ 16 := by omega
  have hd : decide (v ≥ 64) = true := decide_eq_true hv
  unfold VoiceAllocator.handle_cc
  rw [if_neg hn]
  simp [hd, VoiceAllocator.broadcast_cc, VoiceAllocator.set_mcs]

/-- Note Off under the pedal in the default mapping: the voice is marked sustained. -/
theorem allocator_note_off_held {va : VoiceAllocator} (hinv : PlainInv va) (m n : Nat)
    (hm : m < 16) (v : Voice) (hvs : (va.midi_channels_ m).voices = [v])
    (hnote : v.note = toInt8 n) (hsus : (va.midi_channels_ m).sustain = true) :
    ((VoiceAllocator.handle_note_off va m n).midi_channels_ m).sustain = true ∧
    ((VoiceAllocator.handle_note_off va m n).midi_channels_ m).voices
      = [{ v with sustained := true }] := by
  have hm16 : ¬ m ≥ 16 := by omega
  unfold VoiceAllocator.handle_note_off
  rw [if_neg hm16, try_perc_note_off_plain va m n hinv.1]
  simp [hvs, VoiceAllocator.note_off_voices, hnote, hsus, VoiceAllocator.set_mcs]

/-- Pedal up in the default mapping with a sustained voice: the slot is freed. -/
theorem allocator_pedal_up (fp : FloatOps) (va : VoiceAllocator) (m v2 : Nat) (hm : m < 16)
    (hv2 : v2 < 64) (v : Voice) (hvs : (va.midi_channels_ m).voices = [v])
    (hheld : v.sustained = true) (hsus : (va.midi_channels_ m).sustain = true) :
    ((VoiceAllocator.handle_cc fp va m 64 v2).midi_channels_ m).voices = [Voice.default] := by
  have hn : ¬ m ≥ 16 := by omega
  have hd : decide (v2 ≥ 64) = false := decide_eq_false (by omega)
  unfold VoiceAllocator.handle_cc
  rw [if_neg hn]
  simp [hd, hsus, hvs, hheld, VoiceAllocator.broadcast_cc, VoiceAllocator.set_mcs,
    VoiceAllocator.release_sustained]

/-- In the default mapping the key-on bit of a channel is set exactly when its voice slot
holds a note. -/
theorem PlainInv.voice_key_on {va : VoiceAllocator} (hinv : PlainInv va) (m : Nat) (hm : m < 16)
    (v : Voice) (hvs : (va.midi_channels_ m).voices = [v]) :
    key_on va.dm_.state_ m = decide (0 ≤ v.note) := by
  obtain ⟨_, _, w, hw, hk, _⟩ := hinv.2.1 m hm
  rw [hvs] at hw
  obtain rfl : v = w := by simpa using hw
  by_cases h : 0 ≤ v.note
  · rw [hk.mp h]; simp [h]
  · have : key_on va.dm_.state_ m ≠ true := fun e => h (hk.mpr e)
    simp [h, this]

/-- Claim C23. With note `n` sounding on a channel, pedal down (CC64 at least 64) and Note Off `n`
leave bit 5 of the channel's `B0` register set and the note recorded; a following CC64 below
64 clears the bit and frees the slot. In Direct Mode the note is the `current_note` of the
channel; in the Voice Allocator in its default mapping it is the note of the voice slot of
the MIDI channel, and all three messages are processed to the end. -/
theorem sustain_holds_note (fp : FloatOps) (d : DirectMode) (va : VoiceAllocator)
    (ch n v1 x v2 : Nat) (hch : ch < 16) (hn : n ≤ 127) (hv1 : 64 ≤ v1) (hv2 : v2 < 64) :
    ((d.channels_ ch).current_note = (n : Int) → key_on d.state_ ch = true →
      key_on ((d.process_midi fp [0xB0 ||| ch, 64, v1]).process_midi fp
        [0x80 ||| ch, n, x]).state_ ch = true ∧
      ((((d.process_midi fp [0xB0 ||| ch, 64, v1]).process_midi fp
        [0x80 ||| ch, n, x]).channels_ ch).current_note = (n : Int)) ∧
      key_on (((d.process_midi fp [0xB0 ||| ch, 64, v1]).process_midi fp
        [0x80 ||| ch, n, x]).process_midi fp [0xB0 ||| ch, 64, v2]).state_ ch = false ∧
      (((((d.process_midi fp [0xB0 ||| ch, 64, v1]).process_midi fp
        [0x80 ||| ch, n, x]).process_midi fp [0xB0 ||| ch, 64, v2]).channels_ ch).current_note
          = -1)) ∧
    (PlainInv va → ((va.midi_channels_ ch).voices.getD 0 Voice.default).note = (n : Int) →
      key_on va.dm_.state_ ch = true ∧
      ∃ va2 va3,
        VoiceAllocator.run_midi fp va [[0xB0 ||| ch, 64, v1], [0x80 ||| ch, n, x]] = some va2 ∧
        VoiceAllocator.run_midi fp va2 [[0xB0 ||| ch, 64, v2]] = some va3 ∧
        key_on va2.dm_.state_ ch = true ∧
        (va2.midi_channels_ ch).voices.map (fun w => w.note) = [(n : Int)] ∧
        key_on va3.dm_.state_ ch = false ∧
        (va3.midi_channels_ ch).voices.map (fun w => w.note) = [-1]) := by
  refine ⟨fun hcur hkey => direct_sustain_sequence fp d ch n v1 x v2 hch hn hcur hkey hv1 hv2,
    fun hinv hnote => ?_⟩
  obtain ⟨_, _, v, hvs, _, _⟩ := hinv.2.1 ch hch
  rw [hvs] at hnote
  simp only [List.getD_cons_zero] at hnote
  have hpos : (0 : Int) ≤ (n : Int) := Int.ofNat_nonneg n
  have hk0 : key_on va.dm_.state_ ch = true := by
    rw [hinv.voice_key_on ch hch v hvs, hnote]; simp
  -- pedal down
  have hinv1 : PlainInv (VoiceAllocator.handle_cc fp va ch 64 v1) :=
    hinv.cc fp ch 64 v1 hch (by decide)
  obtain ⟨hs1, hvs1⟩ := allocator_pedal_down fp va ch v1 hch hv1
  rw [hvs] at hvs1
  -- Note Off
  have hinv2 : PlainInv (VoiceAllocator.handle_note_off
      (VoiceAllocator.handle_cc fp va ch 64 v1) ch n) := hinv1.note_off ch n hch
  obtain ⟨hs2, hvs2⟩ := allocator_note_off_held hinv1 ch n hch v hvs1
    (by rw [hnote, toInt8_of_le n hn]) hs1
  -- pedal up
  have hinv3 : PlainInv (VoiceAllocator.handle_cc fp (VoiceAllocator.handle_note_off
      (VoiceAllocator.handle_cc fp va ch 64 v1) ch n) ch 64 v2) :=
    hinv2.cc fp ch 64 v2 hch (by decide)
  have hvs3 := allocator_pedal_up fp _ ch v2 hch hv2 _ hvs2 rfl hs2
  refine ⟨hk0, VoiceAllocator.handle_note_off (VoiceAllocator.handle_cc fp va ch 64 v1) ch n,
    VoiceAllocator.handle_cc fp (VoiceAllocator.handle_note_off
      (VoiceAllocator.handle_cc fp va ch 64 v1) ch n) ch 64 v2, ?_, ?_, ?_, ?_, ?_, ?_⟩
  · simp only [VoiceAllocator.run_midi, allocator_process_cc fp va ch 64 v1 hch,
      allocator_process_note_off fp _ ch n x hch]
  · simp only [VoiceAllocator.run_midi, allocator_process_cc fp _ ch 64 v2 hch]
  · rw [hinv2.voice_key_on ch hch _ hvs2]
    simp [hnote]
  · rw [hvs2]; simp [hnote]
  · rw [hinv3.voice_key_on ch hch _ hvs3]
    simp [Voice.default]
  · rw [hvs3]; simp [Voice.default]

set_option maxRecDepth 100000 in
/-- Claim C23, witness. Note On 60 on channel 0, then the pedal sequence, in Direct Mode and
in the Voice Allocator, with the floating-point expressions in exact arithmetic. -/
theorem sustain_holds_note_witness :
    (0 : Nat) < 16 ∧ (60 : Nat) ≤ 127 ∧ (64 : Nat) ≤ 127 ∧ (0 : Nat) < 64 ∧
    key_on ((((DirectMode.create OPL3State.fresh 0x7F).process_midi FloatOps.exact
      [0x90, 60, 100]).process_midi FloatOps.exact [0xB0 ||| 0, 64, 127]).process_midi
      FloatOps.exact [0x80 ||| 0, 60, 0]).state_ 0 = true ∧
    ∃ va, VoiceAllocator.run_midi FloatOps.exact (VoiceAllocator.initial 0x7F true)
        [[0x90, 60, 100]] = some va ∧
      ∃ va2 va3,
        VoiceAllocator.run_midi FloatOps.exact va [[0xB0 ||| 0, 64, 127], [0x80 ||| 0, 60, 0]]
          = some va2 ∧
        VoiceAllocator.run_midi FloatOps.exact va2 [[0xB0 ||| 0, 64, 0]] = some va3 ∧
        key_on va2.dm_.state_ 0 = true ∧
        (va2.midi_channels_ 0).voices.map (fun w => w.note) = [((60 : Nat) : Int)] ∧
        key_on va3.dm_.state_ 0 = false ∧
        (va3.midi_channels_ 0).voices.map (fun w => w.note) = [-1] := by
  refine ⟨by decide, by decide, by decide, by decide, ?_, ?_⟩
  · exact ((sustain_holds_note FloatOps.exact
      ((DirectMode.create OPL3State.fresh 0x7F).process_midi FloatOps.exact [0x90, 60, 100])
      (VoiceAllocator.fresh 0x7F) 0 60 127 0 0 (by decide) (by decide) (by decide)
      (by decide)).1 (by decide) (by decide)).1
  · obtain ⟨va, hrun, hinv⟩ := PlainInv.run FloatOps.exact [[0x90, 60, 100]]
      (VoiceAllocator.initial 0x7F true) (PlainInv.initial 0x7F true) (by decide)
    have hnote : (VoiceAllocator.run_midi FloatOps.exact (VoiceAllocator.initial 0x7F true)
        [[0x90, 60, 100]]).map
        (fun va => ((va.midi_channels_ 0).voices.getD 0 Voice.default).note)
          = some ((60 : Nat) : Int) := by
      decide
    rw [hrun] at hnote
    have hnote2 : ((va.midi_channels_ 0).voices.getD 0 Voice.default).note = ((60 : Nat) : Int) := by
      simpa using hnote
    exact ⟨va, hrun, ((sustain_holds_note FloatOps.exact (DirectMode.create OPL3State.fresh 0x7F)
      va 0 60 127 0 0 (by decide) (by decide) (by decide) (by decide)).2 hinv hnote2).2⟩


/-! ### Unison detune -/

set_option maxRecDepth 100000 in
set_option exponentiation.threshold 100000 in
/-- The voice config `F0 7D 7F 30 00 03 00 01 02 03 14 00 F7` and Note On 60 in exact
arithmetic: the key-on bits and frequencies of OPL3 channels 0, 1 and 2. -/
theorem unison_detune_registers : ∀ b : Bool,
    (VoiceAllocator.run_midi FloatOps.exact (VoiceAllocator.initial 0x7F b)
      [[0xF0, 0x7D, 0x7F, 0x30, 0x00, 0x03, 0x00, 0x01, 0x02, 0x03, 0x14, 0x00, 0xF7],
       [0x90, 60, 100]]).map (fun va => va.sounding [0, 1, 2])
      = some [(true, ⟨686, 3⟩), (true, ⟨690, 3⟩), (true, ⟨694, 3⟩)] := by
  decide

set_option maxRecDepth 100000 in
set_option exponentiation.threshold 100000 in
/-- The `(f_num, block)` of note 60 at cents offsets -20, -10, 0, 10 and 20. -/
theorem spec_cents_freq_60 :
    [spec_cents_freq 60 (-20), spec_cents_freq 60 (-10), spec_cents_freq 60 0,
      spec_cents_freq 60 10, spec_cents_freq 60 20]
      = [⟨682, 3⟩, ⟨686, 3⟩, ⟨690, 3⟩, ⟨694, 3⟩, ⟨698, 3⟩] := by
  decide

/-- Claim C27, counterexample. After the voice config `F0 7D 7F 30 00 03 00 01 02 03 14 00 F7`
and Note On 60, in exact arithmetic, the frequency of OPL3 channel 0 is not the one of a
cents offset of -20 and the frequency of OPL3 channel 2 is not the one of +20. -/
theorem unison_detune_counterexample :
    ∃ va, VoiceAllocator.run_midi FloatOps.exact (VoiceAllocator.initial 0x7F true)
        [[0xF0, 0x7D, 0x7F, 0x30, 0x00, 0x03, 0x00, 0x01, 0x02, 0x03, 0x14, 0x00, 0xF7],
         [0x90, 60, 100]] = some va ∧
      chan_freq va.dm_.state_ 0 ≠ spec_cents_freq 60 (-20) ∧
      chan_freq va.dm_.state_ 2 ≠ spec_cents_freq 60 20 := by
  have h := unison_detune_registers true
  have hs := spec_cents_freq_60
  simp only [List.cons.injEq, and_true] at hs
  obtain ⟨hm20, _, _, _, hp20⟩ := hs
  cases hrun : VoiceAllocator.run_midi FloatOps.exact (VoiceAllocator.initial 0x7F true)
      [[0xF0, 0x7D, 0x7F, 0x30, 0x00, 0x03, 0x00, 0x01, 0x02, 0x03, 0x14, 0x00, 0xF7],
       [0x90, 60, 100]] with
  | none => rw [hrun] at h; simp at h
  | some va =>
    rw [hrun] at h
    simp only [Option.map_some', Option.some.injEq, VoiceAllocator.sounding, List.map_cons,
      List.map_nil, List.cons.injEq, Prod.mk.injEq, and_true] at h
    obtain ⟨⟨_, h0⟩, _, _, h2⟩ := h
    refine ⟨va, rfl, ?_, ?_⟩
    · rw [h0, hm20]; decide
    · rw [h2, hp20]; decide

/-- Claim C27, amended. After the voice config `F0 7D 7F 30 00 03 00 01 02 03 14 00 F7` (MIDI
channel 0, OPL3 channels 0, 1, 2, unison 3, detune 20 cents) and Note On 60, from the state
in which the daemon starts, both messages are processed to the end, OPL3 channels 0, 1
and 2 have key-on set, and their frequencies are those of cents offsets -10, 0 and +10 from
the note, in that order (exact arithmetic). -/
theorem unison_detune_offsets (b : Bool) :
    (VoiceAllocator.run_midi FloatOps.exact (VoiceAllocator.initial 0x7F b)
      [[0xF0, 0x7D, 0x7F, 0x30, 0x00, 0x03, 0x00, 0x01, 0x02, 0x03, 0x14, 0x00, 0xF7],
       [0x90, 60, 100]]).map (fun va => va.sounding [0, 1, 2])
      = some [(true, spec_cents_freq 60 (-10)), (true, spec_cents_freq 60 0),
          (true, spec_cents_freq 60 10)] := by
  have hs := spec_cents_freq_60
  simp only [List.cons.injEq, and_true] at hs
  obtain ⟨_, hm10, h0, hp10, _⟩ := hs
  rw [unison_detune_registers b, hm10, h0, hp10]


/-! ### Applying a voice config twice -/

set_option maxRecDepth 100000 in
/-- Claim C29, the code at the failing input. After the voice-config message
`F0 7D 7F 30 01 03 03 03 03 01 0A 00 F7` (MIDI channel 1, OPL3 channels 3, 3, 3),
`set_voice_config` for MIDI channel 0 with the pool `[3]` leaves the pool `[3, 3]` on MIDI
channel 1 when applied once and the pool `[3]` when applied twice. -/
theorem set_voice_config_twice_differs :
    (VoiceAllocator.run_midi FloatOps.exact (VoiceAllocator.fresh 0x7F)
      [[0xF0, 0x7D, 0x7F, 0x30, 0x01, 0x03, 0x03, 0x03, 0x03, 0x01, 0x0A, 0x00, 0xF7]]).map
      (fun va =>
        (va.pool 1,
         (VoiceAllocator.set_voice_config FloatOps.exact va 0
            { opl3_channels := [3], unison_count := 1, detune_cents := 10, four_op := false,
              pan_split := false }).pool 1,
         (VoiceAllocator.set_voice_config FloatOps.exact
            (VoiceAllocator.set_voice_config FloatOps.exact va 0
              { opl3_channels := [3], unison_count := 1, detune_cents := 10, four_op := false,
                pan_split := false }) 0
            { opl3_channels := [3], unison_count := 1, detune_cents := 10, four_op := false,
              pan_split := false }).pool 1))
      = some ([3, 3, 3], [3, 3], [3]) := by
  decide


/-! ### Voice configs under MIDI messages -/

theorem same_configs_refl (va : VoiceAllocator) : SameConfigs va va := ⟨rfl, rfl, fun _ => rfl⟩

theorem same_configs_trans {a b c : VoiceAllocator} (h1 : SameConfigs a b) (h2 : SameConfigs b c) :
    SameConfigs a c :=
  ⟨h2.1.trans h1.1, h2.2.1.trans h1.2.1, fun i => (h2.2.2 i).trans (h1.2.2 i)⟩

/-- A fold whose steps keep a reflexive and transitive relation keeps it. -/
theorem foldl_keeps {β α : Type} (R : β → β → Prop) (hrefl : ∀ b, R b b)
    (htrans : ∀ a b c, R a b → R b c → R a c) (f : β → α → β) (h : ∀ b a, R b (f b a)) :
    ∀ (l : List α) (b : β), R b (l.foldl f b) := by
  intro l
  induction l with
  | nil => intro b; exact hrefl b
  | cons a l ih => intro b; exact htrans _ _ _ (h b a) (ih (f b a))

theorem same_configs_set_dm (va : VoiceAllocator) (dm : DirectMode) :
    SameConfigs va { va with dm_ := dm } := ⟨rfl, rfl, fun _ => rfl⟩

theorem same_configs_set_mcs (va : VoiceAllocator) (m : Nat) (mcs : MidiChannelState)
    (h : mcs.config = (va.midi_channels_ m).config) :
    SameConfigs va (VoiceAllocator.set_mcs va m mcs) := by
  refine ⟨rfl, rfl, fun i => ?_⟩
  unfold VoiceAllocator.set_mcs
  by_cases hi : i = m
  · subst hi; simp [h]
  · simp [hi]

theorem try_perc_note_off_same (va : VoiceAllocator) (m n : Nat) :
    SameConfigs va (VoiceAllocator.try_perc_note_off va m n).1 := by
  unfold VoiceAllocator.try_perc_note_off
  split
  · exact same_configs_refl va
  · exact foldl_keeps (fun (a b : VoiceAllocator × Bool) => SameConfigs a.1 b.1)
      (fun b => same_configs_refl b.1) (fun a b c h1 h2 => same_configs_trans h1 h2) _
      (fun acc d => by
        dsimp only
        split
        · exact ⟨rfl, rfl, fun _ => rfl⟩
        · exact same_configs_refl _) _ (va, false)

theorem try_perc_note_on_same (fp : FloatOps) (va : VoiceAllocator) (m n v : Nat) :
    SameConfigs va (VoiceAllocator.try_perc_note_on fp va m n v).1 := by
  unfold VoiceAllocator.try_perc_note_on
  split
  · exact same_configs_refl va
  · exact foldl_keeps (fun (a b : VoiceAllocator × Bool) => SameConfigs a.1 b.1)
      (fun b => same_configs_refl b.1) (fun a b c h1 h2 => same_configs_trans h1 h2) _
      (fun acc d => by
        dsimp only
        split
        · exact ⟨rfl, rfl, fun _ => rfl⟩
        · exact same_configs_refl _) _ (va, false)

theorem handle_note_off_same (va : VoiceAllocator) (m n : Nat) :
    SameConfigs va (VoiceAllocator.handle_note_off va m n) := by
  unfold VoiceAllocator.handle_note_off
  split
  · exact same_configs_refl va
  · dsimp only
    have h := try_perc_note_off_same va m n
    split
    · exact h
    · exact same_configs_trans h (same_configs_trans (same_configs_set_dm _ _) (same_configs_set_mcs _ m _ rfl))

theorem steal_oldest_group_config : ∀ (fuel : Nat) (dm : DirectMode) (mcs : MidiChannelState)
    (g : Int) (r : DirectMode × MidiChannelState),
    VoiceAllocator.steal_oldest_group fuel dm mcs g = some r → r.2.config = mcs.config := by
  intro fuel
  induction fuel with
  | zero => intro dm mcs g r h; simp [VoiceAllocator.steal_oldest_group] at h
  | succ fuel ih =>
    intro dm mcs g r h
    rw [VoiceAllocator.steal_oldest_group] at h
    dsimp only at h
    split at h
    · simp only [Option.some.injEq] at h; rw [← h]
    · split at h
      · have := ih _ _ _ _ h; exact this
      · simp only [Option.some.injEq] at h; rw [← h]

theorem allocate_slots_config (dm : DirectMode) (mcs : MidiChannelState) (count : Nat)
    (r : VoiceAllocator.AllocResult) (h : VoiceAllocator.allocate_slots dm mcs count = some r) :
    r.mcs.config = mcs.config := by
  unfold VoiceAllocator.allocate_slots at h
  dsimp only at h
  split at h
  · simp only [Option.some.injEq] at h; rw [← h]
  · split at h
    · simp at h
    · rename_i dm2 mcs2 hs
      simp only [Option.some.injEq] at h
      rw [← h]
      exact steal_oldest_group_config _ _ _ _ (dm2, mcs2) hs

theorem note_on_slot_config (fp : FloatOps) (n v ts u : Nat) (st : DirectMode × MidiChannelState)
    (idx slot : Nat) :
    (VoiceAllocator.note_on_slot fp n v ts u st idx slot).2.config = st.2.config := rfl

theorem note_on_slots_config (fp : FloatOps) (n v ts u : Nat) :
    ∀ (slots : List Nat) (idx : Nat) (st : DirectMode × MidiChannelState),
    (VoiceAllocator.note_on_slots fp n v ts u slots idx st).2.config = st.2.config := by
  intro slots
  induction slots with
  | nil => intro idx st; rfl
  | cons s slots ih =>
    intro idx st
    rw [VoiceAllocator.note_on_slots, ih, note_on_slot_config]

theorem handle_note_on_same (fp : FloatOps) (va va2 : VoiceAllocator) (m n v : Nat)
    (h : VoiceAllocator.handle_note_on fp va m n v = some va2) : SameConfigs va va2 := by
  unfold VoiceAllocator.handle_note_on at h
  split at h
  · simp only [Option.some.injEq] at h; rw [← h]; exact same_configs_refl va
  · dsimp only at h
    have hp := try_perc_note_on_same fp va m n v
    split at h
    · simp only [Option.some.injEq] at h; rw [← h]; exact hp
    · split at h
      · simp only [Option.some.injEq] at h; rw [← h]; exact hp
      · split at h
        · simp at h
        · rename_i result hres
          have hc := allocate_slots_config _ _ _ _ hres
          split at h
          · simp only [Option.some.injEq] at h; rw [← h]
            exact same_configs_trans hp (same_configs_trans (same_configs_set_dm _ _)
              (same_configs_set_mcs _ m _ hc))
          · simp only [Option.some.injEq] at h; rw [← h]
            refine same_configs_trans hp ?_
            refine same_configs_trans (b := { (VoiceAllocator.try_perc_note_on fp va m n v).1 with
              dm_ := (VoiceAllocator.note_on_slots fp n v
                (((VoiceAllocator.try_perc_note_on fp va m n v).1.timestamp_counter_ + 1) % 2 ^ 64)
                (VoiceAllocator.unison_of
                  ((VoiceAllocator.try_perc_note_on fp va m n v).1.midi_channels_ m))
                result.slot_indices 0 (result.dm, result.mcs)).1,
              timestamp_counter_ :=
                ((VoiceAllocator.try_perc_note_on fp va m n v).1.timestamp_counter_ + 1) % 2 ^ 64 })
              ⟨rfl, rfl, fun _ => rfl⟩ ?_
            exact same_configs_set_mcs _ m _ (by
              rw [note_on_slots_config]; exact hc)

theorem broadcast_cc_same (fp : FloatOps) (va : VoiceAllocator) (m cc v : Nat) :
    SameConfigs va (VoiceAllocator.broadcast_cc fp va m cc v) := ⟨rfl, rfl, fun _ => rfl⟩

theorem handle_cc_same (fp : FloatOps) (va : VoiceAllocator) (m cc v : Nat) :
    SameConfigs va (VoiceAllocator.handle_cc fp va m cc v) := by
  unfold VoiceAllocator.handle_cc
  split
  · exact same_configs_refl va
  · dsimp only
    split
    · refine same_configs_trans ?_ (broadcast_cc_same fp _ m _ _)
      exact same_configs_set_mcs va m _ (by rfl)
    · refine same_configs_trans ?_ (broadcast_cc_same fp _ m _ _)
      exact same_configs_set_mcs va m _ (by rfl)
    · refine same_configs_trans ?_ (broadcast_cc_same fp _ m _ _)
      exact same_configs_set_mcs va m _ (by rfl)
    · refine same_configs_trans ?_ (broadcast_cc_same fp _ m _ _)
      exact same_configs_set_mcs va m _ (by rfl)
    · refine same_configs_trans ?_ (broadcast_cc_same fp _ m _ _)
      exact same_configs_set_mcs va m _ (by rfl)
    · refine same_configs_trans ?_ (broadcast_cc_same fp _ m _ _)
      split
      · exact same_configs_trans (same_configs_set_dm va _) (same_configs_set_mcs _ m _ (by rfl))
      · exact same_configs_set_mcs va m _ (by rfl)
    · exact same_configs_set_mcs va m _ (by rfl)
    · exact same_configs_set_mcs va m _ (by rfl)
    · exact same_configs_set_mcs va m _ (by rfl)
    · exact same_configs_set_mcs va m _ (by rfl)
    · split
      · exact same_configs_set_dm va _
      · split
        · exact same_configs_set_mcs va m _ (by rfl)
        · exact same_configs_refl va
    · split
      · exact same_configs_set_mcs va m _ (by rfl)
      · exact same_configs_refl va
    · exact broadcast_cc_same fp va m _ _

theorem recompute_bend_voice_config (fp : FloatOps) (u : Nat) (st : DirectMode × MidiChannelState)
    (i : Nat) : (VoiceAllocator.recompute_bend_voice fp u st i).2.config = st.2.config := by
  unfold VoiceAllocator.recompute_bend_voice
  dsimp only
  split <;> rfl

theorem recompute_bend_same (fp : FloatOps) (va : VoiceAllocator) (m : Nat) :
    SameConfigs va (VoiceAllocator.recompute_bend fp va m) := by
  unfold VoiceAllocator.recompute_bend
  dsimp only
  refine same_configs_trans (same_configs_set_dm va _) (same_configs_set_mcs _ m _ ?_)
  exact foldl_keeps (fun (a b : DirectMode × MidiChannelState) => b.2.config = a.2.config)
    (fun _ => rfl) (fun a b c h1 h2 => h2.trans h1) _
    (fun st i => recompute_bend_voice_config fp _ st i) _ (va.dm_, va.midi_channels_ m)

theorem handle_pitch_bend_same (fp : FloatOps) (va : VoiceAllocator) (m bend : Nat) :
    SameConfigs va (VoiceAllocator.handle_pitch_bend fp va m bend) := by
  unfold VoiceAllocator.handle_pitch_bend
  split
  · exact same_configs_refl va
  · refine same_configs_trans ?_ (recompute_bend_same fp _ m)
    exact same_configs_set_mcs va m _ (by rfl)

theorem release_drums_same (va : VoiceAllocator) :
    SameConfigs va (VoiceAllocator.release_drums va) := by
  unfold VoiceAllocator.release_drums
  exact foldl_keeps SameConfigs same_configs_refl (fun a b c h1 h2 => same_configs_trans h1 h2) _
    (fun va d => by
      split
      · exact ⟨rfl, rfl, fun _ => rfl⟩
      · exact same_configs_refl _) _ va

theorem reset_same (va : VoiceAllocator) : SameConfigs va (VoiceAllocator.reset va) := by
  unfold VoiceAllocator.reset
  refine same_configs_trans ?_ (same_configs_trans (release_drums_same _) ⟨rfl, rfl, fun _ => rfl⟩)
  exact foldl_keeps SameConfigs same_configs_refl (fun a b c h1 h2 => same_configs_trans h1 h2) _
    (fun va d => same_configs_trans (same_configs_set_dm va _) (same_configs_set_mcs _ d _ (by rfl)))
    _ va

theorem set_percussion_mode_same (va : VoiceAllocator) (e : Bool) :
    SameConfigs va (VoiceAllocator.set_percussion_mode va e) := by
  unfold VoiceAllocator.set_percussion_mode
  split
  · exact same_configs_refl va
  · dsimp only
    split
    · refine same_configs_trans ?_ (release_drums_same _)
      exact ⟨rfl, rfl, fun _ => rfl⟩
    · exact ⟨rfl, rfl, fun _ => rfl⟩

theorem set_drum_midi_channel_same (va : VoiceAllocator) (d : Nat) (c : Int) :
    SameConfigs va (VoiceAllocator.set_drum_midi_channel va d c) := by
  unfold VoiceAllocator.set_drum_midi_channel
  split
  · exact same_configs_refl va
  · dsimp only
    split <;> exact ⟨rfl, rfl, fun _ => rfl⟩

theorem sysex_perc_config_same (va : VoiceAllocator) (data : List Nat) (len : Nat) :
    SameConfigs va (VoiceAllocator.sysex_perc_config va data len) := by
  unfold VoiceAllocator.sysex_perc_config
  split
  · exact same_configs_refl va
  · dsimp only
    refine same_configs_trans (set_percussion_mode_same va (decide (data.getD 0 0 ≥ 64))) ?_
    exact foldl_keeps SameConfigs same_configs_refl (fun a b c h1 h2 => same_configs_trans h1 h2)
      _ (fun va d => set_drum_midi_channel_same va d _) _ _

theorem sysex_voice_query_same (va : VoiceAllocator) (data : List Nat) (len : Nat) :
    SameConfigs va (VoiceAllocator.sysex_voice_query va data len) := by
  unfold VoiceAllocator.sysex_voice_query
  split
  · exact same_configs_refl va
  · dsimp only
    split
    · exact same_configs_refl va
    · exact ⟨rfl, rfl, fun _ => rfl⟩

theorem sysex_perc_query_same (va : VoiceAllocator) :
    SameConfigs va (VoiceAllocator.sysex_perc_query va) := by
  unfold VoiceAllocator.sysex_perc_query
  split
  · exact same_configs_refl va
  · exact ⟨rfl, rfl, fun _ => rfl⟩

/-! The pools stay valid. -/

theorem PoolsValid.of_same {va va2 : VoiceAllocator} (h : SameConfigs va va2)
    (hv : PoolsValid va) : PoolsValid va2 := by
  intro m hm
  unfold VoiceAllocator.pool
  rw [h.2.2 m]
  exact hv m hm

theorem keeps_pools_refl (a : VoiceAllocator) :
    a.midi_output_ = a.midi_output_ ∧ a.device_id_ = a.device_id_ ∧
      (PoolsValid a → PoolsValid a) := ⟨rfl, rfl, id⟩

theorem keeps_pools_of_same {a b : VoiceAllocator} (h : SameConfigs a b) :
    b.midi_output_ = a.midi_output_ ∧ b.device_id_ = a.device_id_ ∧
      (PoolsValid a → PoolsValid b) := ⟨h.1, h.2.1, PoolsValid.of_same h⟩

theorem deconflict_one_pools (m c : Nat) (va : VoiceAllocator) (other : Nat) :
    (VoiceAllocator.deconflict_one m c va other).midi_output_ = va.midi_output_ ∧
    (VoiceAllocator.deconflict_one m c va other).device_id_ = va.device_id_ ∧
    (PoolsValid va → PoolsValid (VoiceAllocator.deconflict_one m c va other)) := by
  unfold VoiceAllocator.deconflict_one
  split
  · exact keeps_pools_refl va
  · dsimp only
    split
    · refine ⟨rfl, rfl, fun hv i hi => ?_⟩
      unfold VoiceAllocator.pool VoiceAllocator.set_mcs
      dsimp only
      by_cases hio : i = other
      · rw [if_pos hio]
        dsimp only
        obtain ⟨hl, hmem⟩ := hv other (hio ▸ hi)
        unfold VoiceAllocator.pool at hl hmem
        have hsub := List.eraseIdx_sublist (va.midi_channels_ other).config.opl3_channels
          ((va.midi_channels_ other).config.opl3_channels.indexOf c)
        exact ⟨Nat.lt_of_le_of_lt hsub.length_le hl, fun x hx => hmem x (hsub.subset hx)⟩
      · rw [if_neg hio]
        exact hv i hi
    · exact keeps_pools_refl va

theorem deconflict_all_pools (m : Nat) (chans : List Nat) (va : VoiceAllocator) :
    (chans.foldl (fun va opl3_ch =>
      (List.range 16).foldl (VoiceAllocator.deconflict_one m opl3_ch) va) va).midi_output_
        = va.midi_output_ ∧
    (chans.foldl (fun va opl3_ch =>
      (List.range 16).foldl (VoiceAllocator.deconflict_one m opl3_ch) va) va).device_id_
        = va.device_id_ ∧
    (PoolsValid va → PoolsValid (chans.foldl (fun va opl3_ch =>
      (List.range 16).foldl (VoiceAllocator.deconflict_one m opl3_ch) va) va)) :=
  foldl_keeps
    (fun (a b : VoiceAllocator) => b.midi_output_ = a.midi_output_ ∧
      b.device_id_ = a.device_id_ ∧ (PoolsValid a → PoolsValid b))
    keeps_pools_refl
    (fun _ _ _ h1 h2 => ⟨h2.1.trans h1.1, h2.2.1.trans h1.2.1, fun h => h2.2.2 (h1.2.2 h)⟩)
    (fun va opl3_ch => (List.range 16).foldl (VoiceAllocator.deconflict_one m opl3_ch) va)
    (fun va opl3_ch => foldl_keeps
      (fun (a b : VoiceAllocator) => b.midi_output_ = a.midi_output_ ∧
        b.device_id_ = a.device_id_ ∧ (PoolsValid a → PoolsValid b))
      keeps_pools_refl
      (fun _ _ _ h1 h2 => ⟨h2.1.trans h1.1, h2.2.1.trans h1.2.1, fun h => h2.2.2 (h1.2.2 h)⟩)
      (VoiceAllocator.deconflict_one m opl3_ch)
      (fun va other => deconflict_one_pools m opl3_ch va other) (List.range 16) va)
    chans va

theorem set_voice_config_pools (fp : FloatOps) (va : VoiceAllocator) (m : Nat)
    (cfg : VoiceConfig) (hlen : cfg.opl3_channels.length < 256)
    (hmem : ∀ c ∈ cfg.opl3_channels, c < 18) :
    (VoiceAllocator.set_voice_config fp va m cfg).midi_output_ = va.midi_output_ ∧
    (VoiceAllocator.set_voice_config fp va m cfg).device_id_ = va.device_id_ ∧
    (PoolsValid va → PoolsValid (VoiceAllocator.set_voice_config fp va m cfg)) := by
  unfold VoiceAllocator.set_voice_config
  split
  · exact keeps_pools_refl va
  · dsimp only
    generalize VoiceAllocator.release_sounding (va.midi_channels_ m).config.opl3_channels
      (va.midi_channels_ m).voices 0 va.dm_ = dm0
    have hloop := deconflict_all_pools m cfg.opl3_channels { va with dm_ := dm0 }
    refine ⟨hloop.1, hloop.2.1, fun hv i hi => ?_⟩
    have hv2 := hloop.2.2 (PoolsValid.of_same (same_configs_set_dm va _) hv)
    unfold VoiceAllocator.pool VoiceAllocator.set_mcs
    dsimp only
    by_cases him : i = m
    · rw [if_pos him]
      exact ⟨hlen, hmem⟩
    · rw [if_neg him]
      exact hv2 i hi

theorem set_voice_config_config (fp : FloatOps) (va : VoiceAllocator) (m : Nat)
    (cfg : VoiceConfig) (hm : m < 16) :
    ((VoiceAllocator.set_voice_config fp va m cfg).midi_channels_ m).config = cfg := by
  have hn : ¬ m ≥ 16 := by omega
  unfold VoiceAllocator.set_voice_config
  rw [if_neg hn]
  simp [VoiceAllocator.set_mcs]

theorem getD_lt_of_bytes {l : List Nat} (h : IsBytes l) (i : Nat) : l.getD i 0 < 256 := by
  by_cases hi : i < l.length
  · rw [List.getD_eq_getElem l 0 hi]
    exact h _ (List.getElem_mem hi)
  · rw [List.getD_eq_default l 0 (by omega)]
    decide

theorem sysex_voice_config_pools (fp : FloatOps) (va : VoiceAllocator) (data : List Nat)
    (len : Nat) (hb : IsBytes data) :
    (VoiceAllocator.sysex_voice_config fp va data len).midi_output_ = va.midi_output_ ∧
    (VoiceAllocator.sysex_voice_config fp va data len).device_id_ = va.device_id_ ∧
    (PoolsValid va → PoolsValid (VoiceAllocator.sysex_voice_config fp va data len)) := by
  unfold VoiceAllocator.sysex_voice_config
  split
  · exact keeps_pools_refl va
  · dsimp only
    split
    · exact keeps_pools_refl va
    · split
      · exact keeps_pools_refl va
      · apply set_voice_config_pools
        · have h1 : (((List.range (data.getD 1 0)).map (fun i => data.getD (2 + i) 0)).filter
              (fun ch => decide (ch < 18))).length ≤ data.getD 1 0 := by
            refine (List.length_filter_le _ _).trans ?_
            simp
          have h2 := getD_lt_of_bytes hb 1
          split <;> exact Nat.lt_of_le_of_lt h1 h2
        · intro c hc
          have hc2 : c ∈ ((List.range (data.getD 1 0)).map (fun i => data.getD (2 + i) 0)).filter
              (fun ch => decide (ch < 18)) := by
            split at hc <;> exact hc
          simpa using (List.mem_filter.mp hc2).2

theorem allocator_handle_sysex_pools (fp : FloatOps) (va : VoiceAllocator) (data : List Nat)
    (len : Nat) (hb : IsBytes data) :
    (VoiceAllocator.handle_sysex fp va data len).midi_output_ = va.midi_output_ ∧
    (VoiceAllocator.handle_sysex fp va data len).device_id_ = va.device_id_ ∧
    (PoolsValid va → PoolsValid (VoiceAllocator.handle_sysex fp va data len)) := by
  have hdrop : IsBytes (data.drop 4) := fun x hx => hb x (List.mem_of_mem_drop hx)
  unfold VoiceAllocator.handle_sysex
  split
  · exact keeps_pools_refl va
  split
  · exact keeps_pools_refl va
  split
  · exact keeps_pools_refl va
  split
  · exact keeps_pools_refl va
  dsimp only
  split
  · exact sysex_voice_config_pools fp va _ _ hdrop
  split
  · exact keeps_pools_of_same (sysex_voice_query_same va _ _)
  split
  · exact keeps_pools_of_same (sysex_perc_config_same va _ _)
  split
  · exact keeps_pools_of_same (sysex_perc_query_same va)
  · exact keeps_pools_refl va

/-- One MIDI message keeps the pools valid, the device id and the output callback. -/
theorem process_midi_pools (fp : FloatOps) (va va2 : VoiceAllocator) (msg : List Nat)
    (hb : IsBytes msg) (h : VoiceAllocator.process_midi fp va msg = some va2) :
    va2.midi_output_ = va.midi_output_ ∧ va2.device_id_ = va.device_id_ ∧
    (PoolsValid va → PoolsValid va2) := by
  unfold VoiceAllocator.process_midi at h
  dsimp only at h
  split at h
  · simp only [Option.some.injEq] at h; rw [← h]; exact keeps_pools_refl va
  split at h
  · split at h
    · simp only [Option.some.injEq] at h; rw [← h]
      exact allocator_handle_sysex_pools fp va msg _ hb
    · split at h
      · simp only [Option.some.injEq] at h; rw [← h]
        exact keeps_pools_of_same (same_configs_trans (reset_same va) (same_configs_set_dm _ _))
      · simp only [Option.some.injEq] at h; rw [← h]
        exact keeps_pools_of_same (same_configs_set_dm _ _)
  · split at h
    · split at h
      · split at h
        · simp only [Option.some.injEq] at h; rw [← h]
          exact keeps_pools_of_same (handle_note_off_same va _ _)
        · exact keeps_pools_of_same (handle_note_on_same fp va va2 _ _ _ h)
      · simp only [Option.some.injEq] at h; rw [← h]; exact keeps_pools_refl va
    · split at h
      · split at h
        · simp only [Option.some.injEq] at h; rw [← h]
          exact keeps_pools_of_same (handle_note_off_same va _ _)
        · simp only [Option.some.injEq] at h; rw [← h]; exact keeps_pools_refl va
      · split at h
        · split at h
          · simp only [Option.some.injEq] at h; rw [← h]
            exact keeps_pools_of_same (handle_cc_same fp va _ _ _)
          · simp only [Option.some.injEq] at h; rw [← h]; exact keeps_pools_refl va
        · split at h
          · split at h
            · simp only [Option.some.injEq] at h; rw [← h]
              exact keeps_pools_of_same (handle_pitch_bend_same fp va _ _)
            · simp only [Option.some.injEq] at h; rw [← h]; exact keeps_pools_refl va
          · simp only [Option.some.injEq] at h; rw [← h]; exact keeps_pools_refl va

/-- A sequence of MIDI messages keeps the pools valid, the device id and the output
callback. -/
theorem run_midi_pools (fp : FloatOps) : ∀ (msgs : List (List Nat)) (va va2 : VoiceAllocator),
    (∀ msg ∈ msgs, IsBytes msg) → VoiceAllocator.run_midi fp va msgs = some va2 →
    va2.midi_output_ = va.midi_output_ ∧ va2.device_id_ = va.device_id_ ∧
    (PoolsValid va → PoolsValid va2) := by
  intro msgs
  induction msgs with
  | nil =>
    intro va va2 _ h
    simp only [VoiceAllocator.run_midi, Option.some.injEq] at h
    rw [← h]; exact keeps_pools_refl va
  | cons msg rest ih =>
    intro va va2 hb h
    rw [VoiceAllocator.run_midi] at h
    split at h
    · simp at h
    · rename_i va1 h1
      have s1 := process_midi_pools fp va va1 msg (hb msg (List.mem_cons_self _ _)) h1
      have s2 := ih va1 va2 (fun x hx => hb x (List.mem_cons_of_mem _ hx)) h
      exact ⟨s2.1.trans s1.1, s2.2.1.trans s1.2.1, fun hv => s2.2.2 (s1.2.2 hv)⟩

theorem initial_pools (dev : Nat) (b : Bool) : PoolsValid (VoiceAllocator.initial dev b) := by
  intro m hm
  have hm18 : m < 18 := by omega
  have hmod : m % 256 = m := by omega
  have hp : (VoiceAllocator.initial dev b).pool m = [m] := by
    cases b <;>
    simp [VoiceAllocator.initial, VoiceAllocator.pool, VoiceAllocator.fresh, VoiceAllocator.create,
      VoiceAllocator.init_default_mapping, VoiceAllocator.default_mapping_channel, hm, hm18, hmod]
  rw [hp]
  exact ⟨by simp, fun c hc => by simp at hc; omega⟩


/-! ### Voice query and replay -/

/-- A well-framed voice-config or voice-query SysEx for an accepted device id reaches its
handler in the allocator. -/
theorem allocator_process_voice_frame (fp : FloatOps) (va : VoiceAllocator) (dev cmd : Nat)
    (payload : List Nat) (hdev : dev = va.device_id_ ∨ dev = 0x7F ∨ va.device_id_ = 0x7F)
    (hcmd : cmd = 0x30 ∨ cmd = 0x31) :
    VoiceAllocator.process_midi fp va (sysex_frame dev cmd payload) =
      some (if cmd = 0x30 then
          VoiceAllocator.sysex_voice_config fp va (payload ++ [0xF7]) payload.length
        else VoiceAllocator.sysex_voice_query va (payload ++ [0xF7]) payload.length) := by
  have hlast := sysex_frame_last dev cmd payload
  have hlen : (sysex_frame dev cmd payload).length = payload.length + 5 := by
    simp [sysex_frame]
  have hne : ¬ (sysex_frame dev cmd payload).length = 0 := by omega
  have hlt : ¬ (sysex_frame dev cmd payload).length < 5 := by omega
  have hge : (sysex_frame dev cmd payload).length ≥ 5 := by omega
  have hd : ¬ (dev ≠ va.device_id_ ∧ dev ≠ 0x7F ∧ va.device_id_ ≠ 0x7F) := by
    rintro ⟨a, b, c⟩
    rcases hdev with h | h | h
    · exact a h
    · exact b h
    · exact c h
  have h0 : (sysex_frame dev cmd payload).getD 0 0 = 0xF0 := rfl
  have h1 : (sysex_frame dev cmd payload).getD 1 0 = 0x7D := rfl
  have h2 : (sysex_frame dev cmd payload).getD 2 0 = dev := rfl
  have h3 : (sysex_frame dev cmd payload).getD 3 0 = cmd := rfl
  have h4 : (sysex_frame dev cmd payload).drop 4 = payload ++ [0xF7] := rfl
  have h5 : (sysex_frame dev cmd payload).length - 5 = payload.length := by omega
  unfold VoiceAllocator.process_midi VoiceAllocator.handle_sysex
  simp only [hne, hlt, hge, h0, hlast, h1, h2, h3, h4, h5, hd, if_true, if_false, ne_eq,
    not_true_eq_false, or_self, kSysExManufID, true_and, kSysExVoiceConfig, kSysExVoiceQuery]
  rcases hcmd with h | h <;> subst h <;> simp

theorem map_getD_range (l : List Nat) :
    (List.range l.length).map (fun i => l.getD i 0) = l := by
  apply List.ext_getElem
  · simp
  · intro i h1 h2
    simp only [List.getElem_map, List.getElem_range]
    exact List.getD_eq_getElem l 0 h2

theorem config_flags_bits (cfg : VoiceConfig) :
    ((config_flags cfg &&& 0x01) != 0) = cfg.four_op ∧
    ((config_flags cfg &&& 0x02) != 0) = cfg.pan_split := by
  unfold config_flags
  cases cfg.four_op <;> cases cfg.pan_split <;> decide

/-- The voice-config handler on the payload of the frame of a config installs that config. -/
theorem sysex_voice_config_frame (fp : FloatOps) (va : VoiceAllocator) (m : Nat)
    (cfg : VoiceConfig) (hm : m < 16) (hmem : ∀ c ∈ cfg.opl3_channels, c < 18) :
    VoiceAllocator.sysex_voice_config fp va
      (([m, cfg.opl3_channels.length] ++ cfg.opl3_channels ++
        [cfg.unison_count, cfg.detune_cents, config_flags cfg]) ++ [0xF7])
      (([m, cfg.opl3_channels.length] ++ cfg.opl3_channels ++
        [cfg.unison_count, cfg.detune_cents, config_flags cfg]).length)
      = VoiceAllocator.set_voice_config fp va m cfg := by
  have hdata : (([m, cfg.opl3_channels.length] ++ cfg.opl3_channels ++
        [cfg.unison_count, cfg.detune_cents, config_flags cfg]) ++ [0xF7])
      = m :: cfg.opl3_channels.length :: (cfg.opl3_channels ++
          [cfg.unison_count, cfg.detune_cents, config_flags cfg, 0xF7]) := by simp
  have hlen : (([m, cfg.opl3_channels.length] ++ cfg.opl3_channels ++
        [cfg.unison_count, cfg.detune_cents, config_flags cfg]).length)
      = cfg.opl3_channels.length + 5 := by simp
  rw [hdata, hlen]
  have hg : ∀ i, (m :: cfg.opl3_channels.length :: (cfg.opl3_channels ++
      [cfg.unison_count, cfg.detune_cents, config_flags cfg, 0xF7])).getD (2 + i) 0
      = (cfg.opl3_channels ++
          [cfg.unison_count, cfg.detune_cents, config_flags cfg, 0xF7]).getD i 0 := by
    intro i
    rw [Nat.add_comm 2 i]
    rfl
  have hchans : ((List.range cfg.opl3_channels.length).map (fun i =>
      (m :: cfg.opl3_channels.length :: (cfg.opl3_channels ++
        [cfg.unison_count, cfg.detune_cents, config_flags cfg, 0xF7])).getD (2 + i) 0)).filter
        (fun ch => decide (ch < 18)) = cfg.opl3_channels := by
    have h1 : (List.range cfg.opl3_channels.length).map (fun i =>
        (m :: cfg.opl3_channels.length :: (cfg.opl3_channels ++
          [cfg.unison_count, cfg.detune_cents, config_flags cfg, 0xF7])).getD (2 + i) 0)
        = cfg.opl3_channels := by
      conv_rhs => rw [← map_getD_range cfg.opl3_channels]
      apply List.map_congr_left
      intro i hi
      rw [hg i]
      exact List.getD_append _ _ _ _ (List.mem_range.mp hi)
    rw [h1]
    exact List.filter_eq_self.mpr (fun c hc => by simpa using hmem c hc)
  have hu : (m :: cfg.opl3_channels.length :: (cfg.opl3_channels ++
      [cfg.unison_count, cfg.detune_cents, config_flags cfg, 0xF7])).getD
        (2 + cfg.opl3_channels.length) 0 = cfg.unison_count := by
    rw [hg, List.getD_append_right _ _ _ _ (Nat.le_refl _)]
    simp
  have hd : (m :: cfg.opl3_channels.length :: (cfg.opl3_channels ++
      [cfg.unison_count, cfg.detune_cents, config_flags cfg, 0xF7])).getD
        (3 + cfg.opl3_channels.length) 0 = cfg.detune_cents := by
    have : 3 + cfg.opl3_channels.length = 2 + (cfg.opl3_channels.length + 1) := by omega
    rw [this, hg, List.getD_append_right _ _ _ _ (by omega)]
    simp
  have hf : (m :: cfg.opl3_channels.length :: (cfg.opl3_channels ++
      [cfg.unison_count, cfg.detune_cents, config_flags cfg, 0xF7])).getD
        (4 + cfg.opl3_channels.length) 0 = config_flags cfg := by
    have : 4 + cfg.opl3_channels.length = 2 + (cfg.opl3_channels.length + 2) := by omega
    rw [this, hg, List.getD_append_right _ _ _ _ (by omega)]
    simp
  obtain ⟨hf1, hf2⟩ := config_flags_bits cfg
  unfold VoiceAllocator.sysex_voice_config
  rw [if_neg (by omega)]
  simp only [List.getD_cons_zero, List.getD_cons_succ]
  rw [if_neg (by omega), if_neg (by omega)]
  simp only [List.getD_cons_zero, List.getD_cons_succ] at hchans hu hd hf
  rw [if_pos (by omega)]
  simp only [hchans, hu, hd, hf, hf1, hf2]

/-- The voice query of a state with valid pools and an output callback emits the frame of
the config of the channel. -/
theorem sysex_voice_query_frame (va : VoiceAllocator) (m : Nat) (rest : List Nat) (hm : m < 16)
    (hout : va.midi_output_ = true) (hlen : (va.pool m).length < 256) :
    VoiceAllocator.sysex_voice_query va ((m :: rest) ++ [0xF7]) (m :: rest).length
      = { va with sent_ := va.sent_ ++
            [voice_config_frame va.device_id_ m (va.midi_channels_ m).config] } := by
  unfold VoiceAllocator.pool at hlen
  have hmod : (va.midi_channels_ m).config.opl3_channels.length % 256
      = (va.midi_channels_ m).config.opl3_channels.length := Nat.mod_eq_of_lt hlen
  unfold VoiceAllocator.sysex_voice_query
  rw [if_neg (by simp [hout])]
  simp only [List.cons_append, List.getD_cons_zero]
  rw [if_neg (by omega)]
  simp [voice_config_frame, sysex_frame, config_flags, hmod, kSysExManufID, kSysExVoiceConfig]

/-- Claim C30. In every state that the allocator reaches from its initial state, with an output
callback set, by MIDI messages (sequences of bytes) that are processed to the end, a voice
query (SysEx `0x31`) for a MIDI channel `m < 16` emits the voice-config frame (command `0x30`)
of the config of `m`, and processing that frame as input leaves the config of `m` (pool
entries in order, unison count, detune cents, four-op flag and pan-split flag) as it was
before the query. -/
theorem voice_query_replay (fp : FloatOps) (dev : Nat) (b : Bool) (msgs : List (List Nat))
    (va : VoiceAllocator) (hbytes : ∀ msg ∈ msgs, IsBytes msg)
    (hrun : VoiceAllocator.run_midi fp (VoiceAllocator.set_midi_output
      (VoiceAllocator.initial dev b)) msgs = some va)
    (m : Nat) (hm : m < 16) (qdev : Nat) (rest : List Nat)
    (hq : qdev = va.device_id_ ∨ qdev = 0x7F ∨ va.device_id_ = 0x7F) :
    ∃ va1 va2,
      VoiceAllocator.process_midi fp va (sysex_frame qdev 0x31 (m :: rest)) = some va1 ∧
      va1.sent_ = va.sent_ ++ [voice_config_frame va.device_id_ m (va.midi_channels_ m).config] ∧
      VoiceAllocator.process_midi fp va1
        (voice_config_frame va.device_id_ m (va.midi_channels_ m).config) = some va2 ∧
      (va2.midi_channels_ m).config = (va.midi_channels_ m).config := by
  obtain ⟨hout, _, hpools⟩ := run_midi_pools fp msgs _ va hbytes hrun
  have hv : PoolsValid va := hpools (fun i hi => initial_pools dev b i hi)
  have hout2 : va.midi_output_ = true := by rw [hout]; rfl
  obtain ⟨hlen, hmem⟩ := hv m hm
  have h1 : VoiceAllocator.process_midi fp va (sysex_frame qdev 0x31 (m :: rest))
      = some { va with sent_ := va.sent_ ++
          [voice_config_frame va.device_id_ m (va.midi_channels_ m).config] } := by
    rw [allocator_process_voice_frame fp va qdev 0x31 (m :: rest) hq (Or.inr rfl),
      if_neg (by decide), sysex_voice_query_frame va m rest hm hout2 hlen]
  have h2 : ∀ va1 : VoiceAllocator, va1.device_id_ = va.device_id_ →
      VoiceAllocator.process_midi fp va1
        (voice_config_frame va.device_id_ m (va.midi_channels_ m).config)
      = some (VoiceAllocator.set_voice_config fp va1 m (va.midi_channels_ m).config) := by
    intro va1 hd
    unfold voice_config_frame
    rw [allocator_process_voice_frame fp va1 va.device_id_ 0x30 _ (Or.inl hd.symm) (Or.inl rfl),
      if_pos rfl, sysex_voice_config_frame fp va1 m _ hm hmem]
  exact ⟨_, _, h1, rfl, h2 _ rfl, set_voice_config_config fp _ m _ hm⟩

set_option maxRecDepth 100000 in
/-- Claim C30, witness. The query for MIDI channel 0 after a voice config with three OPL3
channels, unison 3, detune 20 and both flags set, and a Note On. -/
theorem voice_query_replay_witness :
    (∀ msg ∈ [[0xF0, 0x7D, 0x7F, 0x30, 0x00, 0x03, 0x00, 0x01, 0x02, 0x03, 0x14, 0x03, 0xF7],
      [0x90, 60, 100]], IsBytes msg) ∧
    ∃ va, VoiceAllocator.run_midi FloatOps.exact
        (VoiceAllocator.set_midi_output (VoiceAllocator.initial 0x7F true))
        [[0xF0, 0x7D, 0x7F, 0x30, 0x00, 0x03, 0x00, 0x01, 0x02, 0x03, 0x14, 0x03, 0xF7],
         [0x90, 60, 100]] = some va ∧
      (0 : Nat) < 16 ∧
      ∃ va1 va2,
        VoiceAllocator.process_midi FloatOps.exact va (sysex_frame 0x7F 0x31 [0]) = some va1 ∧
        va1.sent_ = va.sent_ ++ [voice_config_frame va.device_id_ 0 (va.midi_channels_ 0).config] ∧
        VoiceAllocator.process_midi FloatOps.exact va1
          (voice_config_frame va.device_id_ 0 (va.midi_channels_ 0).config) = some va2 ∧
        (va2.midi_channels_ 0).config = (va.midi_channels_ 0).config := by
  have hsome : (VoiceAllocator.run_midi FloatOps.exact
      (VoiceAllocator.set_midi_output (VoiceAllocator.initial 0x7F true))
      [[0xF0, 0x7D, 0x7F, 0x30, 0x00, 0x03, 0x00, 0x01, 0x02, 0x03, 0x14, 0x03, 0xF7],
       [0x90, 60, 100]]).isSome = true := by
    decide
  obtain ⟨va, hva⟩ := Option.isSome_iff_exists.mp hsome
  exact ⟨by decide, va, hva, by decide,
    voice_query_replay FloatOps.exact 0x7F true _ va (by decide) hva 0 (by decide) 0x7F []
      (Or.inr (Or.inl rfl))⟩


/-! ### Voice allocation -/

theorem try_perc_note_on_unrouted (fp : FloatOps) (va : VoiceAllocator) (m n v : Nat)
    (h : NotPercRouted va m) : VoiceAllocator.try_perc_note_on fp va m n v = (va, false) := by
  rcases h with h | h
  · exact try_perc_note_on_plain fp va m n v h
  · unfold VoiceAllocator.try_perc_note_on
    split
    · rfl
    · have h0 := h 0 (by decide)
      have h1 := h 1 (by decide)
      have h2 := h 2 (by decide)
      have h3 := h 3 (by decide)
      have h4 := h 4 (by decide)
      simp only [range_five, List.foldl_cons, List.foldl_nil, h0, h1, h2, h3, h4, if_false]

/-- The voices after the loop that releases the voices with a note. -/
theorem release_note_voices (chans : List Nat) (note : Int) :
    ∀ (vs : List Voice) (i : Nat) (dm : DirectMode),
      (VoiceAllocator.release_note chans note vs i dm).2
        = vs.map (fun v => if v.note = note then Voice.default else v) := by
  intro vs
  induction vs with
  | nil => intro i dm; rfl
  | cons v vs ih =>
    intro i dm
    rw [VoiceAllocator.release_note]
    by_cases h : v.note = note
    · simp only [h, if_true, List.map_cons, ih]
    · simp only [h, if_false, List.map_cons, ih]

/-- The voices and the count after the release loop of `steal_oldest_group`. -/
theorem steal_group_voices (chans : List Nat) (note : Int) (ts : Nat) :
    ∀ (vs : List Voice) (i : Nat) (dm : DirectMode),
      (VoiceAllocator.steal_group chans note ts vs i dm).2.1
        = vs.map (fun v => if v.note = note ∧ v.timestamp = ts then Voice.default else v) ∧
      (VoiceAllocator.steal_group chans note ts vs i dm).2.2
        = vs.countP (fun v => decide (v.note = note ∧ v.timestamp = ts)) := by
  intro vs
  induction vs with
  | nil => intro i dm; exact ⟨rfl, rfl⟩
  | cons v vs ih =>
    intro i dm
    rw [VoiceAllocator.steal_group]
    by_cases h : v.note = note ∧ v.timestamp = ts
    · rw [if_pos h]
      dsimp only
      rw [(ih _ _).1, (ih _ _).2, List.map_cons, if_pos h, List.countP_cons_of_pos _ _ (by simpa using h)]
      exact ⟨rfl, rfl⟩
    · rw [if_neg h]
      dsimp only
      rw [(ih _ _).1, (ih _ _).2, List.map_cons, if_neg h,
        List.countP_cons_of_neg _ _ (by simpa using h)]
      exact ⟨rfl, rfl⟩

/-- The search for the oldest sounding voice: either no sounding voice has a timestamp
below `2 ^ 64 - 1`, or the result is the note and timestamp of a sounding voice. -/
theorem find_oldest_spec (vs : List Voice) :
    ((VoiceAllocator.find_oldest vs).2.1 < 0 ∧
      ∀ v ∈ vs, 0 ≤ v.note → ¬ v.timestamp < 2 ^ 64 - 1) ∨
    (0 ≤ (VoiceAllocator.find_oldest vs).2.1 ∧
      ∃ v ∈ vs, v.note = (VoiceAllocator.find_oldest vs).2.1 ∧
        v.timestamp = (VoiceAllocator.find_oldest vs).2.2) := by
  unfold VoiceAllocator.find_oldest
  have key : ∀ (l seen : List Voice) (acc : Nat × Int × Nat),
      ((acc.2.1 < 0 ∧ acc.1 = 2 ^ 64 - 1 ∧
          ∀ v ∈ seen, 0 ≤ v.note → ¬ v.timestamp < 2 ^ 64 - 1) ∨
        (0 ≤ acc.2.1 ∧ ∃ v ∈ seen, v.note = acc.2.1 ∧ v.timestamp = acc.2.2)) →
      (((l.foldl (fun (acc : Nat × Int × Nat) v =>
          if v.note ≥ 0 ∧ v.timestamp < acc.1 then (v.timestamp, v.note, v.timestamp) else acc)
          acc).2.1 < 0 ∧
        ∀ v ∈ seen ++ l, 0 ≤ v.note → ¬ v.timestamp < 2 ^ 64 - 1) ∨
       (0 ≤ (l.foldl (fun (acc : Nat × Int × Nat) v =>
          if v.note ≥ 0 ∧ v.timestamp < acc.1 then (v.timestamp, v.note, v.timestamp) else acc)
          acc).2.1 ∧
        ∃ v ∈ seen ++ l, v.note = (l.foldl (fun (acc : Nat × Int × Nat) v =>
            if v.note ≥ 0 ∧ v.timestamp < acc.1 then (v.timestamp, v.note, v.timestamp) else acc)
            acc).2.1 ∧
          v.timestamp = (l.foldl (fun (acc : Nat × Int × Nat) v =>
            if v.note ≥ 0 ∧ v.timestamp < acc.1 then (v.timestamp, v.note, v.timestamp) else acc)
            acc).2.2)) := by
    intro l
    induction l with
    | nil =>
      intro seen acc h
      simp only [List.foldl_nil, List.append_nil]
      rcases h with ⟨h1, _, h3⟩ | h
      · exact Or.inl ⟨h1, h3⟩
      · exact Or.inr h
    | cons x l ih =>
      intro seen acc h
      rw [List.foldl_cons]
      have hs : seen ++ x :: l = (seen ++ [x]) ++ l := by simp
      rw [hs]
      apply ih
      by_cases hx : x.note ≥ 0 ∧ x.timestamp < acc.1
      · rw [if_pos hx]
        exact Or.inr ⟨hx.1, x, by simp, rfl, rfl⟩
      · rw [if_neg hx]
        rcases h with ⟨h1, h2, h3⟩ | ⟨h1, v, hv, hv2⟩
        · refine Or.inl ⟨h1, h2, fun v hv hn => ?_⟩
          rcases List.mem_append.mp hv with hv | hv
          · exact h3 v hv hn
          · rw [List.mem_singleton] at hv
            subst hv
            rw [h2] at hx
            exact fun hlt => hx ⟨hn, hlt⟩
        · exact Or.inr ⟨h1, v, List.mem_append_left _ hv, hv2⟩
  have := key vs [] (2 ^ 64 - 1, -1, 0) (Or.inl ⟨by decide, rfl, fun v hv => by simp at hv⟩)
  simpa using this

theorem slots_freed_refl (vs : List Voice) : SlotsFreed vs vs := ⟨rfl, fun _ hw => Or.inl hw⟩

theorem slots_freed_trans {a b c : List Voice} (h1 : SlotsFreed a b) (h2 : SlotsFreed b c) :
    SlotsFreed a c := by
  refine ⟨h2.1.trans h1.1, fun w hw => ?_⟩
  rcases h2.2 w hw with h | h
  · exact h1.2 w h
  · exact Or.inr h

theorem slots_freed_map (vs : List Voice) (p : Voice → Prop) [DecidablePred p] :
    SlotsFreed vs (vs.map (fun v => if p v then Voice.default else v)) := by
  refine ⟨by simp, fun w hw => ?_⟩
  obtain ⟨v, hv, rfl⟩ := List.mem_map.mp hw
  by_cases h : p v
  · rw [if_pos h]; exact Or.inr rfl
  · rw [if_neg h]; exact Or.inl hv

/-- Freeing sounding voices adds their number to the number of free slots. -/
theorem countP_free_map (p : Voice → Prop) [DecidablePred p] (hp : ∀ v, p v → 0 ≤ v.note) :
    ∀ vs : List Voice,
      (vs.map (fun v => if p v then Voice.default else v)).countP (fun v => decide (v.note < 0))
        = vs.countP (fun v => decide (v.note < 0)) + vs.countP (fun v => decide (p v)) := by
  intro vs
  induction vs with
  | nil => rfl
  | cons v vs ih =>
    rw [List.map_cons]
    by_cases h : p v
    · have hn : ¬ v.note < 0 := by have := hp v h; omega
      rw [if_pos h, List.countP_cons_of_pos _ _ (by decide), ih,
        List.countP_cons_of_neg _ _ (by simpa using hn),
        List.countP_cons_of_pos _ _ (by simpa using h)]
      omega
    · rw [if_neg h, List.countP_cons_of_neg (fun v => decide (p v)) _ (by simpa using h)]
      by_cases hf : v.note < 0
      · rw [List.countP_cons_of_pos _ _ (by simpa using hf),
          List.countP_cons_of_pos _ _ (by simpa using hf), ih]
        omega
      · rw [List.countP_cons_of_neg _ _ (by simpa using hf),
          List.countP_cons_of_neg _ _ (by simpa using hf), ih]

/-- The stealing recursion returns: it frees slots until `g` more are free or every slot is
free. -/
theorem steal_oldest_group_spec : ∀ (fuel : Nat) (dm : DirectMode) (mcs : MidiChannelState)
    (g : Int),
    mcs.voices.length < fuel + mcs.voices.countP (fun v => decide (v.note < 0)) →
    (∀ v ∈ mcs.voices, 0 ≤ v.note → v.timestamp < 2 ^ 64 - 1) →
    ∃ r, VoiceAllocator.steal_oldest_group fuel dm mcs g = some r ∧
      r.2.config = mcs.config ∧ SlotsFreed mcs.voices r.2.voices ∧
      (((mcs.voices.countP (fun v => decide (v.note < 0)) : Nat) : Int) + g
          ≤ ((r.2.voices.countP (fun v => decide (v.note < 0)) : Nat) : Int) ∨
        ∀ w ∈ r.2.voices, w.note < 0) := by
  intro fuel
  induction fuel with
  | zero =>
    intro dm mcs g hf _
    have := List.countP_le_length (fun v => decide (v.note < 0)) (l := mcs.voices)
    omega
  | succ fuel ih =>
    intro dm mcs g hf hts
    rw [VoiceAllocator.steal_oldest_group]
    dsimp only
    rcases find_oldest_spec mcs.voices with ⟨hneg, hall⟩ | ⟨hpos, v0, hv0, hn0, ht0⟩
    · rw [if_pos hneg]
      refine ⟨(dm, mcs), rfl, rfl, slots_freed_refl _, Or.inr (fun w hw => ?_)⟩
      by_contra hw0
      exact hall w hw (by omega) (hts w hw (by omega))
    · rw [if_neg (by omega)]
      obtain ⟨hvs, hcnt⟩ := steal_group_voices mcs.config.opl3_channels
        (VoiceAllocator.find_oldest mcs.voices).2.1 (VoiceAllocator.find_oldest mcs.voices).2.2
        mcs.voices 0 dm
      rw [hvs, hcnt]
      have hfree := countP_free_map
        (fun v => v.note = (VoiceAllocator.find_oldest mcs.voices).2.1 ∧
          v.timestamp = (VoiceAllocator.find_oldest mcs.voices).2.2)
        (fun v hv => by rw [hv.1]; exact hpos) mcs.voices
      have hfreed := slots_freed_map mcs.voices
        (fun v => v.note = (VoiceAllocator.find_oldest mcs.voices).2.1 ∧
          v.timestamp = (VoiceAllocator.find_oldest mcs.voices).2.2)
      have hone : 0 < mcs.voices.countP (fun v =>
          decide (v.note = (VoiceAllocator.find_oldest mcs.voices).2.1 ∧
            v.timestamp = (VoiceAllocator.find_oldest mcs.voices).2.2)) :=
        List.countP_pos_iff.mpr ⟨v0, hv0, by simpa using ⟨hn0, ht0⟩⟩
      split
      · rename_i hlt
        obtain ⟨r, hr, hc, hfr, hcount⟩ := ih
          (VoiceAllocator.steal_group mcs.config.opl3_channels
            (VoiceAllocator.find_oldest mcs.voices).2.1
            (VoiceAllocator.find_oldest mcs.voices).2.2 mcs.voices 0 dm).1
          { mcs with voices := mcs.voices.map (fun v =>
              if v.note = (VoiceAllocator.find_oldest mcs.voices).2.1 ∧
                v.timestamp = (VoiceAllocator.find_oldest mcs.voices).2.2
              then Voice.default else v) }
          (g - ((mcs.voices.countP (fun v =>
            decide (v.note = (VoiceAllocator.find_oldest mcs.voices).2.1 ∧
              v.timestamp = (VoiceAllocator.find_oldest mcs.voices).2.2)) : Nat) : Int))
          (by
            dsimp only
            rw [hfree, List.length_map]
            omega)
          (by
            intro w hw hwn
            rcases hfreed.2 w hw with h | h
            · exact hts w h hwn
            · rw [h] at hwn; exact absurd hwn (by decide))
        refine ⟨r, hr, hc, slots_freed_trans hfreed hfr, ?_⟩
        rcases hcount with h | h
        · left
          dsimp only at h
          rw [hfree] at h
          push_cast at h ⊢
          omega
        · exact Or.inr h
      · rename_i hge
        refine ⟨_, rfl, rfl, hfreed, Or.inl ?_⟩
        dsimp only
        rw [hfree]
        push_cast
        omega

/-! The free slots found by `allocate_slots`. -/

theorem free_slots_eq (count : Nat) : ∀ (vs : List Voice) (i : Nat) (acc : List Nat),
    acc.length ≤ count →
    VoiceAllocator.free_slots count vs i acc = (acc ++ free_indices vs i).take count := by
  intro vs
  induction vs with
  | nil =>
    intro i acc h
    simp [VoiceAllocator.free_slots, free_indices, List.take_of_length_le h]
  | cons v vs ih =>
    intro i acc h
    rw [VoiceAllocator.free_slots, free_indices]
    by_cases hlt : acc.length < count
    · rw [if_pos hlt]
      by_cases hf : v.note < 0
      · rw [if_pos hf, if_pos hf, ih (i + 1) (acc ++ [i]) (by simp; omega)]
        simp
      · rw [if_neg hf, if_neg hf, ih (i + 1) acc h]
    · rw [if_neg hlt]
      have : acc.length = count := by omega
      rw [List.take_append_of_le_length (by omega), List.take_of_length_le (by omega)]

theorem free_indices_length : ∀ (vs : List Voice) (i : Nat),
    (free_indices vs i).length = vs.countP (fun v => decide (v.note < 0)) := by
  intro vs
  induction vs with
  | nil => intro i; rfl
  | cons v vs ih =>
    intro i
    rw [free_indices]
    by_cases hf : v.note < 0
    · rw [if_pos hf, List.length_cons, ih, List.countP_cons_of_pos _ _ (by simpa using hf)]
    · rw [if_neg hf, ih, List.countP_cons_of_neg _ _ (by simpa using hf)]

/-- Every index found is the index of a free slot. -/
theorem free_indices_mem : ∀ (vs : List Voice) (i j : Nat), j ∈ free_indices vs i →
    i ≤ j ∧ ∃ v, vs[j - i]? = some v ∧ v.note < 0 := by
  intro vs
  induction vs with
  | nil => intro i j h; simp [free_indices] at h
  | cons v vs ih =>
    intro i j h
    rw [free_indices] at h
    have hrec : j ∈ free_indices vs (i + 1) → i ≤ j ∧ ∃ w, (v :: vs)[j - i]? = some w ∧ w.note < 0 := by
      intro h2
      obtain ⟨h3, w, hw, hwn⟩ := ih (i + 1) j h2
      have : j - i = (j - (i + 1)) + 1 := by omega
      rw [this, List.getElem?_cons_succ]
      exact ⟨by omega, w, hw, hwn⟩
    by_cases hf : v.note < 0
    · rw [if_pos hf] at h
      rcases List.mem_cons.mp h with h | h
      · subst h
        exact ⟨Nat.le_refl _, v, by simp, hf⟩
      · exact hrec h
    · rw [if_neg hf] at h
      exact hrec h

theorem free_indices_nodup : ∀ (vs : List Voice) (i : Nat), (free_indices vs i).Nodup := by
  intro vs
  induction vs with
  | nil => intro i; simp [free_indices]
  | cons v vs ih =>
    intro i
    rw [free_indices]
    split
    · refine List.nodup_cons.mpr ⟨fun h => ?_, ih (i + 1)⟩
      have := (free_indices_mem vs (i + 1) i h).1
      omega
    · exact ih (i + 1)

theorem free_take_spec (vs : List Voice) (count : Nat)
    (h : count ≤ vs.countP (fun v => decide (v.note < 0))) :
    ((free_indices vs 0).take count).length = count ∧
    ((free_indices vs 0).take count).Nodup ∧
    ∀ j ∈ (free_indices vs 0).take count, ∃ v, vs[j]? = some v ∧ v.note < 0 := by
  refine ⟨?_, ?_, fun j hj => ?_⟩
  · rw [List.length_take, free_indices_length]
    omega
  · exact (free_indices_nodup vs 0).sublist (List.take_sublist _ _)
  · exact (free_indices_mem vs 0 j (List.mem_of_mem_take hj)).2

/-- The allocation returns exactly `count` distinct free slots when there are at least
`count` slots and no sounding voice has the timestamp `2 ^ 64 - 1`. -/
theorem allocate_slots_spec (dm : DirectMode) (mcs : MidiChannelState) (count : Nat)
    (hlen : count ≤ mcs.voices.length)
    (hts : ∀ v ∈ mcs.voices, 0 ≤ v.note → v.timestamp < 2 ^ 64 - 1) :
    ∃ r, VoiceAllocator.allocate_slots dm mcs count = some r ∧ r.mcs.config = mcs.config ∧
      SlotsFreed mcs.voices r.mcs.voices ∧ r.slot_indices.length = count ∧
      r.slot_indices.Nodup ∧
      ∀ j ∈ r.slot_indices, ∃ v, r.mcs.voices[j]? = some v ∧ v.note < 0 := by
  unfold VoiceAllocator.allocate_slots
  dsimp only
  rw [free_slots_eq count mcs.voices 0 [] (by simp), List.nil_append]
  by_cases hfound : ((free_indices mcs.voices 0).take count).length ≥ count
  · rw [if_pos hfound]
    have hF : count ≤ mcs.voices.countP (fun v => decide (v.note < 0)) := by
      rw [List.length_take, free_indices_length] at hfound
      omega
    obtain ⟨h1, h2, h3⟩ := free_take_spec mcs.voices count hF
    exact ⟨_, rfl, rfl, slots_freed_refl _, h1, h2, h3⟩
  · rw [if_neg hfound]
    obtain ⟨r, hr, hc, hfr, hcount⟩ := steal_oldest_group_spec (mcs.voices.length + 1) dm mcs
      (count : Int) (by omega) hts
    obtain ⟨dm2, mcs2⟩ := r
    rw [hr]
    dsimp only at hc hfr hcount ⊢
    rw [free_slots_eq count mcs2.voices 0 [] (by simp), List.nil_append]
    have hF : count ≤ mcs2.voices.countP (fun v => decide (v.note < 0)) := by
      rcases hcount with h | h
      · omega
      · have : mcs2.voices.countP (fun v => decide (v.note < 0)) = mcs2.voices.length :=
          List.countP_eq_length.mpr (fun w hw => by simpa using h w hw)
        rw [this, hfr.1]
        exact hlen
    obtain ⟨h1, h2, h3⟩ := free_take_spec mcs2.voices count hF
    exact ⟨_, rfl, hc, hfr, h1, h2, h3⟩

theorem note_on_slot_voices (fp : FloatOps) (n vel ts u : Nat)
    (st : DirectMode × MidiChannelState) (idx slot : Nat) :
    ∃ w : Voice, (VoiceAllocator.note_on_slot fp n vel ts u st idx slot).2.voices
        = st.2.voices.set slot w ∧ w.note = toInt8 n ∧ w.timestamp = ts :=
  ⟨_, rfl, rfl, rfl⟩

/-- The voices after the loop over the allocated slots: every allocated slot holds the
note with the new timestamp, every other slot is as before. -/
theorem note_on_slots_spec (fp : FloatOps) (n vel ts u : Nat) :
    ∀ (slots : List Nat) (idx : Nat) (st : DirectMode × MidiChannelState),
      (VoiceAllocator.note_on_slots fp n vel ts u slots idx st).2.voices.length
        = st.2.voices.length ∧
      (∀ j, j ∈ slots → j < st.2.voices.length →
        ∃ w, (VoiceAllocator.note_on_slots fp n vel ts u slots idx st).2.voices[j]? = some w ∧
          w.note = toInt8 n ∧ w.timestamp = ts) ∧
      (∀ j, j ∉ slots →
        (VoiceAllocator.note_on_slots fp n vel ts u slots idx st).2.voices[j]?
          = st.2.voices[j]?) := by
  intro slots
  induction slots with
  | nil =>
    intro idx st
    exact ⟨rfl, fun j hj => absurd hj (List.not_mem_nil _), fun j _ => rfl⟩
  | cons slot slots ih =>
    intro idx st
    rw [VoiceAllocator.note_on_slots]
    obtain ⟨w, hw, hwn, hwt⟩ := note_on_slot_voices fp n vel ts u st idx slot
    obtain ⟨h1, h2, h3⟩ := ih (idx + 1) (VoiceAllocator.note_on_slot fp n vel ts u st idx slot)
    rw [hw] at h1 h2 h3
    rw [List.length_set] at h1 h2
    refine ⟨h1, fun j hj hlt => ?_, fun j hj => ?_⟩
    · by_cases hin : j ∈ slots
      · exact h2 j hin hlt
      · have hjs : j = slot := by
          rcases List.mem_cons.mp hj with h | h
          · exact h
          · exact absurd h hin
        subst hjs
        rw [h3 j hin, List.getElem?_set_self hlt]
        exact ⟨w, rfl, hwn, hwt⟩
    · have hne : slot ≠ j := fun h => hj (h ▸ List.mem_cons_self _ _)
      have hnin : j ∉ slots := fun h => hj (List.mem_cons_of_mem _ h)
      rw [h3 j hnin, List.getElem?_set_ne hne]

/-! Counting the slots that hold a note. -/

theorem countP_eq_filter_range (p : Voice → Bool) (l : List Voice) :
    l.countP p = ((List.range l.length).filter (fun j => (l[j]?).elim false p)).length := by
  induction l using List.reverseRecOn with
  | nil => rfl
  | append_singleton l a ih =>
    rw [List.countP_append, List.length_append, List.length_singleton, List.range_succ,
      List.filter_append, List.length_append, ih]
    congr 1
    · congr 1
      apply List.filter_congr
      intro j hj
      rw [List.getElem?_append_left (List.mem_range.mp hj)]
    · have : (l ++ [a])[l.length]? = some a := by simp
      simp only [List.filter_cons, List.filter_nil, this, Option.elim_some, List.countP_cons,
        List.countP_nil]
      cases p a <;> simp

/-- If the slots where `p` holds are exactly the indices of a duplicate-free list, their
number is the length of that list. -/
theorem countP_eq_of_indices (p : Voice → Bool) (l : List Voice) (S : List Nat)
    (hnd : S.Nodup) (h : ∀ j, j ∈ S ↔ ∃ v, l[j]? = some v ∧ p v = true) :
    l.countP p = S.length := by
  rw [countP_eq_filter_range]
  apply List.Perm.length_eq
  rw [List.perm_ext_iff_of_nodup (List.nodup_range _ |>.filter _) hnd]
  intro j
  rw [h j, List.mem_filter, List.mem_range]
  constructor
  · rintro ⟨hlt, hp⟩
    rw [List.getElem?_eq_getElem hlt] at hp
    exact ⟨l[j], List.getElem?_eq_getElem hlt, hp⟩
  · rintro ⟨v, hv, hp⟩
    have hlt : j < l.length := by
      by_contra hge
      rw [List.getElem?_eq_none (by omega)] at hv
      exact absurd hv (by simp)
    refine ⟨hlt, ?_⟩
    rw [hv]
    exact hp

/-- The Note On in terms of the voice slots of the channel: the result exists, and its
slots are described by a duplicate-free list `S` of `max(unison_count, 1)` indices. -/
theorem handle_note_on_slots (fp : FloatOps) (va : VoiceAllocator) (m n vel : Nat)
    (hm : m < 16) (hn : n ≤ 127) (hperc : NotPercRouted va m) (hinv : VoicesInv va)
    (hctr : va.timestamp_counter_ + 1 < 2 ^ 64)
    (hpool : max (va.midi_channels_ m).config.unison_count 1 ≤ (va.pool m).length) :
    ∃ (va2 : VoiceAllocator) (S : List Nat), VoiceAllocator.handle_note_on fp va m n vel = some va2 ∧
      va2.timestamp_counter_ = va.timestamp_counter_ + 1 ∧
      (∀ i, i ≠ m → va2.midi_channels_ i = va.midi_channels_ i) ∧
      (va2.midi_channels_ m).config = (va.midi_channels_ m).config ∧
      (va2.midi_channels_ m).voices.length = (va.midi_channels_ m).voices.length ∧
      S.Nodup ∧ S.length = max (va.midi_channels_ m).config.unison_count 1 ∧
      (∀ j ∈ S, ∃ w : Voice, (va2.midi_channels_ m).voices[j]? = some w ∧ w.note = (n : Int) ∧
        w.timestamp = va.timestamp_counter_ + 1) ∧
      (∀ j, j ∉ S → ∀ w : Voice, (va2.midi_channels_ m).voices[j]? = some w →
        w.note ≠ (n : Int) ∧ (0 ≤ w.note → w.timestamp ≤ va.timestamp_counter_)) := by
  have hm16 : ¬ m ≥ 16 := by omega
  obtain ⟨hlen, hts⟩ := hinv m hm
  unfold VoiceAllocator.pool at hpool hlen
  have hne : (va.midi_channels_ m).config.opl3_channels.isEmpty = false := by
    cases hc : (va.midi_channels_ m).config.opl3_channels with
    | nil =>
      rw [hc] at hpool
      have := le_max_right (va.midi_channels_ m).config.unison_count 1
      simp only [List.length_nil] at hpool
      omega
    | cons a l => rfl
  have hn8 : toInt8 n = (n : Int) := toInt8_of_le n hn
  have hnpos : (0 : Int) ≤ (n : Int) := Int.ofNat_nonneg n
  -- the voices after the release of the note
  have hrel := release_note_voices (va.midi_channels_ m).config.opl3_channels (toInt8 n)
    (va.midi_channels_ m).voices 0 va.dm_
  have hfr1 := slots_freed_map (va.midi_channels_ m).voices (fun v => v.note = toInt8 n)
  have hno1 : ∀ w ∈ (va.midi_channels_ m).voices.map
      (fun v => if v.note = toInt8 n then Voice.default else v), w.note ≠ (n : Int) := by
    intro w hw
    obtain ⟨v, _, rfl⟩ := List.mem_map.mp hw
    by_cases h : v.note = toInt8 n
    · rw [if_pos h]
      show (-1 : Int) ≠ (n : Int)
      omega
    · rw [if_neg h, ← hn8]; exact h
  have hlen1 : ((va.midi_channels_ m).voices.map
      (fun v => if v.note = toInt8 n then Voice.default else v)).length
        = (va.midi_channels_ m).voices.length := List.length_map _ _
  generalize (va.midi_channels_ m).voices.map
      (fun v => if v.note = toInt8 n then Voice.default else v) = vs1 at hrel hfr1 hno1 hlen1
  -- the allocation
  obtain ⟨r, hr, hc, hfr2, hSlen, hSnd, hSfree⟩ := allocate_slots_spec
    (VoiceAllocator.release_note (va.midi_channels_ m).config.opl3_channels (toInt8 n)
      (va.midi_channels_ m).voices 0 va.dm_).1
    { va.midi_channels_ m with voices := vs1 }
    (max (va.midi_channels_ m).config.unison_count 1)
    (by dsimp only; rw [hlen1, hlen]; exact hpool)
    (by
      intro w hw hwn
      rcases hfr1.2 w hw with h | h
      · have := hts w h hwn
        omega
      · rw [h] at hwn; exact absurd hwn (by decide))
  dsimp only at hc hfr2
  have hSne : r.slot_indices.isEmpty = false := by
    cases hs : r.slot_indices with
    | nil =>
      rw [hs] at hSlen
      have := le_max_right (va.midi_channels_ m).config.unison_count 1
      simp only [List.length_nil] at hSlen
      omega
    | cons a l => rfl
  have hmod : (va.timestamp_counter_ + 1) % 2 ^ 64 = va.timestamp_counter_ + 1 :=
    Nat.mod_eq_of_lt hctr
  obtain ⟨hl, hin, hout⟩ := note_on_slots_spec fp n vel (va.timestamp_counter_ + 1)
    (max (va.midi_channels_ m).config.unison_count 1) r.slot_indices 0 (r.dm, r.mcs)
  dsimp only at hl hin hout
  have hcfg := note_on_slots_config fp n vel (va.timestamp_counter_ + 1)
    (max (va.midi_channels_ m).config.unison_count 1) r.slot_indices 0 (r.dm, r.mcs)
  dsimp only at hcfg
  generalize hst : VoiceAllocator.note_on_slots fp n vel (va.timestamp_counter_ + 1)
    (max (va.midi_channels_ m).config.unison_count 1) r.slot_indices 0 (r.dm, r.mcs) = st
    at hl hin hout hcfg
  refine ⟨VoiceAllocator.set_mcs
      { va with dm_ := st.1, timestamp_counter_ := va.timestamp_counter_ + 1 } m st.2,
    r.slot_indices, ?_, rfl, ?_, ?_, ?_, hSnd, hSlen, ?_, ?_⟩
  · unfold VoiceAllocator.handle_note_on
    rw [if_neg hm16, try_perc_note_on_unrouted fp va m n vel hperc]
    simp only [Bool.false_eq_true, if_false, hne, VoiceAllocator.unison_of, hrel, hr, hSne, hmod,
      hst]
  · intro i hi
    simp [VoiceAllocator.set_mcs, hi]
  · simp only [VoiceAllocator.set_mcs, if_true]
    rw [hcfg, hc]
  · simp only [VoiceAllocator.set_mcs, if_true]
    rw [hl, hfr2.1, hlen1]
  · intro j hj
    simp only [VoiceAllocator.set_mcs, if_true]
    obtain ⟨v, hv, _⟩ := hSfree j hj
    have hlt : j < r.mcs.voices.length := by
      by_contra hge
      rw [List.getElem?_eq_none (by omega)] at hv
      exact absurd hv (by simp)
    obtain ⟨w, hw, hwn, hwt⟩ := hin j hj hlt
    exact ⟨w, hw, by rw [hwn, hn8], hwt⟩
  · intro j hj w hw
    simp only [VoiceAllocator.set_mcs, if_true] at hw
    rw [hout j hj] at hw
    have hmem : w ∈ r.mcs.voices := List.mem_iff_getElem?.mpr ⟨j, hw⟩
    rcases hfr2.2 w hmem with h | h
    · refine ⟨hno1 w h, fun hwn => ?_⟩
      rcases hfr1.2 w h with h2 | h2
      · exact hts w h2 hwn
      · rw [h2] at hwn; exact absurd hwn (by decide)
    · rw [h]
      refine ⟨?_, fun hwn => absurd hwn (by decide)⟩
      show (-1 : Int) ≠ (n : Int)
      omega


/-! ### The voice slots under MIDI messages -/

theorem slots_kept_refl (vs : List Voice) : SlotsKept vs vs :=
  ⟨rfl, fun w hw hn => ⟨w, hw, hn, rfl⟩⟩

theorem slots_kept_trans {a b c : List Voice} (h1 : SlotsKept a b) (h2 : SlotsKept b c) :
    SlotsKept a c := by
  refine ⟨h2.1.trans h1.1, fun w hw hn => ?_⟩
  obtain ⟨v, hv, hvn, hvt⟩ := h2.2 w hw hn
  obtain ⟨u, hu, hun, hut⟩ := h1.2 v hv hvn
  exact ⟨u, hu, hun, hut.trans hvt⟩

theorem slots_kept_of_freed {a b : List Voice} (h : SlotsFreed a b) : SlotsKept a b := by
  refine ⟨h.1, fun w hw hn => ?_⟩
  rcases h.2 w hw with h1 | h1
  · exact ⟨w, h1, hn, rfl⟩
  · rw [h1] at hn; exact absurd hn (by decide)

theorem voices_kept_refl (va : VoiceAllocator) : VoicesKept va va :=
  ⟨rfl, fun _ => ⟨rfl, slots_kept_refl _⟩⟩

theorem voices_kept_trans {a b c : VoiceAllocator} (h1 : VoicesKept a b) (h2 : VoicesKept b c) :
    VoicesKept a c :=
  ⟨h2.1.trans h1.1, fun i => ⟨(h2.2 i).1.trans (h1.2 i).1,
    slots_kept_trans (h1.2 i).2 (h2.2 i).2⟩⟩

/-- A state that keeps the voices of a state with the invariant has the invariant. -/
theorem VoicesInv.of_kept {va va2 : VoiceAllocator} (h : VoicesKept va va2)
    (hinv : VoicesInv va) : VoicesInv va2 := by
  intro i hi
  obtain ⟨hl, hts⟩ := hinv i hi
  obtain ⟨hc, hk⟩ := h.2 i
  unfold VoiceAllocator.pool at hl ⊢
  rw [hc, hk.1, h.1]
  refine ⟨hl, fun w hw hn => ?_⟩
  obtain ⟨v, hv, hvn, hvt⟩ := hk.2 w hw hn
  rw [← hvt]
  exact hts v hv hvn

theorem voices_kept_of_channels {va va2 : VoiceAllocator}
    (h1 : va2.timestamp_counter_ = va.timestamp_counter_)
    (h2 : va2.midi_channels_ = va.midi_channels_) : VoicesKept va va2 :=
  ⟨h1, fun i => ⟨by rw [h2], by rw [h2]; exact slots_kept_refl _⟩⟩

theorem voices_kept_set_mcs (va : VoiceAllocator) (m : Nat) (mcs : MidiChannelState)
    (hc : mcs.config = (va.midi_channels_ m).config)
    (hk : SlotsKept (va.midi_channels_ m).voices mcs.voices) :
    VoicesKept va (VoiceAllocator.set_mcs va m mcs) := by
  refine ⟨rfl, fun i => ?_⟩
  unfold VoiceAllocator.set_mcs
  by_cases hi : i = m
  · subst hi
    dsimp only
    rw [if_pos rfl]
    exact ⟨hc, hk⟩
  · dsimp only
    rw [if_neg hi]
    exact ⟨rfl, slots_kept_refl _⟩

theorem try_perc_note_off_channels (va : VoiceAllocator) (m n : Nat) :
    (VoiceAllocator.try_perc_note_off va m n).1.timestamp_counter_ = va.timestamp_counter_ ∧
    (VoiceAllocator.try_perc_note_off va m n).1.midi_channels_ = va.midi_channels_ := by
  unfold VoiceAllocator.try_perc_note_off
  split
  · exact ⟨rfl, rfl⟩
  · exact foldl_keeps (fun (a b : VoiceAllocator × Bool) =>
        b.1.timestamp_counter_ = a.1.timestamp_counter_ ∧ b.1.midi_channels_ = a.1.midi_channels_)
      (fun _ => ⟨rfl, rfl⟩) (fun _ _ _ h1 h2 => ⟨h2.1.trans h1.1, h2.2.trans h1.2⟩) _
      (fun acc d => by
        dsimp only
        split
        · exact ⟨rfl, rfl⟩
        · exact ⟨rfl, rfl⟩) _ (va, false)

theorem try_perc_note_on_channels (fp : FloatOps) (va : VoiceAllocator) (m n v : Nat) :
    (VoiceAllocator.try_perc_note_on fp va m n v).1.timestamp_counter_ = va.timestamp_counter_ ∧
    (VoiceAllocator.try_perc_note_on fp va m n v).1.midi_channels_ = va.midi_channels_ := by
  unfold VoiceAllocator.try_perc_note_on
  split
  · exact ⟨rfl, rfl⟩
  · exact foldl_keeps (fun (a b : VoiceAllocator × Bool) =>
        b.1.timestamp_counter_ = a.1.timestamp_counter_ ∧ b.1.midi_channels_ = a.1.midi_channels_)
      (fun _ => ⟨rfl, rfl⟩) (fun _ _ _ h1 h2 => ⟨h2.1.trans h1.1, h2.2.trans h1.2⟩) _
      (fun acc d => by
        dsimp only
        split
        · exact ⟨rfl, rfl⟩
        · exact ⟨rfl, rfl⟩) _ (va, false)

theorem note_off_voices_kept (chans : List Nat) (note : Int) (sus : Bool) :
    ∀ (vs : List Voice) (i : Nat) (dm : DirectMode),
      SlotsKept vs (VoiceAllocator.note_off_voices chans note sus vs i dm).2 := by
  intro vs
  induction vs with
  | nil => intro i dm; exact slots_kept_refl _
  | cons v vs ih =>
    intro i dm
    rw [VoiceAllocator.note_off_voices]
    have hcons : ∀ (w : Voice) (ws : List Voice), SlotsKept vs ws →
        (0 ≤ w.note → 0 ≤ v.note ∧ v.timestamp = w.timestamp) → SlotsKept (v :: vs) (w :: ws) := by
      intro w ws hk hw
      refine ⟨by simp [hk.1], fun x hx hxn => ?_⟩
      rcases List.mem_cons.mp hx with h | h
      · subst h
        exact ⟨v, List.mem_cons_self _ _, hw hxn⟩
      · obtain ⟨u, hu, hun, hut⟩ := hk.2 x h hxn
        exact ⟨u, List.mem_cons_of_mem _ hu, hun, hut⟩
    split
    · split
      · exact hcons _ _ (ih _ _) (fun h => ⟨h, rfl⟩)
      · exact hcons _ _ (ih _ _) (fun h => absurd h (by decide))
    · exact hcons _ _ (ih _ _) (fun h => ⟨h, rfl⟩)

theorem handle_note_off_kept (va : VoiceAllocator) (m n : Nat) :
    VoicesKept va (VoiceAllocator.handle_note_off va m n) := by
  unfold VoiceAllocator.handle_note_off
  split
  · exact voices_kept_refl va
  · dsimp only
    obtain ⟨h1, h2⟩ := try_perc_note_off_channels va m n
    have hp := voices_kept_of_channels h1 h2
    split
    · exact hp
    · refine voices_kept_trans hp (voices_kept_trans (b := { (VoiceAllocator.try_perc_note_off va m n).1 with dm_ := _ }) (voices_kept_of_channels rfl rfl) ?_)
      exact voices_kept_set_mcs _ m _ (by rfl) (note_off_voices_kept _ _ _ _ _ _)

theorem slots_kept_cons {v w : Voice} {vs ws : List Voice} (hk : SlotsKept vs ws)
    (hw : 0 ≤ w.note → 0 ≤ v.note ∧ v.timestamp = w.timestamp) :
    SlotsKept (v :: vs) (w :: ws) := by
  refine ⟨by simp [hk.1], fun x hx hxn => ?_⟩
  rcases List.mem_cons.mp hx with h | h
  · subst h
    exact ⟨v, List.mem_cons_self _ _, hw hxn⟩
  · obtain ⟨u, hu, hun, hut⟩ := hk.2 x h hxn
    exact ⟨u, List.mem_cons_of_mem _ hu, hun, hut⟩

theorem release_sustained_kept (chans : List Nat) :
    ∀ (vs : List Voice) (i : Nat) (dm : DirectMode),
      SlotsKept vs (VoiceAllocator.release_sustained chans vs i dm).2 := by
  intro vs
  induction vs with
  | nil => intro i dm; exact slots_kept_refl _
  | cons v vs ih =>
    intro i dm
    rw [VoiceAllocator.release_sustained]
    split
    · exact slots_kept_cons (ih _ _) (fun h => absurd h (by decide))
    · exact slots_kept_cons (ih _ _) (fun h => ⟨h, rfl⟩)

theorem reset_voices_kept (chans : List Nat) :
    ∀ (vs : List Voice) (i : Nat) (dm : DirectMode),
      SlotsKept vs (VoiceAllocator.reset_voices chans vs i dm).2 ∧
      ∀ w ∈ (VoiceAllocator.reset_voices chans vs i dm).2, w.note < 0 := by
  intro vs
  induction vs with
  | nil => intro i dm; exact ⟨slots_kept_refl _, fun w hw => absurd hw (List.not_mem_nil _)⟩
  | cons v vs ih =>
    intro i dm
    rw [VoiceAllocator.reset_voices]
    split
    · refine ⟨slots_kept_cons (ih _ _).1 (fun h => absurd h (by decide)), fun w hw => ?_⟩
      rcases List.mem_cons.mp hw with h | h
      · rw [h]; decide
      · exact (ih _ _).2 w h
    · rename_i hv
      refine ⟨slots_kept_cons (ih _ _).1 (fun h => ⟨h, rfl⟩), fun w hw => ?_⟩
      rcases List.mem_cons.mp hw with h | h
      · rw [h]; omega
      · exact (ih _ _).2 w h

theorem broadcast_cc_kept (fp : FloatOps) (va : VoiceAllocator) (m cc v : Nat) :
    VoicesKept va (VoiceAllocator.broadcast_cc fp va m cc v) :=
  voices_kept_of_channels rfl rfl

theorem handle_cc_kept (fp : FloatOps) (va : VoiceAllocator) (m cc v : Nat) :
    VoicesKept va (VoiceAllocator.handle_cc fp va m cc v) := by
  have hset : ∀ mcs : MidiChannelState, mcs.config = (va.midi_channels_ m).config →
      mcs.voices = (va.midi_channels_ m).voices →
      VoicesKept va (VoiceAllocator.set_mcs va m mcs) := by
    intro mcs hc hv
    exact voices_kept_set_mcs va m mcs hc (by rw [hv]; exact slots_kept_refl _)
  unfold VoiceAllocator.handle_cc
  split
  · exact voices_kept_refl va
  · dsimp only
    split
    · refine voices_kept_trans ?_ (broadcast_cc_kept fp _ m _ _)
      exact hset _ (by rfl) (by rfl)
    · refine voices_kept_trans ?_ (broadcast_cc_kept fp _ m _ _)
      exact hset _ (by rfl) (by rfl)
    · refine voices_kept_trans ?_ (broadcast_cc_kept fp _ m _ _)
      exact hset _ (by rfl) (by rfl)
    · refine voices_kept_trans ?_ (broadcast_cc_kept fp _ m _ _)
      exact hset _ (by rfl) (by rfl)
    · refine voices_kept_trans ?_ (broadcast_cc_kept fp _ m _ _)
      exact hset _ (by rfl) (by rfl)
    · refine voices_kept_trans ?_ (broadcast_cc_kept fp _ m _ _)
      split
      · refine voices_kept_trans (b := { va with dm_ := _ }) (voices_kept_of_channels rfl rfl) ?_
        exact voices_kept_set_mcs _ m _ (by rfl) (release_sustained_kept _ _ _ _)
      · exact hset _ (by rfl) (by rfl)
    · exact hset _ (by rfl) (by rfl)
    · exact hset _ (by rfl) (by rfl)
    · exact hset _ (by rfl) (by rfl)
    · exact hset _ (by rfl) (by rfl)
    · split
      · exact voices_kept_of_channels rfl rfl
      · split
        · exact hset _ (by rfl) (by rfl)
        · exact voices_kept_refl va
    · split
      · exact hset _ (by rfl) (by rfl)
      · exact voices_kept_refl va
    · exact broadcast_cc_kept fp va m _ _

theorem recompute_bend_voice_kept (fp : FloatOps) (u : Nat) (st : DirectMode × MidiChannelState)
    (i : Nat) :
    (VoiceAllocator.recompute_bend_voice fp u st i).2.config = st.2.config ∧
    SlotsKept st.2.voices (VoiceAllocator.recompute_bend_voice fp u st i).2.voices := by
  unfold VoiceAllocator.recompute_bend_voice
  dsimp only
  split
  · exact ⟨rfl, slots_kept_refl _⟩
  · rename_i hv
    refine ⟨rfl, by simp, fun w hw _ => ?_⟩
    dsimp only at hw
    rcases List.mem_or_eq_of_mem_set hw with h | h
    · exact ⟨w, h, by assumption, rfl⟩
    · have hlt : i < st.2.voices.length := by
        by_contra hge
        rw [List.getD_eq_default _ _ (by omega)] at hv
        exact hv (by decide)
      rw [List.getD_eq_getElem _ _ hlt] at hv h
      refine ⟨st.2.voices[i], List.getElem_mem hlt, by omega, ?_⟩
      rw [h]

theorem recompute_bend_kept (fp : FloatOps) (va : VoiceAllocator) (m : Nat) :
    VoicesKept va (VoiceAllocator.recompute_bend fp va m) := by
  unfold VoiceAllocator.recompute_bend
  dsimp only
  have h := foldl_keeps (fun (a b : DirectMode × MidiChannelState) =>
      b.2.config = a.2.config ∧ SlotsKept a.2.voices b.2.voices)
    (fun _ => ⟨rfl, slots_kept_refl _⟩)
    (fun _ _ _ h1 h2 => ⟨h2.1.trans h1.1, slots_kept_trans h1.2 h2.2⟩) _
    (fun st i => recompute_bend_voice_kept fp (VoiceAllocator.unison_of (va.midi_channels_ m)) st i)
    (List.range (va.midi_channels_ m).voices.length) (va.dm_, va.midi_channels_ m)
  refine voices_kept_trans (b := { va with dm_ := _ }) (voices_kept_of_channels rfl rfl) ?_
  exact voices_kept_set_mcs _ m _ h.1 h.2

theorem handle_pitch_bend_kept (fp : FloatOps) (va : VoiceAllocator) (m bend : Nat) :
    VoicesKept va (VoiceAllocator.handle_pitch_bend fp va m bend) := by
  unfold VoiceAllocator.handle_pitch_bend
  split
  · exact voices_kept_refl va
  · refine voices_kept_trans ?_ (recompute_bend_kept fp _ m)
    exact voices_kept_set_mcs va m _ (by rfl) (slots_kept_refl _)

theorem release_drums_channels (va : VoiceAllocator) :
    (VoiceAllocator.release_drums va).timestamp_counter_ = va.timestamp_counter_ ∧
    (VoiceAllocator.release_drums va).midi_channels_ = va.midi_channels_ := by
  unfold VoiceAllocator.release_drums
  exact foldl_keeps (fun (a b : VoiceAllocator) =>
      b.timestamp_counter_ = a.timestamp_counter_ ∧ b.midi_channels_ = a.midi_channels_)
    (fun _ => ⟨rfl, rfl⟩) (fun _ _ _ h1 h2 => ⟨h2.1.trans h1.1, h2.2.trans h1.2⟩) _
    (fun va d => by
      split
      · exact ⟨rfl, rfl⟩
      · exact ⟨rfl, rfl⟩) _ va

theorem set_percussion_mode_channels (va : VoiceAllocator) (e : Bool) :
    (VoiceAllocator.set_percussion_mode va e).timestamp_counter_ = va.timestamp_counter_ ∧
    (VoiceAllocator.set_percussion_mode va e).midi_channels_ = va.midi_channels_ := by
  unfold VoiceAllocator.set_percussion_mode
  split
  · exact ⟨rfl, rfl⟩
  · dsimp only
    split
    · exact release_drums_channels _
    · exact ⟨rfl, rfl⟩

theorem set_drum_midi_channel_channels (va : VoiceAllocator) (d : Nat) (c : Int) :
    (VoiceAllocator.set_drum_midi_channel va d c).timestamp_counter_ = va.timestamp_counter_ ∧
    (VoiceAllocator.set_drum_midi_channel va d c).midi_channels_ = va.midi_channels_ := by
  unfold VoiceAllocator.set_drum_midi_channel
  split
  · exact ⟨rfl, rfl⟩
  · dsimp only
    split <;> exact ⟨rfl, rfl⟩

theorem sysex_perc_config_channels (va : VoiceAllocator) (data : List Nat) (len : Nat) :
    (VoiceAllocator.sysex_perc_config va data len).timestamp_counter_ = va.timestamp_counter_ ∧
    (VoiceAllocator.sysex_perc_config va data len).midi_channels_ = va.midi_channels_ := by
  unfold VoiceAllocator.sysex_perc_config
  split
  · exact ⟨rfl, rfl⟩
  · dsimp only
    have h1 := set_percussion_mode_channels va (decide (data.getD 0 0 ≥ 64))
    have h2 := foldl_keeps (fun (a b : VoiceAllocator) =>
        b.timestamp_counter_ = a.timestamp_counter_ ∧ b.midi_channels_ = a.midi_channels_)
      (fun _ => ⟨rfl, rfl⟩) (fun _ _ _ h1 h2 => ⟨h2.1.trans h1.1, h2.2.trans h1.2⟩)
      (fun va d => VoiceAllocator.set_drum_midi_channel va d
        (if data.getD (1 + d) 0 < 16 then (data.getD (1 + d) 0 : Int) else -1))
      (fun va d => set_drum_midi_channel_channels va d _)
      (List.range DirectMode.kNumDrums)
      (VoiceAllocator.set_percussion_mode va (decide (data.getD 0 0 ≥ 64)))
    exact ⟨h2.1.trans h1.1, h2.2.trans h1.2⟩

/-- The loop of `reset` over MIDI channels `l`: the configs and slot counts stay, and the
channels of `l` have no sounding voice left. -/
theorem reset_loop_kept : ∀ (l : List Nat) (va : VoiceAllocator),
    VoicesKept va (l.foldl (fun va midi_ch =>
      VoiceAllocator.set_mcs
        { va with dm_ := (VoiceAllocator.reset_voices (va.midi_channels_ midi_ch).config.opl3_channels
            (va.midi_channels_ midi_ch).voices 0 va.dm_).1 } midi_ch
        { va.midi_channels_ midi_ch with voices := (VoiceAllocator.reset_voices
            (va.midi_channels_ midi_ch).config.opl3_channels
            (va.midi_channels_ midi_ch).voices 0 va.dm_).2 }) va) ∧
    ∀ i ∈ l, ∀ w ∈ ((l.foldl (fun va midi_ch =>
      VoiceAllocator.set_mcs
        { va with dm_ := (VoiceAllocator.reset_voices (va.midi_channels_ midi_ch).config.opl3_channels
            (va.midi_channels_ midi_ch).voices 0 va.dm_).1 } midi_ch
        { va.midi_channels_ midi_ch with voices := (VoiceAllocator.reset_voices
            (va.midi_channels_ midi_ch).config.opl3_channels
            (va.midi_channels_ midi_ch).voices 0 va.dm_).2 }) va).midi_channels_ i).voices,
      w.note < 0 := by
  intro l
  induction l with
  | nil => intro va; exact ⟨voices_kept_refl va, fun i hi => absurd hi (List.not_mem_nil _)⟩
  | cons c l ih =>
    intro va
    rw [List.foldl_cons]
    obtain ⟨hk, hfree⟩ := ih (VoiceAllocator.set_mcs
        { va with dm_ := (VoiceAllocator.reset_voices (va.midi_channels_ c).config.opl3_channels
            (va.midi_channels_ c).voices 0 va.dm_).1 } c
        { va.midi_channels_ c with voices := (VoiceAllocator.reset_voices
            (va.midi_channels_ c).config.opl3_channels
            (va.midi_channels_ c).voices 0 va.dm_).2 })
    obtain ⟨hrk, hrfree⟩ := reset_voices_kept (va.midi_channels_ c).config.opl3_channels
      (va.midi_channels_ c).voices 0 va.dm_
    have hstep : VoicesKept va (VoiceAllocator.set_mcs
        { va with dm_ := (VoiceAllocator.reset_voices (va.midi_channels_ c).config.opl3_channels
            (va.midi_channels_ c).voices 0 va.dm_).1 } c
        { va.midi_channels_ c with voices := (VoiceAllocator.reset_voices
            (va.midi_channels_ c).config.opl3_channels
            (va.midi_channels_ c).voices 0 va.dm_).2 }) :=
      voices_kept_trans (b := { va with dm_ := _ }) (voices_kept_of_channels rfl rfl)
        (voices_kept_set_mcs _ c _ (by rfl) hrk)
    refine ⟨voices_kept_trans hstep hk, fun i hi w hw => ?_⟩
    by_cases hil : i ∈ l
    · exact hfree i hil w hw
    · have hic : i = c := by
        rcases List.mem_cons.mp hi with h | h
        · exact h
        · exact absurd h hil
      subst hic
      by_contra hwn
      obtain ⟨v, hv, hvn, _⟩ := (hk.2 i).2.2 w hw (by omega)
      simp only [VoiceAllocator.set_mcs, if_true] at hv
      have := hrfree v hv
      omega

/-- The method `reset` keeps the invariant and sets the counter to 0. -/
theorem reset_voices_inv (va : VoiceAllocator) (hinv : VoicesInv va) :
    VoicesInv (VoiceAllocator.reset va) ∧ (VoiceAllocator.reset va).timestamp_counter_ = 0 := by
  unfold VoiceAllocator.reset
  refine ⟨fun i hi => ?_, rfl⟩
  obtain ⟨hk, hfree⟩ := reset_loop_kept (List.range 16) va
  obtain ⟨_, hch⟩ := release_drums_channels ((List.range 16).foldl (fun va midi_ch =>
      VoiceAllocator.set_mcs
        { va with dm_ := (VoiceAllocator.reset_voices (va.midi_channels_ midi_ch).config.opl3_channels
            (va.midi_channels_ midi_ch).voices 0 va.dm_).1 } midi_ch
        { va.midi_channels_ midi_ch with voices := (VoiceAllocator.reset_voices
            (va.midi_channels_ midi_ch).config.opl3_channels
            (va.midi_channels_ midi_ch).voices 0 va.dm_).2 }) va)
  unfold VoiceAllocator.pool
  dsimp only
  rw [hch, (hk.2 i).1, (hk.2 i).2.1]
  refine ⟨(hinv i hi).1, fun w hw hwn => ?_⟩
  have := hfree i (List.mem_range.mpr hi) w hw
  omega

theorem keeps_voices_refl (a : VoiceAllocator) :
    a.timestamp_counter_ = a.timestamp_counter_ ∧ (VoicesInv a → VoicesInv a) := ⟨rfl, id⟩

theorem keeps_voices_of_kept {a b : VoiceAllocator} (h : VoicesKept a b) :
    b.timestamp_counter_ = a.timestamp_counter_ ∧ (VoicesInv a → VoicesInv b) :=
  ⟨h.1, VoicesInv.of_kept h⟩

theorem deconflict_one_voices (m c : Nat) (va : VoiceAllocator) (other : Nat) :
    (VoiceAllocator.deconflict_one m c va other).timestamp_counter_ = va.timestamp_counter_ ∧
    (VoicesInv va → VoicesInv (VoiceAllocator.deconflict_one m c va other)) := by
  unfold VoiceAllocator.deconflict_one
  split
  · exact keeps_voices_refl va
  · dsimp only
    split
    · rename_i hidx
      refine ⟨rfl, fun hv i hi => ?_⟩
      unfold VoiceAllocator.pool VoiceAllocator.set_mcs
      dsimp only
      by_cases hio : i = other
      · rw [if_pos hio]
        dsimp only
        obtain ⟨hl, hts⟩ := hv other (hio ▸ hi)
        unfold VoiceAllocator.pool at hl
        have hidx2 : (va.midi_channels_ other).config.opl3_channels.indexOf c
            < (va.midi_channels_ other).voices.length := by rw [hl]; exact hidx
        rw [if_pos hidx2, List.length_eraseIdx_of_lt hidx2, List.length_eraseIdx_of_lt hidx, hl]
        refine ⟨rfl, fun w hw hwn => ?_⟩
        exact hts w ((List.eraseIdx_sublist _ _).subset hw) hwn
      · rw [if_neg hio]
        exact hv i hi
    · exact keeps_voices_refl va

theorem deconflict_all_voices (m : Nat) (chans : List Nat) (va : VoiceAllocator) :
    (chans.foldl (fun va opl3_ch =>
      (List.range 16).foldl (VoiceAllocator.deconflict_one m opl3_ch) va) va).timestamp_counter_
        = va.timestamp_counter_ ∧
    (VoicesInv va → VoicesInv (chans.foldl (fun va opl3_ch =>
      (List.range 16).foldl (VoiceAllocator.deconflict_one m opl3_ch) va) va)) :=
  foldl_keeps
    (fun (a b : VoiceAllocator) => b.timestamp_counter_ = a.timestamp_counter_ ∧
      (VoicesInv a → VoicesInv b))
    keeps_voices_refl
    (fun _ _ _ h1 h2 => ⟨h2.1.trans h1.1, fun h => h2.2 (h1.2 h)⟩)
    (fun va opl3_ch => (List.range 16).foldl (VoiceAllocator.deconflict_one m opl3_ch) va)
    (fun va opl3_ch => foldl_keeps
      (fun (a b : VoiceAllocator) => b.timestamp_counter_ = a.timestamp_counter_ ∧
        (VoicesInv a → VoicesInv b))
      keeps_voices_refl
      (fun _ _ _ h1 h2 => ⟨h2.1.trans h1.1, fun h => h2.2 (h1.2 h)⟩)
      (VoiceAllocator.deconflict_one m opl3_ch)
      (fun va other => deconflict_one_voices m opl3_ch va other) (List.range 16) va)
    chans va

/-- The method `set_voice_config` keeps the invariant and the counter. -/
theorem set_voice_config_voices (fp : FloatOps) (va : VoiceAllocator) (m : Nat)
    (cfg : VoiceConfig) :
    (VoiceAllocator.set_voice_config fp va m cfg).timestamp_counter_ = va.timestamp_counter_ ∧
    (VoicesInv va → VoicesInv (VoiceAllocator.set_voice_config fp va m cfg)) := by
  unfold VoiceAllocator.set_voice_config
  split
  · exact keeps_voices_refl va
  · dsimp only
    generalize VoiceAllocator.release_sounding (va.midi_channels_ m).config.opl3_channels
      (va.midi_channels_ m).voices 0 va.dm_ = dm0
    have hloop := deconflict_all_voices m cfg.opl3_channels { va with dm_ := dm0 }
    refine ⟨hloop.1, fun hv i hi => ?_⟩
    have hv2 := hloop.2 (VoicesInv.of_kept (voices_kept_of_channels rfl rfl) hv)
    unfold VoiceAllocator.pool VoiceAllocator.set_mcs
    dsimp only
    by_cases him : i = m
    · rw [if_pos him]
      dsimp only
      refine ⟨by simp, fun w hw hwn => ?_⟩
      rw [List.eq_of_mem_replicate hw] at hwn
      exact absurd hwn (by decide)
    · rw [if_neg him]
      have := hv2 i hi
      unfold VoiceAllocator.pool at this
      exact this

theorem steal_oldest_group_freed : ∀ (fuel : Nat) (dm : DirectMode) (mcs : MidiChannelState)
    (g : Int) (r : DirectMode × MidiChannelState),
    VoiceAllocator.steal_oldest_group fuel dm mcs g = some r →
      SlotsFreed mcs.voices r.2.voices := by
  intro fuel
  induction fuel with
  | zero => intro dm mcs g r h; simp [VoiceAllocator.steal_oldest_group] at h
  | succ fuel ih =>
    intro dm mcs g r h
    rw [VoiceAllocator.steal_oldest_group] at h
    dsimp only at h
    have hfreed := slots_freed_map mcs.voices
      (fun v => v.note = (VoiceAllocator.find_oldest mcs.voices).2.1 ∧
        v.timestamp = (VoiceAllocator.find_oldest mcs.voices).2.2)
    rw [(steal_group_voices _ _ _ _ _ _).1] at h
    split at h
    · simp only [Option.some.injEq] at h; rw [← h]; exact slots_freed_refl _
    · split at h
      · have := ih _ _ _ _ h
        exact slots_freed_trans hfreed this
      · simp only [Option.some.injEq] at h; rw [← h]; exact hfreed

theorem allocate_slots_freed (dm : DirectMode) (mcs : MidiChannelState) (count : Nat)
    (r : VoiceAllocator.AllocResult) (h : VoiceAllocator.allocate_slots dm mcs count = some r) :
    SlotsFreed mcs.voices r.mcs.voices := by
  unfold VoiceAllocator.allocate_slots at h
  dsimp only at h
  split at h
  · simp only [Option.some.injEq] at h; rw [← h]; exact slots_freed_refl _
  · split at h
    · simp at h
    · rename_i dm2 mcs2 hs
      simp only [Option.some.injEq] at h
      rw [← h]
      exact steal_oldest_group_freed _ _ _ _ (dm2, mcs2) hs

/-- The body of `handle_note_on` after percussion routing keeps the invariant; the counter
grows by at most 1. -/
theorem note_on_body_voices (fp : FloatOps) (va va2 : VoiceAllocator) (m n v : Nat)
    (result : VoiceAllocator.AllocResult)
    (hres : VoiceAllocator.allocate_slots
      (VoiceAllocator.release_note (va.midi_channels_ m).config.opl3_channels (toInt8 n)
        (va.midi_channels_ m).voices 0 va.dm_).1
      { va.midi_channels_ m with voices :=
          (VoiceAllocator.release_note (va.midi_channels_ m).config.opl3_channels (toInt8 n)
            (va.midi_channels_ m).voices 0 va.dm_).2 }
      (VoiceAllocator.unison_of (va.midi_channels_ m)) = some result)
    (st : DirectMode × MidiChannelState)
    (hst : st = VoiceAllocator.note_on_slots fp n v (va.timestamp_counter_ + 1)
      (VoiceAllocator.unison_of (va.midi_channels_ m)) result.slot_indices 0
      (result.dm, result.mcs))
    (hva2 : va2 = VoiceAllocator.set_mcs
      { va with dm_ := st.1, timestamp_counter_ := va.timestamp_counter_ + 1 } m st.2)
    (hinv : VoicesInv va) : VoicesInv va2 := by
  have hc := allocate_slots_config _ _ _ _ hres
  have hfr := allocate_slots_freed _ _ _ _ hres
  dsimp only at hc hfr
  rw [release_note_voices] at hfr
  have hfr1 := slots_freed_map (va.midi_channels_ m).voices (fun v => v.note = toInt8 n)
  have hfr2 := slots_freed_trans hfr1 hfr
  obtain ⟨hl, hin, hout⟩ := note_on_slots_spec fp n v (va.timestamp_counter_ + 1)
    (VoiceAllocator.unison_of (va.midi_channels_ m)) result.slot_indices 0
    (result.dm, result.mcs)
  have hcfg := note_on_slots_config fp n v (va.timestamp_counter_ + 1)
    (VoiceAllocator.unison_of (va.midi_channels_ m)) result.slot_indices 0
    (result.dm, result.mcs)
  rw [← hst] at hl hin hout hcfg
  dsimp only at hl hin hout hcfg
  intro i hi
  rw [hva2]
  unfold VoiceAllocator.pool VoiceAllocator.set_mcs
  dsimp only
  obtain ⟨hlen, hts⟩ := hinv i hi
  unfold VoiceAllocator.pool at hlen
  by_cases him : i = m
  · subst him
    rw [if_pos rfl, hcfg, hc, hl, hfr2.1]
    refine ⟨hlen, fun w hw hwn => ?_⟩
    obtain ⟨j, hj⟩ := List.mem_iff_getElem?.mp hw
    have hjlt : j < result.mcs.voices.length := by
      rw [← hl]
      by_contra hge
      rw [List.getElem?_eq_none (by omega)] at hj
      exact absurd hj (by simp)
    by_cases hjS : j ∈ result.slot_indices
    · obtain ⟨w2, hw2, _, hwt⟩ := hin j hjS hjlt
      rw [hj] at hw2
      obtain rfl : w = w2 := by simpa using hw2
      rw [hwt]
    · rw [hout j hjS] at hj
      have hmem : w ∈ result.mcs.voices := List.mem_iff_getElem?.mpr ⟨j, hj⟩
      rcases hfr2.2 w hmem with h | h
      · have := hts w h hwn
        omega
      · rw [h] at hwn; exact absurd hwn (by decide)
  · rw [if_neg him]
    refine ⟨hlen, fun w hw hwn => ?_⟩
    have := hts w hw hwn
    omega

/-- A Note On keeps the invariant as long as the counter does not wrap; the counter grows
by at most 1. -/
theorem handle_note_on_voices (fp : FloatOps) (va va2 : VoiceAllocator) (m n v : Nat)
    (h : VoiceAllocator.handle_note_on fp va m n v = some va2) (hinv : VoicesInv va)
    (hctr : va.timestamp_counter_ + 1 < 2 ^ 64) :
    VoicesInv va2 ∧ va2.timestamp_counter_ ≤ va.timestamp_counter_ + 1 := by
  unfold VoiceAllocator.handle_note_on at h
  split at h
  · simp only [Option.some.injEq] at h; rw [← h]; exact ⟨hinv, by omega⟩
  · dsimp only at h
    obtain ⟨hpc, hpch⟩ := try_perc_note_on_channels fp va m n v
    have hp := voices_kept_of_channels hpc hpch
    have hinv1 := VoicesInv.of_kept hp hinv
    generalize (VoiceAllocator.try_perc_note_on fp va m n v).1 = va1 at h hpc hpch hp hinv1
    split at h
    · simp only [Option.some.injEq] at h; rw [← h]; exact ⟨hinv1, by omega⟩
    · split at h
      · simp only [Option.some.injEq] at h; rw [← h]; exact ⟨hinv1, by omega⟩
      · split at h
        · simp at h
        · rename_i result hres
          have hc := allocate_slots_config _ _ _ _ hres
          have hfr := allocate_slots_freed _ _ _ _ hres
          dsimp only at hc hfr
          split at h
          · simp only [Option.some.injEq] at h; rw [← h]
            have hk : VoicesKept va1 (VoiceAllocator.set_mcs { va1 with dm_ := result.dm } m
                result.mcs) := by
              refine voices_kept_trans (b := { va1 with dm_ := result.dm })
                (voices_kept_of_channels rfl rfl) ?_
              refine voices_kept_set_mcs _ m _ hc ?_
              rw [release_note_voices] at hfr
              exact slots_kept_of_freed (slots_freed_trans (slots_freed_map _ _) hfr)
            exact ⟨VoicesInv.of_kept hk hinv1, by rw [hk.1]; omega⟩
          · simp only [Option.some.injEq] at h
            have hmod : (va1.timestamp_counter_ + 1) % 2 ^ 64 = va1.timestamp_counter_ + 1 :=
              Nat.mod_eq_of_lt (by omega)
            rw [hmod] at h
            refine ⟨note_on_body_voices fp va1 va2 m n v result hres _ rfl h.symm hinv1, ?_⟩
            rw [← h]
            show va1.timestamp_counter_ + 1 ≤ va.timestamp_counter_ + 1
            omega

theorem sysex_voice_config_voices (fp : FloatOps) (va : VoiceAllocator) (data : List Nat)
    (len : Nat) :
    (VoiceAllocator.sysex_voice_config fp va data len).timestamp_counter_
      = va.timestamp_counter_ ∧
    (VoicesInv va → VoicesInv (VoiceAllocator.sysex_voice_config fp va data len)) := by
  unfold VoiceAllocator.sysex_voice_config
  split
  · exact keeps_voices_refl va
  · dsimp only
    split
    · exact keeps_voices_refl va
    · split
      · exact keeps_voices_refl va
      · exact set_voice_config_voices fp va _ _

theorem allocator_handle_sysex_voices (fp : FloatOps) (va : VoiceAllocator) (data : List Nat)
    (len : Nat) :
    (VoiceAllocator.handle_sysex fp va data len).timestamp_counter_ = va.timestamp_counter_ ∧
    (VoicesInv va → VoicesInv (VoiceAllocator.handle_sysex fp va data len)) := by
  unfold VoiceAllocator.handle_sysex
  split
  · exact keeps_voices_refl va
  split
  · exact keeps_voices_refl va
  split
  · exact keeps_voices_refl va
  split
  · exact keeps_voices_refl va
  dsimp only
  split
  · exact sysex_voice_config_voices fp va _ _
  split
  · unfold VoiceAllocator.sysex_voice_query
    split
    · exact keeps_voices_refl va
    · dsimp only
      split
      · exact keeps_voices_refl va
      · exact keeps_voices_of_kept (voices_kept_of_channels rfl rfl)
  split
  · obtain ⟨h1, h2⟩ := sysex_perc_config_channels va (data.drop 4) (len - 5)
    exact keeps_voices_of_kept (voices_kept_of_channels h1 h2)
  split
  · unfold VoiceAllocator.sysex_perc_query
    split
    · exact keeps_voices_refl va
    · exact keeps_voices_of_kept (voices_kept_of_channels rfl rfl)
  · exact keeps_voices_refl va

/-- One MIDI message keeps the invariant as long as the counter does not wrap; the counter
grows by at most 1. -/
theorem process_midi_voices (fp : FloatOps) (va va2 : VoiceAllocator) (msg : List Nat)
    (h : VoiceAllocator.process_midi fp va msg = some va2) (hinv : VoicesInv va)
    (hctr : va.timestamp_counter_ + 1 < 2 ^ 64) :
    VoicesInv va2 ∧ va2.timestamp_counter_ ≤ va.timestamp_counter_ + 1 := by
  have hkeep : ∀ vb : VoiceAllocator,
      (vb.timestamp_counter_ = va.timestamp_counter_ ∧ (VoicesInv va → VoicesInv vb)) →
      VoicesInv vb ∧ vb.timestamp_counter_ ≤ va.timestamp_counter_ + 1 :=
    fun vb hk => ⟨hk.2 hinv, by rw [hk.1]; omega⟩
  unfold VoiceAllocator.process_midi at h
  dsimp only at h
  split at h
  · simp only [Option.some.injEq] at h; rw [← h]; exact hkeep va (keeps_voices_refl va)
  split at h
  · split at h
    · simp only [Option.some.injEq] at h; rw [← h]
      exact hkeep _ (allocator_handle_sysex_voices fp va msg _)
    · split at h
      · simp only [Option.some.injEq] at h; rw [← h]
        obtain ⟨hr, hr0⟩ := reset_voices_inv va hinv
        refine ⟨VoicesInv.of_kept (voices_kept_of_channels rfl rfl) hr, ?_⟩
        show (VoiceAllocator.reset va).timestamp_counter_ ≤ va.timestamp_counter_ + 1
        rw [hr0]; omega
      · simp only [Option.some.injEq] at h; rw [← h]
        exact hkeep _ (keeps_voices_of_kept (voices_kept_of_channels rfl rfl))
  · split at h
    · split at h
      · split at h
        · simp only [Option.some.injEq] at h; rw [← h]
          exact hkeep _ (keeps_voices_of_kept (handle_note_off_kept va _ _))
        · exact handle_note_on_voices fp va va2 _ _ _ h hinv hctr
      · simp only [Option.some.injEq] at h; rw [← h]; exact hkeep va (keeps_voices_refl va)
    · split at h
      · split at h
        · simp only [Option.some.injEq] at h; rw [← h]
          exact hkeep _ (keeps_voices_of_kept (handle_note_off_kept va _ _))
        · simp only [Option.some.injEq] at h; rw [← h]; exact hkeep va (keeps_voices_refl va)
      · split at h
        · split at h
          · simp only [Option.some.injEq] at h; rw [← h]
            exact hkeep _ (keeps_voices_of_kept (handle_cc_kept fp va _ _ _))
          · simp only [Option.some.injEq] at h; rw [← h]; exact hkeep va (keeps_voices_refl va)
        · split at h
          · split at h
            · simp only [Option.some.injEq] at h; rw [← h]
              exact hkeep _ (keeps_voices_of_kept (handle_pitch_bend_kept fp va _ _))
            · simp only [Option.some.injEq] at h; rw [← h]; exact hkeep va (keeps_voices_refl va)
          · simp only [Option.some.injEq] at h; rw [← h]; exact hkeep va (keeps_voices_refl va)

/-- A sequence of MIDI messages that fits the counter keeps the invariant. -/
theorem run_midi_voices (fp : FloatOps) : ∀ (msgs : List (List Nat)) (va va2 : VoiceAllocator),
    VoiceAllocator.run_midi fp va msgs = some va2 → VoicesInv va →
    va.timestamp_counter_ + msgs.length < 2 ^ 64 →
    VoicesInv va2 ∧ va2.timestamp_counter_ ≤ va.timestamp_counter_ + msgs.length := by
  intro msgs
  induction msgs with
  | nil =>
    intro va va2 h hinv _
    simp only [VoiceAllocator.run_midi, Option.some.injEq] at h
    rw [← h]; exact ⟨hinv, by simp⟩
  | cons msg rest ih =>
    intro va va2 h hinv hlen
    rw [VoiceAllocator.run_midi] at h
    rw [List.length_cons] at hlen ⊢
    split at h
    · simp at h
    · rename_i va1 h1
      obtain ⟨hinv1, hc1⟩ := process_midi_voices fp va va1 msg h1 hinv (by omega)
      obtain ⟨hinv2, hc2⟩ := ih va1 va2 h hinv1 (by omega)
      exact ⟨hinv2, by omega⟩

theorem initial_voices (dev : Nat) (b : Bool) :
    VoicesInv (VoiceAllocator.initial dev b) ∧
    (VoiceAllocator.initial dev b).timestamp_counter_ = 0 := by
  refine ⟨fun m hm => ?_, by cases b <;> rfl⟩
  have hm18 : m < 18 := by omega
  have hmod : m % 256 = m := by omega
  have hp : ((VoiceAllocator.initial dev b).midi_channels_ m).voices = [Voice.default] ∧
      (VoiceAllocator.initial dev b).pool m = [m] := by
    cases b <;>
    simp [VoiceAllocator.initial, VoiceAllocator.pool, VoiceAllocator.fresh, VoiceAllocator.create,
      VoiceAllocator.init_default_mapping, VoiceAllocator.default_mapping_channel, hm, hm18, hmod]
  rw [hp.1, hp.2]
  refine ⟨rfl, fun v hv hvn => ?_⟩
  rw [List.mem_singleton.mp hv] at hvn
  exact absurd hvn (by decide)


/-! ### The slots of a Note On -/

/-- Claim C26. A Note On (note `n` at most 127, velocity above 0) on a MIDI channel `m` that
percussion routing does not take and whose pool has at least `max(unison_count, 1)` channels
is processed to the end; after it exactly `max(unison_count, 1)` voice slots of `m` hold
note `n`, each of them carries the timestamp `timestamp_counter_ + 1`, and every other
sounding voice, on `m` and on the other MIDI channels, has a smaller timestamp. The state
before is one in which every channel has one voice slot per pool entry and no sounding
voice has a timestamp above the counter, the counter does not wrap, and the state after
is such a state again. -/
theorem note_on_allocates_unison (fp : FloatOps) (va : VoiceAllocator) (m n vel : Nat)
    (hm : m < 16) (hn : n ≤ 127) (hvel : 0 < vel) (hperc : NotPercRouted va m)
    (hinv : VoicesInv va) (hctr : va.timestamp_counter_ + 1 < 2 ^ 64)
    (hpool : max (va.midi_channels_ m).config.unison_count 1 ≤ (va.pool m).length) :
    ∃ va2, VoiceAllocator.process_midi fp va [0x90 ||| m, n, vel] = some va2 ∧
      (va2.midi_channels_ m).voices.countP (fun v => decide (v.note = (n : Int)))
        = max (va.midi_channels_ m).config.unison_count 1 ∧
      (∀ v ∈ (va2.midi_channels_ m).voices, v.note = (n : Int) →
        v.timestamp = va.timestamp_counter_ + 1) ∧
      (∀ i, i < 16 → ∀ v ∈ (va2.midi_channels_ i).voices, 0 ≤ v.note →
        (i ≠ m ∨ v.note ≠ (n : Int)) → v.timestamp < va.timestamp_counter_ + 1) ∧
      va2.timestamp_counter_ = va.timestamp_counter_ + 1 ∧ VoicesInv va2 := by
  obtain ⟨va2, S, hrun, hts, hothers, hcfg, hlen, hnd, hSlen, hin, hout⟩ :=
    handle_note_on_slots fp va m n vel hm hn hperc hinv hctr hpool
  have hm_others : ∀ v ∈ (va2.midi_channels_ m).voices,
      (v.note = (n : Int) → v.timestamp = va.timestamp_counter_ + 1) ∧
      (v.note ≠ (n : Int) → 0 ≤ v.note → v.timestamp ≤ va.timestamp_counter_) := by
    intro v hv
    obtain ⟨j, hj⟩ := List.mem_iff_getElem?.mp hv
    by_cases hjS : j ∈ S
    · obtain ⟨w, hw, hwn, hwt⟩ := hin j hjS
      rw [hj] at hw
      obtain rfl : v = w := by simpa using hw
      exact ⟨fun _ => hwt, fun h => absurd hwn h⟩
    · obtain ⟨h1, h2⟩ := hout j hjS v hj
      exact ⟨fun h => absurd h h1, fun _ => h2⟩
  refine ⟨va2, ?_, ?_, fun v hv => (hm_others v hv).1, ?_, hts, ?_⟩
  · rw [allocator_process_note_on fp va m n vel hm (by omega)]
    exact hrun
  · rw [← hSlen]
    apply countP_eq_of_indices _ _ S hnd
    intro j
    constructor
    · intro hj
      obtain ⟨w, hw, hwn, _⟩ := hin j hj
      exact ⟨w, hw, by simpa using hwn⟩
    · rintro ⟨v, hv, hp⟩
      by_contra hjS
      exact (hout j hjS v hv).1 (by simpa using hp)
  · intro i hi v hv hvn hcase
    by_cases him : i = m
    · subst him
      rcases hcase with h | h
      · exact absurd rfl h
      · have := (hm_others v hv).2 h hvn
        omega
    · rw [hothers i him] at hv
      have := (hinv i hi).2 v hv hvn
      omega
  · intro i hi
    by_cases him : i = m
    · subst him
      unfold VoiceAllocator.pool
      rw [hcfg, hlen, hts]
      refine ⟨(hinv i hi).1, fun v hv hvn => ?_⟩
      by_cases h : v.note = (n : Int)
      · rw [(hm_others v hv).1 h]
      · have := (hm_others v hv).2 h hvn
        omega
    · unfold VoiceAllocator.pool
      rw [hothers i him, hts]
      refine ⟨(hinv i hi).1, fun v hv hvn => ?_⟩
      have := (hinv i hi).2 v hv hvn
      omega

set_option maxRecDepth 100000 in
/-- Claim C26, witness. From the initial state, the voice config `F0 7D 7F 30 00 03 00 01 02 03
14 00 F7` (pool `[0, 1, 2]`, unison 3) and Note On 62 lead to a state with the invariant in
which all three slots of MIDI channel 0 sound; Note On 60 then steals them. -/
theorem note_on_allocates_unison_witness :
    (0 : Nat) < 16 ∧ (60 : Nat) ≤ 127 ∧ (0 : Nat) < 100 ∧
    ∃ va, VoiceAllocator.run_midi FloatOps.exact (VoiceAllocator.initial 0x7F true)
        [[0xF0, 0x7D, 0x7F, 0x30, 0x00, 0x03, 0x00, 0x01, 0x02, 0x03, 0x14, 0x00, 0xF7],
         [0x90, 62, 100]] = some va ∧
      NotPercRouted va 0 ∧ VoicesInv va ∧ va.timestamp_counter_ + 1 < 2 ^ 64 ∧
      max (va.midi_channels_ 0).config.unison_count 1 ≤ (va.pool 0).length ∧
      ∃ va2, VoiceAllocator.process_midi FloatOps.exact va [0x90 ||| 0, 60, 100] = some va2 ∧
        (va2.midi_channels_ 0).voices.countP (fun v => decide (v.note = ((60 : Nat) : Int)))
          = max (va.midi_channels_ 0).config.unison_count 1 ∧
        (∀ v ∈ (va2.midi_channels_ 0).voices, v.note = ((60 : Nat) : Int) →
          v.timestamp = va.timestamp_counter_ + 1) := by
  have hsome : (VoiceAllocator.run_midi FloatOps.exact (VoiceAllocator.initial 0x7F true)
      [[0xF0, 0x7D, 0x7F, 0x30, 0x00, 0x03, 0x00, 0x01, 0x02, 0x03, 0x14, 0x00, 0xF7],
       [0x90, 62, 100]]).map (fun va => (decide (NotPercRouted va 0),
        decide (max (va.midi_channels_ 0).config.unison_count 1 ≤ (va.pool 0).length)))
      = some (true, true) := by
    decide
  cases hrun : VoiceAllocator.run_midi FloatOps.exact (VoiceAllocator.initial 0x7F true)
      [[0xF0, 0x7D, 0x7F, 0x30, 0x00, 0x03, 0x00, 0x01, 0x02, 0x03, 0x14, 0x00, 0xF7],
       [0x90, 62, 100]] with
  | none => rw [hrun] at hsome; simp at hsome
  | some va =>
    rw [hrun] at hsome
    simp only [Option.map_some', Option.some.injEq, Prod.mk.injEq, decide_eq_true_eq] at hsome
    obtain ⟨hperc, hpool⟩ := hsome
    obtain ⟨hinv, hctr⟩ := run_midi_voices FloatOps.exact _ _ va hrun
      (initial_voices 0x7F true).1 (by rw [(initial_voices 0x7F true).2]; decide)
    rw [(initial_voices 0x7F true).2] at hctr
    have hctr2 : va.timestamp_counter_ + 1 < 2 ^ 64 := by
      simp only [List.length_cons, List.length_nil] at hctr
      omega
    refine ⟨by decide, by decide, by decide, va, rfl, hperc, hinv, hctr2, hpool, ?_⟩
    obtain ⟨va2, h1, h2, h3, _⟩ := note_on_allocates_unison FloatOps.exact va 0 60 100
      (by decide) (by decide) (by decide) hperc hinv hctr2 hpool
    exact ⟨va2, h1, h2, h3⟩


/-! ### The flags byte of a voice config -/

/-- The voice-config handler on a payload of exactly `count + 4` bytes, followed by the
terminator of the frame: the flags are read from the terminator. -/
theorem sysex_voice_config_no_flags (fp : FloatOps) (va : VoiceAllocator) (m u dt : Nat)
    (chans : List Nat) (hm : m < 16) (hmem : ∀ c ∈ chans, c < 18) :
    VoiceAllocator.sysex_voice_config fp va
      (([m, chans.length] ++ chans ++ [u, dt]) ++ [0xF7])
      (([m, chans.length] ++ chans ++ [u, dt]).length)
      = VoiceAllocator.set_voice_config fp va m ⟨chans, u, dt, true, true⟩ := by
  have hdata : (([m, chans.length] ++ chans ++ [u, dt]) ++ [0xF7])
      = m :: chans.length :: (chans ++ [u, dt, 0xF7]) := by simp
  have hlen : (([m, chans.length] ++ chans ++ [u, dt]).length) = chans.length + 4 := by simp
  rw [hdata, hlen]
  have hg : ∀ i, (m :: chans.length :: (chans ++ [u, dt, 0xF7])).getD (2 + i) 0
      = (chans ++ [u, dt, 0xF7]).getD i 0 := by
    intro i
    rw [Nat.add_comm 2 i]
    rfl
  have hchans : ((List.range chans.length).map (fun i =>
      (m :: chans.length :: (chans ++ [u, dt, 0xF7])).getD (2 + i) 0)).filter
        (fun ch => decide (ch < 18)) = chans := by
    have h1 : (List.range chans.length).map (fun i =>
        (m :: chans.length :: (chans ++ [u, dt, 0xF7])).getD (2 + i) 0) = chans := by
      conv_rhs => rw [← map_getD_range chans]
      apply List.map_congr_left
      intro i hi
      rw [hg i]
      exact List.getD_append _ _ _ _ (List.mem_range.mp hi)
    rw [h1]
    exact List.filter_eq_self.mpr (fun c hc => by simpa using hmem c hc)
  have hu : (m :: chans.length :: (chans ++ [u, dt, 0xF7])).getD (2 + chans.length) 0 = u := by
    rw [hg, List.getD_append_right _ _ _ _ (Nat.le_refl _)]
    simp
  have hd : (m :: chans.length :: (chans ++ [u, dt, 0xF7])).getD (3 + chans.length) 0 = dt := by
    have : 3 + chans.length = 2 + (chans.length + 1) := by omega
    rw [this, hg, List.getD_append_right _ _ _ _ (by omega)]
    simp
  have hf : (m :: chans.length :: (chans ++ [u, dt, 0xF7])).getD (4 + chans.length) 0
      = 0xF7 := by
    have : 4 + chans.length = 2 + (chans.length + 2) := by omega
    rw [this, hg, List.getD_append_right _ _ _ _ (by omega)]
    simp
  unfold VoiceAllocator.sysex_voice_config
  rw [if_neg (by omega)]
  simp only [List.getD_cons_zero, List.getD_cons_succ]
  rw [if_neg (by omega), if_neg (by omega)]
  simp only [List.getD_cons_zero, List.getD_cons_succ] at hchans hu hd hf
  rw [if_pos (by omega)]
  simp only [hchans, hu, hd, hf]
  rfl

set_option maxRecDepth 100000 in
/-- Claim C37, the code at the failing input. The voice-config message `F0 7D 7F 30 00 01 00 01 0A
F7` has the payload `00 01 00 01 0A` of `count + 4 = 5` bytes and no flags byte; the config
installed on MIDI channel 0 has `four_op` and `pan_split` set: the flags are read from
the terminator `0xF7`. -/
theorem voice_config_flags_from_terminator :
    (VoiceAllocator.run_midi FloatOps.exact (VoiceAllocator.fresh 0x7F)
      [[0xF0, 0x7D, 0x7F, 0x30, 0x00, 0x01, 0x00, 0x01, 0x0A, 0xF7]]).map
      (fun va => (va.midi_channels_ 0).config)
      = some ⟨[0], 1, 10, true, true⟩ := by
  decide


/-! ### Short patch loads -/

theorem spec_pan_bits_and (v : Nat) : spec_pan_bits v &&& 0x30 = spec_pan_bits v := by
  unfold spec_pan_bits
  split
  · rfl
  · split <;> rfl

theorem cc_pan_written (d : DirectMode) (c v : Nat) :
    PanWritten d.state_ (d.cc_pan c v).state_ c (spec_pan_bits v) := by
  have hst : (d.cc_pan c v).state_
      = d.state_.modify_bits (c0_reg c) 0x30 (spec_pan_bits v) := rfl
  rw [hst, modify_bits_eq]
  refine ⟨?_, ?_, fun b hb => read_write_of_index_ne _ _ _ _ hb⟩
  · rw [read_write_same, modify_value_and_mask _ _ _ (by norm_num), spec_pan_bits_and]
  · rw [read_write_same, modify_value_and_compl _ _ _ (by norm_num)]

/-- Claim C32. CC10 with value `v` on MIDI channel `ch < 16` in Direct Mode, and
`apply_cc_to_channel(c, 10, v)` on an OPL3 channel `c < 18` (the path of the Voice
Allocator), set bits 5:4 of register `0xC0+ch` to `0x10` when `v` is at most 42, to `0x20`
when `v` is at least 85 and to `0x30` otherwise, and leave the other six bits of that
register and every other register as they are. -/
theorem cc_pan_register (fp : FloatOps) (d : DirectMode) (ch c v : Nat) (hch : ch < 16)
    (hc : c < 18) :
    PanWritten d.state_ (d.process_midi fp [0xB0 ||| ch, 10, v]).state_ ch (spec_pan_bits v) ∧
    PanWritten d.state_ (d.apply_cc_to_channel fp c 10 v).state_ c (spec_pan_bits v) ∧
    (spec_pan_bits v = if v ≤ 42 then 0x10 else if v ≥ 85 then 0x20 else 0x30) := by
  have hn : ¬ ch ≥ 16 := by omega
  have hn2 : ¬ c ≥ 18 := by omega
  refine ⟨?_, ?_, rfl⟩
  · rw [process_cc fp d ch 10 v hch]
    unfold DirectMode.handle_cc
    rw [if_neg hn]
    exact cc_pan_written d ch v
  · unfold DirectMode.apply_cc_to_channel
    rw [if_neg hn2]
    exact cc_pan_written d c v

/-- Claim C32, witness. CC10 = 20 on channel 3 of a Direct Mode after `init` (register `0xC3`
holds `0x38`): the register then holds `0x18`. -/
theorem cc_pan_register_witness :
    (3 : Nat) < 16 ∧ (3 : Nat) < 18 ∧
    ((DirectMode.create OPL3State.fresh 0x7F).init.process_midi FloatOps.exact
      [0xB0 ||| 3, 10, 20]).state_.read 0xC3 = 0x18 ∧
    PanWritten (DirectMode.create OPL3State.fresh 0x7F).init.state_
      ((DirectMode.create OPL3State.fresh 0x7F).init.process_midi FloatOps.exact
        [0xB0 ||| 3, 10, 20]).state_ 3 (spec_pan_bits 20) :=
  ⟨by decide, by decide, by decide,
    (cc_pan_register FloatOps.exact (DirectMode.create OPL3State.fresh 0x7F).init 3 3 20
      (by decide) (by decide)).1⟩


/-! ### Voice stealing: oldest groups first, and termination -/

/-- The search for the oldest voice finds a sounding voice with the lowest timestamp, or none
when no sounding voice has a timestamp below the initial `UINT64_MAX`. -/
theorem find_oldest_min (vs : List Voice) :
    (∀ v ∈ vs, 0 ≤ v.note → (VoiceAllocator.find_oldest vs).1 ≤ v.timestamp) ∧
    (((VoiceAllocator.find_oldest vs).2.1 < 0 ∧ (VoiceAllocator.find_oldest vs).1 = 2 ^ 64 - 1) ∨
      (0 ≤ (VoiceAllocator.find_oldest vs).2.1 ∧
        (VoiceAllocator.find_oldest vs).2.2 = (VoiceAllocator.find_oldest vs).1 ∧
        ∃ v ∈ vs, v.note = (VoiceAllocator.find_oldest vs).2.1 ∧
          v.timestamp = (VoiceAllocator.find_oldest vs).2.2)) := by
  induction vs using List.reverseRecOn with
  | nil => exact ⟨fun v hv => by simp at hv, Or.inl ⟨by decide, rfl⟩⟩
  | append_singleton l x ih =>
    have hstep : VoiceAllocator.find_oldest (l ++ [x])
        = if x.note ≥ 0 ∧ x.timestamp < (VoiceAllocator.find_oldest l).1
          then (x.timestamp, x.note, x.timestamp) else VoiceAllocator.find_oldest l := by
      unfold VoiceAllocator.find_oldest
      rw [List.foldl_append]
      rfl
    rw [hstep]
    obtain ⟨hmin, hcase⟩ := ih
    by_cases hx : x.note ≥ 0 ∧ x.timestamp < (VoiceAllocator.find_oldest l).1
    · rw [if_pos hx]
      refine ⟨fun v hv hn => ?_, Or.inr ⟨hx.1, rfl, x, by simp, rfl, rfl⟩⟩
      rcases List.mem_append.mp hv with hv | hv
      · have := hmin v hv hn
        show x.timestamp ≤ v.timestamp
        omega
      · rw [List.mem_singleton] at hv
        subst hv
        exact le_refl _
    · rw [if_neg hx]
      refine ⟨fun v hv hn => ?_, ?_⟩
      · rcases List.mem_append.mp hv with hv | hv
        · exact hmin v hv hn
        · rw [List.mem_singleton] at hv
          subst hv
          by_contra hlt
          exact hx ⟨hn, by omega⟩
      · rcases hcase with h | ⟨h1, h2, v, hv, hv2⟩
        · exact Or.inl h
        · exact Or.inr ⟨h1, h2, v, List.mem_append_left _ hv, hv2⟩

theorem release_groups_nil (vs : List Voice) : release_groups [] vs = vs := by
  unfold release_groups
  simp

theorem stolen_groups_nil (vs : List Voice) : StolenGroups vs vs [] :=
  ⟨(release_groups_nil vs).symm, fun k hk => by simp at hk, List.Pairwise.nil,
    fun _ _ _ _ k hk => by simp at hk⟩

theorem sounding_add_free (vs : List Voice) :
    sounding_count vs + vs.countP (fun v => decide (v.note < 0)) = vs.length := by
  unfold sounding_count
  induction vs with
  | nil => rfl
  | cons v vs ih =>
    by_cases h : 0 ≤ v.note
    · rw [List.countP_cons_of_pos _ _ (by simpa using h),
        List.countP_cons_of_neg _ _ (by simp; omega), List.length_cons]
      omega
    · rw [List.countP_cons_of_neg _ _ (by simpa using h),
        List.countP_cons_of_pos _ _ (by simp; omega), List.length_cons]
      omega

/-- One step of stealing: when the search finds a voice, the release loop frees at least one
sounding voice, and the number of sounding voices drops by the number of freed ones. -/
theorem steal_step_frees (chans : List Nat) (vs : List Voice) (dm : DirectMode)
    (h : 0 ≤ (VoiceAllocator.find_oldest vs).2.1) :
    1 ≤ (VoiceAllocator.steal_group chans (VoiceAllocator.find_oldest vs).2.1
        (VoiceAllocator.find_oldest vs).2.2 vs 0 dm).2.2 ∧
    sounding_count (VoiceAllocator.steal_group chans (VoiceAllocator.find_oldest vs).2.1
        (VoiceAllocator.find_oldest vs).2.2 vs 0 dm).2.1
      + (VoiceAllocator.steal_group chans (VoiceAllocator.find_oldest vs).2.1
        (VoiceAllocator.find_oldest vs).2.2 vs 0 dm).2.2 = sounding_count vs := by
  obtain ⟨hv, hc⟩ := steal_group_voices chans (VoiceAllocator.find_oldest vs).2.1
    (VoiceAllocator.find_oldest vs).2.2 vs 0 dm
  rw [hv, hc]
  constructor
  · rcases (find_oldest_min vs).2 with ⟨hneg, _⟩ | ⟨_, _, v, hvm, hn, ht⟩
    · omega
    · exact List.countP_pos_iff.mpr ⟨v, hvm, by simpa using ⟨hn, ht⟩⟩
  · have h1 := countP_free_map
      (fun v => v.note = (VoiceAllocator.find_oldest vs).2.1 ∧
        v.timestamp = (VoiceAllocator.find_oldest vs).2.2)
      (fun v hp => by rw [hp.1]; exact h) vs
    have h2 := sounding_add_free vs
    have h3 := sounding_add_free (vs.map (fun v =>
      if v.note = (VoiceAllocator.find_oldest vs).2.1 ∧
        v.timestamp = (VoiceAllocator.find_oldest vs).2.2 then Voice.default else v))
    rw [List.length_map] at h3
    omega

/-- Stealing one more group in front of the groups `G`. -/
theorem stolen_groups_cons (vs vs2 : List Voice) (G : List (Int × Nat)) (n : Int) (t : Nat)
    (hn : 0 ≤ n) (hmem : ∃ v ∈ vs, v.note = n ∧ v.timestamp = t)
    (hmin : ∀ v ∈ vs, 0 ≤ v.note → t ≤ v.timestamp)
    (h : StolenGroups (vs.map (fun v => if v.note = n ∧ v.timestamp = t then Voice.default
      else v)) vs2 G) :
    StolenGroups vs vs2 ((n, t) :: G) := by
  obtain ⟨h1, h2, h3, h4⟩ := h
  have hback : ∀ w ∈ vs.map (fun v => if v.note = n ∧ v.timestamp = t then Voice.default
      else v), 0 ≤ w.note → w ∈ vs ∧ ¬ (w.note = n ∧ w.timestamp = t) := by
    intro w hw hwn
    obtain ⟨v, hv, rfl⟩ := List.mem_map.mp hw
    by_cases hp : v.note = n ∧ v.timestamp = t
    · rw [if_pos hp] at hwn
      exact absurd hwn (by decide)
    · rw [if_neg hp]
      exact ⟨hv, hp⟩
  have hG : ∀ k ∈ G, 0 ≤ k.1 ∧ ∃ v ∈ vs, v.note = k.1 ∧ v.timestamp = k.2 := by
    intro k hk
    obtain ⟨hk0, w, hw, hwn, hwt⟩ := h2 k hk
    exact ⟨hk0, w, (hback w hw (by rw [hwn]; exact hk0)).1, hwn, hwt⟩
  refine ⟨?_, ?_, ?_, ?_⟩
  · rw [h1]
    unfold release_groups
    rw [List.map_map]
    apply List.map_congr_left
    intro v _
    show (if ((if v.note = n ∧ v.timestamp = t then Voice.default else v).note,
        (if v.note = n ∧ v.timestamp = t then Voice.default else v).timestamp) ∈ G
        then Voice.default else (if v.note = n ∧ v.timestamp = t then Voice.default else v))
      = if (v.note, v.timestamp) ∈ (n, t) :: G then Voice.default else v
    by_cases hp : v.note = n ∧ v.timestamp = t
    · have hin : (v.note, v.timestamp) ∈ (n, t) :: G := by
        rw [hp.1, hp.2]; exact List.mem_cons_self _ _
      simp only [if_pos hp, if_pos hin, ite_self]
    · rw [if_neg hp]
      have hiff : (v.note, v.timestamp) ∈ (n, t) :: G ↔ (v.note, v.timestamp) ∈ G := by
        rw [List.mem_cons]
        constructor
        · rintro (heq | hm)
          · exact absurd (by rw [Prod.mk.injEq] at heq; exact heq) hp
          · exact hm
        · exact Or.inr
      by_cases hm : (v.note, v.timestamp) ∈ G
      · rw [if_pos hm, if_pos (hiff.mpr hm)]
      · rw [if_neg hm, if_neg (fun hc => hm (hiff.mp hc))]
  · intro k hk
    rcases List.mem_cons.mp hk with rfl | hk
    · exact ⟨hn, hmem⟩
    · exact hG k hk
  · rw [List.pairwise_cons]
    refine ⟨fun k hk => ?_, h3⟩
    obtain ⟨hk0, v, hv, hvn, hvt⟩ := hG k hk
    have := hmin v hv (by rw [hvn]; exact hk0)
    show t ≤ k.2
    omega
  · intro v hv hvn hnot k hk
    rcases List.mem_cons.mp hk with rfl | hk
    · exact hmin v hv hvn
    · have hp : ¬ (v.note = n ∧ v.timestamp = t) := by
        intro hp
        exact hnot (by rw [hp.1, hp.2]; exact List.mem_cons_self _ _)
      have hv1 : v ∈ vs.map (fun v => if v.note = n ∧ v.timestamp = t then Voice.default
          else v) := List.mem_map.mpr ⟨v, hv, by rw [if_neg hp]⟩
      exact h4 v hv1 hvn (fun hc => hnot (List.mem_cons_of_mem _ hc)) k hk

/-- The stealing recursion returns whenever the fuel exceeds the number of sounding voices, and
what it steals are whole note groups, oldest first. -/
theorem steal_oldest_group_groups : ∀ (fuel : Nat) (dm : DirectMode) (mcs : MidiChannelState)
    (g : Int), sounding_count mcs.voices < fuel →
    ∃ (r : DirectMode × MidiChannelState) (G : List (Int × Nat)),
      VoiceAllocator.steal_oldest_group fuel dm mcs g = some r ∧
      r.2.config = mcs.config ∧ StolenGroups mcs.voices r.2.voices G := by
  intro fuel
  induction fuel with
  | zero => intro dm mcs g hf; omega
  | succ fuel ih =>
    intro dm mcs g hf
    rw [VoiceAllocator.steal_oldest_group]
    dsimp only
    by_cases hneg : (VoiceAllocator.find_oldest mcs.voices).2.1 < 0
    · rw [if_pos hneg]
      exact ⟨(dm, mcs), [], rfl, rfl, stolen_groups_nil _⟩
    · rw [if_neg hneg]
      have hpos : 0 ≤ (VoiceAllocator.find_oldest mcs.voices).2.1 := by omega
      obtain ⟨hone, hcount⟩ := steal_step_frees mcs.config.opl3_channels mcs.voices dm hpos
      obtain ⟨hvs, _⟩ := steal_group_voices mcs.config.opl3_channels
        (VoiceAllocator.find_oldest mcs.voices).2.1 (VoiceAllocator.find_oldest mcs.voices).2.2
        mcs.voices 0 dm
      obtain ⟨hmin, hcase⟩ := find_oldest_min mcs.voices
      rcases hcase with ⟨h, _⟩ | ⟨_, h2, hmem⟩
      · omega
      · rw [← h2] at hmin
        generalize VoiceAllocator.steal_group mcs.config.opl3_channels
          (VoiceAllocator.find_oldest mcs.voices).2.1 (VoiceAllocator.find_oldest mcs.voices).2.2
          mcs.voices 0 dm = sg at hone hcount hvs ⊢
        by_cases hlt : (sg.2.2 : Int) < g
        · rw [if_pos hlt]
          obtain ⟨r, G, hr, hcfg, hG⟩ := ih sg.1 { mcs with voices := sg.2.1 }
            (g - sg.2.2) (by show sounding_count sg.2.1 < fuel; omega)
          refine ⟨r, ((VoiceAllocator.find_oldest mcs.voices).2.1,
            (VoiceAllocator.find_oldest mcs.voices).2.2) :: G, hr, hcfg, ?_⟩
          have hG2 : StolenGroups sg.2.1 r.2.voices G := hG
          rw [hvs] at hG2
          exact stolen_groups_cons mcs.voices r.2.voices G _ _ hpos hmem hmin hG2
        · rw [if_neg hlt]
          refine ⟨_, [((VoiceAllocator.find_oldest mcs.voices).2.1,
            (VoiceAllocator.find_oldest mcs.voices).2.2)], rfl, rfl, ?_⟩
          have hG2 := stolen_groups_cons mcs.voices _ [] _ _ hpos hmem hmin
            (stolen_groups_nil _)
          show StolenGroups mcs.voices sg.2.1 _
          rw [hvs]
          exact hG2

/-- More fuel does not change a result of the stealing recursion. -/
theorem steal_oldest_group_fuel : ∀ (fuel : Nat) (dm : DirectMode) (mcs : MidiChannelState)
    (g : Int) (r : DirectMode × MidiChannelState),
    VoiceAllocator.steal_oldest_group fuel dm mcs g = some r →
    ∀ fuel2, fuel ≤ fuel2 → VoiceAllocator.steal_oldest_group fuel2 dm mcs g = some r := by
  intro fuel
  induction fuel with
  | zero => intro dm mcs g r h; simp [VoiceAllocator.steal_oldest_group] at h
  | succ fuel ih =>
    intro dm mcs g r h fuel2 hle
    obtain ⟨f2, rfl⟩ : ∃ f2, fuel2 = f2 + 1 := ⟨fuel2 - 1, by omega⟩
    rw [VoiceAllocator.steal_oldest_group] at h ⊢
    dsimp only at h ⊢
    split
    · rename_i hneg
      rw [if_pos hneg] at h
      exact h
    · rename_i hneg
      rw [if_neg hneg] at h
      split
      · rename_i hlt
        rw [if_pos hlt] at h
        exact ih _ _ _ _ h f2 (by omega)
      · rename_i hlt
        rw [if_neg hlt] at h
        exact h

theorem sounding_le_length (vs : List Voice) : sounding_count vs ≤ vs.length := by
  have := sounding_add_free vs
  omega

/-- Claim C34. The stealing recursion of a Note On that finds too few free slots (run with
the fuel that `allocate_slots` gives it) and `allocate_slots` itself return, and the voices
they release form whole note groups taken oldest first: there is a list `G` of
`(note, timestamp)` groups of sounding voices such that the voice slots afterwards are the
old ones with every voice of a group of `G` released, the timestamps along `G` do not
decrease, and no sounding voice that survives has a lower timestamp than a group of `G`.
When enough slots are free nothing is stolen. One step of the recursion releases every voice
that shares the note and the timestamp of the voice found. -/
theorem steal_takes_oldest_groups (dm : DirectMode) (mcs : MidiChannelState) (g : Int)
    (count : Nat) :
    (∃ (r : DirectMode × MidiChannelState) (G : List (Int × Nat)),
      VoiceAllocator.steal_oldest_group (mcs.voices.length + 1) dm mcs g = some r ∧
      StolenGroups mcs.voices r.2.voices G) ∧
    (∃ (res : VoiceAllocator.AllocResult) (G : List (Int × Nat)),
      VoiceAllocator.allocate_slots dm mcs count = some res ∧
      StolenGroups mcs.voices res.mcs.voices G ∧
      (count ≤ (VoiceAllocator.free_slots count mcs.voices 0 []).length → G = [])) ∧
    (VoiceAllocator.steal_group mcs.config.opl3_channels
        (VoiceAllocator.find_oldest mcs.voices).2.1 (VoiceAllocator.find_oldest mcs.voices).2.2
        mcs.voices 0 dm).2.1
      = release_groups [((VoiceAllocator.find_oldest mcs.voices).2.1,
          (VoiceAllocator.find_oldest mcs.voices).2.2)] mcs.voices := by
  have hf : sounding_count mcs.voices < mcs.voices.length + 1 := by
    have := sounding_le_length mcs.voices
    omega
  refine ⟨?_, ?_, ?_⟩
  rotate_left 2
  · rw [(steal_group_voices _ _ _ _ _ _).1]
    unfold release_groups
    apply List.map_congr_left
    intro v _
    simp only [List.mem_singleton, Prod.mk.injEq]
  · obtain ⟨r, G, hr, _, hG⟩ := steal_oldest_group_groups _ dm mcs g hf
    exact ⟨r, G, hr, hG⟩
  · unfold VoiceAllocator.allocate_slots
    dsimp only
    by_cases hc : (VoiceAllocator.free_slots count mcs.voices 0 []).length ≥ count
    · rw [if_pos hc]
      exact ⟨_, [], rfl, stolen_groups_nil _, fun _ => rfl⟩
    · rw [if_neg hc]
      obtain ⟨r, G, hr, _, hG⟩ := steal_oldest_group_groups _ dm mcs (count : Int) hf
      rw [hr]
      exact ⟨_, G, rfl, hG, fun h => absurd h hc⟩

/-- Claim C40. The method `steal_oldest_group` terminates for every pool and every requested
group size: with fuel above the number of sounding voices (one unit per call) it returns, and
with the same result as with exactly one unit more than the sounding voices; it recurses only
after the search has found a voice, and then the release loop has freed at least one sounding
voice, the number of sounding voices dropping by the number freed. -/
theorem steal_oldest_group_terminates (fuel : Nat) (dm : DirectMode) (mcs : MidiChannelState)
    (g : Int) (hf : sounding_count mcs.voices < fuel) :
    (∃ r, VoiceAllocator.steal_oldest_group fuel dm mcs g = some r ∧
      VoiceAllocator.steal_oldest_group (sounding_count mcs.voices + 1) dm mcs g = some r) ∧
    ((VoiceAllocator.find_oldest mcs.voices).2.1 < 0 →
      VoiceAllocator.steal_oldest_group fuel dm mcs g = some (dm, mcs)) ∧
    (0 ≤ (VoiceAllocator.find_oldest mcs.voices).2.1 →
      1 ≤ (VoiceAllocator.steal_group mcs.config.opl3_channels
        (VoiceAllocator.find_oldest mcs.voices).2.1 (VoiceAllocator.find_oldest mcs.voices).2.2
        mcs.voices 0 dm).2.2 ∧
      sounding_count (VoiceAllocator.steal_group mcs.config.opl3_channels
        (VoiceAllocator.find_oldest mcs.voices).2.1 (VoiceAllocator.find_oldest mcs.voices).2.2
        mcs.voices 0 dm).2.1
        + (VoiceAllocator.steal_group mcs.config.opl3_channels
        (VoiceAllocator.find_oldest mcs.voices).2.1 (VoiceAllocator.find_oldest mcs.voices).2.2
        mcs.voices 0 dm).2.2 = sounding_count mcs.voices) := by
  refine ⟨?_, fun hneg => ?_, fun hpos => steal_step_frees _ _ _ hpos⟩
  · obtain ⟨r, _, hr, _⟩ := steal_oldest_group_groups (sounding_count mcs.voices + 1) dm mcs g
      (Nat.lt_succ_self _)
    exact ⟨r, steal_oldest_group_fuel _ dm mcs g r hr fuel (by omega), hr⟩
  · obtain ⟨f, rfl⟩ : ∃ f, fuel = f + 1 := ⟨fuel - 1, by omega⟩
    rw [VoiceAllocator.steal_oldest_group]
    dsimp only
    rw [if_pos hneg]

set_option maxRecDepth 100000 in
/-- Claim C40, witness. A pool of three slots holding the group of note 60 (two voices,
timestamp 1) and note 64 (timestamp 2), asked for three slots: four units of fuel are enough,
and all three voices are released. -/
theorem steal_oldest_group_terminates_witness :
    sounding_count three_voice_channel.voices < 4 ∧
    (VoiceAllocator.steal_oldest_group 4 (DirectMode.create OPL3State.fresh 0x7F)
      three_voice_channel 3).map (fun r => r.2.voices)
      = some [Voice.default, Voice.default, Voice.default] ∧
    (∃ r, VoiceAllocator.steal_oldest_group 4 (DirectMode.create OPL3State.fresh 0x7F)
        three_voice_channel 3 = some r ∧
      VoiceAllocator.steal_oldest_group (sounding_count three_voice_channel.voices + 1)
        (DirectMode.create OPL3State.fresh 0x7F) three_voice_channel 3 = some r) :=
  ⟨by decide, by decide,
    (steal_oldest_group_terminates 4 (DirectMode.create OPL3State.fresh 0x7F)
      three_voice_channel 3 (by decide)).1⟩

set_option maxRecDepth 100000 in
/-- An example of stealing: a pool of three slots holding the group of note 60 (two voices,
timestamp 1) and note 64 (timestamp 2), asked for one slot: the whole group of note 60 is
released, note 64 survives, and the first freed slot is allocated. -/
theorem allocate_slots_steals_group :
    (VoiceAllocator.allocate_slots (DirectMode.create OPL3State.fresh 0x7F)
      three_voice_channel 1).map (fun r => (r.slot_indices, r.mcs.voices))
      = some ([0], [Voice.default, Voice.default, ⟨64, 90, 2, 0, 0, false⟩]) := by
  decide


/-! ### One voice slot per pool entry -/

theorem slots_match_of_lengths {a b : VoiceAllocator}
    (h : ∀ i, (b.midi_channels_ i).config = (a.midi_channels_ i).config ∧
      (b.midi_channels_ i).voices.length = (a.midi_channels_ i).voices.length)
    (hm : SlotsMatch a) : SlotsMatch b := by
  intro i hi
  unfold VoiceAllocator.pool
  rw [(h i).1, (h i).2]
  exact hm i hi

theorem slots_match_of_kept {a b : VoiceAllocator} (h : VoicesKept a b) (hm : SlotsMatch a) :
    SlotsMatch b :=
  slots_match_of_lengths (fun i => ⟨(h.2 i).1, (h.2 i).2.1⟩) hm

theorem slots_match_of_channels {a b : VoiceAllocator}
    (h : b.midi_channels_ = a.midi_channels_) (hm : SlotsMatch a) : SlotsMatch b :=
  slots_match_of_lengths (fun i => by rw [h]; exact ⟨rfl, rfl⟩) hm

theorem deconflict_one_match (m c : Nat) (va : VoiceAllocator) (other : Nat)
    (hm : SlotsMatch va) : SlotsMatch (VoiceAllocator.deconflict_one m c va other) := by
  unfold VoiceAllocator.deconflict_one
  split
  · exact hm
  · dsimp only
    split
    · rename_i hidx
      intro i hi
      unfold VoiceAllocator.pool VoiceAllocator.set_mcs
      dsimp only
      by_cases hio : i = other
      · rw [if_pos hio]
        dsimp only
        have hl := hm other (hio ▸ hi)
        unfold VoiceAllocator.pool at hl
        have hidx2 : (va.midi_channels_ other).config.opl3_channels.indexOf c
            < (va.midi_channels_ other).voices.length := by rw [hl]; exact hidx
        rw [if_pos hidx2, List.length_eraseIdx_of_lt hidx2, List.length_eraseIdx_of_lt hidx, hl]
      · rw [if_neg hio]
        exact hm i hi
    · exact hm

theorem deconflict_all_match (m : Nat) (chans : List Nat) (va : VoiceAllocator) :
    SlotsMatch va → SlotsMatch (chans.foldl (fun va opl3_ch =>
      (List.range 16).foldl (VoiceAllocator.deconflict_one m opl3_ch) va) va) :=
  foldl_keeps
    (fun (a b : VoiceAllocator) => SlotsMatch a → SlotsMatch b)
    (fun _ => id)
    (fun _ _ _ h1 h2 => fun h => h2 (h1 h))
    (fun va opl3_ch => (List.range 16).foldl (VoiceAllocator.deconflict_one m opl3_ch) va)
    (fun va opl3_ch => foldl_keeps
      (fun (a b : VoiceAllocator) => SlotsMatch a → SlotsMatch b)
      (fun _ => id)
      (fun _ _ _ h1 h2 => fun h => h2 (h1 h))
      (VoiceAllocator.deconflict_one m opl3_ch)
      (fun va other => deconflict_one_match m opl3_ch va other) (List.range 16) va)
    chans va

/-- The method `set_voice_config` keeps one voice slot per pool entry, for every config. -/
theorem set_voice_config_match (fp : FloatOps) (va : VoiceAllocator) (m : Nat)
    (cfg : VoiceConfig) (hm : SlotsMatch va) :
    SlotsMatch (VoiceAllocator.set_voice_config fp va m cfg) := by
  unfold VoiceAllocator.set_voice_config
  split
  · exact hm
  · dsimp only
    generalize VoiceAllocator.release_sounding (va.midi_channels_ m).config.opl3_channels
      (va.midi_channels_ m).voices 0 va.dm_ = dm0
    have hv2 := deconflict_all_match m cfg.opl3_channels { va with dm_ := dm0 }
      (slots_match_of_channels (a := va) rfl hm)
    intro i hi
    unfold VoiceAllocator.pool VoiceAllocator.set_mcs
    dsimp only
    by_cases him : i = m
    · rw [if_pos him]
      dsimp only
      simp
    · rw [if_neg him]
      have := hv2 i hi
      unfold VoiceAllocator.pool at this
      exact this

/-- The slot allocation of a Note On always returns. -/
theorem allocate_slots_total (dm : DirectMode) (mcs : MidiChannelState) (count : Nat) :
    ∃ res, VoiceAllocator.allocate_slots dm mcs count = some res := by
  unfold VoiceAllocator.allocate_slots
  dsimp only
  split
  · exact ⟨_, rfl⟩
  · have hf : sounding_count mcs.voices < mcs.voices.length + 1 := by
      have := sounding_add_free mcs.voices
      omega
    obtain ⟨r, _, hr, _⟩ := steal_oldest_group_groups _ dm mcs (count : Int) hf
    rw [hr]
    exact ⟨_, rfl⟩

/-- A Note On always returns and keeps one voice slot per pool entry. -/
theorem handle_note_on_match (fp : FloatOps) (va : VoiceAllocator) (m n v : Nat)
    (hm : SlotsMatch va) :
    ∃ va2, VoiceAllocator.handle_note_on fp va m n v = some va2 ∧ SlotsMatch va2 := by
  unfold VoiceAllocator.handle_note_on
  split
  · exact ⟨va, rfl, hm⟩
  · dsimp only
    obtain ⟨_, hpch⟩ := try_perc_note_on_channels fp va m n v
    have hm1 := slots_match_of_channels hpch hm
    generalize (VoiceAllocator.try_perc_note_on fp va m n v).1 = va1 at hpch hm1
    split
    · exact ⟨_, rfl, hm1⟩
    · split
      · exact ⟨_, rfl, hm1⟩
      · obtain ⟨result, hres⟩ := allocate_slots_total
          (VoiceAllocator.release_note (va1.midi_channels_ m).config.opl3_channels (toInt8 n)
            (va1.midi_channels_ m).voices 0 va1.dm_).1
          { va1.midi_channels_ m with voices :=
            (VoiceAllocator.release_note (va1.midi_channels_ m).config.opl3_channels (toInt8 n)
              (va1.midi_channels_ m).voices 0 va1.dm_).2 }
          (VoiceAllocator.unison_of (va1.midi_channels_ m))
        have hc := allocate_slots_config _ _ _ _ hres
        have hfr := allocate_slots_freed _ _ _ _ hres
        dsimp only at hc hfr
        rw [release_note_voices] at hfr
        have hlen : result.mcs.voices.length = (va1.midi_channels_ m).voices.length := by
          rw [hfr.1, List.length_map]
        rw [hres]
        dsimp only
        have hset : ∀ (dm : DirectMode) (ts : Nat) (mcs : MidiChannelState),
            mcs.config = (va1.midi_channels_ m).config →
            mcs.voices.length = (va1.midi_channels_ m).voices.length →
            SlotsMatch (VoiceAllocator.set_mcs
              { va1 with dm_ := dm, timestamp_counter_ := ts } m mcs) := by
          intro dm ts mcs h1 h2
          refine slots_match_of_lengths (a := va1) (fun i => ?_) hm1
          unfold VoiceAllocator.set_mcs
          dsimp only
          by_cases him : i = m
          · rw [if_pos him, him]; exact ⟨h1, h2⟩
          · rw [if_neg him]; exact ⟨rfl, rfl⟩
        split
        · exact ⟨_, rfl, hset result.dm va1.timestamp_counter_ result.mcs hc hlen⟩
        · refine ⟨_, rfl, hset _ _ _ ?_ ?_⟩
          · rw [note_on_slots_config]; exact hc
          · rw [(note_on_slots_spec fp n v _ _ _ 0 (result.dm, result.mcs)).1]; exact hlen

theorem reset_match (va : VoiceAllocator) (hm : SlotsMatch va) :
    SlotsMatch (VoiceAllocator.reset va) := by
  unfold VoiceAllocator.reset
  dsimp only
  obtain ⟨hk, _⟩ := reset_loop_kept (List.range 16) va
  have h1 := slots_match_of_kept hk hm
  obtain ⟨_, hch⟩ := release_drums_channels ((List.range 16).foldl (fun va midi_ch =>
      VoiceAllocator.set_mcs
        { va with dm_ := (VoiceAllocator.reset_voices (va.midi_channels_ midi_ch).config.opl3_channels
            (va.midi_channels_ midi_ch).voices 0 va.dm_).1 } midi_ch
        { va.midi_channels_ midi_ch with voices := (VoiceAllocator.reset_voices
            (va.midi_channels_ midi_ch).config.opl3_channels
            (va.midi_channels_ midi_ch).voices 0 va.dm_).2 }) va)
  exact slots_match_of_channels hch h1

theorem allocator_handle_sysex_match (fp : FloatOps) (va : VoiceAllocator) (data : List Nat)
    (len : Nat) (hm : SlotsMatch va) :
    SlotsMatch (VoiceAllocator.handle_sysex fp va data len) := by
  unfold VoiceAllocator.handle_sysex
  split
  · exact hm
  split
  · exact hm
  split
  · exact hm
  split
  · exact hm
  dsimp only
  split
  · unfold VoiceAllocator.sysex_voice_config
    split
    · exact hm
    · dsimp only
      split
      · exact hm
      · split
        · exact hm
        · exact set_voice_config_match fp va _ _ hm
  split
  · unfold VoiceAllocator.sysex_voice_query
    split
    · exact hm
    · dsimp only
      split
      · exact hm
      · exact slots_match_of_channels (a := va) rfl hm
  split
  · exact slots_match_of_channels (sysex_perc_config_channels va (data.drop 4) (len - 5)).2 hm
  split
  · unfold VoiceAllocator.sysex_perc_query
    split
    · exact hm
    · exact slots_match_of_channels (a := va) rfl hm
  · exact hm

/-- One MIDI message: `process_midi` always returns and keeps one voice slot per pool
entry. -/
theorem process_midi_match (fp : FloatOps) (va : VoiceAllocator) (msg : List Nat)
    (hm : SlotsMatch va) :
    ∃ va2, VoiceAllocator.process_midi fp va msg = some va2 ∧ SlotsMatch va2 := by
  unfold VoiceAllocator.process_midi
  dsimp only
  split
  · exact ⟨_, rfl, hm⟩
  split
  · split
    · exact ⟨_, rfl, allocator_handle_sysex_match fp va msg _ hm⟩
    · split
      · exact ⟨_, rfl, slots_match_of_channels (a := VoiceAllocator.reset va) rfl
          (reset_match va hm)⟩
      · exact ⟨_, rfl, slots_match_of_channels (a := va) rfl hm⟩
  · split
    · split
      · split
        · exact ⟨_, rfl, slots_match_of_kept (handle_note_off_kept va _ _) hm⟩
        · exact handle_note_on_match fp va _ _ _ hm
      · exact ⟨_, rfl, hm⟩
    · split
      · split
        · exact ⟨_, rfl, slots_match_of_kept (handle_note_off_kept va _ _) hm⟩
        · exact ⟨_, rfl, hm⟩
      · split
        · split
          · exact ⟨_, rfl, slots_match_of_kept (handle_cc_kept fp va _ _ _) hm⟩
          · exact ⟨_, rfl, hm⟩
        · split
          · split
            · exact ⟨_, rfl, slots_match_of_kept (handle_pitch_bend_kept fp va _ _) hm⟩
            · exact ⟨_, rfl, hm⟩
          · exact ⟨_, rfl, hm⟩

theorem run_calls_match (fp : FloatOps) : ∀ (calls : List AllocatorCall) (va : VoiceAllocator),
    SlotsMatch va →
    ∃ va2, VoiceAllocator.run_calls fp va calls = some va2 ∧ SlotsMatch va2 := by
  intro calls
  induction calls with
  | nil => intro va hm; exact ⟨va, rfl, hm⟩
  | cons c cs ih =>
    intro va hm
    rw [VoiceAllocator.run_calls]
    have h1 : ∃ va1, VoiceAllocator.run_call fp va c = some va1 ∧ SlotsMatch va1 := by
      cases c with
      | midi msg => exact process_midi_match fp va msg hm
      | config m cfg => exact ⟨_, rfl, set_voice_config_match fp va m cfg hm⟩
    obtain ⟨va1, hr, hm1⟩ := h1
    rw [hr]
    exact ih va1 hm1

theorem create_match (dm : DirectMode) (dev : Nat) :
    SlotsMatch (VoiceAllocator.create dm dev) := by
  intro i hi
  simp [VoiceAllocator.pool, VoiceAllocator.create, VoiceAllocator.init_default_mapping,
    VoiceAllocator.default_mapping_channel, hi]

/-- Claim C39. From a constructed allocator (over any Direct Mode state), every sequence of
`set_voice_config` calls (with any channel and any config) and MIDI messages runs to a state,
and in that state each of the 16 MIDI channels has exactly as many voice slots as pool
entries, so that every index of a voice slot is an index into the pool. -/
theorem voice_slots_match_pool (fp : FloatOps) (dm : DirectMode) (dev : Nat)
    (calls : List AllocatorCall) :
    ∃ va, VoiceAllocator.run_calls fp (VoiceAllocator.create dm dev) calls = some va ∧
      SlotsMatch va ∧
      ∀ i, i < 16 → ∀ idx, idx < (va.midi_channels_ i).voices.length →
        idx < (va.midi_channels_ i).config.opl3_channels.length := by
  obtain ⟨va, hr, hm⟩ := run_calls_match fp calls _ (create_match dm dev)
  refine ⟨va, hr, hm, fun i hi idx hidx => ?_⟩
  have := hm i hi
  unfold VoiceAllocator.pool at this
  omega


/-! ### Registers that note handling leaves alone -/

set_option maxRecDepth 100000 in
theorem note_register_a0 : ∀ m, m < 18 →
    NoteRegister ((kChannelToOPL3 m).port_base ||| (kRegFNumLow + (kChannelToOPL3 m).opl_ch)) := by
  unfold NoteRegister
  decide

set_option maxRecDepth 100000 in
theorem note_register_b0 : ∀ m, m < 18 →
    NoteRegister
      ((kChannelToOPL3 m).port_base ||| (kRegKeyOnBlkFNum + (kChannelToOPL3 m).opl_ch)) := by
  unfold NoteRegister
  decide

set_option maxRecDepth 100000 in
theorem note_register_carrier : ∀ m, m < 18 →
    NoteRegister ((kChannelToOPL3 m).port_base |||
      (kRegKSLTL + kOperatorOffset (kChannelToOPL3 m).opl_ch 1)) := by
  unfold NoteRegister
  decide

set_option maxRecDepth 100000 in
theorem note_register_drum : ∀ k, k < 5 →
    NoteRegister (kRegFNumLow + DirectMode.kDrumFreqChannel k) ∧
    NoteRegister (kRegKeyOnBlkFNum + DirectMode.kDrumFreqChannel k) ∧
    NoteRegister (kRegKSLTL + DirectMode.kDrumOperator k) ∧
    DirectMode.kDrumBDMask k &&& 0x20 = 0 := by
  unfold NoteRegister
  decide

theorem note_view_modify {α : Type} {V : OPL3State → α} (hV : NoteView V) (s : OPL3State)
    (a m v : Nat) (ha : NoteRegister a) : V (s.modify_bits a m v) = V s := by
  rw [modify_bits_eq]
  exact hV.1 s a _ ha

theorem note_view_pan : NoteView pan_view := by
  constructor
  · intro s a v ha
    funext c
    unfold pan_view
    split
    · rename_i hc
      exact read_write_of_index_ne s a (c0_reg c) v (fun h => ha.1 c hc h.symm)
    · rfl
  · intro s m v _
    funext c
    unfold pan_view
    split
    · rename_i hc
      rw [modify_bits_eq]
      refine read_write_of_index_ne s kRegBD (c0_reg c) _ ?_
      revert c
      decide
    · rfl

theorem note_view_perc : NoteView perc_bit := by
  constructor
  · intro s a v ha
    unfold perc_bit
    rw [read_write_of_index_ne s a kRegBD v (fun h => ha.2 h.symm)]
  · intro s m v hm
    unfold perc_bit
    rw [modify_bits_eq, read_write_same]
    have hbit : OPL3State.modify_value (s.read kRegBD) m v &&& 0x20 = s.read kRegBD &&& 0x20 := by
      apply Nat.eq_of_testBit_eq
      intro i
      have hm5 : m.testBit 5 = false := by
        have h32 : Nat.testBit 32 5 = true := by decide
        have h := congrArg (fun x => x.testBit 5) hm
        dsimp only at h
        rw [Nat.testBit_and, h32, Bool.and_true] at h
        rw [h]
        decide
      rw [Nat.testBit_and, Nat.testBit_and, modify_value_testBit]
      by_cases hi : i = 5
      · subst hi
        simp [hm5]
      · have h20 : (0x20 : Nat).testBit i = false := by
          have : (0x20 : Nat) = 2 ^ 5 := by norm_num
          rw [this, Nat.testBit_two_pow]
          simpa using fun h => hi h.symm
        simp [h20]
    rw [hbit]

theorem write_freq_view {α : Type} {V : OPL3State → α} (hV : NoteView V) (d : DirectMode)
    (m f b : Nat) (k : Bool) (hm : m < 18) : V (d.write_freq m f b k).state_ = V d.state_ := by
  unfold DirectMode.write_freq
  dsimp only
  rw [hV.1 _ _ _ (note_register_b0 m hm), hV.1 _ _ _ (note_register_a0 m hm)]

theorem set_channel_state (d : DirectMode) (c : Nat) (cs : ChannelState) :
    (d.set_channel c cs).state_ = d.state_ := rfl

theorem play_note_on_channel_view {α : Type} {V : OPL3State → α} (hV : NoteView V)
    (fp : FloatOps) (d : DirectMode) (c n v : Nat) :
    V (d.play_note_on_channel fp c n v).state_ = V d.state_ := by
  unfold DirectMode.play_note_on_channel
  split
  · rfl
  · rename_i hc
    have hc18 : c < 18 := by omega
    dsimp only
    rw [write_freq_view hV _ c _ _ true hc18]
    dsimp only
    rw [note_view_modify hV _ _ _ _ (note_register_carrier c hc18), set_channel_state]
    split
    · exact write_freq_view hV d c 0 0 false hc18
    · rfl

theorem release_note_on_channel_view {α : Type} {V : OPL3State → α} (hV : NoteView V)
    (d : DirectMode) (c : Nat) : V (d.release_note_on_channel c).state_ = V d.state_ := by
  unfold DirectMode.release_note_on_channel
  split
  · rfl
  · rename_i hc
    dsimp only
    split
    · rfl
    · rw [set_channel_state]
      exact note_view_modify hV _ _ _ _ (note_register_b0 c (by omega))

theorem bend_channel_view {α : Type} {V : OPL3State → α} (hV : NoteView V)
    (d : DirectMode) (c f b : Nat) : V (d.bend_channel c f b).state_ = V d.state_ := by
  unfold DirectMode.bend_channel
  split
  · rfl
  · rename_i hc
    exact write_freq_view hV d c f b _ (by omega)

theorem perc_note_on_view {α : Type} {V : OPL3State → α} (hV : NoteView V)
    (fp : FloatOps) (d : DirectMode) (k n v : Nat) :
    V (d.perc_note_on fp k n v).state_ = V d.state_ := by
  unfold DirectMode.perc_note_on
  split
  · rfl
  · rename_i hk
    have hk5 : k < 5 := by unfold DirectMode.kNumDrums at hk; omega
    obtain ⟨h1, h2, h3, h4⟩ := note_register_drum k hk5
    dsimp only
    rw [hV.2 _ _ _ h4, note_view_modify hV _ _ _ _ h3, hV.1 _ _ _ h2, hV.1 _ _ _ h1]

theorem perc_note_off_view {α : Type} {V : OPL3State → α} (hV : NoteView V)
    (d : DirectMode) (k : Nat) : V (d.perc_note_off k).state_ = V d.state_ := by
  unfold DirectMode.perc_note_off
  split
  · rfl
  · rename_i hk
    have hk5 : k < 5 := by unfold DirectMode.kNumDrums at hk; omega
    exact hV.2 _ _ _ (note_register_drum k hk5).2.2.2

theorem release_note_view {α : Type} {V : OPL3State → α} (hV : NoteView V) (chans : List Nat)
    (note : Int) : ∀ (vs : List Voice) (i : Nat) (dm : DirectMode),
    V (VoiceAllocator.release_note chans note vs i dm).1.state_ = V dm.state_ := by
  intro vs
  induction vs with
  | nil => intro i dm; rfl
  | cons v vs ih =>
    intro i dm
    rw [VoiceAllocator.release_note]
    split
    · dsimp only
      rw [ih, release_note_on_channel_view hV]
    · dsimp only
      rw [ih]

theorem steal_group_view {α : Type} {V : OPL3State → α} (hV : NoteView V) (chans : List Nat)
    (note : Int) (ts : Nat) : ∀ (vs : List Voice) (i : Nat) (dm : DirectMode),
    V (VoiceAllocator.steal_group chans note ts vs i dm).1.state_ = V dm.state_ := by
  intro vs
  induction vs with
  | nil => intro i dm; rfl
  | cons v vs ih =>
    intro i dm
    rw [VoiceAllocator.steal_group]
    split
    · dsimp only
      rw [ih, release_note_on_channel_view hV]
    · dsimp only
      rw [ih]

theorem steal_oldest_group_view {α : Type} {V : OPL3State → α} (hV : NoteView V) :
    ∀ (fuel : Nat) (dm : DirectMode) (mcs : MidiChannelState) (g : Int)
      (r : DirectMode × MidiChannelState),
    VoiceAllocator.steal_oldest_group fuel dm mcs g = some r → V r.1.state_ = V dm.state_ := by
  intro fuel
  induction fuel with
  | zero => intro dm mcs g r h; simp [VoiceAllocator.steal_oldest_group] at h
  | succ fuel ih =>
    intro dm mcs g r h
    rw [VoiceAllocator.steal_oldest_group] at h
    dsimp only at h
    split at h
    · simp only [Option.some.injEq] at h; rw [← h]
    · split at h
      · rw [ih _ _ _ _ h, steal_group_view hV]
      · simp only [Option.some.injEq] at h; rw [← h]
        exact steal_group_view hV _ _ _ _ _ _

theorem allocate_slots_view {α : Type} {V : OPL3State → α} (hV : NoteView V) (dm : DirectMode)
    (mcs : MidiChannelState) (count : Nat) (r : VoiceAllocator.AllocResult)
    (h : VoiceAllocator.allocate_slots dm mcs count = some r) : V r.dm.state_ = V dm.state_ := by
  unfold VoiceAllocator.allocate_slots at h
  dsimp only at h
  split at h
  · simp only [Option.some.injEq] at h; rw [← h]
  · split at h
    · simp at h
    · rename_i dm2 mcs2 hs
      simp only [Option.some.injEq] at h
      rw [← h]
      exact steal_oldest_group_view hV _ _ _ _ (dm2, mcs2) hs

theorem cc_pan_state (d : DirectMode) (c v : Nat) : ∃ bits,
    (d.cc_pan c v).state_ = d.state_.modify_bits (c0_reg c) 0x30 bits :=
  ⟨spec_pan_bits v, rfl⟩

theorem apply_pan_view {α : Type} {V : OPL3State → α}
    (hc0 : ∀ (s : OPL3State) (c m v : Nat), V (s.modify_bits (c0_reg c) m v) = V s)
    (fp : FloatOps) (d : DirectMode) (c val : Nat) :
    V (d.apply_cc_to_channel fp c 10 val).state_ = V d.state_ := by
  unfold DirectMode.apply_cc_to_channel
  split
  · rfl
  · obtain ⟨bits, hb⟩ := cc_pan_state d c val
    show V (d.cc_pan c val).state_ = V d.state_
    rw [hb, hc0]

/-- One allocated slot of a Note On keeps a view of the shadow that note writes keep, when
unison is 1 or the view is also kept by updates of the `0xC0` registers. -/
theorem note_on_slot_view {α : Type} {V : OPL3State → α} (hV : NoteView V) (fp : FloatOps)
    (n vel ts u : Nat)
    (hu : u ≤ 1 ∨ ∀ (s : OPL3State) (c m v : Nat), V (s.modify_bits (c0_reg c) m v) = V s)
    (st : DirectMode × MidiChannelState) (idx slot : Nat) :
    V (VoiceAllocator.note_on_slot fp n vel ts u st idx slot).1.state_ = V st.1.state_ := by
  unfold VoiceAllocator.note_on_slot
  dsimp only
  have hbend : ∀ (d : DirectMode) (p : Prop) [Decidable p] (c f b : Nat),
      V (if p then d.bend_channel c f b else d).state_ = V d.state_ := by
    intro d p _ c f b
    split
    · exact bend_channel_view hV d c f b
    · rfl
  split
  · rename_i hpan
    rcases hu with hu | hu
    · omega
    · rw [apply_pan_view hu, hbend, play_note_on_channel_view hV]
  · rw [hbend, play_note_on_channel_view hV]

theorem try_perc_note_on_perc_mode (fp : FloatOps) (va : VoiceAllocator) (m n v : Nat) :
    (VoiceAllocator.try_perc_note_on fp va m n v).1.perc_mode_ = va.perc_mode_ := by
  unfold VoiceAllocator.try_perc_note_on
  split
  · rfl
  · exact foldl_keeps (fun (a b : VoiceAllocator × Bool) => b.1.perc_mode_ = a.1.perc_mode_)
      (fun _ => rfl) (fun _ _ _ h1 h2 => h2.trans h1) _
      (fun acc d => by
        dsimp only
        split
        · rfl
        · rfl) _ (va, false)

theorem note_on_slots_view {α : Type} {V : OPL3State → α} (hV : NoteView V) (fp : FloatOps)
    (n vel ts u : Nat)
    (hu : u ≤ 1 ∨ ∀ (s : OPL3State) (c m v : Nat), V (s.modify_bits (c0_reg c) m v) = V s) :
    ∀ (slots : List Nat) (idx : Nat) (st : DirectMode × MidiChannelState),
    V (VoiceAllocator.note_on_slots fp n vel ts u slots idx st).1.state_ = V st.1.state_ := by
  intro slots
  induction slots with
  | nil => intro idx st; rfl
  | cons slot slots ih =>
    intro idx st
    rw [VoiceAllocator.note_on_slots, ih, note_on_slot_view hV fp n vel ts u hu]

theorem try_perc_note_on_view {α : Type} {V : OPL3State → α} (hV : NoteView V) (fp : FloatOps)
    (va : VoiceAllocator) (m n v : Nat) :
    V (VoiceAllocator.try_perc_note_on fp va m n v).1.dm_.state_ = V va.dm_.state_ := by
  unfold VoiceAllocator.try_perc_note_on
  split
  · rfl
  · exact foldl_keeps (fun (a b : VoiceAllocator × Bool) => V b.1.dm_.state_ = V a.1.dm_.state_)
      (fun _ => rfl) (fun _ _ _ h1 h2 => h2.trans h1) _
      (fun acc d => by
        dsimp only
        split
        · dsimp only
          rw [perc_note_on_view hV]
          split
          · exact perc_note_off_view hV _ _
          · rfl
        · rfl) _ (va, false)

/-- A Note On through the allocator returns and keeps every view of the shadow that note
writes keep, when the unison of the channel is 1 or the view is also kept by updates of the
`0xC0` registers. -/
theorem handle_note_on_view {α : Type} {V : OPL3State → α} (hV : NoteView V) (fp : FloatOps)
    (va : VoiceAllocator) (m n v : Nat)
    (hu : VoiceAllocator.unison_of (va.midi_channels_ m) ≤ 1 ∨
      ∀ (s : OPL3State) (c m v : Nat), V (s.modify_bits (c0_reg c) m v) = V s) :
    ∃ va2, VoiceAllocator.handle_note_on fp va m n v = some va2 ∧
      V va2.dm_.state_ = V va.dm_.state_ ∧ va2.perc_mode_ = va.perc_mode_ := by
  unfold VoiceAllocator.handle_note_on
  split
  · exact ⟨va, rfl, rfl, rfl⟩
  · dsimp only
    obtain ⟨_, hpch⟩ := try_perc_note_on_channels fp va m n v
    have hpv := try_perc_note_on_view hV fp va m n v
    have hpp := try_perc_note_on_perc_mode fp va m n v
    rw [← hpch] at hu
    generalize (VoiceAllocator.try_perc_note_on fp va m n v).1 = va1 at hpch hpv hpp hu
    split
    · exact ⟨_, rfl, hpv, hpp⟩
    · split
      · exact ⟨_, rfl, hpv, hpp⟩
      · obtain ⟨result, hres⟩ := allocate_slots_total
          (VoiceAllocator.release_note (va1.midi_channels_ m).config.opl3_channels (toInt8 n)
            (va1.midi_channels_ m).voices 0 va1.dm_).1
          { va1.midi_channels_ m with voices :=
            (VoiceAllocator.release_note (va1.midi_channels_ m).config.opl3_channels (toInt8 n)
              (va1.midi_channels_ m).voices 0 va1.dm_).2 }
          (VoiceAllocator.unison_of (va1.midi_channels_ m))
        have hav := allocate_slots_view hV _ _ _ _ hres
        rw [release_note_view hV] at hav
        rw [hres]
        dsimp only
        split
        · exact ⟨_, rfl, hav.trans hpv, hpp⟩
        · refine ⟨_, rfl, ?_, hpp⟩
          show V (VoiceAllocator.note_on_slots fp n v _ _ _ 0 (result.dm, result.mcs)).1.state_
            = V va.dm_.state_
          rw [note_on_slots_view hV fp n v _ _ hu]
          exact hav.trans hpv

/-- Claim C33. For a MIDI channel `ch` whose unison count is 1 or 0, a Note On message
processed by the Voice Allocator (whatever the state, the pan-split flag and the percussion
routing) returns and leaves every `0xC0` register of the 18 channels as it is, bits 5:4
included. -/
theorem unison_one_keeps_pan (fp : FloatOps) (va : VoiceAllocator) (ch n v : Nat)
    (hch : ch < 16) (hv : v ≠ 0) (hu : (va.midi_channels_ ch).config.unison_count ≤ 1) :
    ∃ va2, VoiceAllocator.process_midi fp va [0x90 ||| ch, n, v] = some va2 ∧
      VoiceAllocator.handle_note_on fp va ch n v = some va2 ∧
      ∀ c, c < 18 → va2.dm_.state_.read (c0_reg c) = va.dm_.state_.read (c0_reg c) ∧
        va2.dm_.state_.read (c0_reg c) &&& 0x30 = va.dm_.state_.read (c0_reg c) &&& 0x30 := by
  have hu1 : VoiceAllocator.unison_of (va.midi_channels_ ch) ≤ 1 := by
    unfold VoiceAllocator.unison_of
    omega
  obtain ⟨va2, h, hview, _⟩ := handle_note_on_view note_view_pan fp va ch n v (Or.inl hu1)
  refine ⟨va2, by rw [allocator_process_note_on fp va ch n v hch hv]; exact h, h,
    fun c hc => ?_⟩
  have := congrFun hview c
  unfold pan_view at this
  rw [if_pos hc, if_pos hc] at this
  exact ⟨this, by rw [this]⟩

set_option maxRecDepth 100000 in
/-- Claim C33, witness. MIDI channel 0 with the pool `[0]`, unison 1 and the pan-split flag
set: a Note On of note 60 leaves the `0xC0` registers as they are. -/
theorem unison_one_keeps_pan_witness :
    (pan_split_allocator.midi_channels_ 0).config.pan_split = true ∧
    (pan_split_allocator.midi_channels_ 0).config.unison_count ≤ 1 ∧
    ∃ va2, VoiceAllocator.process_midi FloatOps.exact pan_split_allocator [0x90 ||| 0, 60, 100]
        = some va2 ∧
      VoiceAllocator.handle_note_on FloatOps.exact pan_split_allocator 0 60 100 = some va2 ∧
      ∀ c, c < 18 →
        va2.dm_.state_.read (c0_reg c) = pan_split_allocator.dm_.state_.read (c0_reg c) ∧
        va2.dm_.state_.read (c0_reg c) &&& 0x30
          = pan_split_allocator.dm_.state_.read (c0_reg c) &&& 0x30 :=
  ⟨by decide, by decide,
    unison_one_keeps_pan FloatOps.exact pan_split_allocator 0 60 100 (by decide) (by decide)
      (by decide)⟩


/-! ### Percussion mode and bit 5 of register `0xBD` -/

theorem perc_bit_write (s : OPL3State) (a v : Nat) (h : reg_index a ≠ reg_index kRegBD) :
    perc_bit (s.write a v) = perc_bit s := by
  unfold perc_bit
  rw [read_write_of_index_ne s a kRegBD v (fun h2 => h h2.symm)]

theorem perc_bit_modify (s : OPL3State) (a m v : Nat) (h : reg_index a ≠ reg_index kRegBD) :
    perc_bit (s.modify_bits a m v) = perc_bit s := by
  rw [modify_bits_eq]
  exact perc_bit_write s a _ h

set_option maxRecDepth 100000 in
theorem cc_not_bd : ∀ m, m < 18 →
    (∀ op, op < 2 → ∀ K ∈ [kRegKSLTL, kRegSL_RR],
      reg_index ((kChannelToOPL3 m).port_base ||| (K + kOperatorOffset (kChannelToOPL3 m).opl_ch op))
        ≠ reg_index kRegBD) ∧
    reg_index ((kChannelToOPL3 m).port_base ||| (kRegKeyOnBlkFNum + (kChannelToOPL3 m).opl_ch))
      ≠ reg_index kRegBD ∧
    reg_index ((kChannelToOPL3 m).port_base ||| (kRegFeedbackConn + (kChannelToOPL3 m).opl_ch))
      ≠ reg_index kRegBD := by
  decide

theorem c0_reg_not_bd (c : Nat) : reg_index (c0_reg c) ≠ reg_index kRegBD := by
  by_cases hc : c < 18
  · exact (cc_not_bd c hc).2.2
  · have hmap : kChannelToOPL3 c = ⟨0, 0⟩ := by
      unfold kChannelToOPL3
      exact List.getD_eq_default _ _ (by simp [kChannelToOPL3Table]; omega)
    unfold c0_reg
    rw [hmap]
    decide

theorem perc_kept_refl (va : VoiceAllocator) : PercKept va va := ⟨rfl, rfl⟩

theorem perc_kept_trans {a b c : VoiceAllocator} (h1 : PercKept a b) (h2 : PercKept b c) :
    PercKept a c := ⟨h2.1.trans h1.1, h2.2.trans h1.2⟩

theorem perc_sync_of_kept {a b : VoiceAllocator} (h : PercKept a b) (hs : PercSync a) :
    PercSync b := by
  unfold PercSync at hs ⊢
  rw [h.1, h.2]
  exact hs

theorem update_modulator_level_perc (fp : FloatOps) (d : DirectMode) (c : Nat) :
    perc_bit (d.update_modulator_level fp c).state_ = perc_bit d.state_ := by
  unfold DirectMode.update_modulator_level
  split
  · rfl
  · rename_i hc
    exact perc_bit_modify _ _ _ _ ((cc_not_bd c (by omega)).1 0 (by decide) kRegKSLTL (by simp))

theorem update_carrier_level_perc (fp : FloatOps) (d : DirectMode) (c : Nat) :
    perc_bit (d.update_carrier_level fp c).state_ = perc_bit d.state_ := by
  unfold DirectMode.update_carrier_level
  split
  · rfl
  · rename_i hc
    exact perc_bit_modify _ _ _ _ ((cc_not_bd c (by omega)).1 1 (by decide) kRegKSLTL (by simp))

theorem apply_cc_perc (fp : FloatOps) (d : DirectMode) (c cc val : Nat) :
    perc_bit (d.apply_cc_to_channel fp c cc val).state_ = perc_bit d.state_ := by
  unfold DirectMode.apply_cc_to_channel
  split
  · rfl
  · rename_i hc
    have hc18 : c < 18 := by omega
    obtain ⟨hop, hb0, hc0⟩ := cc_not_bd c hc18
    split
    · unfold DirectMode.cc_mod_wheel
      rw [update_modulator_level_perc]; rfl
    · unfold DirectMode.cc_volume
      rw [update_carrier_level_perc]; rfl
    · unfold DirectMode.cc_pan
      exact perc_bit_modify _ _ _ _ hc0
    · unfold DirectMode.cc_expression
      rw [update_carrier_level_perc]; rfl
    · unfold DirectMode.cc_sustain
      dsimp only
      split
      · exact perc_bit_modify _ _ _ _ hb0
      · rfl
    · unfold DirectMode.cc_brightness
      rw [update_modulator_level_perc]; rfl
    · unfold DirectMode.cc_all_sound_off
      dsimp only
      show perc_bit (OPL3State.modify_bits _ _ _ _) = _
      rw [perc_bit_modify _ _ _ _ (hop 0 (by decide) kRegSL_RR (by simp)),
        perc_bit_modify _ _ _ _ (hop 1 (by decide) kRegSL_RR (by simp)),
        perc_bit_modify _ _ _ _ hb0]
    · unfold DirectMode.cc_all_notes_off
      dsimp only
      split
      · exact perc_bit_modify _ _ _ _ hb0
      · rfl
    · rfl

theorem broadcast_cc_perc (fp : FloatOps) (va : VoiceAllocator) (m cc val : Nat) :
    PercKept va (VoiceAllocator.broadcast_cc fp va m cc val) := by
  unfold VoiceAllocator.broadcast_cc
  refine ⟨?_, rfl⟩
  exact foldl_keeps (fun (a b : DirectMode) => perc_bit b.state_ = perc_bit a.state_)
    (fun _ => rfl) (fun _ _ _ h1 h2 => h2.trans h1) _
    (fun dm c => apply_cc_perc fp dm c cc val) _ va.dm_

theorem perc_kept_set_mcs (va : VoiceAllocator) (m : Nat) (mcs : MidiChannelState) :
    PercKept va (VoiceAllocator.set_mcs va m mcs) := ⟨rfl, rfl⟩

theorem release_sustained_perc (chans : List Nat) :
    ∀ (vs : List Voice) (i : Nat) (dm : DirectMode),
      perc_bit (VoiceAllocator.release_sustained chans vs i dm).1.state_ = perc_bit dm.state_ := by
  intro vs
  induction vs with
  | nil => intro i dm; rfl
  | cons v vs ih =>
    intro i dm
    rw [VoiceAllocator.release_sustained]
    split
    · dsimp only
      rw [ih, release_note_on_channel_view note_view_perc]
    · dsimp only
      rw [ih]

theorem note_off_voices_perc (chans : List Nat) (note : Int) (sus : Bool) :
    ∀ (vs : List Voice) (i : Nat) (dm : DirectMode),
      perc_bit (VoiceAllocator.note_off_voices chans note sus vs i dm).1.state_
        = perc_bit dm.state_ := by
  intro vs
  induction vs with
  | nil => intro i dm; rfl
  | cons v vs ih =>
    intro i dm
    rw [VoiceAllocator.note_off_voices]
    split
    · split
      · dsimp only
        rw [ih]
      · dsimp only
        rw [ih, release_note_on_channel_view note_view_perc]
    · dsimp only
      rw [ih]

theorem try_perc_note_off_perc (va : VoiceAllocator) (m n : Nat) :
    PercKept va (VoiceAllocator.try_perc_note_off va m n).1 := by
  unfold VoiceAllocator.try_perc_note_off
  split
  · exact perc_kept_refl va
  · exact foldl_keeps (fun (a b : VoiceAllocator × Bool) => PercKept a.1 b.1)
      (fun _ => perc_kept_refl _) (fun _ _ _ h1 h2 => perc_kept_trans h1 h2) _
      (fun acc d => by
        dsimp only
        split
        · exact ⟨perc_note_off_view note_view_perc _ _, rfl⟩
        · exact perc_kept_refl _) _ (va, false)

theorem handle_note_off_perc (va : VoiceAllocator) (m n : Nat) :
    PercKept va (VoiceAllocator.handle_note_off va m n) := by
  unfold VoiceAllocator.handle_note_off
  split
  · exact perc_kept_refl va
  · dsimp only
    have h1 := try_perc_note_off_perc va m n
    split
    · exact h1
    · refine perc_kept_trans h1 ⟨?_, rfl⟩
      exact note_off_voices_perc _ _ _ _ _ _

theorem handle_cc_perc (fp : FloatOps) (va : VoiceAllocator) (m cc val : Nat) (hcc : cc ≠ 6) :
    PercKept va (VoiceAllocator.handle_cc fp va m cc val) := by
  unfold VoiceAllocator.handle_cc
  split
  · exact perc_kept_refl va
  · dsimp only
    split
    · exact perc_kept_trans (perc_kept_set_mcs va m _) (broadcast_cc_perc fp _ m _ val)
    · exact perc_kept_trans (perc_kept_set_mcs va m _) (broadcast_cc_perc fp _ m _ val)
    · exact perc_kept_trans (perc_kept_set_mcs va m _) (broadcast_cc_perc fp _ m _ val)
    · exact perc_kept_trans (perc_kept_set_mcs va m _) (broadcast_cc_perc fp _ m _ val)
    · exact perc_kept_trans (perc_kept_set_mcs va m _) (broadcast_cc_perc fp _ m _ val)
    · refine perc_kept_trans ?_ (broadcast_cc_perc fp _ m _ val)
      split
      · exact ⟨release_sustained_perc _ _ _ _, rfl⟩
      · exact perc_kept_set_mcs va m _
    · exact perc_kept_set_mcs va m _
    · exact perc_kept_set_mcs va m _
    · exact perc_kept_set_mcs va m _
    · exact perc_kept_set_mcs va m _
    · exact absurd rfl hcc
    · split
      · exact perc_kept_set_mcs va m _
      · exact perc_kept_refl va
    · exact broadcast_cc_perc fp va m _ val

theorem recompute_bend_voice_perc (fp : FloatOps) (u : Nat) (st : DirectMode × MidiChannelState)
    (i : Nat) :
    perc_bit (VoiceAllocator.recompute_bend_voice fp u st i).1.state_ = perc_bit st.1.state_ := by
  unfold VoiceAllocator.recompute_bend_voice
  dsimp only
  split
  · rfl
  · exact bend_channel_view note_view_perc _ _ _ _

theorem handle_pitch_bend_perc (fp : FloatOps) (va : VoiceAllocator) (m bend : Nat) :
    PercKept va (VoiceAllocator.handle_pitch_bend fp va m bend) := by
  unfold VoiceAllocator.handle_pitch_bend
  split
  · exact perc_kept_refl va
  · dsimp only
    unfold VoiceAllocator.recompute_bend
    dsimp only
    refine ⟨?_, rfl⟩
    exact foldl_keeps
      (fun (a b : DirectMode × MidiChannelState) => perc_bit b.1.state_ = perc_bit a.1.state_)
      (fun _ => rfl) (fun _ _ _ h1 h2 => h2.trans h1) _
      (fun st i => recompute_bend_voice_perc fp _ st i) _ _

theorem release_sounding_perc (chans : List Nat) :
    ∀ (vs : List Voice) (i : Nat) (dm : DirectMode),
      perc_bit (VoiceAllocator.release_sounding chans vs i dm).state_ = perc_bit dm.state_ := by
  intro vs
  induction vs with
  | nil => intro i dm; rfl
  | cons v vs ih =>
    intro i dm
    rw [VoiceAllocator.release_sounding, ih]
    split
    · exact release_note_on_channel_view note_view_perc _ _
    · rfl

theorem deconflict_one_perc (m c : Nat) (va : VoiceAllocator) (other : Nat) :
    PercKept va (VoiceAllocator.deconflict_one m c va other) := by
  unfold VoiceAllocator.deconflict_one
  split
  · exact perc_kept_refl va
  · dsimp only
    split
    · refine ⟨?_, rfl⟩
      show perc_bit (if _ then _ else _ : DirectMode).state_ = _
      split
      · exact release_note_on_channel_view note_view_perc _ _
      · rfl
    · exact perc_kept_refl va

theorem apply_shadow_ccs_perc (fp : FloatOps) (mcs : MidiChannelState) (dm : DirectMode)
    (c : Nat) :
    perc_bit (VoiceAllocator.apply_shadow_ccs fp mcs dm c).state_ = perc_bit dm.state_ := by
  unfold VoiceAllocator.apply_shadow_ccs
  dsimp only
  rw [apply_cc_perc, apply_cc_perc, apply_cc_perc, apply_cc_perc, apply_cc_perc]

theorem set_voice_config_perc (fp : FloatOps) (va : VoiceAllocator) (m : Nat)
    (cfg : VoiceConfig) : PercKept va (VoiceAllocator.set_voice_config fp va m cfg) := by
  unfold VoiceAllocator.set_voice_config
  split
  · exact perc_kept_refl va
  · dsimp only
    have hdm := release_sounding_perc (va.midi_channels_ m).config.opl3_channels
      (va.midi_channels_ m).voices 0 va.dm_
    generalize VoiceAllocator.release_sounding (va.midi_channels_ m).config.opl3_channels
      (va.midi_channels_ m).voices 0 va.dm_ = dm0 at hdm
    have h0 : PercKept va { va with dm_ := dm0 } := ⟨hdm, rfl⟩
    generalize ({ va with dm_ := dm0 } : VoiceAllocator) = va0 at h0
    have h1 : PercKept va0 (cfg.opl3_channels.foldl (fun va opl3_ch =>
        (List.range 16).foldl (VoiceAllocator.deconflict_one m opl3_ch) va) va0) :=
      foldl_keeps PercKept perc_kept_refl (fun _ _ _ h1 h2 => perc_kept_trans h1 h2)
        (fun va opl3_ch => (List.range 16).foldl (VoiceAllocator.deconflict_one m opl3_ch) va)
        (fun va opl3_ch => foldl_keeps PercKept perc_kept_refl
          (fun _ _ _ h1 h2 => perc_kept_trans h1 h2)
          (VoiceAllocator.deconflict_one m opl3_ch)
          (fun va other => deconflict_one_perc m opl3_ch va other) (List.range 16) va)
        cfg.opl3_channels va0
    generalize cfg.opl3_channels.foldl (fun va opl3_ch =>
        (List.range 16).foldl (VoiceAllocator.deconflict_one m opl3_ch) va) va0 = va1 at h1
    refine perc_kept_trans h0 (perc_kept_trans h1 ⟨?_, rfl⟩)
    exact foldl_keeps (fun (a b : DirectMode) => perc_bit b.state_ = perc_bit a.state_)
      (fun _ => rfl) (fun _ _ _ h1 h2 => h2.trans h1) _
      (fun dm c => apply_shadow_ccs_perc fp _ dm c) _ _

theorem release_drums_perc (va : VoiceAllocator) :
    PercKept va (VoiceAllocator.release_drums va) := by
  unfold VoiceAllocator.release_drums
  exact foldl_keeps PercKept perc_kept_refl (fun _ _ _ h1 h2 => perc_kept_trans h1 h2) _
    (fun va d => by
      split
      · exact ⟨perc_note_off_view note_view_perc _ _, rfl⟩
      · exact perc_kept_refl _) _ va

theorem set_drum_midi_channel_perc (va : VoiceAllocator) (d : Nat) (c : Int) :
    PercKept va (VoiceAllocator.set_drum_midi_channel va d c) := by
  unfold VoiceAllocator.set_drum_midi_channel
  split
  · exact perc_kept_refl va
  · dsimp only
    split
    · exact ⟨perc_note_off_view note_view_perc _ _, rfl⟩
    · exact perc_kept_refl va

theorem perc_bit_set (s : OPL3State) (v : Nat) :
    perc_bit (s.modify_bits kRegBD 0x20 v) = ((v &&& 0x20) != 0) := by
  unfold perc_bit
  rw [modify_bits_eq, read_write_same, modify_value_and_mask _ _ _ (by norm_num)]

/-- The method `set_percussion_mode` brings the flag and bit 5 of `0xBD` into agreement
whenever it changes the flag, and changes nothing otherwise. -/
theorem set_percussion_mode_sync (va : VoiceAllocator) (e : Bool) (hs : PercSync va) :
    PercSync (VoiceAllocator.set_percussion_mode va e) := by
  unfold VoiceAllocator.set_percussion_mode
  split
  · exact hs
  · dsimp only
    have hbit : perc_bit (va.dm_.direct_nrpn 0 5 2 (if e then 127 else 0)).state_ = e := by
      show perc_bit (va.dm_.state_.modify_bits kRegBD 0x20
        (if (if e then 127 else 0) ≥ 64 then 0x20 else 0x00)) = e
      rw [perc_bit_set]
      cases e <;> rfl
    generalize va.dm_.direct_nrpn 0 5 2 (if e then 127 else 0) = dm1 at hbit
    have hsync : PercSync { va with perc_mode_ := e, dm_ := dm1 } := by
      unfold PercSync
      exact hbit.symm
    split
    · exact perc_sync_of_kept (release_drums_perc _) hsync
    · exact hsync

theorem sysex_perc_config_sync (va : VoiceAllocator) (data : List Nat) (len : Nat)
    (hs : PercSync va) : PercSync (VoiceAllocator.sysex_perc_config va data len) := by
  unfold VoiceAllocator.sysex_perc_config
  split
  · exact hs
  · dsimp only
    have h1 := set_percussion_mode_sync va (decide (data.getD 0 0 ≥ 64)) hs
    generalize VoiceAllocator.set_percussion_mode va (decide (data.getD 0 0 ≥ 64)) = va1 at h1
    refine perc_sync_of_kept ?_ h1
    exact foldl_keeps PercKept perc_kept_refl (fun _ _ _ h1 h2 => perc_kept_trans h1 h2) _
      (fun va d => set_drum_midi_channel_perc va d _) _ va1

theorem allocator_handle_sysex_sync (fp : FloatOps) (va : VoiceAllocator) (data : List Nat)
    (len : Nat) (hs : PercSync va) : PercSync (VoiceAllocator.handle_sysex fp va data len) := by
  unfold VoiceAllocator.handle_sysex
  split
  · exact hs
  split
  · exact hs
  split
  · exact hs
  split
  · exact hs
  dsimp only
  split
  · unfold VoiceAllocator.sysex_voice_config
    split
    · exact hs
    · dsimp only
      split
      · exact hs
      · split
        · exact hs
        · exact perc_sync_of_kept (set_voice_config_perc fp va _ _) hs
  split
  · unfold VoiceAllocator.sysex_voice_query
    split
    · exact hs
    · dsimp only
      split
      · exact hs
      · exact hs
  split
  · exact sysex_perc_config_sync va _ _ hs
  split
  · unfold VoiceAllocator.sysex_perc_query
    split
    · exact hs
    · exact hs
  · exact hs

/-- One message that the allocator handles itself: `process_midi` returns and keeps the
agreement of the percussion flag with bit 5 of `0xBD`. -/
theorem process_midi_sync (fp : FloatOps) (va : VoiceAllocator) (msg : List Nat)
    (hs : PercSync va) (hmsg : AllocatorHandled msg) :
    ∃ va2, VoiceAllocator.process_midi fp va msg = some va2 ∧ PercSync va2 := by
  obtain ⟨hsx, hcc⟩ := hmsg
  unfold VoiceAllocator.process_midi
  dsimp only
  split
  · exact ⟨_, rfl, hs⟩
  split
  · rename_i hf0
    rw [if_pos (hsx hf0)]
    exact ⟨_, rfl, allocator_handle_sysex_sync fp va msg _ hs⟩
  · split
    · split
      · split
        · exact ⟨_, rfl, perc_sync_of_kept (handle_note_off_perc va _ _) hs⟩
        · obtain ⟨va2, h, hv, hp⟩ := handle_note_on_view note_view_perc fp va
            (msg.getD 0 0 &&& 0x0F) (msg.getD 1 0) (msg.getD 2 0)
            (Or.inr (fun s c m v => perc_bit_modify s _ m v (c0_reg_not_bd c)))
          exact ⟨va2, h, perc_sync_of_kept ⟨hv, hp⟩ hs⟩
      · exact ⟨_, rfl, hs⟩
    · split
      · split
        · exact ⟨_, rfl, perc_sync_of_kept (handle_note_off_perc va _ _) hs⟩
        · exact ⟨_, rfl, hs⟩
      · split
        · rename_i hb0
          split
          · exact ⟨_, rfl, perc_sync_of_kept
              (handle_cc_perc fp va _ _ _ (fun h6 => hcc ⟨hb0, h6⟩)) hs⟩
          · exact ⟨_, rfl, hs⟩
        · split
          · split
            · exact ⟨_, rfl, perc_sync_of_kept (handle_pitch_bend_perc fp va _ _) hs⟩
            · exact ⟨_, rfl, hs⟩
          · exact ⟨_, rfl, hs⟩

theorem run_midi_sync (fp : FloatOps) : ∀ (msgs : List (List Nat)) (va : VoiceAllocator),
    PercSync va → (∀ msg ∈ msgs, AllocatorHandled msg) →
    ∃ va2, VoiceAllocator.run_midi fp va msgs = some va2 ∧ PercSync va2 := by
  intro msgs
  induction msgs with
  | nil => intro va hs _; exact ⟨va, rfl, hs⟩
  | cons msg rest ih =>
    intro va hs hall
    rw [VoiceAllocator.run_midi]
    obtain ⟨va1, h1, hs1⟩ := process_midi_sync fp va msg hs (hall msg (List.mem_cons_self _ _))
    rw [h1]
    exact ih va1 hs1 (fun m hm => hall m (List.mem_cons_of_mem _ hm))

/-- The other messages keep the percussion flag and the register together. From a freshly
constructed allocator over a zeroed shadow, every sequence of MIDI messages that the allocator handles itself (no SysEx message forwarded
to Direct Mode, no Data Entry Control Change) runs to a state in which `percussion_mode()` is
true exactly when bit 5 of shadow register `0xBD` is set. -/
theorem perc_mode_matches_bd (fp : FloatOps) (dev : Nat) (msgs : List (List Nat))
    (hmsgs : ∀ msg ∈ msgs, AllocatorHandled msg) :
    ∃ va, VoiceAllocator.run_midi fp (VoiceAllocator.fresh dev) msgs = some va ∧
      (va.perc_mode_ = true ↔ va.dm_.state_.read kRegBD &&& 0x20 ≠ 0) := by
  have h0 : PercSync (VoiceAllocator.fresh dev) := by
    have hz : perc_bit (VoiceAllocator.fresh dev).dm_.state_ = ((0 &&& 0x20) != 0) := rfl
    unfold PercSync
    rw [hz]
    rfl
  obtain ⟨va, hr, hs⟩ := run_midi_sync fp msgs _ h0 hmsgs
  refine ⟨va, hr, ?_⟩
  unfold PercSync perc_bit at hs
  rw [hs]
  simp

set_option maxRecDepth 100000 in
/-- A register-write SysEx message (command `0x01`, forwarded to
Direct Mode) that writes `0x20` to register `0xBD` of a fresh allocator sets bit 5 of the
shadow register while `percussion_mode()` stays false. -/
theorem perc_mode_bd_counterexample :
    (VoiceAllocator.run_midi FloatOps.exact (VoiceAllocator.fresh 0x7F)
      [[0xF0, 0x7D, 0x7F, 0x01, 0x01, 0x3D, 0x20, 0xF7]]).map
      (fun va => (va.perc_mode_, va.dm_.state_.read kRegBD &&& 0x20)) = some (false, 0x20) := by
  decide

set_option maxRecDepth 100000 in
/-- An instance of `perc_mode_matches_bd`: the percussion-config message that switches
percussion mode on, and a Note On routed to the bass drum. -/
theorem perc_mode_matches_bd_witness :
    (∀ msg ∈ [[0xF0, 0x7D, 0x7F, 0x32, 0x7F, 0x09, 0x09, 0x7F, 0x7F, 0x7F, 0xF7],
        [0x99, 36, 100]], AllocatorHandled msg) ∧
    (VoiceAllocator.run_midi FloatOps.exact (VoiceAllocator.fresh 0x7F)
      [[0xF0, 0x7D, 0x7F, 0x32, 0x7F, 0x09, 0x09, 0x7F, 0x7F, 0x7F, 0xF7],
        [0x99, 36, 100]]).map
      (fun va => (va.perc_mode_, va.dm_.state_.read kRegBD &&& 0x20)) = some (true, 0x20) ∧
    ∃ va, VoiceAllocator.run_midi FloatOps.exact (VoiceAllocator.fresh 0x7F)
        [[0xF0, 0x7D, 0x7F, 0x32, 0x7F, 0x09, 0x09, 0x7F, 0x7F, 0x7F, 0xF7],
          [0x99, 36, 100]] = some va ∧
      (va.perc_mode_ = true ↔ va.dm_.state_.read kRegBD &&& 0x20 ≠ 0) :=
  ⟨by decide, by decide,
    perc_mode_matches_bd FloatOps.exact 0x7F
      [[0xF0, 0x7D, 0x7F, 0x32, 0x7F, 0x09, 0x09, 0x7F, 0x7F, 0x7F, 0xF7], [0x99, 36, 100]]
      (by decide)⟩

set_option maxRecDepth 100000 in
/-- Claim C35. The percussion-config message `F0 7D 7F 32 7F 09 09 7F 7F 7F F7` on a fresh
allocator switches percussion mode on: `percussion_mode()` is true and bit 5 of shadow
register `0xBD` is set. After the Reset All message `F0 7D 7F 20 F7` that follows,
`percussion_mode()` is still true while bit 5 of `0xBD` is clear in the shadow, and sending the
percussion-config message once more changes neither. -/
theorem reset_all_keeps_percussion_flag :
    (VoiceAllocator.run_midi FloatOps.exact (VoiceAllocator.fresh 0x7F)
      [[0xF0, 0x7D, 0x7F, 0x32, 0x7F, 0x09, 0x09, 0x7F, 0x7F, 0x7F, 0xF7]]).map
      (fun va => (va.perc_mode_, va.dm_.state_.read kRegBD &&& 0x20, decide (PercSync va)))
      = some (true, 0x20, true) ∧
    (VoiceAllocator.run_midi FloatOps.exact (VoiceAllocator.fresh 0x7F)
      [[0xF0, 0x7D, 0x7F, 0x32, 0x7F, 0x09, 0x09, 0x7F, 0x7F, 0x7F, 0xF7],
       [0xF0, 0x7D, 0x7F, 0x20, 0xF7]]).map
      (fun va => (va.perc_mode_, va.dm_.state_.read kRegBD &&& 0x20, decide (PercSync va)))
      = some (true, 0, false) ∧
    (VoiceAllocator.run_midi FloatOps.exact (VoiceAllocator.fresh 0x7F)
      [[0xF0, 0x7D, 0x7F, 0x32, 0x7F, 0x09, 0x09, 0x7F, 0x7F, 0x7F, 0xF7],
       [0xF0, 0x7D, 0x7F, 0x20, 0xF7],
       [0xF0, 0x7D, 0x7F, 0x32, 0x7F, 0x09, 0x09, 0x7F, 0x7F, 0x7F, 0xF7]]).map
      (fun va => (va.perc_mode_, va.dm_.state_.read kRegBD &&& 0x20, decide (PercSync va)))
      = some (true, 0, false) := by
  decide


/-! ### Four-op pools, and the shadow CCs after a reset -/

/-- Claim C31, as the code has it. A voice-config message installs the config it carries as it
is, the four-op flag with any pool (entries below 18) and no check of the 4-op partners: the
config of the MIDI channel afterwards is the config of the frame, so its pool keeps 4-op
pairs together exactly when the pool sent does. -/
theorem four_op_pool_as_given (fp : FloatOps) (va : VoiceAllocator) (dev m : Nat)
    (cfg : VoiceConfig) (hdev : dev = va.device_id_ ∨ dev = 0x7F ∨ va.device_id_ = 0x7F)
    (hm : m < 16) (hmem : ∀ c ∈ cfg.opl3_channels, c < 18) :
    ∃ va2, VoiceAllocator.process_midi fp va (voice_config_frame dev m cfg) = some va2 ∧
      (va2.midi_channels_ m).config = cfg ∧
      (PairedPool (va2.midi_channels_ m).config ↔ PairedPool cfg) := by
  have hp := allocator_process_voice_frame fp va dev 0x30
    ([m, cfg.opl3_channels.length] ++ cfg.opl3_channels ++
      [cfg.unison_count, cfg.detune_cents, config_flags cfg]) hdev (Or.inl rfl)
  rw [if_pos rfl, sysex_voice_config_frame fp va m cfg hm hmem] at hp
  have hc := set_voice_config_config fp va m cfg hm
  exact ⟨_, hp, hc, by rw [hc]⟩

set_option maxRecDepth 100000 in
/-- Claim C31, counterexample. The voice-config message for MIDI channel 0 with the pool `[0]`
and the four-op flag: the config is installed, and OPL3 channel 0 is in the pool without its
4-op partner 3. -/
theorem four_op_pool_counterexample :
    (VoiceAllocator.run_midi FloatOps.exact (VoiceAllocator.fresh 0x7F)
      [[0xF0, 0x7D, 0x7F, 0x30, 0x00, 0x01, 0x00, 0x01, 0x0A, 0x01, 0xF7]]).map
      (fun va => ((va.midi_channels_ 0).config, four_op_partner 0, decide (FourOpPaired va)))
      = some (⟨[0], 1, 10, true, false⟩, 3, false) := by
  decide

set_option maxRecDepth 100000 in
/-- Claim C31, witness. The frame of the config with pool `[0]`, unison 1 and the four-op
flag, sent to a fresh allocator. -/
theorem four_op_pool_as_given_witness :
    (0x7F = (VoiceAllocator.fresh 0x7F).device_id_ ∨ 0x7F = 0x7F ∨
      (VoiceAllocator.fresh 0x7F).device_id_ = 0x7F) ∧
    (0 : Nat) < 16 ∧
    (∀ c ∈ (⟨[0], 1, 10, true, false⟩ : VoiceConfig).opl3_channels, c < 18) ∧
    ¬ PairedPool ⟨[0], 1, 10, true, false⟩ ∧
    ∃ va2, VoiceAllocator.process_midi FloatOps.exact (VoiceAllocator.fresh 0x7F)
        (voice_config_frame 0x7F 0 ⟨[0], 1, 10, true, false⟩) = some va2 ∧
      (va2.midi_channels_ 0).config = ⟨[0], 1, 10, true, false⟩ ∧
      (PairedPool (va2.midi_channels_ 0).config ↔ PairedPool ⟨[0], 1, 10, true, false⟩) :=
  ⟨Or.inr (Or.inl rfl), by decide, by decide, by decide,
    four_op_pool_as_given FloatOps.exact (VoiceAllocator.fresh 0x7F) 0x7F 0
      ⟨[0], 1, 10, true, false⟩ (Or.inr (Or.inl rfl)) (by decide) (by decide)⟩

set_option maxRecDepth 100000 in
set_option exponentiation.threshold 100000 in
/-- Claim C36. After CC7 = 50 on MIDI channel 0 of a fresh allocator, Direct Mode and the
allocator both hold volume 50 for OPL3 channel 0, the pool of MIDI channel 0; after the Reset
All message that follows, the pool is the same, Direct Mode stores the default volume 100 and
the shadow CC7 of the allocator is still 50. -/
theorem reset_all_keeps_shadow_volume :
    (VoiceAllocator.run_midi FloatOps.exact (VoiceAllocator.fresh 0x7F) [[0xB0, 7, 50]]).map
      (fun va => (va.pool 0, (va.dm_.channels_ 0).volume, (va.midi_channels_ 0).volume))
      = some ([0], 50, 50) ∧
    (VoiceAllocator.run_midi FloatOps.exact (VoiceAllocator.fresh 0x7F)
      [[0xB0, 7, 50], [0xF0, 0x7D, 0x7F, 0x20, 0xF7]]).map
      (fun va => (va.pool 0, (va.dm_.channels_ 0).volume, (va.midi_channels_ 0).volume))
      = some ([0], 100, 50) := by
  decide


end retrowave
